import Mathlib

/-!
# MatrixLibrary: dense matrices, expression nodes and kernels

A shallow embedding of `inc/MatrixLibrary/Math` (dense storage, the five
expression nodes and their kernels), run the way a debug build runs: a failed
`assert` and an access outside the owned buffer stop the statement.

Conventions
* element values are exact integers (`Int`), `std::size_t` values are `Nat`; the
  definitions named `Typed.…` repeat the size computations in `std::size_t`
  (modulo `2^64`), the compile-time loop with its counter in `ItType`, and
  `operator()` of the product node in its element type;
* a SIMD register of lane count `w` is a list of `w` elements;
* memory handed out by `MLAlignedAlloc` has arbitrary contents: every function
  that allocates takes `junk : Nat → Int`, the contents of fresh memory;
* a matrix object is identified relative to the target of the running
  statement by an `Operand`: the target itself, its transpose view, or another
  object; the definitions named `ByRef.…` repeat the Add and the MatMul
  statement over a store in which every object has an address.
-/

deriving instance DecidableEq for Except

namespace ML

/-- The ways a statement stops early in a debug build. -/
inductive Fault where
  /-- The assertion in the constructor of an Add or MatMul node. -/
  | exprDim
  /-- The two shape assertions of `TMLStaticMatrix::Assign`. -/
  | staticShape
  /-- The two shape assertions at the top of an `AssignTo`. -/
  | targetShape
  /-- The assertions `i < Rows()`, `j < Cols()` of `operator()`. -/
  | index
  /-- An access outside the owned buffer. -/
  | bounds
  /-- An aligned load or store at an offset that is no multiple of the lane count. -/
  | misaligned
  /-- A loop of the model ran out of steps. -/
  | fuel
  deriving DecidableEq, Repr

/-- Fresh memory from `MLAlignedAlloc<T>(size, alignment)`; `nullptr` (the empty
buffer) for `size == 0`. -/
def MLAlignedAlloc (junk : Nat → Int) (size : Nat) : List Int :=
  if size = 0 then [] else (List.range size).map junk

/-- The member `PaddedMinorCnt_v` of `Internal::TMLStaticMatrixMemoryLayout`, over the
natural numbers (`Typed.TMLStaticMatrixMemoryLayout.PaddedMinorCnt_v` computes it in
`std::size_t`; the two agree while the sum is below `2^64`). -/
def TMLStaticMatrixMemoryLayout.PaddedMinorCnt_v (SIMDSize_v MinCnt : Nat) : Nat :=
  MinCnt + (SIMDSize_v - MinCnt % SIMDSize_v) % SIMDSize_v

/-- The member `PaddedSize_v` of `Internal::TMLStaticMatrixMemoryLayout`. -/
def TMLStaticMatrixMemoryLayout.PaddedSize_v (SIMDSize_v MajCnt MinCnt : Nat) : Nat :=
  MajCnt * TMLStaticMatrixMemoryLayout.PaddedMinorCnt_v SIMDSize_v MinCnt

/-- A dense matrix object: `TMLDynamicMatrix` (`isStatic = false`) or
`TMLStaticMatrix` (`isStatic = true`, where the counts are the template
arguments).  `rowMajor` and `SIMDSize` are template parameters as well. -/
structure DenseMatrix where
  isStatic : Bool
  rowMajor : Bool
  SIMDSize : Nat
  m_majorCnt : Nat
  m_minorCnt : Nat
  m_paddedMinorCnt : Nat
  m_storage : List Int
  deriving DecidableEq, Repr

/-- A stopped statement: the fault, and the target object as it is at that moment. -/
structure Abort where
  fault : Fault
  target : DenseMatrix
  deriving DecidableEq, Repr

/-- Attach the current target to a fault raised while reading or writing. -/
def orAbort {α : Type} (target : DenseMatrix) : Except Fault α → Except Abort α
  | .ok a => .ok a
  | .error f => .error ⟨f, target⟩

/-- A fault inside work on a temporary stops the statement with its own target untouched. -/
def retarget {α : Type} (target : DenseMatrix) : Except Abort α → Except Abort α
  | .ok a => .ok a
  | .error ab => .error ⟨ab.fault, target⟩

/-- A `for (; cond; i += inc) body` loop over a state; gives back the final
counter too, since the kernels carry it into the next loop.  The argument after
`body` bounds the number of iterations: callers pass the loop's upper bound,
which is enough for any positive increment; running out is the fault `fuel`. -/
def forLoop {σ ε : Type} (out : σ → ε) (cond : Nat → σ → Bool) (inc : Nat)
    (body : Nat → σ → Except ε σ) : Nat → Nat → σ → Except ε (Nat × σ)
  | 0, i, s => if cond i s then .error (out s) else .ok (i, s)
  | fuel + 1, i, s =>
    if cond i s then
      match body i s with
      | .error e => .error e
      | .ok s1 => forLoop out cond inc body fuel (i + inc) s1
    else .ok (i, s)

/-- The state a finished loop leaves. -/
def loopState {σ ε : Type} : Except ε (Nat × σ) → Except ε σ
  | .ok p => .ok p.2
  | .error e => .error e

/-- The recursion of `Internal::TMLConstexprFor_Helper<..., Start, End, Inc, F, end>::Exec`. -/
def TMLConstexprFor_Helper.Exec {σ ε : Type} (out : σ → ε) (End Inc : Nat)
    (f : Nat → σ → Except ε σ) : Nat → Nat → Bool → σ → Except ε σ
  | _, _, false, s => .ok s
  | 0, _, true, s => .error (out s)
  | fuel + 1, Start, true, s =>
    match f Start s with
    | .error e => .error e
    | .ok s1 => TMLConstexprFor_Helper.Exec out End Inc f fuel (Start + Inc)
        (decide (Start + Inc < End)) s1

/-- The call `MLConstexprFor<ItType, Start, End, Inc>(f)` with the counter a natural
number, as the kernels use it (`Typed.MLConstexprFor` has the counter in `ItType`; the
two agree while no counter value overflows, `typed_constexprFor_eq`). -/
def MLConstexprFor {σ ε : Type} (out : σ → ε) (Start End Inc : Nat)
    (f : Nat → σ → Except ε σ) (s : σ) : Except ε σ :=
  TMLConstexprFor_Helper.Exec out End Inc f (End - Start) Start (decide (Start < End)) s

namespace SIMD

/-- The register `SIMDType::SetZero()`. -/
def SetZero (w : Nat) : List Int := List.replicate w 0

/-- The register `SIMDType::Set1(v)`. -/
def Set1 (w : Nat) (v : Int) : List Int := List.replicate w v

/-- Lane-wise `operator*`. -/
def mul (a b : List Int) : List Int := List.zipWith (· * ·) a b

/-- Lane-wise `operator+`. -/
def add (a b : List Int) : List Int := List.zipWith (· + ·) a b

/-- The default `MLSIMDFmadd(m1, m2, a)`, that is `m1 * m2 + a`. -/
def MLSIMDFmadd (m1 m2 a : List Int) : List Int := add (mul m1 m2) a

/-- Write the lanes of a register to consecutive cells from offset `o`. -/
def writeLanes : List Int → Nat → List Int → List Int
  | buf, _, [] => buf
  | buf, o, x :: xs => writeLanes (buf.set o x) (o + 1) xs

/-- The call `SIMDType::LoadAligned(ptr)` with `ptr` at offset `o` of `buf`. -/
def LoadAligned (w : Nat) (buf : List Int) (o : Nat) : Except Fault (List Int) :=
  if o % w ≠ 0 then .error .misaligned
  else if o + w ≤ buf.length then .ok ((buf.drop o).take w)
  else .error .bounds

/-- The call `SIMDType::StoreAligned(reg, ptr)` with `ptr` at offset `o` of `buf`. -/
def StoreAligned (w : Nat) (reg : List Int) (buf : List Int) (o : Nat) :
    Except Fault (List Int) :=
  if o % w ≠ 0 then .error .misaligned
  else if o + w ≤ buf.length then .ok (writeLanes buf o (reg.take w))
  else .error .bounds

end SIMD

namespace DenseMatrix

/-- The method `Rows()`. -/
def Rows (m : DenseMatrix) : Nat := if m.rowMajor then m.m_majorCnt else m.m_minorCnt

/-- The method `Cols()`. -/
def Cols (m : DenseMatrix) : Nat := if m.rowMajor then m.m_minorCnt else m.m_majorCnt

/-- The method `PaddedRows()`. -/
def PaddedRows (m : DenseMatrix) : Nat := if m.rowMajor then m.Rows else m.m_paddedMinorCnt

/-- The method `PaddedCols()`. -/
def PaddedCols (m : DenseMatrix) : Nat := if m.rowMajor then m.m_paddedMinorCnt else m.Cols

/-- The offset `major*m_paddedMinorCnt + minor` used by `operator()`. -/
def flatIndex (m : DenseMatrix) (i j : Nat) : Nat :=
  (if m.rowMajor then i else j) * m.m_paddedMinorCnt + (if m.rowMajor then j else i)

/-- Reading through `operator()(i, j) const`. -/
def get (m : DenseMatrix) (i j : Nat) : Except Fault Int :=
  if i < m.Rows ∧ j < m.Cols then
    match m.m_storage[m.flatIndex i j]? with
    | some v => .ok v
    | none => .error .bounds
  else .error .index

/-- Writing through `operator()(i, j)`. -/
def set (m : DenseMatrix) (i j : Nat) (v : Int) : Except Fault DenseMatrix :=
  if i < m.Rows ∧ j < m.Cols then
    if m.flatIndex i j < m.m_storage.length then
      .ok { m with m_storage := m.m_storage.set (m.flatIndex i j) v }
    else .error .bounds
  else .error .index

/-- The method `Load(i, j)`: `operator()` for the address, then an aligned load. -/
def Load (m : DenseMatrix) (i j : Nat) : Except Fault (List Int) :=
  if i < m.Rows ∧ j < m.Cols then
    SIMD.LoadAligned m.SIMDSize m.m_storage (m.flatIndex i j)
  else .error .index

/-- The method `Store(reg, i, j)`: `operator()` for the address, then an aligned store. -/
def Store (m : DenseMatrix) (reg : List Int) (i j : Nat) : Except Fault DenseMatrix :=
  if i < m.Rows ∧ j < m.Cols then
    match SIMD.StoreAligned m.SIMDSize reg m.m_storage (m.flatIndex i j) with
    | .ok buf => .ok { m with m_storage := buf }
    | .error f => .error f
  else .error .index

/-- The view returned by `Transpose()`: the same object read as `TransposeType`. -/
def Transpose (m : DenseMatrix) : DenseMatrix := { m with rowMajor := !m.rowMajor }

/-- The trait `TMLMatrixIsVectorized_v`. -/
def IsVectorized (m : DenseMatrix) : Bool := m.SIMDSize != 1

/-- The storage padding invariant of a matrix object. -/
def PaddingInv (m : DenseMatrix) : Prop :=
  m.m_paddedMinorCnt = m.m_minorCnt + (m.SIMDSize - m.m_minorCnt % m.SIMDSize) % m.SIMDSize ∧
  m.m_storage.length = m.m_majorCnt * m.m_paddedMinorCnt

instance (m : DenseMatrix) : Decidable m.PaddingInv := by
  unfold PaddingInv; infer_instance

end DenseMatrix

/-- The method `TMLDynamicMatrixStorage::Resize(size)`. -/
def TMLDynamicMatrixStorage.Resize (junk : Nat → Int) (m_data : List Int) (size : Nat) :
    List Int :=
  if size ≠ m_data.length then MLAlignedAlloc junk size else m_data

/-- The constructor `TMLDynamicMatrix(rows, cols, MLNoneType)`, with the sizes over the
natural numbers (`Typed.TMLDynamicMatrix.ctorNone` computes them in `std::size_t`; the
two agree while the sizes fit, `typed_ctorNone_eq`). -/
def TMLDynamicMatrix.ctorNone (junk : Nat → Int) (RowMajor : Bool) (SIMDSize rows cols : Nat) :
    DenseMatrix :=
  let m_majorCnt := if RowMajor then rows else cols
  let m_minorCnt := if RowMajor then cols else rows
  let m_paddedMinorCnt := m_minorCnt + (SIMDSize - m_minorCnt % SIMDSize) % SIMDSize
  { isStatic := false, rowMajor := RowMajor, SIMDSize := SIMDSize,
    m_majorCnt := m_majorCnt, m_minorCnt := m_minorCnt,
    m_paddedMinorCnt := m_paddedMinorCnt,
    m_storage := MLAlignedAlloc junk (m_majorCnt * m_paddedMinorCnt) }

/-- The constructor `TMLStaticMatrix<ET, N, M, RowMajor, maxSIMD>(MLNoneType)`. -/
def TMLStaticMatrix.ctorNone (junk : Nat → Int) (RowMajor : Bool) (SIMDSize N M : Nat) :
    DenseMatrix :=
  let MajCnt := if RowMajor then N else M
  let MinCnt := if RowMajor then M else N
  { isStatic := true, rowMajor := RowMajor, SIMDSize := SIMDSize,
    m_majorCnt := MajCnt, m_minorCnt := MinCnt,
    m_paddedMinorCnt := TMLStaticMatrixMemoryLayout.PaddedMinorCnt_v SIMDSize MinCnt,
    m_storage := MLAlignedAlloc junk (TMLStaticMatrixMemoryLayout.PaddedSize_v SIMDSize MajCnt MinCnt) }

/-- The method `TMLDynamicMatrix::Resize(rows, cols, MLNoneType)`, with the sizes over
the natural numbers (`Typed.DenseMatrix.Resize` computes them in `std::size_t`; the two
agree while the sizes fit, `typed_Resize_eq`). -/
def DenseMatrix.Resize (junk : Nat → Int) (m : DenseMatrix) (rows cols : Nat) : DenseMatrix :=
  let m_majorCnt := if m.rowMajor then rows else cols
  let m_minorCnt := if m.rowMajor then cols else rows
  let m_paddedMinorCnt := m_minorCnt + (m.SIMDSize - m_minorCnt % m.SIMDSize) % m.SIMDSize
  { m with
    m_majorCnt := m_majorCnt, m_minorCnt := m_minorCnt,
    m_paddedMinorCnt := m_paddedMinorCnt,
    m_storage := TMLDynamicMatrixStorage.Resize junk m.m_storage (m_majorCnt * m_paddedMinorCnt) }

/-- How an operand of the running statement relates to the statement's target:
the target object itself, its `Transpose()` view (the same address), or another object. -/
inductive Operand where
  | self
  | selfTranspose
  | other (m : DenseMatrix)
  deriving DecidableEq, Repr

namespace Operand

/-- The matrix an operand reference denotes while the target is `target`. -/
def deref (target : DenseMatrix) : Operand → DenseMatrix
  | self => target
  | selfTranspose => target.Transpose
  | other m => m

/-- The test `target.IsAlias(operand)`: equality of the object addresses. -/
def IsAlias : Operand → Bool
  | self => true
  | selfTranspose => true
  | other _ => false

end Operand

/-- The store loops shared by `TMLDMSetZeroExpression::AssignTo` and
`TMLDMSet1Expression::AssignTo`: `Store(reg, i, j)` for `i < Rows()`,
`j < Cols()` in steps of the lane count. -/
def storeLoops (reg : List Int) (res : DenseMatrix) : Except Abort DenseMatrix :=
  loopState (forLoop (Abort.mk .fuel) (fun i c => decide (i < c.Rows)) 1
    (fun i c => loopState (forLoop (Abort.mk .fuel) (fun j c => decide (j < c.Cols)) c.SIMDSize
      (fun j c => orAbort c (c.Store reg i j)) c.Cols 0 c))
    res.Rows 0 res)

/-- The method `TMLDMSetZeroExpression::AssignTo(res)`. -/
def TMLDMSetZeroExpression.AssignTo (m_rows m_cols : Nat) (res : DenseMatrix) :
    Except Abort DenseMatrix :=
  if m_rows = res.Rows ∧ m_cols = res.Cols then
    storeLoops (SIMD.SetZero res.SIMDSize) res
  else .error ⟨.targetShape, res⟩

/-- The method `TMLDMSet1Expression::AssignTo(res)`. -/
def TMLDMSet1Expression.AssignTo (m_value : Int) (m_rows m_cols : Nat) (res : DenseMatrix) :
    Except Abort DenseMatrix :=
  if m_rows = res.Rows ∧ m_cols = res.Cols then
    storeLoops (SIMD.Set1 res.SIMDSize m_value) res
  else .error ⟨.targetShape, res⟩

namespace TMLDMAssignExpression

/-- The constant `IsVectorizable_v<MT>` of the copy node. -/
def IsVectorizable (res lhs : DenseMatrix) : Bool :=
  res.IsVectorized && lhs.IsVectorized && (res.SIMDSize == lhs.SIMDSize) &&
    (res.rowMajor == lhs.rowMajor)

/-- The method `DefaultKernel(res, lhs)` of the copy node. -/
def DefaultKernel (res lhs : DenseMatrix) : Except Abort DenseMatrix :=
  loopState (forLoop (Abort.mk .fuel) (fun i _ => decide (i < lhs.Rows)) 1
    (fun i c => loopState (forLoop (Abort.mk .fuel) (fun j _ => decide (j < lhs.Cols)) 1
      (fun j c =>
        match lhs.get i j with
        | .error f => .error ⟨f, c⟩
        | .ok v => orAbort c (c.set i j v))
      lhs.Cols 0 c))
    lhs.Rows 0 res)

/-- The method `VectorizedKernel(res, lhs)` of the copy node. -/
def VectorizedKernel (res lhs : DenseMatrix) : Except Abort DenseMatrix :=
  loopState (forLoop (Abort.mk .fuel) (fun i c => decide (i < c.Rows)) 1
    (fun i c => loopState (forLoop (Abort.mk .fuel) (fun j c => decide (j < c.Cols)) lhs.SIMDSize
      (fun j c =>
        match lhs.Load i j with
        | .error f => .error ⟨f, c⟩
        | .ok reg => orAbort c (c.Store reg i j))
      c.Cols 0 c))
    res.Rows 0 res)

/-- The overloads of `ExecuteKernel(res, lhs)` of the copy node. -/
def ExecuteKernel (res lhs : DenseMatrix) : Except Abort DenseMatrix :=
  if IsVectorizable res lhs then VectorizedKernel res lhs else DefaultKernel res lhs

/-- The method `TMLDMAssignExpression::AssignTo(res)`. -/
def AssignTo (m_lhs : Operand) (res : DenseMatrix) : Except Abort DenseMatrix :=
  if res.Rows = (m_lhs.deref res).Rows ∧ res.Cols = (m_lhs.deref res).Cols then
    if m_lhs.IsAlias then .ok res
    else ExecuteKernel res (m_lhs.deref res)
  else .error ⟨.targetShape, res⟩

end TMLDMAssignExpression

/-- The body shared by every `Assign(expr)`: a static matrix asserts that the
shapes agree, a dynamic one resizes to `rows × cols` (the shape the expression
reported before the call); then `expr.AssignTo(*this)` runs. -/
def DenseMatrix.AssignWith (junk : Nat → Int) (this : DenseMatrix) (rows cols : Nat)
    (assignTo : DenseMatrix → Except Abort DenseMatrix) : Except Abort DenseMatrix :=
  if this.isStatic then
    if rows = this.Rows ∧ cols = this.Cols then assignTo this
    else .error ⟨.staticShape, this⟩
  else assignTo (this.Resize junk rows cols)

/-- The method `SetZero()` of `TMLDenseMatrixHelper`. -/
def DenseMatrix.SetZero (junk : Nat → Int) (this : DenseMatrix) : Except Abort DenseMatrix :=
  this.AssignWith junk this.Rows this.Cols
    (TMLDMSetZeroExpression.AssignTo this.Rows this.Cols)

/-- The method `Set1(value)` of `TMLDenseMatrixHelper`. -/
def DenseMatrix.Set1 (junk : Nat → Int) (this : DenseMatrix) (value : Int) :
    Except Abort DenseMatrix :=
  this.AssignWith junk this.Rows this.Cols
    (TMLDMSet1Expression.AssignTo value this.Rows this.Cols)

/-- The method `Assign(const TMLDenseMatrix<MT>& rhs)`, for `rhs` another object. -/
def DenseMatrix.AssignMatrix (junk : Nat → Int) (this rhs : DenseMatrix) :
    Except Abort DenseMatrix :=
  this.AssignWith junk rhs.Rows rhs.Cols (TMLDMAssignExpression.AssignTo (.other rhs))

/-- The copy constructor: a matrix of the same type built from the copy node of `rhs`. -/
def DenseMatrix.copyCtor (junk : Nat → Int) (rhs : DenseMatrix) : Except Abort DenseMatrix :=
  if rhs.isStatic then
    (TMLStaticMatrix.ctorNone junk rhs.rowMajor rhs.SIMDSize rhs.Rows rhs.Cols).AssignWith
      junk rhs.Rows rhs.Cols (TMLDMAssignExpression.AssignTo (.other rhs))
  else
    TMLDMAssignExpression.AssignTo (.other rhs)
      (TMLDynamicMatrix.ctorNone junk rhs.rowMajor rhs.SIMDSize rhs.Rows rhs.Cols)

namespace TMLDMDMAddExpression

/-- The assertion in the constructor `TMLDMDMAddExpression(lhs, rhs)`. -/
def ctor (lhs rhs : DenseMatrix) : Except Fault Unit :=
  if lhs.Cols = rhs.Rows then .ok () else .error .exprDim

/-- The method `Rows()` of the Add node. -/
def Rows (m_lhs _m_rhs : DenseMatrix) : Nat := m_lhs.Rows

/-- The method `Cols()` of the Add node. -/
def Cols (_m_lhs m_rhs : DenseMatrix) : Nat := m_rhs.Cols

/-- The method `operator()(i, j)` of the Add node. -/
def eval (m_lhs m_rhs : DenseMatrix) (i j : Nat) : Except Fault Int :=
  if i < Rows m_lhs m_rhs ∧ j < Cols m_lhs m_rhs then
    match m_lhs.get i j with
    | .error f => .error f
    | .ok x =>
      match m_rhs.get i j with
      | .error f => .error f
      | .ok y => .ok (x + y)
  else .error .index

/-- The method `DefaultKernel(c, a, b)` of the Add node; the operands may be the
target itself, so they are read from the target as it is at each step. -/
def DefaultKernel (c : DenseMatrix) (a b : Operand) : Except Abort DenseMatrix :=
  loopState (forLoop (Abort.mk .fuel) (fun i c => decide (i < c.Rows)) 1
    (fun i c => loopState (forLoop (Abort.mk .fuel) (fun j c => decide (j < c.Cols)) 1
      (fun j c =>
        match (a.deref c).get i j with
        | .error f => .error ⟨f, c⟩
        | .ok x =>
          match (b.deref c).get i j with
          | .error f => .error ⟨f, c⟩
          | .ok y => orAbort c (c.set i j (x + y)))
      c.Cols 0 c))
    c.Rows 0 c)

/-- The method `TMLDMDMAddExpression::AssignTo(res)`. -/
def AssignTo (m_lhs m_rhs : Operand) (res : DenseMatrix) : Except Abort DenseMatrix :=
  if res.Rows = (m_lhs.deref res).Rows ∧ res.Cols = (m_rhs.deref res).Cols then
    DefaultKernel res m_lhs m_rhs
  else .error ⟨.targetShape, res⟩

end TMLDMDMAddExpression

namespace TMLDMDMMulExpression

/-- The assertion in the constructor `TMLDMDMMulExpression(lhs, rhs)`. -/
def ctor (lhs rhs : DenseMatrix) : Except Fault Unit :=
  if lhs.Cols = rhs.Rows then .ok () else .error .exprDim

/-- The method `Rows()` of the MatMul node. -/
def Rows (m_lhs _m_rhs : DenseMatrix) : Nat := m_lhs.Rows

/-- The method `Cols()` of the MatMul node. -/
def Cols (_m_lhs m_rhs : DenseMatrix) : Nat := m_rhs.Cols

/-- The method `operator()(i, j)` of the MatMul node in exact arithmetic
(`Typed.TMLDMDMMulExpression.eval` has the arithmetic of the element type). -/
def eval (m_lhs m_rhs : DenseMatrix) (i j : Nat) : Except Fault Int :=
  if i < Rows m_lhs m_rhs ∧ j < Cols m_lhs m_rhs then
    loopState (forLoop (fun _ => Fault.fuel) (fun k _ => decide (k < m_lhs.Cols)) 1
      (fun k res =>
        match m_lhs.get i k with
        | .error f => .error f
        | .ok x =>
          match m_rhs.get k j with
          | .error f => .error f
          | .ok y => .ok (res + x * y))
      m_lhs.Cols 0 0)
  else .error .index

/-- The constant `IsVectorizable_v<C, A, B>` of the MatMul node. -/
def IsVectorizable (c a b : DenseMatrix) : Bool :=
  c.IsVectorized && a.IsVectorized && b.IsVectorized &&
    (c.SIMDSize == a.SIMDSize) && (a.SIMDSize == b.SIMDSize)

/-- The method `DefaultKernel(c, a, b)` of the MatMul node. -/
def DefaultKernel (junk : Nat → Int) (c a b : DenseMatrix) : Except Abort DenseMatrix :=
  match c.SetZero junk with
  | .error ab => .error ab
  | .ok c0 =>
    loopState (forLoop (Abort.mk .fuel) (fun i _ => decide (i < a.Rows)) 1
      (fun i c => loopState (forLoop (Abort.mk .fuel) (fun k _ => decide (k < a.Cols)) 1
        (fun k c =>
          match a.get i k with
          | .error f => .error ⟨f, c⟩
          | .ok a_ik =>
            loopState (forLoop (Abort.mk .fuel) (fun j _ => decide (j < b.Cols)) 1
              (fun j c =>
                match b.get k j with
                | .error f => .error ⟨f, c⟩
                | .ok b_kj =>
                  match c.get i j with
                  | .error f => .error ⟨f, c⟩
                  | .ok c_ij => orAbort c (c.set i j (c_ij + a_ik * b_kj)))
              b.Cols 0 c))
        a.Cols 0 c))
      a.Rows 0 c0)

/-- One pass over the accumulators `csum[ai][bi]` of the sub-kernel for a fixed
`p`: load the `regsB` registers of row `p` of `b`, broadcast the `regsA`
elements of column `p` of `a`, and combine them into the accumulator with `op`. -/
def accumulate (regsA regsB : Nat) (c a b : DenseMatrix) (ro co p : Nat)
    (op : List Int → List Int → List Int → List Int)
    (csum : Nat → Nat → List Int) : Except Abort (Nat → Nat → List Int) :=
  MLConstexprFor (fun _ => Abort.mk .fuel c) 0 regsB 1
    (fun bi csum =>
      match b.Load p (co + bi * a.SIMDSize) with
      | .error f => .error ⟨f, c⟩
      | .ok bb =>
        MLConstexprFor (fun _ => Abort.mk .fuel c) 0 regsA 1
          (fun ai csum =>
            match a.get (ro + ai) p with
            | .error f => .error ⟨f, c⟩
            | .ok a_val =>
              .ok (fun x y =>
                if x = ai ∧ y = bi then op (SIMD.Set1 a.SIMDSize a_val) bb (csum ai bi)
                else csum x y))
          csum)
    csum

/-- The method `VectorizedSubKernelRRR<regsA, regsB>(c, a, b, ro, co)`. -/
def VectorizedSubKernelRRR (regsA regsB : Nat) (c a b : DenseMatrix) (ro co : Nat) :
    Except Abort DenseMatrix :=
  if a.Rows > 0 then
    match accumulate regsA regsB c a b ro co 0 (fun aa bb _ => SIMD.mul aa bb)
        (fun _ _ => SIMD.SetZero a.SIMDSize) with
    | .error ab => .error ab
    | .ok csum0 =>
      match loopState (forLoop (fun _ => Abort.mk .fuel c) (fun p _ => decide (p < a.Rows)) 1
          (fun p csum => accumulate regsA regsB c a b ro co p SIMD.MLSIMDFmadd csum)
          a.Rows 1 csum0) with
      | .error ab => .error ab
      | .ok csum =>
        loopState (forLoop (Abort.mk .fuel) (fun ai _ => decide (ai < regsA)) 1
          (fun ai c => loopState (forLoop (Abort.mk .fuel) (fun bi _ => decide (bi < regsB)) 1
            (fun bi c => orAbort c (c.Store (csum ai bi) (ro + ai) (co + bi * a.SIMDSize)))
            regsB 0 c))
          regsA 0 c)
  else .ok c

/-- A row loop `for (; (i + regsA) <= c.Rows(); i += regsA)` of the cascade, calling
the `regsA × regsB` sub-kernel at column offset `j`, from row `i`. -/
def rowBlocks (regsA regsB : Nat) (a b : DenseMatrix) (j i : Nat) (c : DenseMatrix) :
    Except Abort (Nat × DenseMatrix) :=
  forLoop (Abort.mk .fuel) (fun i c => decide (i + regsA ≤ c.Rows)) regsA
    (fun i c => VectorizedSubKernelRRR regsA regsB c a b i j) c.Rows i c

/-- The closing `if (i < c.Rows()) VectorizedSubKernelRRR<1, regsB>(c, a, b, i, j)`. -/
def lastRow (regsB : Nat) (a b : DenseMatrix) (j i : Nat) (c : DenseMatrix) :
    Except Abort DenseMatrix :=
  if i < c.Rows then VectorizedSubKernelRRR 1 regsB c a b i j else .ok c

/-- A column loop `for (; (j + regsB*simdSize) <= c.PaddedCols(); j += regsB*simdSize)`. -/
def colPanels (regsB simdSize : Nat) (body : Nat → DenseMatrix → Except Abort DenseMatrix)
    (j : Nat) (c : DenseMatrix) : Except Abort (Nat × DenseMatrix) :=
  forLoop (Abort.mk .fuel) (fun j c => decide (j + regsB * simdSize ≤ c.PaddedCols))
    (regsB * simdSize) body c.PaddedCols j c

/-- The method `VectorizedKernel(c, a, b)` of the MatMul node.  Each loop hands
its final counter and the target on to the next one (`r.1`, `r.2`). -/
def VectorizedKernel (junk : Nat → Int) (c a b : DenseMatrix) : Except Abort DenseMatrix :=
  if c.rowMajor && a.rowMajor && b.rowMajor then
    colPanels 4 a.SIMDSize (fun j c =>
        rowBlocks 3 4 a b j 0 c >>= fun r =>
        rowBlocks 2 4 a b j r.1 r.2 >>= fun r =>
        lastRow 4 a b j r.1 r.2) 0 c >>= fun r =>
    colPanels 3 a.SIMDSize (fun j c =>
        rowBlocks 4 3 a b j 0 c >>= fun r =>
        rowBlocks 2 3 a b j r.1 r.2 >>= fun r =>
        lastRow 3 a b j r.1 r.2) r.1 r.2 >>= fun r =>
    colPanels 2 a.SIMDSize (fun j c =>
        rowBlocks 2 2 a b j 0 c >>= fun r =>
        lastRow 2 a b j r.1 r.2) r.1 r.2 >>= fun r =>
    loopState (colPanels 1 a.SIMDSize (fun j c =>
        rowBlocks 8 1 a b j 0 c >>= fun r =>
        rowBlocks 4 1 a b j r.1 r.2 >>= fun r =>
        rowBlocks 2 1 a b j r.1 r.2 >>= fun r =>
        loopState (rowBlocks 1 1 a b j r.1 r.2)) r.1 r.2)
  else DefaultKernel junk c a b

/-- The overloads of `ExecuteKernel(c, a, b)` of the MatMul node. -/
def ExecuteKernel (junk : Nat → Int) (c a b : DenseMatrix) : Except Abort DenseMatrix :=
  if IsVectorizable c a b then VectorizedKernel junk c a b else DefaultKernel junk c a b

/-- The method `TMLDMDMMulExpression::AssignTo(res)`. -/
def AssignTo (junk : Nat → Int) (m_lhs m_rhs : Operand) (res : DenseMatrix) :
    Except Abort DenseMatrix :=
  if res.Rows = (m_lhs.deref res).Rows ∧ res.Cols = (m_rhs.deref res).Cols then
    if m_lhs.IsAlias || m_rhs.IsAlias then
      match retarget res (res.copyCtor junk) with
      | .error ab => .error ab
      | .ok tmp =>
        match retarget res (ExecuteKernel junk tmp (m_lhs.deref res) (m_rhs.deref res)) with
        | .error ab => .error ab
        | .ok tmp => res.AssignMatrix junk tmp
    else ExecuteKernel junk res (m_lhs.deref res) (m_rhs.deref res)
  else .error ⟨.targetShape, res⟩

end TMLDMDMMulExpression

/-- The expression nodes, with dense matrices as operands. -/
inductive Expr where
  | setZero (m_rows m_cols : Nat)
  | set1 (m_value : Int) (m_rows m_cols : Nat)
  | assign (m_lhs : Operand)
  | add (m_lhs m_rhs : Operand)
  | mul (m_lhs m_rhs : Operand)
  deriving DecidableEq, Repr

namespace Expr

/-- Building the node: only the Add and MatMul constructors assert. -/
def ctor (target : DenseMatrix) : Expr → Except Fault Unit
  | add l r => TMLDMDMAddExpression.ctor (l.deref target) (r.deref target)
  | mul l r => TMLDMDMMulExpression.ctor (l.deref target) (r.deref target)
  | _ => .ok ()

/-- The method `Rows()` of a node. -/
def Rows (target : DenseMatrix) : Expr → Nat
  | setZero r _ => r
  | set1 _ r _ => r
  | assign l => (l.deref target).Rows
  | add l r => TMLDMDMAddExpression.Rows (l.deref target) (r.deref target)
  | mul l r => TMLDMDMMulExpression.Rows (l.deref target) (r.deref target)

/-- The method `Cols()` of a node. -/
def Cols (target : DenseMatrix) : Expr → Nat
  | setZero _ c => c
  | set1 _ _ c => c
  | assign l => (l.deref target).Cols
  | add l r => TMLDMDMAddExpression.Cols (l.deref target) (r.deref target)
  | mul l r => TMLDMDMMulExpression.Cols (l.deref target) (r.deref target)

/-- The method `operator()(i, j)` of a node. -/
def eval (target : DenseMatrix) (e : Expr) (i j : Nat) : Except Fault Int :=
  match e with
  | setZero r c => if i < r ∧ j < c then .ok 0 else .error .index
  | set1 v r c => if i < r ∧ j < c then .ok v else .error .index
  | assign l =>
    if i < (l.deref target).Rows ∧ j < (l.deref target).Cols then (l.deref target).get i j
    else .error .index
  | add l r => TMLDMDMAddExpression.eval (l.deref target) (r.deref target) i j
  | mul l r => TMLDMDMMulExpression.eval (l.deref target) (r.deref target) i j

/-- The method `AssignTo(res)` of a node. -/
def AssignTo (junk : Nat → Int) (e : Expr) (res : DenseMatrix) : Except Abort DenseMatrix :=
  match e with
  | setZero r c => TMLDMSetZeroExpression.AssignTo r c res
  | set1 v r c => TMLDMSet1Expression.AssignTo v r c res
  | assign l => TMLDMAssignExpression.AssignTo l res
  | add l r => TMLDMDMAddExpression.AssignTo l r res
  | mul l r => TMLDMDMMulExpression.AssignTo junk l r res

end Expr

/-- The method `Assign(expr)` of a dense matrix (behind `operator=`). -/
def DenseMatrix.Assign (junk : Nat → Int) (this : DenseMatrix) (expr : Expr) :
    Except Abort DenseMatrix :=
  this.AssignWith junk (expr.Rows this) (expr.Cols this) (expr.AssignTo junk)

/-- The statement `target = expr;`: the node is built (its constructor asserts),
then assigned. -/
def assignStmt (junk : Nat → Int) (target : DenseMatrix) (expr : Expr) :
    Except Abort DenseMatrix :=
  match expr.ctor target with
  | .error f => .error ⟨f, target⟩
  | .ok _ => target.Assign junk expr

/-- The constructor `TMLDynamicMatrix(expr)` from a node whose operands are other objects. -/
def TMLDynamicMatrix.ctorExpr (junk : Nat → Int) (RowMajor : Bool) (SIMDSize : Nat)
    (expr : Expr) : Except Abort DenseMatrix :=
  expr.AssignTo junk
    (TMLDynamicMatrix.ctorNone junk RowMajor SIMDSize
      (expr.Rows (TMLDynamicMatrix.ctorNone junk RowMajor SIMDSize 0 0))
      (expr.Cols (TMLDynamicMatrix.ctorNone junk RowMajor SIMDSize 0 0)))

/-- The constructor `TMLDynamicMatrix(rows, cols)`. -/
def TMLDynamicMatrix.ctor (junk : Nat → Int) (RowMajor : Bool) (SIMDSize rows cols : Nat) :
    Except Abort DenseMatrix :=
  (TMLDynamicMatrix.ctorNone junk RowMajor SIMDSize rows cols).SetZero junk

/-- The default constructor `TMLStaticMatrix<ET, N, M, RowMajor, maxSIMD>()`. -/
def TMLStaticMatrix.ctor (junk : Nat → Int) (RowMajor : Bool) (SIMDSize N M : Nat) :
    Except Abort DenseMatrix :=
  (TMLStaticMatrix.ctorNone junk RowMajor SIMDSize N M).SetZero junk

/-- The logical elements of a matrix, row by row, read through `operator()`. -/
def DenseMatrix.elems (m : DenseMatrix) : List (List (Except Fault Int)) :=
  (List.range m.Rows).map fun i => (List.range m.Cols).map fun j => m.get i j

/-- The move constructor `TMLDynamicMatrix(TMLDynamicMatrix&& rhs) = default`: the
counts are copied, the storage takes over the buffer and leaves `rhs` with
none.  Gives the new object and `rhs` afterwards. -/
def TMLDynamicMatrix.moveCtor (rhs : DenseMatrix) : DenseMatrix × DenseMatrix :=
  (rhs, { rhs with m_storage := [] })

/-- The fault a stopped statement reports, if it stopped. -/
def faultOf {α : Type} : Except Abort α → Option Fault
  | .ok _ => none
  | .error ab => some ab.fault

/-- The contents of fresh memory used in the worked examples. -/
def junk77 : Nat → Int := fun _ => 77

/-- The matrix `[[1,2,3],[4,5,6]]`: dynamic, row-major, lane count 2 (columns padded to 4). -/
def exA : DenseMatrix := ⟨false, true, 2, 2, 3, 4, [1, 2, 3, 0, 4, 5, 6, 0]⟩

/-- The matrix `[[7,8],[9,10],[11,12]]`: dynamic, row-major, lane count 2. -/
def exB : DenseMatrix := ⟨false, true, 2, 3, 2, 2, [7, 8, 9, 10, 11, 12]⟩

/-- An empty dynamic row-major matrix of lane count 2, as a target. -/
def exEmpty : DenseMatrix := TMLDynamicMatrix.ctorNone junk77 true 2 0 0

/-- The matrix `[[1,2],[3,4]]`: dynamic, column-major, lane count 2. -/
def exColMajor : DenseMatrix := ⟨false, false, 2, 2, 2, 2, [1, 3, 2, 4]⟩

/-- The matrix `[[1,2],[3,4]]`: dynamic, row-major, lane count 2. -/
def exSquare : DenseMatrix := ⟨false, true, 2, 2, 2, 2, [1, 2, 3, 4]⟩

/-- The matrix `[[1,2],[3,4],[5,6]]`: dynamic, row-major, lane count 1. -/
def exTall : DenseMatrix := ⟨false, true, 1, 3, 2, 2, [1, 2, 3, 4, 5, 6]⟩

/-- The matrix `[[3],[4]]`: dynamic, row-major, lane count 1. -/
def exColumn : DenseMatrix := ⟨false, true, 1, 2, 1, 1, [3, 4]⟩

/-- A static row-major 2×2 matrix of lane count 2 holding `[[1,2],[3,4]]`. -/
def exStatic : DenseMatrix := ⟨true, true, 2, 2, 2, 2, [1, 2, 3, 4]⟩

/-- The method `TMLDynamicMatrix::Resize(rows, cols)`: the non-filling resize, then `SetZero()`. -/
def DenseMatrix.ResizeSetZero (junk : Nat → Int) (m : DenseMatrix) (rows cols : Nat) :
    Except Abort DenseMatrix :=
  (m.Resize junk rows cols).SetZero junk

/-- The matrix `[[5,6]]`: dynamic, column-major, lane count 2 (rows padded to 2,
the two padding cells hold 9). -/
def exColRow : DenseMatrix := ⟨false, false, 2, 2, 1, 2, [5, 9, 6, 9]⟩

/-- The static counterpart of `exColRow`: `[[5,6]]`, column-major, lane count 2. -/
def exColRowStatic : DenseMatrix := ⟨true, false, 2, 2, 1, 2, [5, 9, 6, 9]⟩

/-- The matrix `[[1,2,3],[4,5,6],[7,8,9]]`: dynamic, row-major, lane count 2. -/
def exA3 : DenseMatrix := ⟨false, true, 2, 3, 3, 4, [1, 2, 3, 0, 4, 5, 6, 0, 7, 8, 9, 0]⟩

/-- The 3×3 identity: `Matrix(3, 3)` (dynamic, row-major, lane count 2, zero-filled),
then the diagonal set to 1 through `operator()`. -/
def exI3 : Except Abort DenseMatrix :=
  match TMLDynamicMatrix.ctor junk77 true 2 3 3 with
  | .error ab => .error ab
  | .ok m =>
    match m.set 0 0 1 with
    | .error f => .error ⟨f, m⟩
    | .ok m =>
      match m.set 1 1 1 with
      | .error f => .error ⟨f, m⟩
      | .ok m => orAbort m (m.set 2 2 1)

/-- The statement `C = A * I` for an identity built as above. -/
def timesIdentity (junk : Nat → Int) (C A : DenseMatrix) (I : Except Abort DenseMatrix) :
    Except Abort DenseMatrix :=
  match I with
  | .error ab => .error ab
  | .ok I => assignStmt junk C (.mul (.other A) (.other I))

/-! ### The type level: element types, SIMD types, matrix types -/

/-- The element types the SIMD selector knows, and any other type by its size in bytes. -/
inductive ElemT where
  | float | double | complexFloat | complexDouble
  | int8 | uint8 | int16 | uint16 | int32 | uint32 | int64 | uint64
  | complexInt8 | complexUint8 | complexInt16 | complexUint16
  | complexInt32 | complexUint32 | complexInt64 | complexUint64
  | other (bytes : Nat)
  deriving DecidableEq, Repr

/-- The value of `sizeof(T)`. -/
def ElemT.sizeof : ElemT → Nat
  | .float => 4 | .double => 8 | .complexFloat => 8 | .complexDouble => 16
  | .int8 => 1 | .uint8 => 1 | .int16 => 2 | .uint16 => 2
  | .int32 => 4 | .uint32 => 4 | .int64 => 8 | .uint64 => 8
  | .complexInt8 => 2 | .complexUint8 => 2 | .complexInt16 => 4 | .complexUint16 => 4
  | .complexInt32 => 8 | .complexUint32 => 8 | .complexInt64 => 16 | .complexUint64 => 16
  | .other bytes => bytes

/-- The feature macros `ML_MATH_SSE`, `ML_MATH_SSE2`, `ML_MATH_AVX`, `ML_MATH_AVX2`
of `MathPrerequisites.h` that guard the SIMD types and selector specialisations. -/
structure ISA where
  ML_MATH_SSE : Bool
  ML_MATH_SSE2 : Bool
  ML_MATH_AVX : Bool
  ML_MATH_AVX2 : Bool
  deriving DecidableEq, Repr

/-- The SIMD types of `SIMD.h`: `TMLSIMDDefault<T>` and the named aliases. -/
inductive SIMDType where
  | TMLSIMDDefault (T : ElemT)
  | MLSIMD32fSSE
  | MLSIMD32cfSSE
  | MLSIMD64fSSE2
  | MLSIMD8uSSE2
  | MLSIMD8iSSE2
  | MLSIMD16uSSE2
  | MLSIMD16iSSE2
  | MLSIMD32uSSE2
  | MLSIMD32iSSE2
  | MLSIMD64uSSE2
  | MLSIMD64iSSE2
  | MLSIMD64cfSSE2
  | MLSIMD8cuSSE2
  | MLSIMD8ciSSE2
  | MLSIMD16cuSSE2
  | MLSIMD16ciSSE2
  | MLSIMD32cuSSE2
  | MLSIMD32ciSSE2
  | MLSIMD64cuSSE2
  | MLSIMD64ciSSE2
  | MLSIMD32fAVX
  | MLSIMD64fAVX
  | MLSIMD32cfAVX
  | MLSIMD64cfAVX
  | MLSIMD8uAVX2
  | MLSIMD8iAVX2
  | MLSIMD16uAVX2
  | MLSIMD16iAVX2
  | MLSIMD32uAVX2
  | MLSIMD32iAVX2
  | MLSIMD64uAVX2
  | MLSIMD64iAVX2
  | MLSIMD8cuAVX2
  | MLSIMD8ciAVX2
  | MLSIMD16cuAVX2
  | MLSIMD16ciAVX2
  | MLSIMD32cuAVX2
  | MLSIMD32ciAVX2
  | MLSIMD64cuAVX2
  | MLSIMD64ciAVX2
  deriving DecidableEq, Repr

/-- The member `ElementType` of a SIMD type. -/
def SIMDType.ElementType : SIMDType → ElemT
  | .TMLSIMDDefault T => T
  | .MLSIMD32fSSE => .float
  | .MLSIMD32cfSSE => .complexFloat
  | .MLSIMD64fSSE2 => .double
  | .MLSIMD8uSSE2 => .uint8
  | .MLSIMD8iSSE2 => .int8
  | .MLSIMD16uSSE2 => .uint16
  | .MLSIMD16iSSE2 => .int16
  | .MLSIMD32uSSE2 => .uint32
  | .MLSIMD32iSSE2 => .int32
  | .MLSIMD64uSSE2 => .uint64
  | .MLSIMD64iSSE2 => .int64
  | .MLSIMD64cfSSE2 => .complexDouble
  | .MLSIMD8cuSSE2 => .complexUint8
  | .MLSIMD8ciSSE2 => .complexInt8
  | .MLSIMD16cuSSE2 => .complexUint16
  | .MLSIMD16ciSSE2 => .complexInt16
  | .MLSIMD32cuSSE2 => .complexUint32
  | .MLSIMD32ciSSE2 => .complexInt32
  | .MLSIMD64cuSSE2 => .complexUint64
  | .MLSIMD64ciSSE2 => .complexInt64
  | .MLSIMD32fAVX => .float
  | .MLSIMD64fAVX => .double
  | .MLSIMD32cfAVX => .complexFloat
  | .MLSIMD64cfAVX => .complexDouble
  | .MLSIMD8uAVX2 => .uint8
  | .MLSIMD8iAVX2 => .int8
  | .MLSIMD16uAVX2 => .uint16
  | .MLSIMD16iAVX2 => .int16
  | .MLSIMD32uAVX2 => .uint32
  | .MLSIMD32iAVX2 => .int32
  | .MLSIMD64uAVX2 => .uint64
  | .MLSIMD64iAVX2 => .int64
  | .MLSIMD8cuAVX2 => .complexUint8
  | .MLSIMD8ciAVX2 => .complexInt8
  | .MLSIMD16cuAVX2 => .complexUint16
  | .MLSIMD16ciAVX2 => .complexInt16
  | .MLSIMD32cuAVX2 => .complexUint32
  | .MLSIMD32ciAVX2 => .complexInt32
  | .MLSIMD64cuAVX2 => .complexUint64
  | .MLSIMD64ciAVX2 => .complexInt64

/-- The value of `sizeof(IntrinsicType)`: the element itself for the default
helper, 16 bytes for `__m128`, `__m128d`, `__m128i`, 32 bytes for `__m256`,
`__m256d`, `__m256i`. -/
def SIMDType.intrinsicBytes : SIMDType → Nat
  | .TMLSIMDDefault T => T.sizeof
  | .MLSIMD32fSSE => 16
  | .MLSIMD32cfSSE => 16
  | .MLSIMD64fSSE2 => 16
  | .MLSIMD8uSSE2 => 16
  | .MLSIMD8iSSE2 => 16
  | .MLSIMD16uSSE2 => 16
  | .MLSIMD16iSSE2 => 16
  | .MLSIMD32uSSE2 => 16
  | .MLSIMD32iSSE2 => 16
  | .MLSIMD64uSSE2 => 16
  | .MLSIMD64iSSE2 => 16
  | .MLSIMD64cfSSE2 => 16
  | .MLSIMD8cuSSE2 => 16
  | .MLSIMD8ciSSE2 => 16
  | .MLSIMD16cuSSE2 => 16
  | .MLSIMD16ciSSE2 => 16
  | .MLSIMD32cuSSE2 => 16
  | .MLSIMD32ciSSE2 => 16
  | .MLSIMD64cuSSE2 => 16
  | .MLSIMD64ciSSE2 => 16
  | .MLSIMD32fAVX => 32
  | .MLSIMD64fAVX => 32
  | .MLSIMD32cfAVX => 32
  | .MLSIMD64cfAVX => 32
  | .MLSIMD8uAVX2 => 32
  | .MLSIMD8iAVX2 => 32
  | .MLSIMD16uAVX2 => 32
  | .MLSIMD16iAVX2 => 32
  | .MLSIMD32uAVX2 => 32
  | .MLSIMD32iAVX2 => 32
  | .MLSIMD64uAVX2 => 32
  | .MLSIMD64iAVX2 => 32
  | .MLSIMD8cuAVX2 => 32
  | .MLSIMD8ciAVX2 => 32
  | .MLSIMD16cuAVX2 => 32
  | .MLSIMD16ciAVX2 => 32
  | .MLSIMD32cuAVX2 => 32
  | .MLSIMD32ciAVX2 => 32
  | .MLSIMD64cuAVX2 => 32
  | .MLSIMD64ciAVX2 => 32

/-- The member `Size_v = sizeof(IntrinsicType) / sizeof(ElementType)`: the lane count. -/
def SIMDType.Size_v (t : SIMDType) : Nat := t.intrinsicBytes / t.ElementType.sizeof

/-- A partial specialisation
`TMLSIMDTypeSelector<T, maxSize, TMLSIMDSelEnableIf_t<T, TDes, maxSize, Size>>`
and the SIMD type it names. -/
structure SelectorSpec where
  TDes : ElemT
  Size : Nat
  type : SIMDType
  deriving DecidableEq, Repr

/-- The condition of `Internal::TMLSIMDSelEnableIf_t<T, TDes, MaxSize, Size>`. -/
def TMLSIMDSelEnableIf (T TDes : ElemT) (MaxSize Size : Nat) : Bool :=
  (Size &&& (Size - 1) == 0) && (T == TDes) && !(decide (MaxSize < Size)) &&
    decide (MaxSize < 2 * Size)

/-- The enable-if specialisations of `TMLSIMDTypeSelector` compiled in under `isa`,
in source order. -/
def selectorSpecs (isa : ISA) : List SelectorSpec :=
  (if isa.ML_MATH_SSE then [
    ⟨.float, 4, .MLSIMD32fSSE⟩, ⟨.complexFloat, 2, .MLSIMD32cfSSE⟩] else []) ++
  (if isa.ML_MATH_SSE2 then [
    ⟨.double, 2, .MLSIMD64fSSE2⟩, ⟨.int8, 16, .MLSIMD8iSSE2⟩, ⟨.uint8, 16, .MLSIMD8uSSE2⟩,
    ⟨.int16, 8, .MLSIMD16iSSE2⟩, ⟨.uint16, 8, .MLSIMD16uSSE2⟩, ⟨.int32, 4, .MLSIMD32iSSE2⟩,
    ⟨.uint32, 4, .MLSIMD32uSSE2⟩, ⟨.int64, 2, .MLSIMD64iSSE2⟩, ⟨.uint64, 2, .MLSIMD64uSSE2⟩,
    ⟨.complexInt8, 8, .MLSIMD8ciSSE2⟩, ⟨.complexUint8, 8, .MLSIMD8cuSSE2⟩,
    ⟨.complexInt16, 4, .MLSIMD16ciSSE2⟩, ⟨.complexUint16, 4, .MLSIMD16cuSSE2⟩,
    ⟨.complexInt32, 2, .MLSIMD32ciSSE2⟩, ⟨.complexUint32, 2, .MLSIMD32cuSSE2⟩] else []) ++
  (if isa.ML_MATH_AVX then [
    ⟨.float, 8, .MLSIMD32fAVX⟩, ⟨.complexFloat, 4, .MLSIMD32cfAVX⟩,
    ⟨.double, 4, .MLSIMD64fAVX⟩, ⟨.complexDouble, 2, .MLSIMD64cfAVX⟩] else []) ++
  (if isa.ML_MATH_AVX2 then [
    ⟨.int8, 32, .MLSIMD8iAVX2⟩, ⟨.uint8, 32, .MLSIMD8uAVX2⟩, ⟨.int16, 16, .MLSIMD16iAVX2⟩,
    ⟨.uint16, 16, .MLSIMD16uAVX2⟩, ⟨.int32, 8, .MLSIMD32iAVX2⟩, ⟨.uint32, 8, .MLSIMD32uAVX2⟩,
    ⟨.int64, 4, .MLSIMD64iAVX2⟩, ⟨.uint64, 4, .MLSIMD64uAVX2⟩,
    ⟨.complexInt8, 16, .MLSIMD8ciAVX2⟩, ⟨.complexUint8, 16, .MLSIMD8cuAVX2⟩,
    ⟨.complexInt16, 8, .MLSIMD16ciAVX2⟩, ⟨.complexUint16, 8, .MLSIMD16cuAVX2⟩,
    ⟨.complexInt32, 4, .MLSIMD32ciAVX2⟩, ⟨.complexUint32, 4, .MLSIMD32cuAVX2⟩,
    ⟨.complexInt64, 2, .MLSIMD64ciAVX2⟩, ⟨.complexUint64, 2, .MLSIMD64cuAVX2⟩] else [])

/-- The full specialisations `TMLSIMDTypeSelector<T, 1, void>` for one element
type (all under `ML_MATH_SSE2`), as element type and SIMD type. -/
def selectorFullSpecs (isa : ISA) : List (ElemT × SIMDType) :=
  if isa.ML_MATH_SSE2 then
    [(.complexDouble, .MLSIMD64cfSSE2), (.complexInt64, .MLSIMD64ciSSE2),
     (.complexUint64, .MLSIMD64cuSSE2)]
  else []

/-- The enable-if specialisations that match `TMLSIMDTypeSelector<T, maxSize, void>`. -/
def selectorMatching (isa : ISA) (T : ElemT) (maxSize : Nat) : List SelectorSpec :=
  (selectorSpecs isa).filter fun s => TMLSIMDSelEnableIf T s.TDes maxSize s.Size

/-- The type `TMLSIMDTypeSelector<T, maxSize>::type`, if the instantiation names one.
`maxSize = 0` is declared and never defined.  A full specialisation wins; else the
matching enable-if specialisation, which must be the only one; else
`TMLSIMDDefault<T>` for `maxSize = 1`; else the primary template inherits from
`TMLSIMDTypeSelector<T, maxSize / 2>`.  The first argument bounds the depth of
that inheritance chain. -/
def TMLSIMDTypeSelector (isa : ISA) (T : ElemT) : Nat → Nat → Option SIMDType
  | _, 0 => none
  | 0, _ + 1 => none
  | fuel + 1, m + 1 =>
    match (selectorFullSpecs isa).find? (fun s => s.1 == T && m + 1 == 1) with
    | some s => some s.2
    | none =>
      match selectorMatching isa T (m + 1) with
      | [] =>
        if m + 1 = 1 then some (.TMLSIMDDefault T)
        else TMLSIMDTypeSelector isa T fuel ((m + 1) / 2)
      | [s] => if m + 1 = 1 then none else some s.type
      | _ :: _ :: _ => none

/-- The lane counts registered for `T` under `isa` by the enable-if specialisations. -/
def registeredSizes (isa : ISA) (T : ElemT) : List Nat :=
  ((selectorSpecs isa).filter fun s => s.TDes == T).map (·.Size)

/-- The instruction sets of a build with SSE, SSE2 and AVX but no AVX2. -/
def isaAVX : ISA := ⟨true, true, true, false⟩

/-- The fold of `std::common_type` over the rest of a pack, from its binary case `ct`. -/
def commonFold {τ : Type} (ct : τ → τ → Option τ) : τ → List τ → Option τ
  | acc, [] => some acc
  | acc, u :: rest =>
    match ct acc u with
    | none => none
    | some c => commonFold ct c rest

/-- The type `std::common_type_t<Ts...>` if it exists, from the binary case `ct`
(which stands for the standard library): none for the empty pack, the type
itself for one type. -/
def std_common_type {τ : Type} (ct : τ → τ → Option τ) : List τ → Option τ
  | [] => none
  | t :: rest => commonFold ct t rest

/-- A matrix type: `TMLStaticMatrix<ET, N, M, RowMajor, maxSIMD>` or
`TMLDynamicMatrix<ET, RowMajor, maxSIMD>`. -/
inductive MatrixType (τ : Type) where
  | TMLStaticMatrix (ET : τ) (N M : Nat) (RowMajor : Bool) (maxSIMD : Nat)
  | TMLDynamicMatrix (ET : τ) (RowMajor : Bool) (maxSIMD : Nat)
  deriving DecidableEq, Repr

/-- The constant `MLMatrixDynamicSize_v = static_cast<std::size_t>(-1)`. -/
def MLMatrixDynamicSize_v : Nat := 2 ^ 64 - 1

namespace MatrixType

/-- The trait `TMLMatrixElementType_t`. -/
def ElementType {τ : Type} : MatrixType τ → τ
  | TMLStaticMatrix ET _ _ _ _ => ET
  | TMLDynamicMatrix ET _ _ => ET

/-- The trait `TMLMatrixRows_v`. -/
def Rows_v {τ : Type} : MatrixType τ → Nat
  | TMLStaticMatrix _ N _ _ _ => N
  | TMLDynamicMatrix _ _ _ => MLMatrixDynamicSize_v

/-- The trait `TMLMatrixCols_v`. -/
def Cols_v {τ : Type} : MatrixType τ → Nat
  | TMLStaticMatrix _ _ M _ _ => M
  | TMLDynamicMatrix _ _ _ => MLMatrixDynamicSize_v

/-- The trait `TMLMatrixIsRowMajor_v`. -/
def IsRowMajor_v {τ : Type} : MatrixType τ → Bool
  | TMLStaticMatrix _ _ _ RowMajor _ => RowMajor
  | TMLDynamicMatrix _ RowMajor _ => RowMajor

/-- The trait `TMLMatrixIsStatic_v`. -/
def IsStatic_v {τ : Type} (MT : MatrixType τ) : Bool :=
  MT.Rows_v != MLMatrixDynamicSize_v && MT.Cols_v != MLMatrixDynamicSize_v

/-- The trait `TMLMatrixIsDynamic_v`. -/
def IsDynamic_v {τ : Type} (MT : MatrixType τ) : Bool :=
  MT.Rows_v == MLMatrixDynamicSize_v || MT.Cols_v == MLMatrixDynamicSize_v

/-- The `static_assert` of `TMLStaticMatrix`: neither count is the dynamic-size marker. -/
def WellFormed {τ : Type} : MatrixType τ → Prop
  | TMLStaticMatrix _ N M _ _ => N ≠ MLMatrixDynamicSize_v ∧ M ≠ MLMatrixDynamicSize_v
  | TMLDynamicMatrix _ _ _ => True

end MatrixType

/-- The trait `TMLMatrixIsElementTypeCompatible_v<MT1, MTs...>`: the common type of
all the element types exists. -/
def TMLMatrixIsElementTypeCompatible_v {τ : Type} (ct : τ → τ → Option τ)
    (MTs : List (MatrixType τ)) : Bool :=
  (std_common_type ct (MTs.map MatrixType.ElementType)).isSome

/-- The trait `TMLMatrixCommonElementType_t<MT1, MTs...>`: for compatible types,
`std::common_type_t<TMLMatrixElementType_t<MTs>...>`, the pack without `MT1`. -/
def TMLMatrixCommonElementType {τ : Type} (ct : τ → τ → Option τ) :
    List (MatrixType τ) → Option τ
  | [] => none
  | MT1 :: MTs =>
    if TMLMatrixIsElementTypeCompatible_v ct (MT1 :: MTs) then
      std_common_type ct (MTs.map MatrixType.ElementType)
    else none

/-- The member `ElementType` of `TMLDMDMMulExpression<M1, M2>`. -/
def TMLDMDMMulExpression.ElementType {τ : Type} (ct : τ → τ → Option τ)
    (LOpResType ROpResType : MatrixType τ) : Option τ :=
  TMLMatrixCommonElementType ct [LOpResType, ROpResType]

/-- The member `ElementType` of `TMLDMDMAddExpression<M1, M2>`. -/
def TMLDMDMAddExpression.ElementType {τ : Type} (ct : τ → τ → Option τ)
    (LOpResType ROpResType : MatrixType τ) : Option τ :=
  TMLMatrixCommonElementType ct [LOpResType, ROpResType]

/-- The condition of the static specialisation of `TMLMatrixMulResult1` (`StaticMatrix.h`). -/
def mulResultStaticEnabled {τ : Type} (ct : τ → τ → Option τ) (MT1 MT2 : MatrixType τ) :
    Bool :=
  MT1.IsStatic_v && MT2.IsStatic_v && TMLMatrixIsElementTypeCompatible_v ct [MT1, MT2] &&
    (MT1.Cols_v == MT2.Rows_v)

/-- The condition of the dynamic specialisation of `TMLMatrixMulResult1` (`DynamicMatrix.h`). -/
def mulResultDynamicEnabled {τ : Type} (ct : τ → τ → Option τ) (MT1 MT2 : MatrixType τ) :
    Bool :=
  (MT1.IsDynamic_v || MT2.IsDynamic_v) && TMLMatrixIsElementTypeCompatible_v ct [MT1, MT2]

/-- The type `TMLMatrixMulResult_t<MT1, MT2>`, if one exists: the static or the
dynamic specialisation when exactly one is enabled (the primary template is
declared only).  The result's `maxSIMD` is the class default. -/
def TMLMatrixMulResult {τ : Type} (ct : τ → τ → Option τ) (MT1 MT2 : MatrixType τ) :
    Option (MatrixType τ) :=
  match mulResultStaticEnabled ct MT1 MT2, mulResultDynamicEnabled ct MT1 MT2 with
  | true, false =>
    (TMLMatrixCommonElementType ct [MT1, MT2]).map fun ET =>
      .TMLStaticMatrix ET MT1.Rows_v MT2.Cols_v MT1.IsRowMajor_v
        (if MT1.IsRowMajor_v then MT2.Cols_v else MT1.Rows_v)
  | false, true =>
    (TMLMatrixCommonElementType ct [MT1, MT2]).map fun ET =>
      .TMLDynamicMatrix ET MT1.IsRowMajor_v 0xFFFFFFFF
  | _, _ => none

/-- The binary `std::common_type` on the two floating-point element types (the
wider one); other pairs are not part of this table. -/
def floatingCommon : ElemT → ElemT → Option ElemT
  | .float, .float => some .float
  | .float, .double => some .double
  | .double, .float => some .double
  | .double, .double => some .double
  | _, _ => none

/-- The 1×1 matrix `[[2]]`: dynamic, row-major, lane count 2 (one padding cell). -/
def exOne : DenseMatrix := ⟨false, true, 2, 1, 1, 2, [2, 0]⟩

/-- The 1×2 matrix `[[3,4]]`: dynamic, row-major, lane count 2. -/
def exPair : DenseMatrix := ⟨false, true, 2, 1, 2, 2, [3, 4]⟩

/-- The 1×2 matrix `[[5,6]]`: dynamic, row-major, lane count 1. -/
def exPairScalar : DenseMatrix := ⟨false, true, 1, 1, 2, 2, [5, 6]⟩

/-- The 2×1 matrix `[[1],[2]]`: dynamic, row-major, lane count 2. -/
def exWide : DenseMatrix := ⟨false, true, 2, 2, 1, 2, [1, 0, 2, 0]⟩

/-- A 1×0 matrix: dynamic, row-major, lane count 2, no cells. -/
def exNoCols : DenseMatrix := ⟨false, true, 2, 1, 0, 0, []⟩

/-- A 0×2 matrix: dynamic, row-major, lane count 2, no cells. -/
def exNoRows : DenseMatrix := ⟨false, true, 2, 0, 2, 2, []⟩

/-! ### SIMD registers at the level of the intrinsics

A register is the list of its lanes, lane 0 first; for a complex element type
two neighbouring lanes hold the real and the imaginary part.  Arithmetic is
exact (no rounding, no wrap-around). -/

namespace Intrin

/-- The macro `_MM_SHUFFLE(z, y, x, w)`. -/
def _MM_SHUFFLE (z y x w : Nat) : Nat := z * 64 + y * 16 + x * 4 + w

/-- The macro `_MM_SHUFFLE2(x, y)`. -/
def _MM_SHUFFLE2 (x y : Nat) : Nat := x * 2 + y

/-- The intrinsic `_mm_shuffle_ps(a, b, imm)`: lanes 0 and 1 are picked from `a`,
lanes 2 and 3 from `b`, by two bits of `imm` each. -/
def _mm_shuffle_ps (a b : List Int) (imm : Nat) : List Int :=
  [a.getD (imm % 4) 0, a.getD (imm / 4 % 4) 0, b.getD (imm / 16 % 4) 0, b.getD (imm / 64 % 4) 0]

/-- The intrinsic `_mm_shuffle_pd(a, b, imm)`: lane 0 from `a`, lane 1 from `b`. -/
def _mm_shuffle_pd (a b : List Int) (imm : Nat) : List Int :=
  [a.getD (imm % 2) 0, b.getD (imm / 2 % 2) 0]

/-- The intrinsic `_mm_shuffle_epi32(a, imm)`. -/
def _mm_shuffle_epi32 (a : List Int) (imm : Nat) : List Int :=
  [a.getD (imm % 4) 0, a.getD (imm / 4 % 4) 0, a.getD (imm / 16 % 4) 0, a.getD (imm / 64 % 4) 0]

/-- The intrinsic `_mm_shufflelo_epi16(a, imm)`: the low four words are shuffled,
the high four copied. -/
def _mm_shufflelo_epi16 (a : List Int) (imm : Nat) : List Int :=
  _mm_shuffle_epi32 (a.take 4) imm ++ a.drop 4

/-- The intrinsic `_mm_shufflehi_epi16(a, imm)`: the high four words are shuffled
among themselves, the low four copied. -/
def _mm_shufflehi_epi16 (a : List Int) (imm : Nat) : List Int :=
  a.take 4 ++ _mm_shuffle_epi32 (a.drop 4) imm

/-- The 256-bit shuffles work on each 128-bit half by itself: `_mm256_shuffle_ps`. -/
def _mm256_shuffle_ps (a b : List Int) (imm : Nat) : List Int :=
  _mm_shuffle_ps (a.take 4) (b.take 4) imm ++ _mm_shuffle_ps (a.drop 4) (b.drop 4) imm

/-- The intrinsic `_mm256_shuffle_pd(a, b, imm)`: two bits of `imm` per 128-bit half. -/
def _mm256_shuffle_pd (a b : List Int) (imm : Nat) : List Int :=
  _mm_shuffle_pd (a.take 2) (b.take 2) (imm % 4) ++ _mm_shuffle_pd (a.drop 2) (b.drop 2) (imm / 4)

/-- The intrinsic `_mm256_shuffle_epi32(a, imm)`. -/
def _mm256_shuffle_epi32 (a : List Int) (imm : Nat) : List Int :=
  _mm_shuffle_epi32 (a.take 4) imm ++ _mm_shuffle_epi32 (a.drop 4) imm

/-- The intrinsic `_mm256_shufflelo_epi16(a, imm)`. -/
def _mm256_shufflelo_epi16 (a : List Int) (imm : Nat) : List Int :=
  _mm_shufflelo_epi16 (a.take 8) imm ++ _mm_shufflelo_epi16 (a.drop 8) imm

/-- The intrinsic `_mm256_shufflehi_epi16(a, imm)`. -/
def _mm256_shufflehi_epi16 (a : List Int) (imm : Nat) : List Int :=
  _mm_shufflehi_epi16 (a.take 8) imm ++ _mm_shufflehi_epi16 (a.drop 8) imm

/-- The lane-wise products `_mm_mul_ps`, `_mm_mul_pd`, `_mm_mullo_epi16`,
`_mm_mullo_epi32` and their 256-bit forms. -/
def mul (a b : List Int) : List Int := List.zipWith (· * ·) a b

/-- The lane-wise sums `_mm_add_ps`, `_mm_add_pd`, `_mm_add_epi16`, `_mm_add_epi32`
and their 256-bit forms. -/
def add (a b : List Int) : List Int := List.zipWith (· + ·) a b

/-- The lane-wise differences `_mm_sub_epi16`, `_mm_sub_epi32` and their 256-bit forms. -/
def sub (a b : List Int) : List Int := List.zipWith (· - ·) a b

/-- The intrinsics `_mm_addsub_ps`, `_mm_addsub_pd`, `_mm256_addsub_ps`,
`_mm256_addsub_pd`: subtract in the even lanes, add in the odd lanes. -/
def addsub (a b : List Int) : List Int :=
  (List.range a.length).map fun i =>
    if i % 2 = 0 then a.getD i 0 - b.getD i 0 else a.getD i 0 + b.getD i 0

/-- The intrinsics `_mm_set_ps(e3, e2, e1, e0)`, `_mm_set_epi32(e3, e2, e1, e0)` and
`_mm256_set_pd`, `_mm256_set_epi64x`: the last argument is lane 0. -/
def set4 {α : Type} (e3 e2 e1 e0 : α) : List α := [e0, e1, e2, e3]

/-- The intrinsics `_mm_set_pd(e1, e0)` and `_mm_set_epi64x(e1, e0)`. -/
def set2 {α : Type} (e1 e0 : α) : List α := [e0, e1]

/-- The intrinsics `_mm_set_epi16(e7, …, e0)`, `_mm256_set_ps(e7, …, e0)` and
`_mm256_set_epi32(e7, …, e0)`. -/
def set8 {α : Type} (e7 e6 e5 e4 e3 e2 e1 e0 : α) : List α := [e0, e1, e2, e3, e4, e5, e6, e7]

/-- The intrinsic `_mm256_set_epi16(e15, …, e0)`. -/
def set16 {α : Type} (e15 e14 e13 e12 e11 e10 e9 e8 e7 e6 e5 e4 e3 e2 e1 e0 : α) : List α :=
  [e0, e1, e2, e3, e4, e5, e6, e7, e8, e9, e10, e11, e12, e13, e14, e15]

/-- The intrinsics `_mm_xor_ps`, `_mm_xor_pd` with a mask of signed zeros, given
by its sign bits (`true` for `-0.0`): the sign of a lane is flipped where the
mask has `-0.0`. -/
def xorSign (y : List Int) (mask : List Bool) : List Int :=
  List.zipWith (fun v s => if s then -v else v) y mask

/-- The intrinsics `_mm_and_si128(mask, y)`, `_mm256_and_si256(mask, y)` with a
mask of lanes that are all ones (`true`) or zero. -/
def andMask (mask : List Bool) (y : List Int) : List Int :=
  List.zipWith (fun s v => if s then v else 0) mask y

/-- The intrinsics `_mm_andnot_si128(mask, y)`, `_mm256_andnot_si256(mask, y)`:
`(~mask) & y`. -/
def andnotMask (mask : List Bool) (y : List Int) : List Int :=
  List.zipWith (fun s v => if s then 0 else v) mask y

end Intrin

open Intrin in
/-- The `operator*` of `MLSIMD32cfSSE` (`Mul.h`); the flag says whether
`ML_MATH_SSE3` is defined. -/
def MLSIMD32cfSSE.mul (ML_MATH_SSE3 : Bool) (a b : List Int) : List Int :=
  let x := _mm_shuffle_ps a a (_MM_SHUFFLE 2 2 0 0)
  let z := Intrin.mul x b
  let x := _mm_shuffle_ps a a (_MM_SHUFFLE 3 3 1 1)
  let y := _mm_shuffle_ps b b (_MM_SHUFFLE 2 3 0 1)
  let y := Intrin.mul x y
  if ML_MATH_SSE3 then addsub z y
  else
    let mask := set4 true false true false
    let y := xorSign y mask
    Intrin.add z y

open Intrin in
/-- The `operator*` of `MLSIMD64cfSSE2` (`Mul.h`); the flag says whether
`ML_MATH_SSE3` is defined. -/
def MLSIMD64cfSSE2.mul (ML_MATH_SSE3 : Bool) (a b : List Int) : List Int :=
  let x := _mm_shuffle_pd a a (_MM_SHUFFLE2 0 0)
  let z := Intrin.mul x b
  let x := _mm_shuffle_pd a a (_MM_SHUFFLE2 1 1)
  let y := _mm_shuffle_pd b b (_MM_SHUFFLE2 0 1)
  let y := Intrin.mul x y
  if ML_MATH_SSE3 then addsub z y
  else
    let mask := set2 true false
    let y := xorSign y mask
    Intrin.add z y

open Intrin in
/-- The `operator*` of `TMLSIMD16cuiSSE2<SIMD>` (`Mul.h`). -/
def TMLSIMD16cuiSSE2.mul (a b : List Int) : List Int :=
  let x := _mm_shufflelo_epi16 a (_MM_SHUFFLE 2 2 0 0)
  let x := _mm_shufflehi_epi16 x (_MM_SHUFFLE 2 2 0 0)
  let z := Intrin.mul x b
  let x := _mm_shufflelo_epi16 a (_MM_SHUFFLE 3 3 1 1)
  let x := _mm_shufflehi_epi16 x (_MM_SHUFFLE 3 3 1 1)
  let y := _mm_shufflelo_epi16 b (_MM_SHUFFLE 2 3 0 1)
  let y := _mm_shufflehi_epi16 y (_MM_SHUFFLE 2 3 0 1)
  let y := Intrin.mul x y
  let mask := set8 true false true false true false true false
  let z := Intrin.add z (andMask mask y)
  Intrin.sub z (andnotMask mask y)

open Intrin in
/-- The `operator*` of `TMLSIMD32cuiSSE2<SIMD>` (`Mul.h`, under `ML_MATH_SSE4_1`). -/
def TMLSIMD32cuiSSE2.mul (a b : List Int) : List Int :=
  let x := _mm_shuffle_epi32 a (_MM_SHUFFLE 2 2 0 0)
  let z := Intrin.mul x b
  let x := _mm_shuffle_epi32 a (_MM_SHUFFLE 3 3 1 1)
  let y := _mm_shuffle_epi32 b (_MM_SHUFFLE 2 3 0 1)
  let y := Intrin.mul x y
  let mask := set4 true false true false
  let z := Intrin.add z (andMask mask y)
  Intrin.sub z (andnotMask mask y)

open Intrin in
/-- The `operator*` of `MLSIMD32cfAVX` (`Mul.h`). -/
def MLSIMD32cfAVX.mul (a b : List Int) : List Int :=
  let x := _mm256_shuffle_ps a a (_MM_SHUFFLE 2 2 0 0)
  let z := Intrin.mul x b
  let x := _mm256_shuffle_ps a a (_MM_SHUFFLE 3 3 1 1)
  let y := _mm256_shuffle_ps b b (_MM_SHUFFLE 2 3 0 1)
  let y := Intrin.mul x y
  addsub z y

open Intrin in
/-- The `operator*` of `MLSIMD64cfAVX` (`Mul.h`). -/
def MLSIMD64cfAVX.mul (a b : List Int) : List Int :=
  let x := _mm256_shuffle_pd a a 0b0000
  let z := Intrin.mul x b
  let x := _mm256_shuffle_pd a a 0b1111
  let y := _mm256_shuffle_pd b b 0b0101
  let y := Intrin.mul x y
  addsub z y

open Intrin in
/-- The `operator*` of `TMLSIMD16cuiAVX2<SIMD>` (`Mul.h`). -/
def TMLSIMD16cuiAVX2.mul (a b : List Int) : List Int :=
  let x := _mm256_shufflelo_epi16 a (_MM_SHUFFLE 2 2 0 0)
  let x := _mm256_shufflehi_epi16 x (_MM_SHUFFLE 2 2 0 0)
  let z := Intrin.mul x b
  let x := _mm256_shufflelo_epi16 a (_MM_SHUFFLE 3 3 1 1)
  let x := _mm256_shufflehi_epi16 x (_MM_SHUFFLE 3 3 1 1)
  let y := _mm256_shufflelo_epi16 b (_MM_SHUFFLE 2 3 0 1)
  let y := _mm256_shufflehi_epi16 y (_MM_SHUFFLE 2 3 0 1)
  let y := Intrin.mul x y
  let mask := set16 true false true false true false true false
    true false true false true false true false
  let z := Intrin.add z (andMask mask y)
  Intrin.sub z (andnotMask mask y)

open Intrin in
/-- The `operator*` of `TMLSIMD32cuiAVX2<SIMD>` (`Mul.h`). -/
def TMLSIMD32cuiAVX2.mul (a b : List Int) : List Int :=
  let x := _mm256_shuffle_epi32 a (_MM_SHUFFLE 2 2 0 0)
  let z := Intrin.mul x b
  let x := _mm256_shuffle_epi32 a (_MM_SHUFFLE 3 3 1 1)
  let y := _mm256_shuffle_epi32 b (_MM_SHUFFLE 2 3 0 1)
  let y := Intrin.mul x y
  let mask := set8 true false true false true false true false
  let z := Intrin.add z (andMask mask y)
  Intrin.sub z (andnotMask mask y)

namespace Intrin

/-- The bit pattern of an integer in `bits` bits (two's complement), as a number. -/
def toBits (bits : Nat) (x : Int) : Nat := (x % 2 ^ bits).toNat

/-- The signed value of the low `bits` bits of a bit pattern. -/
def toSigned (bits : Nat) (u : Nat) : Int :=
  if u % 2 ^ bits < 2 ^ (bits - 1) then ((u % 2 ^ bits : Nat) : Int)
  else ((u % 2 ^ bits : Nat) : Int) - 2 ^ bits

/-- The intrinsics `_mm_set1_epi8`, `_mm_set1_epi16`, `_mm_set1_epi32`,
`_mm_set1_epi64x`: every lane of `bits` bits holds the pattern of `a`. -/
def _mm_set1_epi (bits : Nat) (a : Int) : List Nat := List.replicate (128 / bits) (toBits bits a)

/-- The intrinsics `_mm256_set1_epi8`, `_mm256_set1_epi16`, `_mm256_set1_epi32`,
`_mm256_set1_epi64x`. -/
def _mm256_set1_epi (bits : Nat) (a : Int) : List Nat :=
  List.replicate (256 / bits) (toBits bits a)

/-- The elements `operator[]` reads from an integer register whose element type is
`std::complex` of an `N`-bit integer, the register given in lanes of `2N` bits:
the real part is the low half of a lane, the imaginary part the high half. -/
def complexLanes (N : Nat) (reg : List Nat) : List (Int × Int) :=
  reg.map fun w => (toSigned N w, toSigned N (w / 2 ^ N))

end Intrin

/-- The overloads `Set1(std::complex<T> val)` of `TMLSIMDIntrinsicIntegerSSE2Helper`
for `T` an integer of `N` = 8, 16 or 32 bits:
`_mm_set1_epi2N(*(reinterpret_cast<std::intN_t*>(&val)))`.  The dereferenced
pointer reads the first `N` bits of `val`, its real part, as a signed integer. -/
def TMLSIMDIntrinsicIntegerSSE2Helper.Set1_complex (N : Nat) (val : Int × Int) : List Nat :=
  Intrin._mm_set1_epi (2 * N) (Intrin.toSigned N (Intrin.toBits N val.1))

/-- The same overloads of `TMLSIMDIntrinsicIntegerAVX2Helper`, with `_mm256_set1_epi2N`. -/
def TMLSIMDIntrinsicIntegerAVX2Helper.Set1_complex (N : Nat) (val : Int × Int) : List Nat :=
  Intrin._mm256_set1_epi (2 * N) (Intrin.toSigned N (Intrin.toBits N val.1))

/-- The overload `Set1(std::complex<std::int64_t> val)` of the SSE2 integer helper:
`_mm_set_epi64x(im, re)`. -/
def TMLSIMDIntrinsicIntegerSSE2Helper.Set1_complex64 (val : Int × Int) : List Int :=
  Intrin.set2 val.2 val.1

/-- The overload `Set1(std::complex<std::int64_t> val)` of the AVX2 integer helper:
`_mm256_set_epi64x(im, re, im, re)`. -/
def TMLSIMDIntrinsicIntegerAVX2Helper.Set1_complex64 (val : Int × Int) : List Int :=
  Intrin.set4 val.2 val.1 val.2 val.1

/-- The overload `Set1(std::complex<float> val)` of `TMLSIMDIntrinsicFloatSSEHelper`:
`_mm_set_ps(im, re, im, re)`. -/
def TMLSIMDIntrinsicFloatSSEHelper.Set1_complex (val : Int × Int) : List Int :=
  Intrin.set4 val.2 val.1 val.2 val.1

/-- The overload `Set1(std::complex<double> val)` of `TMLSIMDIntrinsicDoubleSSE2Helper`:
`_mm_set_pd(val.imag(), val.real())`. -/
def TMLSIMDIntrinsicDoubleSSE2Helper.Set1_complex (val : Int × Int) : List Int :=
  Intrin.set2 val.2 val.1

/-- The overload `Set1(std::complex<float> val)` of `TMLSIMDIntrinsicFloatAVXHelper`:
`_mm256_set_ps(im, re, im, re, im, re, im, re)`. -/
def TMLSIMDIntrinsicFloatAVXHelper.Set1_complex (val : Int × Int) : List Int :=
  Intrin.set8 val.2 val.1 val.2 val.1 val.2 val.1 val.2 val.1

/-- The overload `Set1(std::complex<double> val)` of `TMLSIMDIntrinsicDoubleAVXHelper`:
`_mm256_set_pd(im, re, im, re)`. -/
def TMLSIMDIntrinsicDoubleAVXHelper.Set1_complex (val : Int × Int) : List Int :=
  Intrin.set4 val.2 val.1 val.2 val.1

/-- The functors `TMLSIMDDefaultAddHelper`, `TMLSIMDDefaultSubHelper`,
`TMLSIMDDefaultMulHelper` and `TMLSIMDDefaultDivHelper`, for the element
operation `op`: `m_res[i] = (~m_a)[i] op (~m_b)[i]`. -/
def SIMD.TMLSIMDDefaultHelper (op : Int → Int → Int) (m_a m_b : List Int) (i : Nat)
    (m_res : List Int) : List Int :=
  m_res.set i (op (m_a.getD i 0) (m_b.getD i 0))

/-- The default `operator+`, `operator-`, `operator*` and `operator/` of
`TMLSIMD<SIMD>`: a default-constructed (zero) register, then the helper for every
lane index through `MLConstexprFor<std::size_t, 0, TMLSIMDSize_v<SIMD>, 1>`. -/
def SIMD.defaultOperator (op : Int → Int → Int) (Size_v : Nat) (a b : List Int) :
    Except Fault (List Int) :=
  MLConstexprFor (fun _ => Fault.fuel) 0 Size_v 1
    (fun i res => .ok (SIMD.TMLSIMDDefaultHelper op a b i res)) (SIMD.SetZero Size_v)

/-- The default `MLSIMDFmadd(m1, m2, a)` through the default operators:
`(~m1) * (~m2) + (~a)`. -/
def SIMD.defaultFmadd (Size_v : Nat) (m1 m2 a : List Int) : Except Fault (List Int) :=
  SIMD.defaultOperator (· * ·) Size_v m1 m2 >>= fun p => SIMD.defaultOperator (· + ·) Size_v p a

/-- The cell of the buffer that `operator()(i, j)` refers to (0 outside the buffer). -/
def DenseMatrix.cell (m : DenseMatrix) (i j : Nat) : Int :=
  m.m_storage.getD (m.flatIndex i j) 0

/-- The partial sum `Σ_{p < k} x p · y p`, accumulated in ascending `p`. -/
def dotUpTo (x y : Nat → Int) : Nat → Int
  | 0 => 0
  | k + 1 => dotUpTo x y k + x k * y k

/-- Two matrix objects of the same type and shape over buffers of the same size. -/
def SameLayout (c c' : DenseMatrix) : Prop :=
  c'.isStatic = c.isStatic ∧ c'.rowMajor = c.rowMajor ∧ c'.SIMDSize = c.SIMDSize ∧
    c'.m_majorCnt = c.m_majorCnt ∧ c'.m_minorCnt = c.m_minorCnt ∧
    c'.m_paddedMinorCnt = c.m_paddedMinorCnt ∧ c'.m_storage.length = c.m_storage.length

namespace TMLDMDMMulExpression

/-- A row loop `for (; (i + regsA) <= c.Rows(); i += regsA)` of `VectorizedKernel`
with the sub-kernel call left open: `sub regsA regsB i j` stands for
`VectorizedSubKernelRRR<regsA, regsB>(c, a, b, i, j)` and `rows` for `c.Rows()`. -/
def cascadeRows {σ ε : Type} (out : σ → ε) (rows : σ → Nat)
    (sub : Nat → Nat → Nat → Nat → σ → Except ε σ) (regsA regsB j i : Nat) (s : σ) :
    Except ε (Nat × σ) :=
  forLoop out (fun i s => decide (i + regsA ≤ rows s)) regsA
    (fun i s => sub regsA regsB i j s) (rows s) i s

/-- The closing `if (i < c.Rows())` call of a column panel, sub-kernel call left open. -/
def cascadeLast {σ ε : Type} (rows : σ → Nat)
    (sub : Nat → Nat → Nat → Nat → σ → Except ε σ) (regsB j i : Nat) (s : σ) : Except ε σ :=
  if i < rows s then sub 1 regsB i j s else .ok s

/-- A column loop `for (; (j + regsB*simdSize) <= c.PaddedCols(); j += regsB*simdSize)`,
`paddedCols` standing for `c.PaddedCols()`. -/
def cascadeCols {σ ε : Type} (out : σ → ε) (paddedCols : σ → Nat) (regsB simdSize : Nat)
    (body : Nat → σ → Except ε σ) (j : Nat) (s : σ) : Except ε (Nat × σ) :=
  forLoop out (fun j s => decide (j + regsB * simdSize ≤ paddedCols s)) (regsB * simdSize)
    body (paddedCols s) j s

/-- The loop nest of `VectorizedKernel` for row-major matrices over any state:
the sub-kernel call, `c.Rows()` and `c.PaddedCols()` are parameters. -/
def cascade {σ ε : Type} (out : σ → ε) (rows paddedCols : σ → Nat) (simdSize : Nat)
    (sub : Nat → Nat → Nat → Nat → σ → Except ε σ) (s : σ) : Except ε σ :=
  cascadeCols out paddedCols 4 simdSize (fun j s =>
      cascadeRows out rows sub 3 4 j 0 s >>= fun r =>
      cascadeRows out rows sub 2 4 j r.1 r.2 >>= fun r =>
      cascadeLast rows sub 4 j r.1 r.2) 0 s >>= fun r =>
  cascadeCols out paddedCols 3 simdSize (fun j s =>
      cascadeRows out rows sub 4 3 j 0 s >>= fun r =>
      cascadeRows out rows sub 2 3 j r.1 r.2 >>= fun r =>
      cascadeLast rows sub 3 j r.1 r.2) r.1 r.2 >>= fun r =>
  cascadeCols out paddedCols 2 simdSize (fun j s =>
      cascadeRows out rows sub 2 2 j 0 s >>= fun r =>
      cascadeLast rows sub 2 j r.1 r.2) r.1 r.2 >>= fun r =>
  loopState (cascadeCols out paddedCols 1 simdSize (fun j s =>
      cascadeRows out rows sub 8 1 j 0 s >>= fun r =>
      cascadeRows out rows sub 4 1 j r.1 r.2 >>= fun r =>
      cascadeRows out rows sub 2 1 j r.1 r.2 >>= fun r =>
      loopState (cascadeRows out rows sub 1 1 j r.1 r.2)) r.1 r.2)

/-- The pairs `(regsB, regsA)` of template arguments with which `VectorizedKernel`
calls the sub-kernel, in source order. -/
def cascadeShapes : List (Nat × Nat) :=
  [(4, 3), (4, 2), (4, 1), (3, 4), (3, 2), (3, 1), (2, 2), (2, 1), (1, 8), (1, 4), (1, 2), (1, 1)]

/-- A call `VectorizedSubKernelRRR<regsA, regsB>(c, a, b, ro, co)`. -/
structure SubKernelCall where
  regsA : Nat
  regsB : Nat
  ro : Nat
  co : Nat
  deriving DecidableEq, Repr

/-- The calls of the sub-kernel that `VectorizedKernel` issues on a target of `R`
rows and `P` padded columns at lane count `w`, in order: the loop nest run with
a sub-kernel that records its arguments. -/
def callLog (R w P : Nat) : Except Unit (List SubKernelCall) :=
  cascade (fun _ => ()) (fun _ => R) (fun _ => P) w
    (fun regsA regsB ro co log => .ok (log ++ [⟨regsA, regsB, ro, co⟩])) []

/-- The call writes row `i` of the SIMD column strip `s` (columns `s·w … s·w + w − 1`). -/
def SubKernelCall.covers (w : Nat) (c : SubKernelCall) (i s : Nat) : Bool :=
  decide (c.ro ≤ i ∧ i < c.ro + c.regsA ∧ c.co ≤ s * w ∧ s * w < c.co + c.regsB * w)

end TMLDMDMMulExpression

/-- The rows `ro … ro + rA − 1` of the strips `t … t + rB − 1`, as (row, strip) pairs. -/
def blockRegion (ro rA t rB : Nat) : Set (Nat × Nat) :=
  {q | ro ≤ q.1 ∧ q.1 < ro + rA ∧ t ≤ q.2 ∧ q.2 < t + rB}

/-- What the cascade has gone through when it is at row `i` of the panel of the
strips `t … t + rB − 1`: all rows of the strips before `t`, and the rows before
`i` of the panel. -/
def doneRegion (R t rB i : Nat) : Set (Nat × Nat) :=
  {q | q.1 < R ∧ (q.2 < t ∨ (q.2 < t + rB ∧ q.1 < i))}

/-- All rows of the strips before `t`. -/
def colsDone (R t : Nat) : Set (Nat × Nat) := {q | q.1 < R ∧ q.2 < t}

/-- What the tiling argument asks of a sub-kernel over a state: `Φ D s` says that
`s` is a state in which exactly the (row, strip) pairs in `D` have been gone
through; such a state has `R` rows and `S` strips of `w` columns, and a call on a
block inside the target and outside `D` completes in a state for `D` plus the block. -/
structure TilingSpec {σ ε : Type} (rows paddedCols : σ → Nat) (w R S : Nat)
    (sub : Nat → Nat → Nat → Nat → σ → Except ε σ) (Φ : Set (Nat × Nat) → σ → Prop) :
    Prop where
  shape : ∀ D s, Φ D s → rows s = R ∧ paddedCols s = w * S
  step : ∀ D s rA rB ro t, Φ D s → (rB, rA) ∈ TMLDMDMMulExpression.cascadeShapes →
    ro + rA ≤ R → t + rB ≤ S → (∀ q ∈ blockRegion ro rA t rB, q ∉ D) →
    ∃ s', sub rA rB ro (w * t) s = .ok s' ∧ Φ (D ∪ blockRegion ro rA t rB) s'

/-- The register whose lane `ℓ` holds `f ℓ`. -/
def lanesOf (w : Nat) (f : Nat → Int) : List Int := (List.range w).map f

/-- The value the vectorized sub-kernel accumulates for the cell in row `i` and
column `j`: the sum over `p < a.Rows()` of `a(i,p)` times the cell `(p, j)` of `b`. -/
def subKernelSum (a b : DenseMatrix) (i j : Nat) : Int :=
  dotUpTo (fun p => a.cell i p) (fun p => b.cell p j) a.Rows

/-- The test program's `mmul_naive(c, a, b)` (`apps/Test/main.cpp`), for `a`
and `b` other objects than `c`: `c.SetZero()`, then
`c(i, j) += a(i, k) * b(k, j)` for `i < c.Rows()`, `k < a.Rows()`,
`j < c.Cols()`; the right operand of `+=` is evaluated before the left. -/
def mmul_naive (junk : Nat → Int) (c a b : DenseMatrix) : Except Abort DenseMatrix :=
  match c.SetZero junk with
  | .error ab => .error ab
  | .ok c0 =>
    loopState (forLoop (Abort.mk .fuel) (fun i c => decide (i < c.Rows)) 1
      (fun i c => loopState (forLoop (Abort.mk .fuel) (fun k _ => decide (k < a.Rows)) 1
        (fun k c => loopState (forLoop (Abort.mk .fuel) (fun j c => decide (j < c.Cols)) 1
          (fun j c =>
            match a.get i k with
            | .error f => .error ⟨f, c⟩
            | .ok a_ik =>
              match b.get k j with
              | .error f => .error ⟨f, c⟩
              | .ok b_kj =>
                match c.get i j with
                | .error f => .error ⟨f, c⟩
                | .ok c_ij => orAbort c (c.set i j (c_ij + a_ik * b_kj)))
          c.Cols 0 c))
        a.Rows 0 c))
      c0.Rows 0 c0)

/-- The matrix `[[5,6],[7,8]]` as a `TMLStaticMatrix<_, 2, 2, true, _>` of lane count 2. -/
def exStaticB : DenseMatrix := ⟨true, true, 2, 2, 2, 2, [5, 6, 7, 8]⟩

/-! ### Sizes in `std::size_t`

The definitions above compute sizes as natural numbers.  The ones below compute
them the way the source does, in `std::size_t` (64 bits): a sum or a product is
reduced modulo `2^64`.  The two agree as long as nothing wraps. -/

/-- The value of a `std::size_t` expression whose mathematical value is `x`. -/
def size_t (x : Nat) : Nat := x % 2 ^ 64

/-- The member `PaddedMinorCnt_v` of `Internal::TMLStaticMatrixMemoryLayout`,
computed in `std::size_t`. -/
def Typed.TMLStaticMatrixMemoryLayout.PaddedMinorCnt_v (SIMDSize_v MinCnt : Nat) : Nat :=
  size_t (MinCnt + (SIMDSize_v - MinCnt % SIMDSize_v) % SIMDSize_v)

/-- The member `PaddedSize_v` of `Internal::TMLStaticMatrixMemoryLayout`,
computed in `std::size_t`. -/
def Typed.TMLStaticMatrixMemoryLayout.PaddedSize_v (SIMDSize_v MajCnt MinCnt : Nat) : Nat :=
  size_t (MajCnt * Typed.TMLStaticMatrixMemoryLayout.PaddedMinorCnt_v SIMDSize_v MinCnt)

/-- The constructor `TMLDynamicMatrix(rows, cols, MLNoneType)` with its member
initialisers computed in `std::size_t`. -/
def Typed.TMLDynamicMatrix.ctorNone (junk : Nat → Int) (RowMajor : Bool)
    (SIMDSize rows cols : Nat) : DenseMatrix :=
  let m_majorCnt := if RowMajor then rows else cols
  let m_minorCnt := if RowMajor then cols else rows
  let m_paddedMinorCnt := size_t (m_minorCnt + (SIMDSize - m_minorCnt % SIMDSize) % SIMDSize)
  { isStatic := false, rowMajor := RowMajor, SIMDSize := SIMDSize,
    m_majorCnt := m_majorCnt, m_minorCnt := m_minorCnt,
    m_paddedMinorCnt := m_paddedMinorCnt,
    m_storage := MLAlignedAlloc junk (size_t (m_majorCnt * m_paddedMinorCnt)) }

/-- The constructor `TMLStaticMatrix<ET, N, M, RowMajor, maxSIMD>(MLNoneType)`
with the layout constants computed in `std::size_t`. -/
def Typed.TMLStaticMatrix.ctorNone (junk : Nat → Int) (RowMajor : Bool) (SIMDSize N M : Nat) :
    DenseMatrix :=
  let MajCnt := if RowMajor then N else M
  let MinCnt := if RowMajor then M else N
  { isStatic := true, rowMajor := RowMajor, SIMDSize := SIMDSize,
    m_majorCnt := MajCnt, m_minorCnt := MinCnt,
    m_paddedMinorCnt := Typed.TMLStaticMatrixMemoryLayout.PaddedMinorCnt_v SIMDSize MinCnt,
    m_storage := MLAlignedAlloc junk
      (Typed.TMLStaticMatrixMemoryLayout.PaddedSize_v SIMDSize MajCnt MinCnt) }

/-- The method `TMLDynamicMatrix::Resize(rows, cols, MLNoneType)` with its
assignments computed in `std::size_t`. -/
def Typed.DenseMatrix.Resize (junk : Nat → Int) (m : DenseMatrix) (rows cols : Nat) :
    DenseMatrix :=
  let m_majorCnt := if m.rowMajor then rows else cols
  let m_minorCnt := if m.rowMajor then cols else rows
  let m_paddedMinorCnt :=
    size_t (m_minorCnt + (m.SIMDSize - m_minorCnt % m.SIMDSize) % m.SIMDSize)
  { m with
    m_majorCnt := m_majorCnt, m_minorCnt := m_minorCnt,
    m_paddedMinorCnt := m_paddedMinorCnt,
    m_storage := TMLDynamicMatrixStorage.Resize junk m.m_storage
      (size_t (m_majorCnt * m_paddedMinorCnt)) }

/-- The sizes of a `rows × cols` matrix of lane count `SIMDSize` fit
`std::size_t`: the padded minor count and the number of buffer cells are below
`2^64`. -/
def SizesFit (RowMajor : Bool) (SIMDSize rows cols : Nat) : Prop :=
  (if RowMajor then cols else rows) +
      (SIMDSize - (if RowMajor then cols else rows) % SIMDSize) % SIMDSize < 2 ^ 64 ∧
    (if RowMajor then rows else cols) *
      ((if RowMajor then cols else rows) +
        (SIMDSize - (if RowMajor then cols else rows) % SIMDSize) % SIMDSize) < 2 ^ 64

instance (RowMajor : Bool) (SIMDSize rows cols : Nat) :
    Decidable (SizesFit RowMajor SIMDSize rows cols) := by
  unfold SizesFit; infer_instance

/-- The addresses `MLAlignedAlloc<T>(size, alignment)` works with: the block
`std::malloc` returned, the number of bytes asked of it, and the aligned
address handed to the caller. -/
structure AllocLayout where
  mem : Nat
  rawBytes : Nat
  uptr : Nat
  deriving DecidableEq, Repr

/-- The address arithmetic of `MLAlignedAlloc<T>(size, alignment)`, in
`std::size_t` and `std::uintptr_t` (64 bits): no block for `size == 0`; else
`padding = alignment + sizeof(void*)`, a block of `size * sizeof(T) + padding`
bytes at the address `malloc` gives, and
`uptr = ((mem + padding) / alignment) * alignment`. -/
def MLAlignedAlloc.layout (malloc : Nat → Nat) (sizeofT sizeofPtr size alignment : Nat) :
    Option AllocLayout :=
  if size = 0 then none
  else
    let padding := size_t (alignment + sizeofPtr)
    let rawBytes := size_t (size_t (size * sizeofT) + padding)
    let mem := malloc rawBytes
    some ⟨mem, rawBytes, size_t (size_t (mem + padding) / alignment * alignment)⟩

/-- The recursion of `Internal::TMLConstexprFor_Helper<ItType, Start, End, Inc, F, end>::Exec`
with the counter in `ItType`: `ItType x` is the value the template argument
`Start + Inc` has as an `ItType` when its mathematical value is `x` (for
`std::size_t`, `x mod 2^64`).  The first argument bounds the depth of the
recursion; running out is the outcome `out s`. -/
def Typed.TMLConstexprFor_Helper.Exec {σ ε : Type} (ItType : Int → Int) (out : σ → ε)
    (End Inc : Int) (f : Int → σ → Except ε σ) : Nat → Int → Bool → σ → Except ε σ
  | _, _, false, s => .ok s
  | 0, _, true, s => .error (out s)
  | fuel + 1, Start, true, s =>
    match f Start s with
    | .error e => .error e
    | .ok s1 => Typed.TMLConstexprFor_Helper.Exec ItType out End Inc f fuel
        (ItType (Start + Inc)) (decide (ItType (Start + Inc) < End)) s1

/-- The call `MLConstexprFor<ItType, Start, End, Inc>(f)`, with the depth allowed
to the recursion as first argument. -/
def Typed.MLConstexprFor {σ ε : Type} (ItType : Int → Int) (out : σ → ε) (fuel : Nat)
    (Start End Inc : Int) (f : Int → σ → Except ε σ) (s : σ) : Except ε σ :=
  Typed.TMLConstexprFor_Helper.Exec ItType out End Inc f fuel Start (decide (Start < End)) s

/-- The values `Start, Start + Inc, …, Start + (n − 1)·Inc`. -/
def stepValues (Start Inc : Int) (n : Nat) : List Int :=
  (List.range n).map fun (k : Nat) => Start + (k : Int) * Inc

/-- The number of values `Start + k·Inc`, `k = 0, 1, …`, below `End`. -/
def stepCount (Start End Inc : Int) : Nat :=
  ((End - Start).toNat + Inc.toNat - 1) / Inc.toNat

/-- An element type as `operator()` of a node uses it, with its values given as
integers: the conversion `static_cast<ElementType>` of an operand's element,
the type's `*`, and its `+=`. -/
structure ElemOps where
  static_cast : Int → Int
  mul : Int → Int → Int
  addAssign : Int → Int → Int

/-- An element type in which conversion, product and sum are exact. -/
def ElemOps.exact : ElemOps := ⟨id, (· * ·), (· + ·)⟩

/-- The element type `std::uint8_t`: the conversion reduces modulo 256; the
factors of `*` are promoted to `int`, whose product of two such values is
exact; `+=` adds in `int` and converts the sum back. -/
def ElemOps.uint8 : ElemOps := ⟨(· % 256), (· * ·), fun res x => (res + x) % 256⟩

/-- The method `operator()(i, j)` of the MatMul node with the arithmetic of its
`ElementType`: `res = 0`, then
`res += static_cast<ElementType>(lhs(i, k)) * static_cast<ElementType>(rhs(k, j))`
for `k < lhs.Cols()`. -/
def Typed.TMLDMDMMulExpression.eval (E : ElemOps) (m_lhs m_rhs : DenseMatrix) (i j : Nat) :
    Except Fault Int :=
  if i < TMLDMDMMulExpression.Rows m_lhs m_rhs ∧ j < TMLDMDMMulExpression.Cols m_lhs m_rhs then
    loopState (forLoop (fun _ => Fault.fuel) (fun k _ => decide (k < m_lhs.Cols)) 1
      (fun k res =>
        match m_lhs.get i k with
        | .error f => .error f
        | .ok x =>
          match m_rhs.get k j with
          | .error f => .error f
          | .ok y => .ok (E.addAssign res (E.mul (E.static_cast x) (E.static_cast y))))
      m_lhs.Cols 0 (E.static_cast 0))
  else .error .index

/-- The 1×1 matrix `[[200]]`: dynamic, row-major, lane count 1. -/
def ex200 : DenseMatrix := ⟨false, true, 1, 1, 1, 1, [200]⟩

/-- The 1×1 matrix `[[2]]`: dynamic, row-major, lane count 1. -/
def ex2 : DenseMatrix := ⟨false, true, 1, 1, 1, 1, [2]⟩

/-- An outcome satisfies `P` if it completed and `Q` if it stopped. -/
def Holds {ε α : Type} (P : α → Prop) (Q : ε → Prop) : Except ε α → Prop
  | .ok a => P a
  | .error e => Q e

/-- What every kernel keeps of its target: the matrix type, the logical counts,
and the padding invariant if it held. -/
def Pres (c c' : DenseMatrix) : Prop :=
  c'.isStatic = c.isStatic ∧ c'.rowMajor = c.rowMajor ∧ c'.SIMDSize = c.SIMDSize ∧
    c'.m_majorCnt = c.m_majorCnt ∧ c'.m_minorCnt = c.m_minorCnt ∧
    (c.PaddingInv → c'.PaddingInv)

/-- The stop is not the shape assertion of `TMLStaticMatrix::Assign`. -/
def NoStaticFault (ab : Abort) : Prop := ab.fault ≠ .staticShape

/-- A step on the target that keeps `Pres` and never raises the static shape assertion. -/
def StepOK (f : DenseMatrix → Except Abort DenseMatrix) : Prop :=
  ∀ s, Holds (Pres s) NoStaticFault (f s)

/-! ### Statements over a store of objects

The nodes and kernels once more, over a store in which every matrix object has
an address: a node holds the addresses of its operands, every read and every
write names the address it goes to, and the state the loops thread through is
the whole store.  Sizes are computed in `std::size_t`. -/

/-- The matrix objects of a program, by address. -/
abbrev Objects := List DenseMatrix

/-- The object at an address (an empty matrix at an address that names none). -/
def ByRef.obj (h : Objects) (p : Nat) : DenseMatrix := h.getD p ⟨false, true, 1, 0, 0, 0, []⟩

/-- A stopped statement: the fault, and the objects as they are at that moment. -/
structure ByRef.Abort where
  fault : Fault
  objects : Objects
  deriving DecidableEq, Repr

/-- The outcome of a write through a reference to the object at address `p`:
the object is replaced, or the statement stops with the fault. -/
def ByRef.write (h : Objects) (p : Nat) : Except Fault DenseMatrix → Except ByRef.Abort Objects
  | .ok m => .ok (h.set p m)
  | .error f => .error ⟨f, h⟩

/-- The end of the block that declared the newest object: the object is
destroyed, also when the statement stopped inside the block. -/
def ByRef.endScope : Except ByRef.Abort Objects → Except ByRef.Abort Objects
  | .ok h => .ok h.dropLast
  | .error ab => .error ⟨ab.fault, ab.objects.dropLast⟩

/-- The store loops of `TMLDMSetZeroExpression::AssignTo` and
`TMLDMSet1Expression::AssignTo` on the object at `res`. -/
def ByRef.storeLoops (reg : List Int) (res : Nat) (h : Objects) : Except ByRef.Abort Objects :=
  loopState (forLoop (ByRef.Abort.mk .fuel) (fun i h => decide (i < (ByRef.obj h res).Rows)) 1
    (fun i h => loopState (forLoop (ByRef.Abort.mk .fuel)
      (fun j h => decide (j < (ByRef.obj h res).Cols)) (ByRef.obj h res).SIMDSize
      (fun j h => ByRef.write h res ((ByRef.obj h res).Store reg i j))
      (ByRef.obj h res).Cols 0 h))
    (ByRef.obj h res).Rows 0 h)

/-- The method `TMLDMSetZeroExpression::AssignTo(res)`. -/
def ByRef.TMLDMSetZeroExpression.AssignTo (m_rows m_cols : Nat) (res : Nat) (h : Objects) :
    Except ByRef.Abort Objects :=
  if m_rows = (ByRef.obj h res).Rows ∧ m_cols = (ByRef.obj h res).Cols then
    ByRef.storeLoops (SIMD.SetZero (ByRef.obj h res).SIMDSize) res h
  else .error ⟨.targetShape, h⟩

/-- The body shared by every `Assign(expr)` of the object at `this`: a static
matrix asserts that the shapes agree, a dynamic one resizes to `rows × cols`;
then `expr.AssignTo(*this)` runs. -/
def ByRef.AssignWith (junk : Nat → Int) (this : Nat) (rows cols : Nat)
    (assignTo : Objects → Except ByRef.Abort Objects) (h : Objects) :
    Except ByRef.Abort Objects :=
  if (ByRef.obj h this).isStatic then
    if rows = (ByRef.obj h this).Rows ∧ cols = (ByRef.obj h this).Cols then assignTo h
    else .error ⟨.staticShape, h⟩
  else assignTo (h.set this (Typed.DenseMatrix.Resize junk (ByRef.obj h this) rows cols))

/-- The method `SetZero()` of the object at `this`. -/
def ByRef.SetZero (junk : Nat → Int) (this : Nat) (h : Objects) : Except ByRef.Abort Objects :=
  ByRef.AssignWith junk this (ByRef.obj h this).Rows (ByRef.obj h this).Cols
    (ByRef.TMLDMSetZeroExpression.AssignTo (ByRef.obj h this).Rows (ByRef.obj h this).Cols this)
    h

/-- The method `DefaultKernel(res, lhs)` of the copy node. -/
def ByRef.TMLDMAssignExpression.DefaultKernel (res lhs : Nat) (h : Objects) :
    Except ByRef.Abort Objects :=
  loopState (forLoop (ByRef.Abort.mk .fuel) (fun i h => decide (i < (ByRef.obj h lhs).Rows)) 1
    (fun i h => loopState (forLoop (ByRef.Abort.mk .fuel)
      (fun j h => decide (j < (ByRef.obj h lhs).Cols)) 1
      (fun j h =>
        match (ByRef.obj h lhs).get i j with
        | .error f => .error ⟨f, h⟩
        | .ok v => ByRef.write h res ((ByRef.obj h res).set i j v))
      (ByRef.obj h lhs).Cols 0 h))
    (ByRef.obj h lhs).Rows 0 h)

/-- The method `VectorizedKernel(res, lhs)` of the copy node. -/
def ByRef.TMLDMAssignExpression.VectorizedKernel (res lhs : Nat) (h : Objects) :
    Except ByRef.Abort Objects :=
  loopState (forLoop (ByRef.Abort.mk .fuel) (fun i h => decide (i < (ByRef.obj h res).Rows)) 1
    (fun i h => loopState (forLoop (ByRef.Abort.mk .fuel)
      (fun j h => decide (j < (ByRef.obj h res).Cols)) (ByRef.obj h lhs).SIMDSize
      (fun j h =>
        match (ByRef.obj h lhs).Load i j with
        | .error f => .error ⟨f, h⟩
        | .ok reg => ByRef.write h res ((ByRef.obj h res).Store reg i j))
      (ByRef.obj h res).Cols 0 h))
    (ByRef.obj h res).Rows 0 h)

/-- The overloads of `ExecuteKernel(res, lhs)` of the copy node. -/
def ByRef.TMLDMAssignExpression.ExecuteKernel (res lhs : Nat) (h : Objects) :
    Except ByRef.Abort Objects :=
  if TMLDMAssignExpression.IsVectorizable (ByRef.obj h res) (ByRef.obj h lhs) then
    ByRef.TMLDMAssignExpression.VectorizedKernel res lhs h
  else ByRef.TMLDMAssignExpression.DefaultKernel res lhs h

/-- The method `TMLDMAssignExpression::AssignTo(res)`; the self-assignment test
compares the two addresses. -/
def ByRef.TMLDMAssignExpression.AssignTo (m_lhs res : Nat) (h : Objects) :
    Except ByRef.Abort Objects :=
  if (ByRef.obj h res).Rows = (ByRef.obj h m_lhs).Rows ∧
      (ByRef.obj h res).Cols = (ByRef.obj h m_lhs).Cols then
    if res = m_lhs then .ok h
    else ByRef.TMLDMAssignExpression.ExecuteKernel res m_lhs h
  else .error ⟨.targetShape, h⟩

/-- The method `Assign(const TMLDenseMatrix<MT>& rhs)` of the object at `this`. -/
def ByRef.AssignMatrix (junk : Nat → Int) (this rhs : Nat) (h : Objects) :
    Except ByRef.Abort Objects :=
  ByRef.AssignWith junk this (ByRef.obj h rhs).Rows (ByRef.obj h rhs).Cols
    (ByRef.TMLDMAssignExpression.AssignTo rhs this) h

/-- The copy constructor `auto tmp = TmpType(rhs)`: the new object takes the
next free address and is built from the copy node of the object at `rhs`. -/
def ByRef.copyCtor (junk : Nat → Int) (rhs : Nat) (h : Objects) : Except ByRef.Abort Objects :=
  if (ByRef.obj h rhs).isStatic then
    ByRef.AssignWith junk h.length (ByRef.obj h rhs).Rows (ByRef.obj h rhs).Cols
      (ByRef.TMLDMAssignExpression.AssignTo rhs h.length)
      (h ++ [Typed.TMLStaticMatrix.ctorNone junk (ByRef.obj h rhs).rowMajor
        (ByRef.obj h rhs).SIMDSize (ByRef.obj h rhs).Rows (ByRef.obj h rhs).Cols])
  else
    ByRef.TMLDMAssignExpression.AssignTo rhs h.length
      (h ++ [Typed.TMLDynamicMatrix.ctorNone junk (ByRef.obj h rhs).rowMajor
        (ByRef.obj h rhs).SIMDSize (ByRef.obj h rhs).Rows (ByRef.obj h rhs).Cols])

/-- The method `DefaultKernel(c, a, b)` of the Add node. -/
def ByRef.TMLDMDMAddExpression.DefaultKernel (c a b : Nat) (h : Objects) :
    Except ByRef.Abort Objects :=
  loopState (forLoop (ByRef.Abort.mk .fuel) (fun i h => decide (i < (ByRef.obj h c).Rows)) 1
    (fun i h => loopState (forLoop (ByRef.Abort.mk .fuel)
      (fun j h => decide (j < (ByRef.obj h c).Cols)) 1
      (fun j h =>
        match (ByRef.obj h a).get i j with
        | .error f => .error ⟨f, h⟩
        | .ok x =>
          match (ByRef.obj h b).get i j with
          | .error f => .error ⟨f, h⟩
          | .ok y => ByRef.write h c ((ByRef.obj h c).set i j (x + y)))
      (ByRef.obj h c).Cols 0 h))
    (ByRef.obj h c).Rows 0 h)

/-- The method `TMLDMDMAddExpression::AssignTo(res)`. -/
def ByRef.TMLDMDMAddExpression.AssignTo (m_lhs m_rhs res : Nat) (h : Objects) :
    Except ByRef.Abort Objects :=
  if (ByRef.obj h res).Rows = (ByRef.obj h m_lhs).Rows ∧
      (ByRef.obj h res).Cols = (ByRef.obj h m_rhs).Cols then
    ByRef.TMLDMDMAddExpression.DefaultKernel res m_lhs m_rhs h
  else .error ⟨.targetShape, h⟩

/-- The method `DefaultKernel(c, a, b)` of the MatMul node. -/
def ByRef.TMLDMDMMulExpression.DefaultKernel (junk : Nat → Int) (c a b : Nat) (h : Objects) :
    Except ByRef.Abort Objects :=
  match ByRef.SetZero junk c h with
  | .error ab => .error ab
  | .ok h =>
    loopState (forLoop (ByRef.Abort.mk .fuel) (fun i h => decide (i < (ByRef.obj h a).Rows)) 1
      (fun i h => loopState (forLoop (ByRef.Abort.mk .fuel)
        (fun k h => decide (k < (ByRef.obj h a).Cols)) 1
        (fun k h =>
          match (ByRef.obj h a).get i k with
          | .error f => .error ⟨f, h⟩
          | .ok a_ik =>
            loopState (forLoop (ByRef.Abort.mk .fuel)
              (fun j h => decide (j < (ByRef.obj h b).Cols)) 1
              (fun j h =>
                match (ByRef.obj h b).get k j with
                | .error f => .error ⟨f, h⟩
                | .ok b_kj =>
                  match (ByRef.obj h c).get i j with
                  | .error f => .error ⟨f, h⟩
                  | .ok c_ij => ByRef.write h c ((ByRef.obj h c).set i j (c_ij + a_ik * b_kj)))
              (ByRef.obj h b).Cols 0 h))
        (ByRef.obj h a).Cols 0 h))
      (ByRef.obj h a).Rows 0 h)

/-- One pass over the accumulators `csum[ai][bi]` of the sub-kernel for a fixed
`p`, reading the objects at `a` and `b`. -/
def ByRef.TMLDMDMMulExpression.accumulate (regsA regsB : Nat) (a b : Nat) (ro co p : Nat)
    (op : List Int → List Int → List Int → List Int) (h : Objects)
    (csum : Nat → Nat → List Int) : Except ByRef.Abort (Nat → Nat → List Int) :=
  MLConstexprFor (fun _ => ByRef.Abort.mk .fuel h) 0 regsB 1
    (fun bi csum =>
      match (ByRef.obj h b).Load p (co + bi * (ByRef.obj h a).SIMDSize) with
      | .error f => .error ⟨f, h⟩
      | .ok bb =>
        MLConstexprFor (fun _ => ByRef.Abort.mk .fuel h) 0 regsA 1
          (fun ai csum =>
            match (ByRef.obj h a).get (ro + ai) p with
            | .error f => .error ⟨f, h⟩
            | .ok a_val =>
              .ok (fun x y =>
                if x = ai ∧ y = bi then
                  op (SIMD.Set1 (ByRef.obj h a).SIMDSize a_val) bb (csum ai bi)
                else csum x y))
          csum)
    csum

/-- The method `VectorizedSubKernelRRR<regsA, regsB>(c, a, b, ro, co)`. -/
def ByRef.TMLDMDMMulExpression.VectorizedSubKernelRRR (regsA regsB : Nat) (c a b : Nat)
    (ro co : Nat) (h : Objects) : Except ByRef.Abort Objects :=
  if (ByRef.obj h a).Rows > 0 then
    match ByRef.TMLDMDMMulExpression.accumulate regsA regsB a b ro co 0
        (fun aa bb _ => SIMD.mul aa bb) h (fun _ _ => SIMD.SetZero (ByRef.obj h a).SIMDSize) with
    | .error ab => .error ab
    | .ok csum0 =>
      match loopState (forLoop (fun _ => ByRef.Abort.mk .fuel h)
          (fun p _ => decide (p < (ByRef.obj h a).Rows)) 1
          (fun p csum => ByRef.TMLDMDMMulExpression.accumulate regsA regsB a b ro co p
            SIMD.MLSIMDFmadd h csum)
          (ByRef.obj h a).Rows 1 csum0) with
      | .error ab => .error ab
      | .ok csum =>
        loopState (forLoop (ByRef.Abort.mk .fuel) (fun ai _ => decide (ai < regsA)) 1
          (fun ai h => loopState (forLoop (ByRef.Abort.mk .fuel)
            (fun bi _ => decide (bi < regsB)) 1
            (fun bi h => ByRef.write h c
              ((ByRef.obj h c).Store (csum ai bi) (ro + ai)
                (co + bi * (ByRef.obj h a).SIMDSize)))
            regsB 0 h))
          regsA 0 h)
  else .ok h

/-- A row loop `for (; (i + regsA) <= c.Rows(); i += regsA)` of the cascade. -/
def ByRef.TMLDMDMMulExpression.rowBlocks (regsA regsB : Nat) (c a b : Nat) (j i : Nat)
    (h : Objects) : Except ByRef.Abort (Nat × Objects) :=
  forLoop (ByRef.Abort.mk .fuel) (fun i h => decide (i + regsA ≤ (ByRef.obj h c).Rows)) regsA
    (fun i h => ByRef.TMLDMDMMulExpression.VectorizedSubKernelRRR regsA regsB c a b i j h)
    (ByRef.obj h c).Rows i h

/-- The closing `if (i < c.Rows()) VectorizedSubKernelRRR<1, regsB>(c, a, b, i, j)`. -/
def ByRef.TMLDMDMMulExpression.lastRow (regsB : Nat) (c a b : Nat) (j i : Nat) (h : Objects) :
    Except ByRef.Abort Objects :=
  if i < (ByRef.obj h c).Rows then
    ByRef.TMLDMDMMulExpression.VectorizedSubKernelRRR 1 regsB c a b i j h
  else .ok h

/-- A column loop `for (; (j + regsB*simdSize) <= c.PaddedCols(); j += regsB*simdSize)`. -/
def ByRef.TMLDMDMMulExpression.colPanels (regsB simdSize : Nat) (c : Nat)
    (body : Nat → Objects → Except ByRef.Abort Objects) (j : Nat) (h : Objects) :
    Except ByRef.Abort (Nat × Objects) :=
  forLoop (ByRef.Abort.mk .fuel)
    (fun j h => decide (j + regsB * simdSize ≤ (ByRef.obj h c).PaddedCols))
    (regsB * simdSize) body (ByRef.obj h c).PaddedCols j h

/-- The method `VectorizedKernel(c, a, b)` of the MatMul node. -/
def ByRef.TMLDMDMMulExpression.VectorizedKernel (junk : Nat → Int) (c a b : Nat) (h : Objects) :
    Except ByRef.Abort Objects :=
  if (ByRef.obj h c).rowMajor && (ByRef.obj h a).rowMajor && (ByRef.obj h b).rowMajor then
    ByRef.TMLDMDMMulExpression.colPanels 4 (ByRef.obj h a).SIMDSize c (fun j h =>
        ByRef.TMLDMDMMulExpression.rowBlocks 3 4 c a b j 0 h >>= fun r =>
        ByRef.TMLDMDMMulExpression.rowBlocks 2 4 c a b j r.1 r.2 >>= fun r =>
        ByRef.TMLDMDMMulExpression.lastRow 4 c a b j r.1 r.2) 0 h >>= fun r =>
    ByRef.TMLDMDMMulExpression.colPanels 3 (ByRef.obj h a).SIMDSize c (fun j h =>
        ByRef.TMLDMDMMulExpression.rowBlocks 4 3 c a b j 0 h >>= fun r =>
        ByRef.TMLDMDMMulExpression.rowBlocks 2 3 c a b j r.1 r.2 >>= fun r =>
        ByRef.TMLDMDMMulExpression.lastRow 3 c a b j r.1 r.2) r.1 r.2 >>= fun r =>
    ByRef.TMLDMDMMulExpression.colPanels 2 (ByRef.obj h a).SIMDSize c (fun j h =>
        ByRef.TMLDMDMMulExpression.rowBlocks 2 2 c a b j 0 h >>= fun r =>
        ByRef.TMLDMDMMulExpression.lastRow 2 c a b j r.1 r.2) r.1 r.2 >>= fun r =>
    loopState (ByRef.TMLDMDMMulExpression.colPanels 1 (ByRef.obj h a).SIMDSize c (fun j h =>
        ByRef.TMLDMDMMulExpression.rowBlocks 8 1 c a b j 0 h >>= fun r =>
        ByRef.TMLDMDMMulExpression.rowBlocks 4 1 c a b j r.1 r.2 >>= fun r =>
        ByRef.TMLDMDMMulExpression.rowBlocks 2 1 c a b j r.1 r.2 >>= fun r =>
        loopState (ByRef.TMLDMDMMulExpression.rowBlocks 1 1 c a b j r.1 r.2)) r.1 r.2)
  else ByRef.TMLDMDMMulExpression.DefaultKernel junk c a b h

/-- The overloads of `ExecuteKernel(c, a, b)` of the MatMul node. -/
def ByRef.TMLDMDMMulExpression.ExecuteKernel (junk : Nat → Int) (c a b : Nat) (h : Objects) :
    Except ByRef.Abort Objects :=
  if TMLDMDMMulExpression.IsVectorizable (ByRef.obj h c) (ByRef.obj h a) (ByRef.obj h b) then
    ByRef.TMLDMDMMulExpression.VectorizedKernel junk c a b h
  else ByRef.TMLDMDMMulExpression.DefaultKernel junk c a b h

/-- The method `TMLDMDMMulExpression::AssignTo(res)`; `IsAlias` compares
addresses, and the temporary of the alias branch lives until the branch ends. -/
def ByRef.TMLDMDMMulExpression.AssignTo (junk : Nat → Int) (m_lhs m_rhs res : Nat)
    (h : Objects) : Except ByRef.Abort Objects :=
  if (ByRef.obj h res).Rows = (ByRef.obj h m_lhs).Rows ∧
      (ByRef.obj h res).Cols = (ByRef.obj h m_rhs).Cols then
    if res = m_lhs ∨ res = m_rhs then
      ByRef.endScope
        (match ByRef.copyCtor junk res h with
        | .error ab => .error ab
        | .ok h1 =>
          match ByRef.TMLDMDMMulExpression.ExecuteKernel junk h.length m_lhs m_rhs h1 with
          | .error ab => .error ab
          | .ok h2 => ByRef.AssignMatrix junk res h.length h2)
    else ByRef.TMLDMDMMulExpression.ExecuteKernel junk res m_lhs m_rhs h
  else .error ⟨.targetShape, h⟩

/-- The Add and the MatMul node over two operand references. -/
inductive ByRef.Expr where
  | add (m_lhs m_rhs : Nat)
  | mul (m_lhs m_rhs : Nat)
  deriving DecidableEq, Repr

/-- Building the node: the assertion of its constructor. -/
def ByRef.Expr.ctor (h : Objects) : ByRef.Expr → Except Fault Unit
  | .add l r => TMLDMDMAddExpression.ctor (ByRef.obj h l) (ByRef.obj h r)
  | .mul l r => TMLDMDMMulExpression.ctor (ByRef.obj h l) (ByRef.obj h r)

/-- The method `Rows()` of a node. -/
def ByRef.Expr.Rows (h : Objects) : ByRef.Expr → Nat
  | .add l r => TMLDMDMAddExpression.Rows (ByRef.obj h l) (ByRef.obj h r)
  | .mul l r => TMLDMDMMulExpression.Rows (ByRef.obj h l) (ByRef.obj h r)

/-- The method `Cols()` of a node. -/
def ByRef.Expr.Cols (h : Objects) : ByRef.Expr → Nat
  | .add l r => TMLDMDMAddExpression.Cols (ByRef.obj h l) (ByRef.obj h r)
  | .mul l r => TMLDMDMMulExpression.Cols (ByRef.obj h l) (ByRef.obj h r)

/-- The method `AssignTo(res)` of a node. -/
def ByRef.Expr.AssignTo (junk : Nat → Int) (e : ByRef.Expr) (res : Nat) (h : Objects) :
    Except ByRef.Abort Objects :=
  match e with
  | .add l r => ByRef.TMLDMDMAddExpression.AssignTo l r res h
  | .mul l r => ByRef.TMLDMDMMulExpression.AssignTo junk l r res h

/-- The statement `target = lhs + rhs;` or `target = lhs * rhs;` on objects given
by their addresses: the node is built (its constructor asserts), then assigned
by `Assign(expr)` of the target. -/
def ByRef.assignStmt (junk : Nat → Int) (target : Nat) (expr : ByRef.Expr) (h : Objects) :
    Except ByRef.Abort Objects :=
  match expr.ctor h with
  | .error f => .error ⟨f, h⟩
  | .ok _ =>
    ByRef.AssignWith junk target (expr.Rows h) (expr.Cols h) (expr.AssignTo junk target) h

/-- The objects outside `T` are the ones they were, and no object was added or removed. -/
def Frame (T : Nat → Prop) (h h' : Objects) : Prop :=
  h'.length = h.length ∧ ∀ p, ¬ T p → h'[p]? = h[p]?

/-- A step on the store that writes no object outside `T`, whether it completes or stops. -/
def WritesOnly (T : Nat → Prop) (f : Objects → Except ByRef.Abort Objects) : Prop :=
  ∀ h, Holds (Frame T h) (fun ab => Frame T h ab.objects) (f h)

/-- The objects a statement leaves, completed or stopped. -/
def ByRef.objectsAfter : Except ByRef.Abort Objects → Objects
  | .ok h => h
  | .error ab => ab.objects

/-! ## Worked statements -/

/-- C1: at `A = [[1,2,3],[4,5,6]]`, `B = [[7,8],[9,10],[11,12]]` (row-major, lane
count 2) and a separate target, `C = A * B` completes with `C = [[25,28],[73,82]]`:
the vectorized sub-kernel sums over `p < A.Rows()` (two terms), while the node's
own `operator()` sums over `p < A.Cols()` and gives 58, 64, 139, 154. -/
theorem C1_vectorized_product_of_2x3_by_3x2 :
    (assignStmt junk77 exEmpty (.mul (.other exA) (.other exB))).map DenseMatrix.elems
        = .ok [[.ok 25, .ok 28], [.ok 73, .ok 82]] ∧
      (List.range 2).map (fun i => (List.range 2).map fun j =>
          TMLDMDMMulExpression.eval exA exB i j)
        = [[.ok 58, .ok 64], [.ok 139, .ok 154]] := by
  decide

/-- C2: adding two 2×3 matrices stops at the assertion of the Add constructor,
which compares `lhs.Cols()` with `rhs.Rows()`; the target is untouched. -/
theorem C2_add_of_equal_nonsquare_shapes_asserts :
    exA.Rows = 2 ∧ exA.Cols = 3 ∧
      assignStmt junk77 exEmpty (.add (.other exA) (.other exA))
        = .error ⟨.exprDim, exEmpty⟩ := by
  decide

/-- C3: for the column-major 2×2 matrix `[[1,2],[3,4]]` of lane count 2,
`C = C * C` stops while the temporary copy is made: the vectorized copy kernel
loads a register at `(1, 0)`, one cell past an aligned offset.  The same
statement on the row-major matrix gives `[[7,10],[15,22]]`. -/
theorem C3_self_product_of_column_major_matrix :
    exColMajor.PaddingInv ∧ exColMajor.elems = [[.ok 1, .ok 2], [.ok 3, .ok 4]] ∧
      assignStmt junk77 exColMajor (.mul .self .self) = .error ⟨.misaligned, exColMajor⟩ ∧
      (assignStmt junk77 exSquare (.mul .self .self)).map DenseMatrix.elems
        = .ok [[.ok 7, .ok 10], [.ok 15, .ok 22]] := by
  decide

/-- C4: with `A = [[1,2],[3,4],[5,6]]` and `C = [[3],[4]]`, `C = A * C` completes
with a 3×1 matrix computed from the fresh memory `Resize` handed out, not from
the old `C`: `[[231],[539],[847]]` when fresh cells hold 77, all zero when they
hold 0, where the product with the old `C` is `[[11],[25],[39]]`. -/
theorem C4_aliased_right_operand_reads_fresh_memory :
    (assignStmt junk77 exColumn (.mul (.other exTall) .self)).map DenseMatrix.elems
        = .ok [[.ok 231], [.ok 539], [.ok 847]] ∧
      (assignStmt (fun _ => 0) exColumn (.mul (.other exTall) .self)).map DenseMatrix.elems
        = .ok [[.ok 0], [.ok 0], [.ok 0]] ∧
      (List.range 3).map (fun i => (List.range 1).map fun j =>
          TMLDMDMMulExpression.eval exTall exColumn i j)
        = [[.ok 11], [.ok 25], [.ok 39]] := by
  decide

/-- C5: adding the 2×3 matrix `A` and the 3×2 matrix `B` and assigning the sum to
a dynamic matrix raises no fault: the statement completes with the 2×2 matrix
`[[1+7, 2+8], [4+9, 5+10]]`. -/
theorem C5_add_of_2x3_and_3x2_completes :
    (exA.Rows, exA.Cols, exB.Rows, exB.Cols) = (2, 3, 3, 2) ∧
      faultOf (assignStmt junk77 exEmpty (.add (.other exA) (.other exB))) = none ∧
      (assignStmt junk77 exEmpty (.add (.other exA) (.other exB))).map DenseMatrix.elems
        = .ok [[.ok 8, .ok 10], [.ok 13, .ok 15]] := by
  decide

/-- C9: assigning the node `E = A * B` (operands other objects) to the dynamic
matrix `M = [[7,8],[9,10],[11,12]]` resizes `M` to `E.Rows() × E.Cols() = 2 × 2`,
but leaves `M(0,0) = 25` where `E(0,0) = 58`. -/
theorem C9_assigned_elements_differ_from_node_elements :
    ∃ m, assignStmt junk77 exB (.mul (.other exA) (.other exB)) = .ok m ∧
      m.Rows = (Expr.mul (.other exA) (.other exB)).Rows exB ∧
      m.Cols = (Expr.mul (.other exA) (.other exB)).Cols exB ∧
      m.get 0 0 = .ok 25 ∧
      (Expr.mul (.other exA) (.other exB)).eval exB 0 0 = .ok 58 :=
  ⟨⟨false, true, 2, 2, 2, 2, [25, 28, 73, 82]⟩, by decide⟩

/-! ## Shape checks and padding -/

/-- C6: building the product node of `A` and `B` fails its assertion exactly when
`A.Cols() ≠ B.Rows()`; a node that was built reports the shape
`A.Rows() × B.Cols()`. -/
theorem C6_mul_dimension_check (A B : DenseMatrix) :
    (TMLDMDMMulExpression.ctor A B = .error .exprDim ↔ A.Cols ≠ B.Rows) ∧
      (TMLDMDMMulExpression.ctor A B = .ok () ↔ A.Cols = B.Rows) ∧
      TMLDMDMMulExpression.Rows A B = A.Rows ∧ TMLDMDMMulExpression.Cols A B = B.Cols := by
  unfold TMLDMDMMulExpression.ctor TMLDMDMMulExpression.Rows TMLDMDMMulExpression.Cols
  by_cases h : A.Cols = B.Rows <;> simp [h]

/-- The padded count is the least multiple of the lane count above the count. -/
theorem padded_spec (w c : Nat) (hw : 0 < w) :
    w ∣ c + (w - c % w) % w ∧ c ≤ c + (w - c % w) % w ∧ c + (w - c % w) % w < c + w ∧
      ∀ k, w ∣ k → c ≤ k → c + (w - c % w) % w ≤ k := by
  have hlt : c % w < w := Nat.mod_lt c hw
  have hdiv : w ∣ c + (w - c % w) % w := by
    rcases Nat.eq_zero_or_pos (c % w) with h0 | hpos
    · rw [h0, Nat.sub_zero, Nat.mod_self, Nat.add_zero]
      exact Nat.dvd_of_mod_eq_zero h0
    · have hsub : (w - c % w) % w = w - c % w := Nat.mod_eq_of_lt (by omega)
      rw [hsub]
      have hc : c = w * (c / w) + c % w := (Nat.div_add_mod c w).symm
      refine ⟨c / w + 1, ?_⟩
      rw [Nat.mul_add, Nat.mul_one]
      omega
  have hmodlt : (w - c % w) % w < w := Nat.mod_lt _ hw
  refine ⟨hdiv, Nat.le_add_right _ _, by omega, ?_⟩
  intro k hk hck
  by_contra hcon
  have hklt : k < c + (w - c % w) % w := by omega
  obtain ⟨a, ha⟩ := hdiv
  obtain ⟨b, hb⟩ := hk
  have hab : b < a := by
    by_contra hba
    have : a ≤ b := by omega
    have : w * a ≤ w * b := Nat.mul_le_mul_left w this
    omega
  have : w * (b + 1) ≤ w * a := Nat.mul_le_mul_left w hab
  rw [Nat.mul_add, Nat.mul_one] at this
  omega

/-! ## What the kernels keep of their target -/

theorem Holds.mono {ε α : Type} {P P' : α → Prop} {Q : ε → Prop} {r : Except ε α}
    (h : Holds P Q r) (hP : ∀ a, P a → P' a) : Holds P' Q r := by
  cases r with
  | ok a => exact hP a h
  | error e => exact h

theorem Pres.refl (c : DenseMatrix) : Pres c c :=
  ⟨rfl, rfl, rfl, rfl, rfl, id⟩

theorem Pres.trans {a b c : DenseMatrix} (h1 : Pres a b) (h2 : Pres b c) : Pres a c := by
  obtain ⟨h11, h12, h13, h14, h15, h16⟩ := h1
  obtain ⟨h21, h22, h23, h24, h25, h26⟩ := h2
  exact ⟨h21.trans h11, h22.trans h12, h23.trans h13, h24.trans h14, h25.trans h15,
    fun h => h26 (h16 h)⟩

theorem Pres.rows {a b : DenseMatrix} (h : Pres a b) : b.Rows = a.Rows := by
  obtain ⟨_, h2, _, h4, h5, _⟩ := h
  simp [DenseMatrix.Rows, h2, h4, h5]

theorem Pres.cols {a b : DenseMatrix} (h : Pres a b) : b.Cols = a.Cols := by
  obtain ⟨_, h2, _, h4, h5, _⟩ := h
  simp [DenseMatrix.Cols, h2, h4, h5]

theorem forLoop_holds {σ ε : Type} {P : σ → Prop} {Q : ε → Prop} {out : σ → ε}
    {cond : Nat → σ → Bool} {inc : Nat} {body : Nat → σ → Except ε σ}
    (hout : ∀ s, Q (out s)) (hbody : ∀ i s, P s → Holds P Q (body i s)) :
    ∀ fuel i s, P s → Holds (fun r => P r.2) Q (forLoop out cond inc body fuel i s) := by
  intro fuel
  induction fuel with
  | zero =>
    intro i s hs
    unfold forLoop
    split
    · exact hout s
    · exact hs
  | succ n ih =>
    intro i s hs
    unfold forLoop
    split
    · have hb := hbody i s hs
      cases hbd : body i s with
      | error e => rw [hbd] at hb; exact hb
      | ok s1 => rw [hbd] at hb; exact ih (i + inc) s1 hb
    · exact hs

theorem loopState_holds {σ ε : Type} {P : σ → Prop} {Q : ε → Prop}
    {r : Except ε (Nat × σ)} (h : Holds (fun r => P r.2) Q r) : Holds P Q (loopState r) := by
  cases r with
  | ok a => exact h
  | error e => exact h

theorem constexprFor_holds {σ ε : Type} {P : σ → Prop} {Q : ε → Prop} {out : σ → ε}
    {End Inc : Nat} {f : Nat → σ → Except ε σ}
    (hout : ∀ s, Q (out s)) (hf : ∀ i s, P s → Holds P Q (f i s)) :
    ∀ fuel Start b s, P s →
      Holds P Q (TMLConstexprFor_Helper.Exec out End Inc f fuel Start b s) := by
  intro fuel
  induction fuel with
  | zero =>
    intro Start b s hs
    cases b
    · simpa [TMLConstexprFor_Helper.Exec] using hs
    · simpa [TMLConstexprFor_Helper.Exec, Holds] using hout s
  | succ n ih =>
    intro Start b s hs
    cases b
    · simpa [TMLConstexprFor_Helper.Exec] using hs
    · unfold TMLConstexprFor_Helper.Exec
      have hb := hf Start s hs
      cases hfd : f Start s with
      | error e => rw [hfd] at hb; exact hb
      | ok s1 => rw [hfd] at hb; exact ih _ _ s1 hb

theorem stepOK_loop {cond : Nat → DenseMatrix → Bool} {inc : Nat}
    {body : Nat → DenseMatrix → Except Abort DenseMatrix} (hbody : ∀ i, StepOK (body i))
    (fuel i : Nat) (s : DenseMatrix) :
    Holds (fun r => Pres s r.2) NoStaticFault
      (forLoop (Abort.mk .fuel) cond inc body fuel i s) :=
  forLoop_holds (P := Pres s) (fun _ => by simp [NoStaticFault])
    (fun i t ht => (hbody i t).mono fun _ h => ht.trans h) fuel i s (Pres.refl s)

theorem orAbort_holds {α : Type} {P : α → Prop} {c : DenseMatrix} {r : Except Fault α}
    (h : Holds P (fun f => f ≠ Fault.staticShape) r) : Holds P NoStaticFault (orAbort c r) := by
  cases r with
  | ok a => exact h
  | error f => exact h

theorem retarget_holds {α : Type} {P : α → Prop} {c : DenseMatrix} {r : Except Abort α}
    (h : Holds P NoStaticFault r) : Holds P NoStaticFault (retarget c r) := by
  cases r with
  | ok a => exact h
  | error f => exact h

theorem set_holds (c : DenseMatrix) (i j : Nat) (v : Int) :
    Holds (Pres c) (fun f => f ≠ Fault.staticShape) (c.set i j v) := by
  unfold DenseMatrix.set
  split
  · split
    · refine ⟨rfl, rfl, rfl, rfl, rfl, ?_⟩
      intro h
      simpa [DenseMatrix.PaddingInv] using h
    · simp [Holds]
  · simp [Holds]

theorem writeLanes_length (reg : List Int) : ∀ (buf : List Int) (o : Nat),
    (SIMD.writeLanes buf o reg).length = buf.length := by
  induction reg with
  | nil => intro buf o; rfl
  | cons x xs ih => intro buf o; simp [SIMD.writeLanes, ih]

theorem Store_holds (c : DenseMatrix) (reg : List Int) (i j : Nat) :
    Holds (Pres c) (fun f => f ≠ Fault.staticShape) (c.Store reg i j) := by
  unfold DenseMatrix.Store
  split
  · cases hst : SIMD.StoreAligned c.SIMDSize reg c.m_storage (c.flatIndex i j) with
    | error f =>
      simp only [Holds]
      unfold SIMD.StoreAligned at hst
      split at hst
      · cases hst; simp
      · split at hst
        · cases hst
        · cases hst; simp
    | ok buf =>
      have hlen : buf.length = c.m_storage.length := by
        unfold SIMD.StoreAligned at hst
        split at hst
        · cases hst
        · split at hst
          · cases hst; exact writeLanes_length _ _ _
          · cases hst
      refine ⟨rfl, rfl, rfl, rfl, rfl, ?_⟩
      intro h
      simpa [DenseMatrix.PaddingInv, hlen] using h
  · simp [Holds]

theorem get_fault (m : DenseMatrix) (i j : Nat) (f : Fault) (h : m.get i j = .error f) :
    f ≠ Fault.staticShape := by
  unfold DenseMatrix.get at h
  split at h
  · split at h
    · cases h
    · cases h; simp
  · cases h; simp

theorem Load_fault (m : DenseMatrix) (i j : Nat) (f : Fault) (h : m.Load i j = .error f) :
    f ≠ Fault.staticShape := by
  unfold DenseMatrix.Load at h
  split at h
  · unfold SIMD.LoadAligned at h
    split at h
    · cases h; simp
    · split at h
      · cases h
      · cases h; simp
  · cases h; simp

theorem storeLoops_ok (reg : List Int) : StepOK (storeLoops reg) := by
  intro s
  unfold storeLoops
  refine loopState_holds (stepOK_loop (fun i c => ?_) _ _ _)
  refine loopState_holds (stepOK_loop (fun j c => ?_) _ _ _)
  exact orAbort_holds (Store_holds c reg i j)

theorem setZero_assignTo_ok (r c : Nat) : StepOK (TMLDMSetZeroExpression.AssignTo r c) := by
  intro s
  unfold TMLDMSetZeroExpression.AssignTo
  split
  · exact storeLoops_ok _ s
  · simp [Holds, NoStaticFault]

theorem set1_assignTo_ok (v : Int) (r c : Nat) :
    StepOK (TMLDMSet1Expression.AssignTo v r c) := by
  intro s
  unfold TMLDMSet1Expression.AssignTo
  split
  · exact storeLoops_ok _ s
  · simp [Holds, NoStaticFault]

theorem assign_defaultKernel_ok (lhs : DenseMatrix) :
    StepOK (fun res => TMLDMAssignExpression.DefaultKernel res lhs) := by
  intro s
  unfold TMLDMAssignExpression.DefaultKernel
  refine loopState_holds (stepOK_loop (fun i c => ?_) _ _ _)
  refine loopState_holds (stepOK_loop (fun j c => ?_) _ _ _)
  cases hg : lhs.get i j with
  | error f => exact get_fault lhs i j f hg
  | ok v => exact orAbort_holds (set_holds c i j v)

theorem assign_vectorizedKernel_ok (lhs : DenseMatrix) :
    StepOK (fun res => TMLDMAssignExpression.VectorizedKernel res lhs) := by
  intro s
  unfold TMLDMAssignExpression.VectorizedKernel
  refine loopState_holds (stepOK_loop (fun i c => ?_) _ _ _)
  refine loopState_holds (stepOK_loop (fun j c => ?_) _ _ _)
  cases hg : lhs.Load i j with
  | error f => exact Load_fault lhs i j f hg
  | ok v => exact orAbort_holds (Store_holds c v i j)

theorem assign_executeKernel_ok (lhs : DenseMatrix) :
    StepOK (fun res => TMLDMAssignExpression.ExecuteKernel res lhs) := by
  intro s
  show Holds _ _ (TMLDMAssignExpression.ExecuteKernel s lhs)
  unfold TMLDMAssignExpression.ExecuteKernel
  split
  · exact assign_vectorizedKernel_ok lhs s
  · exact assign_defaultKernel_ok lhs s

theorem assign_assignTo_ok (l : Operand) : StepOK (TMLDMAssignExpression.AssignTo l) := by
  intro s
  unfold TMLDMAssignExpression.AssignTo
  split
  · split
    · exact Pres.refl s
    · exact assign_executeKernel_ok _ s
  · simp [Holds, NoStaticFault]

theorem alloc_length (junk : Nat → Int) (n : Nat) : (MLAlignedAlloc junk n).length = n := by
  unfold MLAlignedAlloc
  split
  · simp [*]
  · simp

theorem storage_resize_length (junk : Nat → Int) (buf : List Int) (n : Nat) :
    (TMLDynamicMatrixStorage.Resize junk buf n).length = n := by
  unfold TMLDynamicMatrixStorage.Resize
  split
  · exact alloc_length junk n
  · rename_i h; exact (not_not.mp h).symm

theorem Resize_inv (junk : Nat → Int) (m : DenseMatrix) (rows cols : Nat) :
    (m.Resize junk rows cols).PaddingInv := by
  unfold DenseMatrix.Resize DenseMatrix.PaddingInv
  exact ⟨rfl, storage_resize_length _ _ _⟩

theorem dyn_ctorNone_inv (junk : Nat → Int) (rm : Bool) (w rows cols : Nat) :
    (TMLDynamicMatrix.ctorNone junk rm w rows cols).PaddingInv := by
  unfold TMLDynamicMatrix.ctorNone DenseMatrix.PaddingInv
  exact ⟨rfl, alloc_length _ _⟩

theorem static_ctorNone_inv (junk : Nat → Int) (rm : Bool) (w N M : Nat) :
    (TMLStaticMatrix.ctorNone junk rm w N M).PaddingInv := by
  unfold TMLStaticMatrix.ctorNone DenseMatrix.PaddingInv
  exact ⟨rfl, alloc_length _ _⟩

/-- Resizing a matrix to the shape it has keeps its type and counts and yields the invariant. -/
theorem Resize_same_pres (junk : Nat → Int) (m : DenseMatrix) (rows cols : Nat)
    (hr : rows = m.Rows) (hc : cols = m.Cols) : Pres m (m.Resize junk rows cols) := by
  refine ⟨rfl, rfl, rfl, ?_, ?_, fun _ => Resize_inv junk m rows cols⟩
  · subst hr hc
    cases h : m.rowMajor <;> simp [DenseMatrix.Resize, DenseMatrix.Rows, DenseMatrix.Cols, h]
  · subst hr hc
    cases h : m.rowMajor <;> simp [DenseMatrix.Resize, DenseMatrix.Rows, DenseMatrix.Cols, h]

/-- `Assign` with a node of the target's own shape is a step that keeps `Pres`. -/
theorem assignWith_same_ok (junk : Nat → Int) (this : DenseMatrix) (rows cols : Nat)
    (assignTo : DenseMatrix → Except Abort DenseMatrix) (h : StepOK assignTo)
    (hr : rows = this.Rows) (hc : cols = this.Cols) :
    Holds (Pres this) NoStaticFault (this.AssignWith junk rows cols assignTo) := by
  unfold DenseMatrix.AssignWith
  split
  · rw [if_pos ⟨hr, hc⟩]
    exact h this
  · exact (h _).mono fun _ hp => (Resize_same_pres junk this rows cols hr hc).trans hp

theorem SetZero_ok (junk : Nat → Int) : StepOK (DenseMatrix.SetZero junk) := by
  intro s
  unfold DenseMatrix.SetZero
  exact assignWith_same_ok junk s _ _ _ (setZero_assignTo_ok _ _) rfl rfl

theorem Set1_ok (junk : Nat → Int) (v : Int) : StepOK (fun m => DenseMatrix.Set1 junk m v) := by
  intro s
  show Holds _ _ (DenseMatrix.Set1 junk s v)
  unfold DenseMatrix.Set1
  exact assignWith_same_ok junk s _ _ _ (set1_assignTo_ok _ _ _) rfl rfl

theorem static_ctorNone_rows (junk : Nat → Int) (rm : Bool) (w N M : Nat) :
    (TMLStaticMatrix.ctorNone junk rm w N M).Rows = N ∧
      (TMLStaticMatrix.ctorNone junk rm w N M).Cols = M := by
  cases rm <;> simp [TMLStaticMatrix.ctorNone, DenseMatrix.Rows, DenseMatrix.Cols]

theorem dyn_ctorNone_rows (junk : Nat → Int) (rm : Bool) (w N M : Nat) :
    (TMLDynamicMatrix.ctorNone junk rm w N M).Rows = N ∧
      (TMLDynamicMatrix.ctorNone junk rm w N M).Cols = M := by
  cases rm <;> simp [TMLDynamicMatrix.ctorNone, DenseMatrix.Rows, DenseMatrix.Cols]

/-- A completed copy construction gives an object of the type and shape of its
source that satisfies the padding invariant. -/
theorem copyCtor_holds (junk : Nat → Int) (rhs : DenseMatrix) :
    Holds (fun tmp => tmp.isStatic = rhs.isStatic ∧ tmp.Rows = rhs.Rows ∧ tmp.Cols = rhs.Cols ∧
        tmp.PaddingInv) NoStaticFault (rhs.copyCtor junk) := by
  unfold DenseMatrix.copyCtor
  split
  · rename_i hs
    have hshape := static_ctorNone_rows junk rhs.rowMajor rhs.SIMDSize rhs.Rows rhs.Cols
    refine (assignWith_same_ok junk _ rhs.Rows rhs.Cols _ (assign_assignTo_ok _)
      hshape.1.symm hshape.2.symm).mono ?_
    intro a hp
    refine ⟨?_, hp.rows.trans hshape.1, hp.cols.trans hshape.2,
      hp.2.2.2.2.2 (static_ctorNone_inv _ _ _ _ _)⟩
    rw [hp.1, hs]; rfl
  · rename_i hs
    have hshape := dyn_ctorNone_rows junk rhs.rowMajor rhs.SIMDSize rhs.Rows rhs.Cols
    refine (assign_assignTo_ok (.other rhs) _).mono ?_
    intro a hp
    refine ⟨?_, hp.rows.trans hshape.1, hp.cols.trans hshape.2,
      hp.2.2.2.2.2 (dyn_ctorNone_inv _ _ _ _ _)⟩
    rw [hp.1]; simpa [TMLDynamicMatrix.ctorNone] using (Bool.eq_false_iff.mpr hs).symm

theorem assignMatrix_same_ok (junk : Nat → Int) (this rhs : DenseMatrix)
    (hr : rhs.Rows = this.Rows) (hc : rhs.Cols = this.Cols) :
    Holds (Pres this) NoStaticFault (this.AssignMatrix junk rhs) := by
  unfold DenseMatrix.AssignMatrix
  exact assignWith_same_ok junk this _ _ _ (assign_assignTo_ok _) hr hc

theorem add_defaultKernel_ok (a b : Operand) :
    StepOK (fun c => TMLDMDMAddExpression.DefaultKernel c a b) := by
  intro s
  unfold TMLDMDMAddExpression.DefaultKernel
  refine loopState_holds (stepOK_loop (fun i c => ?_) _ _ _)
  refine loopState_holds (stepOK_loop (fun j c => ?_) _ _ _)
  cases hx : (a.deref c).get i j with
  | error f => exact get_fault _ i j f hx
  | ok x =>
    cases hy : (b.deref c).get i j with
    | error f => exact get_fault _ i j f hy
    | ok y => exact orAbort_holds (set_holds c i j (x + y))

theorem add_assignTo_ok (l r : Operand) : StepOK (TMLDMDMAddExpression.AssignTo l r) := by
  intro s
  unfold TMLDMDMAddExpression.AssignTo
  split
  · exact add_defaultKernel_ok l r s
  · simp [Holds, NoStaticFault]

theorem holds_bind {ε α β : Type} {P : α → Prop} {R : β → Prop} {Q : ε → Prop}
    {x : Except ε α} {f : α → Except ε β} (hx : Holds P Q x)
    (hf : ∀ a, P a → Holds R Q (f a)) : Holds R Q (x >>= f) := by
  cases x with
  | ok a => exact hf a hx
  | error e => exact hx

theorem mul_defaultKernel_ok (junk : Nat → Int) (a b : DenseMatrix) :
    StepOK (fun c => TMLDMDMMulExpression.DefaultKernel junk c a b) := by
  intro s
  show Holds _ _ (TMLDMDMMulExpression.DefaultKernel junk s a b)
  unfold TMLDMDMMulExpression.DefaultKernel
  have h0 := SetZero_ok junk s
  cases hz : s.SetZero junk with
  | error ab => rw [hz] at h0; exact h0
  | ok c0 =>
    rw [hz] at h0
    refine (loopState_holds (stepOK_loop (fun i c => ?_) _ _ c0)).mono fun _ h => h0.trans h
    refine loopState_holds (stepOK_loop (fun k c => ?_) _ _ _)
    cases ha : a.get i k with
    | error f => exact get_fault _ _ _ f ha
    | ok a_ik =>
      refine loopState_holds (stepOK_loop (fun j c => ?_) _ _ _)
      cases hb : b.get k j with
      | error f => exact get_fault _ _ _ f hb
      | ok b_kj =>
        cases hc : c.get i j with
        | error f => exact get_fault _ _ _ f hc
        | ok c_ij => exact orAbort_holds (set_holds c i j _)

theorem accumulate_holds (regsA regsB : Nat) (c a b : DenseMatrix) (ro co p : Nat)
    (op : List Int → List Int → List Int → List Int) (csum : Nat → Nat → List Int) :
    Holds (fun _ => True) NoStaticFault
      (TMLDMDMMulExpression.accumulate regsA regsB c a b ro co p op csum) := by
  unfold TMLDMDMMulExpression.accumulate MLConstexprFor
  refine constexprFor_holds (P := fun _ => True) (fun _ => by simp [NoStaticFault]) ?_ _ _ _ _
    trivial
  intro bi cs _
  cases hl : b.Load p (co + bi * a.SIMDSize) with
  | error f => exact Load_fault _ _ _ f hl
  | ok bb =>
    refine constexprFor_holds (P := fun _ => True) (fun _ => by simp [NoStaticFault]) ?_ _ _ _ _
      trivial
    intro ai cs2 _
    cases hg : a.get (ro + ai) p with
    | error f => exact get_fault _ _ _ f hg
    | ok v => trivial

theorem subKernel_ok (regsA regsB : Nat) (a b : DenseMatrix) (ro co : Nat) :
    StepOK (fun c => TMLDMDMMulExpression.VectorizedSubKernelRRR regsA regsB c a b ro co) := by
  intro s
  show Holds _ _ (TMLDMDMMulExpression.VectorizedSubKernelRRR regsA regsB s a b ro co)
  unfold TMLDMDMMulExpression.VectorizedSubKernelRRR
  split
  · have h0 := accumulate_holds regsA regsB s a b ro co 0 (fun aa bb _ => SIMD.mul aa bb)
      (fun _ _ => SIMD.SetZero a.SIMDSize)
    cases hacc : TMLDMDMMulExpression.accumulate regsA regsB s a b ro co 0
        (fun aa bb _ => SIMD.mul aa bb) (fun _ _ => SIMD.SetZero a.SIMDSize) with
    | error ab => rw [hacc] at h0; exact h0
    | ok csum0 =>
      dsimp only
      have h1 : Holds (fun _ => True) NoStaticFault
          (loopState (forLoop (fun _ => Abort.mk .fuel s) (fun p _ => decide (p < a.Rows)) 1
            (fun p csum => TMLDMDMMulExpression.accumulate regsA regsB s a b ro co p
              SIMD.MLSIMDFmadd csum) a.Rows 1 csum0)) :=
        loopState_holds (forLoop_holds (P := fun _ => True) (fun _ => by simp [NoStaticFault])
          (fun p cs _ => accumulate_holds _ _ _ _ _ _ _ _ _ _) _ _ _ trivial)
      cases hl : loopState (forLoop (fun _ => Abort.mk .fuel s) (fun p _ => decide (p < a.Rows)) 1
            (fun p csum => TMLDMDMMulExpression.accumulate regsA regsB s a b ro co p
              SIMD.MLSIMDFmadd csum) a.Rows 1 csum0) with
      | error ab => rw [hl] at h1; exact h1
      | ok csum =>
        dsimp only
        refine loopState_holds (stepOK_loop (fun ai c => ?_) _ _ _)
        refine loopState_holds (stepOK_loop (fun bi c => ?_) _ _ _)
        exact orAbort_holds (Store_holds c _ _ _)
  · exact Pres.refl s

theorem rowBlocks_holds (regsA regsB : Nat) (a b : DenseMatrix) (j i : Nat) (c : DenseMatrix) :
    Holds (fun r => Pres c r.2) NoStaticFault
      (TMLDMDMMulExpression.rowBlocks regsA regsB a b j i c) := by
  unfold TMLDMDMMulExpression.rowBlocks
  exact stepOK_loop (fun i => subKernel_ok regsA regsB a b i j) _ _ _

theorem lastRow_holds (regsB : Nat) (a b : DenseMatrix) (j i : Nat) (c : DenseMatrix) :
    Holds (Pres c) NoStaticFault (TMLDMDMMulExpression.lastRow regsB a b j i c) := by
  unfold TMLDMDMMulExpression.lastRow
  split
  · exact subKernel_ok 1 regsB a b i j c
  · exact Pres.refl c

theorem colPanels_holds (regsB w : Nat) (body : Nat → DenseMatrix → Except Abort DenseMatrix)
    (hbody : ∀ j, StepOK (body j)) (j : Nat) (c : DenseMatrix) :
    Holds (fun r => Pres c r.2) NoStaticFault
      (TMLDMDMMulExpression.colPanels regsB w body j c) := by
  unfold TMLDMDMMulExpression.colPanels
  exact stepOK_loop hbody _ _ _

theorem mul_vectorizedKernel_ok (junk : Nat → Int) (a b : DenseMatrix) :
    StepOK (fun c => TMLDMDMMulExpression.VectorizedKernel junk c a b) := by
  intro s
  show Holds _ _ (TMLDMDMMulExpression.VectorizedKernel junk s a b)
  unfold TMLDMDMMulExpression.VectorizedKernel
  split
  · refine holds_bind (colPanels_holds _ _ _ (fun j c => ?_) _ _) fun r1 h1 => ?_
    · refine holds_bind (rowBlocks_holds _ _ _ _ _ _ _) fun q1 g1 => ?_
      refine holds_bind (rowBlocks_holds _ _ _ _ _ _ _) fun q2 g2 => ?_
      exact (lastRow_holds _ _ _ _ _ _).mono fun _ g3 => (g1.trans g2).trans g3
    refine holds_bind (colPanels_holds _ _ _ (fun j c => ?_) _ _) fun r2 h2 => ?_
    · refine holds_bind (rowBlocks_holds _ _ _ _ _ _ _) fun q1 g1 => ?_
      refine holds_bind (rowBlocks_holds _ _ _ _ _ _ _) fun q2 g2 => ?_
      exact (lastRow_holds _ _ _ _ _ _).mono fun _ g3 => (g1.trans g2).trans g3
    refine holds_bind (colPanels_holds _ _ _ (fun j c => ?_) _ _) fun r3 h3 => ?_
    · refine holds_bind (rowBlocks_holds _ _ _ _ _ _ _) fun q1 g1 => ?_
      exact (lastRow_holds _ _ _ _ _ _).mono fun _ g3 => g1.trans g3
    refine (loopState_holds (colPanels_holds _ _ _ (fun j c => ?_) _ _)).mono
      fun _ h4 => ((h1.trans h2).trans h3).trans h4
    refine holds_bind (rowBlocks_holds _ _ _ _ _ _ _) fun q1 g1 => ?_
    refine holds_bind (rowBlocks_holds _ _ _ _ _ _ _) fun q2 g2 => ?_
    refine holds_bind (rowBlocks_holds _ _ _ _ _ _ _) fun q3 g3 => ?_
    exact (loopState_holds (rowBlocks_holds _ _ _ _ _ _ _)).mono
      fun _ g4 => ((g1.trans g2).trans g3).trans g4
  · exact mul_defaultKernel_ok junk a b s

theorem mul_executeKernel_ok (junk : Nat → Int) (a b : DenseMatrix) :
    StepOK (fun c => TMLDMDMMulExpression.ExecuteKernel junk c a b) := by
  intro s
  show Holds _ _ (TMLDMDMMulExpression.ExecuteKernel junk s a b)
  unfold TMLDMDMMulExpression.ExecuteKernel
  split
  · exact mul_vectorizedKernel_ok junk a b s
  · exact mul_defaultKernel_ok junk a b s

theorem mul_assignTo_ok (junk : Nat → Int) (l r : Operand) :
    StepOK (TMLDMDMMulExpression.AssignTo junk l r) := by
  intro s
  unfold TMLDMDMMulExpression.AssignTo
  split
  · split
    · have h0 := retarget_holds (c := s) (copyCtor_holds junk s)
      cases hc : retarget s (s.copyCtor junk) with
      | error ab => rw [hc] at h0; exact h0
      | ok tmp =>
        rw [hc] at h0
        dsimp only
        have h1 := retarget_holds (c := s)
          (mul_executeKernel_ok junk (l.deref s) (r.deref s) tmp)
        cases hk : retarget s (TMLDMDMMulExpression.ExecuteKernel junk tmp (l.deref s)
            (r.deref s)) with
        | error ab => rw [hk] at h1; exact h1
        | ok tmp2 =>
          rw [hk] at h1
          dsimp only
          exact assignMatrix_same_ok junk s tmp2 (h1.rows.trans h0.2.1) (h1.cols.trans h0.2.2.1)
    · exact mul_executeKernel_ok junk _ _ s
  · simp [Holds, NoStaticFault]

/-- Every node's `AssignTo` keeps the type, the counts and the padding invariant of
its target, and never raises the shape assertion of the static `Assign`. -/
theorem expr_assignTo_ok (junk : Nat → Int) (e : Expr) : StepOK (e.AssignTo junk) := by
  intro s
  cases e with
  | setZero r c => exact setZero_assignTo_ok r c s
  | set1 v r c => exact set1_assignTo_ok v r c s
  | assign l => exact assign_assignTo_ok l s
  | add l r => exact add_assignTo_ok l r s
  | mul l r => exact mul_assignTo_ok junk l r s

theorem ok_inv_of_holds {c m : DenseMatrix} {r : Except Abort DenseMatrix}
    (h : Holds (Pres c) NoStaticFault r) (hc : c.PaddingInv) (hr : r = .ok m) :
    m.PaddingInv := by
  subst hr
  exact h.2.2.2.2.2 hc

/-- A completed `Assign` to a dynamic matrix leaves the padding invariant. -/
theorem dyn_assignWith_inv (junk : Nat → Int) (this : DenseMatrix) (rows cols : Nat)
    (assignTo : DenseMatrix → Except Abort DenseMatrix) (h : StepOK assignTo)
    (hd : this.isStatic = false) (m : DenseMatrix)
    (hr : this.AssignWith junk rows cols assignTo = .ok m) : m.PaddingInv := by
  unfold DenseMatrix.AssignWith at hr
  rw [hd] at hr
  exact ok_inv_of_holds (h _) (Resize_inv junk this rows cols) hr

/-! ## The padding invariant and the static shape check -/

/-- C10: assigning a node to a static matrix stops at the shape assertion of
`Assign` exactly when the node's row count or column count differs from the
matrix's; the statement then stops with the target as it was, no element written. -/
theorem C10_static_assign_shape_check (junk : Nat → Int) (this : DenseMatrix) (e : Expr)
    (hs : this.isStatic = true) :
    (faultOf (this.Assign junk e) = some .staticShape ↔
        (e.Rows this ≠ this.Rows ∨ e.Cols this ≠ this.Cols)) ∧
      ((e.Rows this ≠ this.Rows ∨ e.Cols this ≠ this.Cols) →
        this.Assign junk e = .error ⟨.staticShape, this⟩) := by
  unfold DenseMatrix.Assign DenseMatrix.AssignWith
  rw [hs]
  by_cases h : e.Rows this = this.Rows ∧ e.Cols this = this.Cols
  · rw [if_pos rfl, if_pos h]
    have hk := expr_assignTo_ok junk e this
    constructor
    · constructor
      · intro hf
        exfalso
        cases hr : e.AssignTo junk this with
        | ok m => rw [hr] at hf; simp [faultOf] at hf
        | error ab =>
          rw [hr] at hf hk
          simp only [faultOf, Option.some.injEq] at hf
          exact hk hf
      · intro hne
        rcases hne with hne | hne
        · exact absurd h.1 hne
        · exact absurd h.2 hne
    · intro hne
      rcases hne with hne | hne
      · exact absurd h.1 hne
      · exact absurd h.2 hne
  · rw [if_pos rfl, if_neg h]
    have hne : e.Rows this ≠ this.Rows ∨ e.Cols this ≠ this.Cols := by
      by_contra hcon
      push_neg at hcon
      exact h hcon
    exact ⟨⟨fun _ => hne, fun _ => rfl⟩, fun _ => rfl⟩

/-- C10 at the static 2×2 matrix and the copy node of the 2×3 matrix `A`. -/
theorem C10_static_assign_shape_check_witness :
    exStatic.isStatic = true ∧ (Expr.assign (.other exA)).Cols exStatic ≠ exStatic.Cols ∧
      exStatic.Assign junk77 (.assign (.other exA)) = .error ⟨.staticShape, exStatic⟩ :=
  ⟨rfl, by decide,
    (C10_static_assign_shape_check junk77 exStatic (.assign (.other exA)) rfl).2
      (Or.inr (by decide))⟩

/-! ## Filling, copying and the identity product -/

/-- C11: on a column-major matrix of lane count 2, `Resize(1, 2)` followed by
`SetZero()` completes with `M(0,1)` not zeroed: it keeps the old cell 2 when the
buffer size is unchanged, and holds the fresh-memory value 77 after `Resize(1, 3)`;
the fill loop stores at `(i, j)` for `j = 0, 2, …` only, and on a column-major
matrix such a store covers rows, not columns.  On the row-major matrix the
same calls give `[[0,0]]`. -/
theorem C11_resize_then_setzero_on_column_major :
    ((exColMajor.Resize junk77 1 2).SetZero junk77).map DenseMatrix.elems
        = .ok [[.ok 0, .ok 2]] ∧
      (exColMajor.ResizeSetZero junk77 1 2 >>= DenseMatrix.SetZero junk77).map DenseMatrix.elems
        = .ok [[.ok 0, .ok 2]] ∧
      ((exColMajor.Resize junk77 1 3).SetZero junk77).map DenseMatrix.elems
        = .ok [[.ok 0, .ok 77, .ok 0]] ∧
      ((exSquare.Resize junk77 1 2).SetZero junk77).map DenseMatrix.elems
        = .ok [[.ok 0, .ok 0]] := by
  decide

/-- C12: on the column-major matrix `[[5,6]]` of lane count 2, dynamic or static,
`Set1(1)` completes with `[[1,6]]`: the second column is never stored to.  On
the row-major 2×3 matrix it gives all ones. -/
theorem C12_set1_on_column_major :
    (exColRow.Set1 junk77 1).map DenseMatrix.elems = .ok [[.ok 1, .ok 6]] ∧
      (exColRowStatic.Set1 junk77 1).map DenseMatrix.elems = .ok [[.ok 1, .ok 6]] ∧
      (exA.Set1 junk77 1).map DenseMatrix.elems
        = .ok [[.ok 1, .ok 1, .ok 1], [.ok 1, .ok 1, .ok 1]] := by
  decide

/-- C13: the constructor `Matrix(1, 2)` of a column-major dynamic matrix of lane
count 2 completes with `[[0, 77]]`, 77 being the content of fresh memory, and so
does the default constructor of the static column-major 1×2 matrix of lane
count 2.  The row-major `Matrix(1, 2)` is `[[0,0]]` and the default dynamic
constructor gives the empty 0×0 matrix. -/
theorem C13_zero_filling_constructor_on_column_major :
    (TMLDynamicMatrix.ctor junk77 false 2 1 2).map DenseMatrix.elems
        = .ok [[.ok 0, .ok 77]] ∧
      (TMLStaticMatrix.ctor junk77 false 2 1 2).map DenseMatrix.elems
        = .ok [[.ok 0, .ok 77]] ∧
      (TMLDynamicMatrix.ctor junk77 true 2 1 2).map DenseMatrix.elems
        = .ok [[.ok 0, .ok 0]] ∧
      (TMLDynamicMatrix.ctor junk77 true 2 0 0).map (fun m => (m.Rows, m.Cols, m.m_storage))
        = .ok (0, 0, []) := by
  decide

/-- C16: copying the column-major matrix `A = [[5,6]]` of lane count 2 into a
column-major dynamic matrix of the same lane count completes with `B(0,1) ≠ 6`:
`B = A` on the old `B = [[1,2],[3,4]]` gives `[[5,2]]`, copy construction gives
`[[5,77]]`.  The vectorized copy kernel moves one register per row from columns
0, 2, … only.  Into a row-major target the scalar kernel copies `[[5,6]]`. -/
theorem C16_copy_between_column_major_matrices :
    exColRow.elems = [[.ok 5, .ok 6]] ∧
      (assignStmt junk77 exColMajor (.assign (.other exColRow))).map DenseMatrix.elems
        = .ok [[.ok 5, .ok 2]] ∧
      (exColMajor.AssignMatrix junk77 exColRow).map DenseMatrix.elems
        = .ok [[.ok 5, .ok 2]] ∧
      (exColRow.copyCtor junk77).map DenseMatrix.elems = .ok [[.ok 5, .ok 77]] ∧
      (assignStmt junk77 exEmpty (.assign (.other exColRow))).map DenseMatrix.elems
        = .ok [[.ok 5, .ok 6]] := by
  decide

/-- C17: for `A = [[1,2,3],[4,5,6]]` and the 3×3 identity (row-major, lane count
2), `C = A * I` completes with `[[1,2,0],[4,5,0]]`: the sub-kernel adds the terms
`p < A.Rows() = 2` only.  For the square `A = [[1,2,3],[4,5,6],[7,8,9]]` the
product is `A`. -/
theorem C17_identity_product_of_2x3_matrix :
    exI3.map DenseMatrix.elems
        = .ok [[.ok 1, .ok 0, .ok 0], [.ok 0, .ok 1, .ok 0], [.ok 0, .ok 0, .ok 1]] ∧
      (timesIdentity junk77 exEmpty exA exI3).map DenseMatrix.elems
        = .ok [[.ok 1, .ok 2, .ok 0], [.ok 4, .ok 5, .ok 0]] ∧
      (timesIdentity junk77 exEmpty exA3 exI3).map DenseMatrix.elems
        = .ok [[.ok 1, .ok 2, .ok 3], [.ok 4, .ok 5, .ok 6], [.ok 7, .ok 8, .ok 9]] := by
  decide

/-! ## Transpose views and self-assignment -/

/-- Under the padding invariant an in-range position lies inside the buffer. -/
theorem flatIndex_lt (m : DenseMatrix) (h : m.PaddingInv) (i j : Nat)
    (hi : i < m.Rows) (hj : j < m.Cols) : m.flatIndex i j < m.m_storage.length := by
  obtain ⟨hp, hl⟩ := h
  rw [hl]
  have key : ∀ a b : Nat, a < m.m_majorCnt → b < m.m_minorCnt →
      a * m.m_paddedMinorCnt + b < m.m_majorCnt * m.m_paddedMinorCnt := by
    intro a b ha hb
    have hb2 : b < m.m_paddedMinorCnt := by omega
    have h1 : (a + 1) * m.m_paddedMinorCnt ≤ m.m_majorCnt * m.m_paddedMinorCnt :=
      Nat.mul_le_mul_right _ ha
    rw [Nat.add_mul, Nat.one_mul] at h1
    omega
  unfold DenseMatrix.flatIndex
  unfold DenseMatrix.Rows at hi
  unfold DenseMatrix.Cols at hj
  cases hr : m.rowMajor
  · simp only [hr, Bool.false_eq_true, if_false] at hi hj ⊢
    exact key j i hj hi
  · simp only [hr, if_true] at hi hj ⊢
    exact key i j hi hj

/-- An in-range read of a matrix that satisfies the padding invariant returns a value. -/
theorem get_ok (m : DenseMatrix) (h : m.PaddingInv) (i j : Nat)
    (hi : i < m.Rows) (hj : j < m.Cols) : ∃ v, m.get i j = .ok v := by
  have hlt := flatIndex_lt m h i j hi hj
  unfold DenseMatrix.get
  rw [if_pos ⟨hi, hj⟩]
  cases hg : m.m_storage[m.flatIndex i j]? with
  | some v => exact ⟨v, rfl⟩
  | none =>
    rw [List.getElem?_eq_none_iff] at hg
    omega

theorem Transpose_rows (A : DenseMatrix) : A.Transpose.Rows = A.Cols := by
  cases h : A.rowMajor <;> simp [DenseMatrix.Transpose, DenseMatrix.Rows, DenseMatrix.Cols, h]

theorem Transpose_cols (A : DenseMatrix) : A.Transpose.Cols = A.Rows := by
  cases h : A.rowMajor <;> simp [DenseMatrix.Transpose, DenseMatrix.Rows, DenseMatrix.Cols, h]

theorem Transpose_flatIndex (A : DenseMatrix) (i j : Nat) :
    A.Transpose.flatIndex i j = A.flatIndex j i := by
  cases h : A.rowMajor <;> simp [DenseMatrix.Transpose, DenseMatrix.flatIndex, h]

theorem Transpose_get (A : DenseMatrix) (i j : Nat) : A.Transpose.get i j = A.get j i := by
  unfold DenseMatrix.get
  rw [Transpose_rows, Transpose_cols, Transpose_flatIndex]
  have hs : A.Transpose.m_storage = A.m_storage := rfl
  rw [hs]
  by_cases hc : j < A.Rows ∧ i < A.Cols
  · rw [if_pos hc, if_pos ⟨hc.2, hc.1⟩]
  · rw [if_neg hc, if_neg (fun h => hc ⟨h.2, h.1⟩)]

/-- Reading back the position just written gives the written value. -/
theorem get_set_same (A A' : DenseMatrix) (i j : Nat) (v : Int)
    (h : A.set i j v = .ok A') : A'.get i j = .ok v := by
  unfold DenseMatrix.set at h
  split at h
  · rename_i hr
    split at h
    · rename_i hlt
      cases h
      have hget : (A.m_storage.set (A.flatIndex i j) v)[A.flatIndex i j]? = some v :=
        List.getElem?_set_self hlt
      unfold DenseMatrix.get
      have hr2 : i < DenseMatrix.Rows { A with m_storage := A.m_storage.set (A.flatIndex i j) v } ∧
          j < DenseMatrix.Cols { A with m_storage := A.m_storage.set (A.flatIndex i j) v } := hr
      rw [if_pos hr2]
      have hidx : DenseMatrix.flatIndex
          { A with m_storage := A.m_storage.set (A.flatIndex i j) v } i j = A.flatIndex i j := rfl
      rw [hidx]
      show (match (A.m_storage.set (A.flatIndex i j) v)[A.flatIndex i j]? with
        | some v => Except.ok v
        | none => Except.error Fault.bounds) = Except.ok v
      rw [hget]
    · cases h
  · cases h

/-- C14: the view `T = A.Transpose()` has `T.Rows() = A.Cols()`,
`T.Cols() = A.Rows()`, the opposite major-order flag and the same buffer;
`T(i,j)` is the cell of `A(j,i)` (same flat offset, same outcome of the access,
a value whenever `i < A.Cols()`, `j < A.Rows()` and the invariant holds), a
write to `A(j,i)` is read back through `T(i,j)`, and the view of the view is `A`. -/
theorem C14_transpose_is_aliasing_view (A : DenseMatrix) :
    A.Transpose.Rows = A.Cols ∧ A.Transpose.Cols = A.Rows ∧
      A.Transpose.rowMajor = !A.rowMajor ∧
      A.Transpose.m_storage = A.m_storage ∧
      (∀ i j, A.Transpose.flatIndex i j = A.flatIndex j i) ∧
      (∀ i j, A.Transpose.get i j = A.get j i) ∧
      (∀ i j, A.PaddingInv → i < A.Cols → j < A.Rows →
        ∃ v, A.Transpose.get i j = .ok v ∧ A.get j i = .ok v) ∧
      (∀ i j v A', A.set j i v = .ok A' → A'.Transpose.get i j = .ok v) ∧
      A.Transpose.Transpose = A := by
  refine ⟨Transpose_rows A, Transpose_cols A, rfl, rfl, Transpose_flatIndex A,
    Transpose_get A, ?_, ?_, ?_⟩
  · intro i j hinv hi hj
    obtain ⟨v, hv⟩ := get_ok A hinv j i hj hi
    exact ⟨v, by rw [Transpose_get, hv], hv⟩
  · intro i j v A' h
    rw [Transpose_get]
    exact get_set_same A A' j i v h
  · cases A
    simp [DenseMatrix.Transpose]

/-- Resizing a matrix that satisfies the invariant to its own shape changes nothing. -/
theorem Resize_same_eq (junk : Nat → Int) (m : DenseMatrix) (h : m.PaddingInv) :
    m.Resize junk m.Rows m.Cols = m := by
  obtain ⟨hp, hl⟩ := h
  cases m with
  | mk isStatic rowMajor SIMDSize major minor padded storage =>
    simp only at hp hl
    cases rowMajor <;>
      simp [DenseMatrix.Resize, DenseMatrix.Rows, DenseMatrix.Cols,
        TMLDynamicMatrixStorage.Resize, ← hp, hl]

/-- C15: `AssignTo` of the copy node whose source is the target object itself
returns at the address test: it completes with the target exactly as it was.
So does the whole statement `A = A` on a matrix that satisfies the padding
invariant (the resize to the own shape keeps the buffer). -/
theorem C15_self_assignment_is_noop (junk : Nat → Int) (A : DenseMatrix)
    (h : A.PaddingInv) :
    TMLDMAssignExpression.AssignTo .self A = .ok A ∧
      (Expr.assign .self).AssignTo junk A = .ok A ∧
      A.Assign junk (.assign .self) = .ok A ∧
      assignStmt junk A (.assign .self) = .ok A := by
  have h1 : TMLDMAssignExpression.AssignTo .self A = .ok A := by
    simp [TMLDMAssignExpression.AssignTo, Operand.deref, Operand.IsAlias]
  have h3 : A.Assign junk (.assign .self) = .ok A := by
    unfold DenseMatrix.Assign DenseMatrix.AssignWith
    cases hs : A.isStatic
    · simp only [Bool.false_eq_true, if_false, Expr.Rows, Expr.Cols, Operand.deref]
      rw [Resize_same_eq junk A h]
      exact h1
    · simp only [if_true, Expr.Rows, Expr.Cols, Operand.deref, and_self]
      exact h1
  exact ⟨h1, h1, h3, by simpa [assignStmt, Expr.ctor] using h3⟩

/-- C15 at the 2×3 matrix `A`: the statement `A = A` leaves it as it is. -/
theorem C15_self_assignment_witness :
    exA.PaddingInv ∧ assignStmt junk77 exA (.assign .self) = .ok exA :=
  ⟨by decide, (C15_self_assignment_is_noop junk77 exA (by decide)).2.2.2⟩

/-! ## Element-type promotion and the result type of a product -/

/-- For two compatible matrix types the trait `TMLMatrixCommonElementType_t` is the
element type of the second one. -/
theorem commonElementType_pair {τ : Type} (ct : τ → τ → Option τ) (L R : MatrixType τ)
    (h : (ct L.ElementType R.ElementType).isSome) :
    TMLMatrixCommonElementType ct [L, R] = some R.ElementType := by
  cases hc : ct L.ElementType R.ElementType with
  | none => rw [hc] at h; cases h
  | some c =>
    simp [TMLMatrixCommonElementType, TMLMatrixIsElementTypeCompatible_v, std_common_type,
      commonFold, hc]

/-- C18: whenever the two element types have a common type, the `ElementType` of
the product node and of the sum node is the element type of the right operand,
whatever the left one is (the trait takes `std::common_type_t` over the pack
without its first type).  So it depends on the operand order. -/
theorem C18_element_type_is_that_of_right_operand {τ : Type} (ct : τ → τ → Option τ)
    (L R : MatrixType τ) (h : (ct L.ElementType R.ElementType).isSome) :
    TMLDMDMMulExpression.ElementType ct L R = some R.ElementType ∧
      TMLDMDMAddExpression.ElementType ct L R = some R.ElementType :=
  ⟨commonElementType_pair ct L R h, commonElementType_pair ct L R h⟩

/-- C18 at double × float: the common type is double, the node's element type is float;
float × double gives double. -/
theorem C18_double_times_float_witness :
    floatingCommon .double .float = some .double ∧
      TMLDMDMMulExpression.ElementType floatingCommon
        (.TMLDynamicMatrix .double true 0xFFFFFFFF) (.TMLDynamicMatrix .float true 0xFFFFFFFF)
        = some .float ∧
      TMLDMDMMulExpression.ElementType floatingCommon
        (.TMLDynamicMatrix .float true 0xFFFFFFFF) (.TMLDynamicMatrix .double true 0xFFFFFFFF)
        = some .double :=
  ⟨rfl,
    (C18_element_type_is_that_of_right_operand floatingCommon
      (.TMLDynamicMatrix .double true 0xFFFFFFFF) (.TMLDynamicMatrix .float true 0xFFFFFFFF)
      rfl).1,
    rfl⟩

theorem isDynamic_eq_not_isStatic {τ : Type} (MT : MatrixType τ) :
    MT.IsDynamic_v = !MT.IsStatic_v := by
  unfold MatrixType.IsDynamic_v MatrixType.IsStatic_v
  cases h1 : (MT.Rows_v == MLMatrixDynamicSize_v) <;>
    cases h2 : (MT.Cols_v == MLMatrixDynamicSize_v) <;> simp [bne, h1, h2]

/-- C19: for operand types with compatible element types, if both are statically
sized a result type of `A * B` exists exactly when `A.Cols = B.Rows`, and it is
the static matrix type of shape `A.Rows × B.Cols` in the left operand's major
order; if at least one is dynamically sized the result type is a dynamic
matrix type.  A well-formed `TMLStaticMatrix` is statically sized, a
`TMLDynamicMatrix` dynamically. -/
theorem C19_mul_result_type {τ : Type} (ct : τ → τ → Option τ) (MT1 MT2 : MatrixType τ)
    (hc : TMLMatrixIsElementTypeCompatible_v ct [MT1, MT2] = true) :
    (MT1.IsStatic_v = true → MT2.IsStatic_v = true →
      ((TMLMatrixMulResult ct MT1 MT2).isSome ↔ MT1.Cols_v = MT2.Rows_v) ∧
      (MT1.Cols_v = MT2.Rows_v → ∃ ET maxSIMD, TMLMatrixMulResult ct MT1 MT2 =
        some (.TMLStaticMatrix ET MT1.Rows_v MT2.Cols_v MT1.IsRowMajor_v maxSIMD)) ∧
      (MT1.Cols_v ≠ MT2.Rows_v → TMLMatrixMulResult ct MT1 MT2 = none)) ∧
    (MT1.IsDynamic_v = true ∨ MT2.IsDynamic_v = true →
      ∃ ET maxSIMD, TMLMatrixMulResult ct MT1 MT2 =
        some (.TMLDynamicMatrix ET MT1.IsRowMajor_v maxSIMD)) ∧
    (∀ ET N M rm s, (MatrixType.TMLStaticMatrix ET N M rm s : MatrixType τ).WellFormed →
      (MatrixType.TMLStaticMatrix ET N M rm s : MatrixType τ).IsStatic_v = true) ∧
    (∀ ET rm s, (MatrixType.TMLDynamicMatrix ET rm s : MatrixType τ).IsDynamic_v = true) := by
  have hsome : (ct MT1.ElementType MT2.ElementType).isSome := by
    cases hct : ct MT1.ElementType MT2.ElementType with
    | none =>
      simp [TMLMatrixIsElementTypeCompatible_v, std_common_type, commonFold, hct] at hc
    | some c => rfl
  have hET := commonElementType_pair ct MT1 MT2 hsome
  have hd1 := isDynamic_eq_not_isStatic MT1
  have hd2 := isDynamic_eq_not_isStatic MT2
  refine ⟨?_, ?_, ?_, ?_⟩
  · intro h1 h2
    by_cases heq : MT1.Cols_v = MT2.Rows_v
    · have hres : TMLMatrixMulResult ct MT1 MT2 = some (.TMLStaticMatrix MT2.ElementType
          MT1.Rows_v MT2.Cols_v MT1.IsRowMajor_v
          (if MT1.IsRowMajor_v then MT2.Cols_v else MT1.Rows_v)) := by
        simp [TMLMatrixMulResult, mulResultStaticEnabled, mulResultDynamicEnabled, h1, h2,
          hd1, hd2, hc, heq, hET]
      exact ⟨⟨fun _ => heq, fun _ => (by rw [hres]; rfl)⟩, fun _ => ⟨_, _, hres⟩,
        fun hne => absurd heq hne⟩
    · have hres : TMLMatrixMulResult ct MT1 MT2 = none := by
        simp [TMLMatrixMulResult, mulResultStaticEnabled, mulResultDynamicEnabled, h1, h2,
          hd1, hd2, hc, heq]
      exact ⟨⟨fun h => (by rw [hres] at h; cases h), fun h => absurd h heq⟩,
        fun h => absurd h heq, fun _ => hres⟩
  · intro hdyn
    have hst : (MT1.IsStatic_v && MT2.IsStatic_v) = false := by
      rcases hdyn with h | h
      · rw [hd1] at h; simp at h; simp [h]
      · rw [hd2] at h; simp at h; simp [h]
    have hor : (MT1.IsDynamic_v || MT2.IsDynamic_v) = true := by
      rcases hdyn with h | h <;> simp [h]
    refine ⟨MT2.ElementType, 0xFFFFFFFF, ?_⟩
    simp [TMLMatrixMulResult, mulResultStaticEnabled, mulResultDynamicEnabled, hst, hor, hc,
      hET]
  · intro ET N M rm s hw
    obtain ⟨hN, hM⟩ := hw
    simp [MatrixType.IsStatic_v, MatrixType.Rows_v, MatrixType.Cols_v, hN, hM]
  · intro ET rm s
    simp [MatrixType.IsDynamic_v, MatrixType.Rows_v]

/-- C19 at a static 2×3 times a static 3×4 type, and at a static times a dynamic type. -/
theorem C19_mul_result_type_witness :
    TMLMatrixMulResult floatingCommon (.TMLStaticMatrix .float 2 3 true 3)
        (.TMLStaticMatrix .float 3 4 true 4) = some (.TMLStaticMatrix .float 2 4 true 4) ∧
      ((TMLMatrixMulResult floatingCommon (.TMLStaticMatrix .float 2 3 true 3)
        (.TMLStaticMatrix .float 4 4 true 4)).isSome ↔ 3 = 4) ∧
      TMLMatrixMulResult floatingCommon (.TMLStaticMatrix .float 2 3 true 3)
        (.TMLDynamicMatrix .float false 8) = some (.TMLDynamicMatrix .float true 0xFFFFFFFF) :=
  ⟨by decide,
    ((C19_mul_result_type floatingCommon (.TMLStaticMatrix .float 2 3 true 3)
      (.TMLStaticMatrix .float 4 4 true 4) rfl).1 (by decide) (by decide)).1,
    by decide⟩

/-! ## The SIMD type selector -/

/-- Every enable-if specialisation registers a lane count 2, 4, 8, 16 or 32 that
is the lane count of the type it names, for its own element type. -/
theorem selectorSpecs_sound (isa : ISA) : ∀ s ∈ selectorSpecs isa,
    (s.Size = 2 ∨ s.Size = 4 ∨ s.Size = 8 ∨ s.Size = 16 ∨ s.Size = 32) ∧
      s.type.Size_v = s.Size ∧ s.type.ElementType = s.TDes := by
  rcases isa with ⟨a, b, c, d⟩
  cases a <;> cases b <;> cases c <;> cases d <;> decide

/-- No two enable-if specialisations share element type and lane count. -/
theorem selectorSpecs_nodup (isa : ISA) :
    ((selectorSpecs isa).map fun s => (s.TDes, s.Size)).Nodup := by
  rcases isa with ⟨a, b, c, d⟩
  cases a <;> cases b <;> cases c <;> cases d <;> decide

theorem selectorFullSpecs_sound (isa : ISA) : ∀ s ∈ selectorFullSpecs isa,
    s.2.Size_v = 1 ∧ s.2.ElementType = s.1 := by
  rcases isa with ⟨a, b, c, d⟩
  cases a <;> cases b <;> cases c <;> cases d <;> decide

theorem pow2_check (q : Nat) (h : q = 2 ∨ q = 4 ∨ q = 8 ∨ q = 16 ∨ q = 32) :
    (q &&& (q - 1) == 0) = true ∧ ∃ k, q = 2 ^ k := by
  rcases h with h | h | h | h | h <;> subst h
  · exact ⟨by decide, 1, rfl⟩
  · exact ⟨by decide, 2, rfl⟩
  · exact ⟨by decide, 3, rfl⟩
  · exact ⟨by decide, 4, rfl⟩
  · exact ⟨by decide, 5, rfl⟩

/-- What a matching specialisation says about `T` and `maxSize`. -/
theorem mem_selectorMatching (isa : ISA) (T : ElemT) (m : Nat) (s : SelectorSpec)
    (h : s ∈ selectorMatching isa T m) :
    s ∈ selectorSpecs isa ∧ s.TDes = T ∧ s.Size ≤ m ∧ m < 2 * s.Size := by
  unfold selectorMatching at h
  rw [List.mem_filter] at h
  obtain ⟨hs, he⟩ := h
  simp only [TMLSIMDSelEnableIf, Bool.and_eq_true, beq_iff_eq, Bool.not_eq_true',
    decide_eq_false_iff_not, decide_eq_true_eq, Nat.not_lt] at he
  exact ⟨hs, he.1.1.2.symm, he.1.2, he.2⟩

/-- A registered lane count comes from a specialisation for `T`. -/
theorem mem_registeredSizes (isa : ISA) (T : ElemT) (q : Nat) (h : q ∈ registeredSizes isa T) :
    ∃ s ∈ selectorSpecs isa, s.TDes = T ∧ s.Size = q := by
  unfold registeredSizes at h
  rw [List.mem_map] at h
  obtain ⟨s, hs, hq⟩ := h
  rw [List.mem_filter] at hs
  exact ⟨s, hs.1, by simpa using hs.2, hq⟩

/-- At most one enable-if specialisation matches. -/
theorem selectorMatching_length (isa : ISA) (T : ElemT) (m : Nat) :
    (selectorMatching isa T m).length ≤ 1 := by
  by_contra hcon
  obtain ⟨a, b, rest, hl⟩ : ∃ a b rest, selectorMatching isa T m = a :: b :: rest := by
    cases hm : selectorMatching isa T m with
    | nil => rw [hm] at hcon; simp at hcon
    | cons a t =>
      cases t with
      | nil => rw [hm] at hcon; simp at hcon
      | cons b rest => exact ⟨a, b, rest, rfl⟩
  have ha := mem_selectorMatching isa T m a (by rw [hl]; simp)
  have hb := mem_selectorMatching isa T m b (by rw [hl]; simp)
  have hsa := (selectorSpecs_sound isa a ha.1).1
  have hsb := (selectorSpecs_sound isa b hb.1).1
  have hsize : a.Size = b.Size := by omega
  have hsub : [a, b].Sublist (selectorSpecs isa) := by
    have h1 : (selectorMatching isa T m).Sublist (selectorSpecs isa) := List.filter_sublist _
    rw [hl] at h1
    exact List.Sublist.trans
      (List.Sublist.cons₂ a (List.Sublist.cons₂ b (List.nil_sublist rest))) h1
  have hnd := (selectorSpecs_nodup isa).sublist (hsub.map fun s => (s.TDes, s.Size))
  simp only [List.map_cons, List.map_nil, List.nodup_cons, List.mem_singleton, Prod.mk.injEq,
    not_and, List.not_mem_nil, not_false_eq_true, List.nodup_nil, and_true] at hnd
  exact hnd (ha.2.1.trans hb.2.1.symm) hsize

/-- The selector names a type for every `maxSize ≥ 1` once the depth bound is at
least `maxSize`: a type for `T` whose lane count is 1 or registered, at most
`maxSize`, and at least every registered lane count that is at most `maxSize`. -/
theorem selector_spec (isa : ISA) (T : ElemT) (hT : 0 < T.sizeof) :
    ∀ fuel m, 1 ≤ m → m ≤ fuel → ∃ t, TMLSIMDTypeSelector isa T fuel m = some t ∧
      t.ElementType = T ∧ (t.Size_v = 1 ∨ t.Size_v ∈ registeredSizes isa T) ∧
      t.Size_v ≤ m ∧ ∀ q ∈ registeredSizes isa T, q ≤ m → q ≤ t.Size_v := by
  intro fuel
  induction fuel with
  | zero => intro m h1 h2; omega
  | succ n ih =>
    intro m h1 h2
    obtain ⟨k, rfl⟩ : ∃ k, m = k + 1 := ⟨m - 1, by omega⟩
    unfold TMLSIMDTypeSelector
    have hreg2 : ∀ q ∈ registeredSizes isa T, 2 ≤ q := by
      intro q hq
      obtain ⟨s, hs, _, hsq⟩ := mem_registeredSizes isa T q hq
      have := (selectorSpecs_sound isa s hs).1
      omega
    by_cases hk : k + 1 = 1
    · -- maxSize = 1
      obtain rfl : k = 0 := by omega
      have hmatch : selectorMatching isa T (0 + 1) = [] := by
        rw [List.eq_nil_iff_forall_not_mem]
        intro s hs
        have h := mem_selectorMatching isa T (0 + 1) s hs
        have := (selectorSpecs_sound isa s h.1).1
        omega
      cases hf : (selectorFullSpecs isa).find? (fun s => s.1 == T && 0 + 1 == 1) with
      | some s =>
        have hmem := List.mem_of_find?_eq_some hf
        have hp := List.find?_some hf
        simp only [Bool.and_eq_true, beq_iff_eq] at hp
        obtain ⟨hsz, hel⟩ := selectorFullSpecs_sound isa s hmem
        refine ⟨s.2, rfl, hel.trans hp.1, Or.inl hsz, by omega, ?_⟩
        intro q hq hle
        have := hreg2 q hq
        omega
      | none =>
        rw [hmatch]
        have hsz : (SIMDType.TMLSIMDDefault T).Size_v = 1 := by
          simp [SIMDType.Size_v, SIMDType.intrinsicBytes, SIMDType.ElementType, Nat.div_self hT]
        refine ⟨_, rfl, rfl, Or.inl hsz, by omega, ?_⟩
        intro q hq hle
        have := hreg2 q hq
        omega
    · -- maxSize ≥ 2
      have hf : (selectorFullSpecs isa).find? (fun s => s.1 == T && k + 1 == 1) = none := by
        rw [List.find?_eq_none]
        intro s _
        simp only [Bool.and_eq_true, beq_iff_eq]
        exact fun h => hk h.2
      simp only [hf]
      have hlen := selectorMatching_length isa T (k + 1)
      cases hm : selectorMatching isa T (k + 1) with
      | nil =>
        simp only [hk, if_false]
        obtain ⟨t, ht, hel, hmem, hle, hmax⟩ := ih ((k + 1) / 2) (by omega) (by omega)
        refine ⟨t, ht, hel, hmem, by omega, ?_⟩
        intro q hq hqm
        apply hmax q hq
        obtain ⟨s, hs, hsT, hsq⟩ := mem_registeredSizes isa T q hq
        have hsound := (selectorSpecs_sound isa s hs).1
        have hnot : s ∉ selectorMatching isa T (k + 1) := by rw [hm]; simp
        unfold selectorMatching at hnot
        rw [List.mem_filter] at hnot
        have hen : TMLSIMDSelEnableIf T s.TDes (k + 1) s.Size = false := by
          cases he : TMLSIMDSelEnableIf T s.TDes (k + 1) s.Size
          · rfl
          · exact absurd ⟨hs, he⟩ hnot
        have hp := (pow2_check s.Size hsound).1
        simp only [TMLSIMDSelEnableIf, hp, hsT, beq_self_eq_true, Bool.true_and,
          Bool.and_eq_false_imp, Bool.not_eq_true', decide_eq_false_iff_not,
          decide_eq_true_eq, Nat.not_lt] at hen
        have := hen (by omega)
        omega
      | cons s rest =>
        cases rest with
        | cons b r => rw [hm] at hlen; simp at hlen
        | nil =>
          simp only [hk, if_false]
          have hs := mem_selectorMatching isa T (k + 1) s (by rw [hm]; simp)
          obtain ⟨hsound, hsz, hel⟩ := selectorSpecs_sound isa s hs.1
          have hreg : s.Size ∈ registeredSizes isa T := by
            unfold registeredSizes
            rw [List.mem_map]
            exact ⟨s, by rw [List.mem_filter]; exact ⟨hs.1, by simp [hs.2.1]⟩, rfl⟩
          refine ⟨s.type, rfl, hel.trans hs.2.1, Or.inr (by rw [hsz]; exact hreg),
            by rw [hsz]; exact hs.2.2.1, ?_⟩
          intro q hq hqm
          obtain ⟨s2, hs2, _, hsq⟩ := mem_registeredSizes isa T q hq
          have hsound2 := (selectorSpecs_sound isa s2 hs2).1
          rw [hsz]
          omega

/-- C20 as the claim states it fails: with SSE, SSE2 and AVX enabled, float has
the lane counts 4 and 8, and for `maxSize = 2` the selector names the one-lane
type, although 2 is a power of two that is at most `maxSize` and at most 8. -/
theorem C20_float_with_maxSize_2_selects_one_lane :
    registeredSizes isaAVX .float = [4, 8] ∧
      TMLSIMDTypeSelector isaAVX .float 2 2 = some (.TMLSIMDDefault .float) ∧
      (SIMDType.TMLSIMDDefault .float).Size_v = 1 ∧
      ¬ (∀ p : Nat, (∃ k, p = 2 ^ k) → p ≤ 2 → p ≤ 8 →
          p ≤ (SIMDType.TMLSIMDDefault .float).Size_v) := by
  refine ⟨by decide, by decide, by decide, ?_⟩
  intro h
  have h2 := h 2 ⟨1, rfl⟩ (Nat.le_refl 2) (by decide)
  have h1 : (SIMDType.TMLSIMDDefault .float).Size_v = 1 := by decide
  omega

/-- C20, amended: for every element type `T` of positive size, every
`maxSize ≥ 1` and every set of enabled instruction sets, the selector names a
SIMD type for `T` (with any depth bound of at least `maxSize`); its lane count
is a power of two, is at most `maxSize`, is 1 or one of the lane counts
registered for `T` by the enabled instruction sets, is at least every registered
lane count that is at most `maxSize`, and is 1 when none is registered. -/
theorem C20_simd_width_selection (isa : ISA) (T : ElemT) (maxSize fuel : Nat)
    (hT : 0 < T.sizeof) (hm : 1 ≤ maxSize) (hf : maxSize ≤ fuel) :
    ∃ t, TMLSIMDTypeSelector isa T fuel maxSize = some t ∧ t.ElementType = T ∧
      (∃ k, t.Size_v = 2 ^ k) ∧ t.Size_v ≤ maxSize ∧
      (t.Size_v = 1 ∨ t.Size_v ∈ registeredSizes isa T) ∧
      (∀ q ∈ registeredSizes isa T, q ≤ maxSize → q ≤ t.Size_v) ∧
      (registeredSizes isa T = [] → t.Size_v = 1) := by
  obtain ⟨t, ht, hel, hmem, hle, hmax⟩ := selector_spec isa T hT fuel maxSize hm hf
  refine ⟨t, ht, hel, ?_, hle, hmem, hmax, ?_⟩
  · rcases hmem with h1 | hr
    · exact ⟨0, by rw [h1]; rfl⟩
    · obtain ⟨s, hs, _, hsq⟩ := mem_registeredSizes isa T _ hr
      rw [← hsq]
      exact (pow2_check s.Size (selectorSpecs_sound isa s hs).1).2
  · intro hnil
    rcases hmem with h1 | hr
    · exact h1
    · rw [hnil] at hr
      cases hr

/-- C20, amended, for float with SSE, SSE2 and AVX at `maxSize = 5`: the
four-lane SSE type. -/
theorem C20_simd_width_selection_witness :
    TMLSIMDTypeSelector isaAVX .float 5 5 = some .MLSIMD32fSSE ∧
      SIMDType.MLSIMD32fSSE.Size_v = 4 ∧
      ∃ t, TMLSIMDTypeSelector isaAVX .float 5 5 = some t ∧ t.ElementType = .float ∧
        (∃ k, t.Size_v = 2 ^ k) ∧ t.Size_v ≤ 5 ∧
        (t.Size_v = 1 ∨ t.Size_v ∈ registeredSizes isaAVX .float) ∧
        (∀ q ∈ registeredSizes isaAVX .float, q ≤ 5 → q ≤ t.Size_v) ∧
        (registeredSizes isaAVX .float = [] → t.Size_v = 1) :=
  ⟨by decide, by decide,
    C20_simd_width_selection isaAVX .float 5 5 (by decide) (by decide) (by decide)⟩

/-! ## Element access -/

/-- Two positions of one matrix with the same flat offset are the same position,
as long as each minor index is below the padded minor count. -/
theorem flat_inj (P a b a' b' : Nat) (hb : b < P) (hb' : b' < P)
    (h : a * P + b = a' * P + b') : a = a' ∧ b = b' := by
  have key : ∀ x y u v : Nat, u < P → v < P → x < y → x * P + u < y * P + v := by
    intro x y u v hu _ hxy
    have h1 : (x + 1) * P ≤ y * P := Nat.mul_le_mul_right _ hxy
    rw [Nat.add_mul, Nat.one_mul] at h1
    omega
  have ha : a = a' := by
    rcases Nat.lt_trichotomy a a' with hlt | heq | hgt
    · have := key a a' b b' hb hb' hlt
      omega
    · exact heq
    · have := key a' a b' b hb' hb hgt
      omega
  subst ha
  exact ⟨rfl, by omega⟩

/-- The minor count never exceeds the padded minor count. -/
theorem minor_le_padded (m : DenseMatrix) (h : m.PaddingInv) :
    m.m_minorCnt ≤ m.m_paddedMinorCnt := by
  obtain ⟨hp, _⟩ := h
  omega

/-- Under the padding invariant an in-range write succeeds. -/
theorem set_ok (m : DenseMatrix) (h : m.PaddingInv) (i j : Nat) (v : Int)
    (hi : i < m.Rows) (hj : j < m.Cols) :
    m.set i j v = .ok { m with m_storage := m.m_storage.set (m.flatIndex i j) v } := by
  have hlt := flatIndex_lt m h i j hi hj
  unfold DenseMatrix.set
  rw [if_pos ⟨hi, hj⟩, if_pos hlt]

/-- C24: for a matrix that satisfies the padding invariant the buffer holds
`major count × padded minor count` cells, the offset
`major·PaddedMinor + minor` of an in-range position `(i, j)` lies below that
size, so a read or write through `operator()` never leaves the buffer; the
access stops (at the index assertion) exactly when `i ≥ Rows()` or
`j ≥ Cols()`, and otherwise returns the cell at that offset. -/
theorem C24_element_access_in_bounds (m : DenseMatrix) (h : m.PaddingInv) (i j : Nat) :
    m.m_storage.length = m.m_majorCnt * m.m_paddedMinorCnt ∧
      (i < m.Rows → j < m.Cols →
        m.flatIndex i j < m.m_majorCnt * m.m_paddedMinorCnt ∧
        ∃ v, m.m_storage[m.flatIndex i j]? = some v ∧ m.get i j = .ok v) ∧
      m.get i j ≠ .error .bounds ∧
      (∀ v, m.set i j v ≠ .error .bounds) ∧
      ((∃ f, m.get i j = .error f) ↔ (m.Rows ≤ i ∨ m.Cols ≤ j)) ∧
      (∀ v, (∃ f, m.set i j v = .error f) ↔ (m.Rows ≤ i ∨ m.Cols ≤ j)) := by
  have hlen := h.2
  have hin : i < m.Rows → j < m.Cols →
      m.flatIndex i j < m.m_majorCnt * m.m_paddedMinorCnt ∧
      ∃ v, m.m_storage[m.flatIndex i j]? = some v ∧ m.get i j = .ok v := by
    intro hi hj
    have hlt := flatIndex_lt m h i j hi hj
    refine ⟨by rw [← hlen]; exact hlt, m.m_storage[m.flatIndex i j], ?_, ?_⟩
    · exact List.getElem?_eq_getElem hlt
    · unfold DenseMatrix.get
      rw [if_pos ⟨hi, hj⟩, List.getElem?_eq_getElem hlt]
  by_cases hc : i < m.Rows ∧ j < m.Cols
  · obtain ⟨_, v, _, hv⟩ := hin hc.1 hc.2
    have hs := fun x => set_ok m h i j x hc.1 hc.2
    refine ⟨hlen, hin, (by rw [hv]; exact fun hh => by cases hh), ?_, ?_, ?_⟩
    · intro x; rw [hs x]; exact fun hh => by cases hh
    · constructor
      · rintro ⟨f, hf⟩; rw [hv] at hf; cases hf
      · intro hh; omega
    · intro x
      constructor
      · rintro ⟨f, hf⟩; rw [hs x] at hf; cases hf
      · intro hh; omega
  · have hg : m.get i j = .error .index := by
      unfold DenseMatrix.get; rw [if_neg hc]
    have hs : ∀ x, m.set i j x = .error .index := by
      intro x; unfold DenseMatrix.set; rw [if_neg hc]
    refine ⟨hlen, hin, (by rw [hg]; exact fun hh => by cases hh), ?_, ?_, ?_⟩
    · intro x; rw [hs x]; exact fun hh => by cases hh
    · exact ⟨fun _ => by omega, fun _ => ⟨_, hg⟩⟩
    · intro x
      exact ⟨fun _ => by omega, fun _ => ⟨_, hs x⟩⟩

/-- C24 at the 2×3 matrix `A` and the position `(1, 2)`. -/
theorem C24_element_access_witness :
    exA.PaddingInv ∧ exA.get 1 2 = .ok 6 ∧ exA.get 1 2 ≠ .error .bounds :=
  ⟨by decide, by decide, (C24_element_access_in_bounds exA (by decide) 1 2).2.2.1⟩

/-- C33: under the padding invariant two different in-range positions have
different flat offsets `major·PaddedMinor + minor`; so a write of `x` to
`M(i,j)` succeeds, keeps the shape, is read back as `x`, and leaves the value
read at every other in-range position `(i',j')` as it was. -/
theorem C33_storage_is_injective (m : DenseMatrix) (h : m.PaddingInv) (i j i' j' : Nat)
    (hi : i < m.Rows) (hj : j < m.Cols) (hi' : i' < m.Rows) (hj' : j' < m.Cols)
    (hne : (i, j) ≠ (i', j')) (x : Int) :
    m.flatIndex i j ≠ m.flatIndex i' j' ∧
      ∃ m', m.set i j x = .ok m' ∧ m'.Rows = m.Rows ∧ m'.Cols = m.Cols ∧
        m'.get i j = .ok x ∧ m'.get i' j' = m.get i' j' := by
  have hle := minor_le_padded m h
  have hinj : m.flatIndex i j ≠ m.flatIndex i' j' := by
    intro heq
    unfold DenseMatrix.flatIndex at heq
    unfold DenseMatrix.Rows at hi hi'
    unfold DenseMatrix.Cols at hj hj'
    cases hr : m.rowMajor
    · simp only [hr, Bool.false_eq_true, if_false] at hi hj hi' hj' heq
      obtain ⟨h1, h2⟩ := flat_inj _ j i j' i' (by omega) (by omega) heq
      exact hne (by rw [h1, h2])
    · simp only [hr, if_true] at hi hj hi' hj' heq
      obtain ⟨h1, h2⟩ := flat_inj _ i j i' j' (by omega) (by omega) heq
      exact hne (by rw [h1, h2])
  have hset := set_ok m h i j x hi hj
  refine ⟨hinj, _, hset, rfl, rfl, get_set_same m _ i j x hset, ?_⟩
  unfold DenseMatrix.get
  have hidx : DenseMatrix.flatIndex
      { m with m_storage := m.m_storage.set (m.flatIndex i j) x } i' j' = m.flatIndex i' j' := rfl
  have hpos : i' < DenseMatrix.Rows { m with m_storage := m.m_storage.set (m.flatIndex i j) x } ∧
      j' < DenseMatrix.Cols { m with m_storage := m.m_storage.set (m.flatIndex i j) x } :=
    ⟨hi', hj'⟩
  rw [if_pos hpos, if_pos (show i' < m.Rows ∧ j' < m.Cols from ⟨hi', hj'⟩), hidx]
  show (match (m.m_storage.set (m.flatIndex i j) x)[m.flatIndex i' j']? with
    | some v => Except.ok v
    | none => Except.error Fault.bounds) = _
  rw [List.getElem?_set_ne hinj]

/-- C33 at the 2×3 matrix `A`: writing 9 to `(0, 1)` leaves `(1, 1)` at 5. -/
theorem C33_storage_is_injective_witness :
    exA.PaddingInv ∧ exA.flatIndex 0 1 ≠ exA.flatIndex 1 1 ∧
      ∃ m', exA.set 0 1 9 = .ok m' ∧ m'.Rows = exA.Rows ∧ m'.Cols = exA.Cols ∧
        m'.get 0 1 = .ok 9 ∧ m'.get 1 1 = exA.get 1 1 :=
  ⟨by decide, C33_storage_is_injective exA (by decide) 0 1 1 1 (by decide) (by decide)
    (by decide) (by decide) (by decide) 9⟩

/-- C34: the storage of a dynamic matrix is reallocated only when the requested
size differs from the current one; so for a matrix `M` that satisfies the
padding invariant `Resize(M.Rows(), M.Cols(), MLNoneType)` gives back `M`
itself, with its shape and every element; and `Assign` of a node that reports
the shape of `M` runs the node's `AssignTo` on `M` as it was. -/
theorem C34_resize_to_same_shape (junk : Nat → Int) (M : DenseMatrix) (h : M.PaddingInv) :
    (∀ data : List Int, TMLDynamicMatrixStorage.Resize junk data data.length = data) ∧
      M.Resize junk M.Rows M.Cols = M ∧
      (M.Resize junk M.Rows M.Cols).Rows = M.Rows ∧
      (M.Resize junk M.Rows M.Cols).Cols = M.Cols ∧
      (∀ i j, (M.Resize junk M.Rows M.Cols).get i j = M.get i j) ∧
      (∀ f, M.isStatic = false → M.AssignWith junk M.Rows M.Cols f = f M) := by
  have he := Resize_same_eq junk M h
  refine ⟨?_, he, by rw [he], by rw [he], fun i j => by rw [he], ?_⟩
  · intro data
    simp [TMLDynamicMatrixStorage.Resize]
  · intro f hd
    unfold DenseMatrix.AssignWith
    rw [hd, he]
    rfl

/-- C34 at the 2×3 matrix `A`. -/
theorem C34_resize_to_same_shape_witness :
    exA.PaddingInv ∧ exA.Resize junk77 2 3 = exA :=
  ⟨by decide, (C34_resize_to_same_shape junk77 exA (by decide)).2.1⟩

/-- C35: for a square matrix `A` that satisfies the padding invariant the
statement `A = A.Transpose()` completes with `A` exactly as it was: the view
is the object `A` itself, so `AssignTo` returns at its address test. -/
theorem C35_assign_own_transpose_is_noop (junk : Nat → Int) (A : DenseMatrix)
    (h : A.PaddingInv) (hsq : A.Rows = A.Cols) :
    Operand.selfTranspose.IsAlias = true ∧
      TMLDMAssignExpression.AssignTo .selfTranspose A = .ok A ∧
      assignStmt junk A (.assign .selfTranspose) = .ok A ∧
      ∀ i j, (assignStmt junk A (.assign .selfTranspose)).map (fun m => m.get i j)
        = .ok (A.get i j) := by
  have h1 : TMLDMAssignExpression.AssignTo .selfTranspose A = .ok A := by
    simp [TMLDMAssignExpression.AssignTo, Operand.deref, Operand.IsAlias, Transpose_rows,
      Transpose_cols, hsq]
  have h3 : assignStmt junk A (.assign .selfTranspose) = .ok A := by
    unfold assignStmt
    simp only [Expr.ctor]
    unfold DenseMatrix.Assign DenseMatrix.AssignWith
    simp only [Expr.Rows, Expr.Cols, Operand.deref, Transpose_rows, Transpose_cols]
    cases hs : A.isStatic
    · simp only [Bool.false_eq_true, if_false]
      rw [← hsq]
      have he := Resize_same_eq junk A h
      rw [← hsq] at he
      rw [he]
      exact h1
    · simp only [if_true, hsq, and_self]
      exact h1
  refine ⟨rfl, h1, h3, fun i j => by rw [h3]; rfl⟩

/-- C35 at the 2×2 matrix `[[1,2],[3,4]]`: it is not transposed. -/
theorem C35_assign_own_transpose_witness :
    exSquare.PaddingInv ∧ exSquare.Rows = exSquare.Cols ∧
      assignStmt junk77 exSquare (.assign .selfTranspose) = .ok exSquare :=
  ⟨by decide, by decide,
    (C35_assign_own_transpose_is_noop junk77 exSquare (by decide) (by decide)).2.2.1⟩

/-! ## The selector, the allocator and the compile-time loop -/

/-- A deeper bound on the inheritance chain does not change the selected type. -/
theorem selector_fuel_mono (isa : ISA) (T : ElemT) :
    ∀ fuel m t, TMLSIMDTypeSelector isa T fuel m = some t →
      TMLSIMDTypeSelector isa T (fuel + 1) m = some t := by
  intro fuel
  induction fuel with
  | zero =>
    intro m t h
    cases m <;> simp [TMLSIMDTypeSelector] at h
  | succ n ih =>
    intro m t h
    cases m with
    | zero => simp [TMLSIMDTypeSelector] at h
    | succ k =>
      unfold TMLSIMDTypeSelector at h ⊢
      cases hf : (selectorFullSpecs isa).find? (fun s => s.1 == T && k + 1 == 1) with
      | some s => rw [hf] at h; exact h
      | none =>
        rw [hf] at h
        simp only at h ⊢
        cases hm : selectorMatching isa T (k + 1) with
        | nil =>
          rw [hm] at h
          simp only at h ⊢
          by_cases hk : k + 1 = 1
          · simp only [hk, if_true] at h ⊢
            exact h
          · simp only [hk, if_false] at h ⊢
            exact ih _ _ h
        | cons s rest =>
          rw [hm] at h
          cases rest with
          | nil => exact h
          | cons b r => exact h

theorem selector_fuel_ge (isa : ISA) (T : ElemT) (fuel m : Nat) (t : SIMDType)
    (h : TMLSIMDTypeSelector isa T fuel m = some t) :
    ∀ d, TMLSIMDTypeSelector isa T (fuel + d) m = some t := by
  intro d
  induction d with
  | zero => exact h
  | succ n ih => exact selector_fuel_mono isa T _ m t ih

/-- C36: for every element type `T` (of positive size), every `maxSize ≥ 1` and
every set of enabled instruction sets: at most one enable-if specialisation
matches, and the inheritance chain of `TMLSIMDTypeSelector<T, maxSize>` ends in
one SIMD type for `T`, the same for every depth bound of at least `maxSize`;
its lane count is a power of two, is at most `maxSize`, belongs to
`{1} ∪ {lane counts registered for T}` and is at least every member of that
set that is at most `maxSize`. -/
theorem C36_selector_characterisation (isa : ISA) (T : ElemT) (maxSize : Nat)
    (hT : 0 < T.sizeof) (hm : 1 ≤ maxSize) :
    (selectorMatching isa T maxSize).length ≤ 1 ∧
      ∃ t, (∀ fuel, maxSize ≤ fuel → TMLSIMDTypeSelector isa T fuel maxSize = some t) ∧
        t.ElementType = T ∧ (∃ k, t.Size_v = 2 ^ k) ∧ t.Size_v ≤ maxSize ∧
        t.Size_v ∈ 1 :: registeredSizes isa T ∧
        ∀ q ∈ 1 :: registeredSizes isa T, q ≤ maxSize → q ≤ t.Size_v := by
  refine ⟨selectorMatching_length isa T maxSize, ?_⟩
  obtain ⟨t, ht, hel, hmem, hle, hmax⟩ := selector_spec isa T hT maxSize maxSize hm (Nat.le_refl _)
  have hpos : 1 ≤ t.Size_v := by
    rcases hmem with h1 | hr
    · omega
    · obtain ⟨s, hs, _, hsq⟩ := mem_registeredSizes isa T _ hr
      have := (selectorSpecs_sound isa s hs).1
      omega
  refine ⟨t, ?_, hel, ?_, hle, ?_, ?_⟩
  · intro fuel hf
    obtain ⟨d, rfl⟩ : ∃ d, fuel = maxSize + d := ⟨fuel - maxSize, by omega⟩
    exact selector_fuel_ge isa T maxSize maxSize t ht d
  · rcases hmem with h1 | hr
    · exact ⟨0, by rw [h1]; rfl⟩
    · obtain ⟨s, hs, _, hsq⟩ := mem_registeredSizes isa T _ hr
      rw [← hsq]
      exact (pow2_check s.Size (selectorSpecs_sound isa s hs).1).2
  · rcases hmem with h1 | hr
    · rw [h1]; exact List.mem_cons_self _ _
    · exact List.mem_cons_of_mem _ hr
  · intro q hq hqm
    rcases List.mem_cons.mp hq with h1 | hr
    · omega
    · exact hmax q hr hqm

/-- C36 for float with SSE, SSE2 and AVX: `maxSize` 3 gives one lane, 4 and 7
give the four-lane SSE type, 8 and 100 the eight-lane AVX type. -/
theorem C36_selector_characterisation_witness :
    TMLSIMDTypeSelector isaAVX .float 3 3 = some (.TMLSIMDDefault .float) ∧
      TMLSIMDTypeSelector isaAVX .float 4 4 = some .MLSIMD32fSSE ∧
      TMLSIMDTypeSelector isaAVX .float 7 7 = some .MLSIMD32fSSE ∧
      TMLSIMDTypeSelector isaAVX .float 8 8 = some .MLSIMD32fAVX ∧
      TMLSIMDTypeSelector isaAVX .float 100 100 = some .MLSIMD32fAVX ∧
      ((selectorMatching isaAVX .float 7).length ≤ 1 ∧
        ∃ t, (∀ fuel, 7 ≤ fuel → TMLSIMDTypeSelector isaAVX .float fuel 7 = some t) ∧
          t.ElementType = .float ∧ (∃ k, t.Size_v = 2 ^ k) ∧ t.Size_v ≤ 7 ∧
          t.Size_v ∈ 1 :: registeredSizes isaAVX .float ∧
          ∀ q ∈ 1 :: registeredSizes isaAVX .float, q ≤ 7 → q ≤ t.Size_v) :=
  ⟨by decide, by decide, by decide, by decide, by decide,
    C36_selector_characterisation isaAVX .float 7 (by decide) (by decide)⟩

/-- The number of values `Start, Start + Inc, …` below `End`. -/
theorem constexprFor_count (Start End Inc : Nat) (hInc : 0 < Inc) :
    ∀ k, k < (End - Start + Inc - 1) / Inc ↔ Start + k * Inc < End := by
  intro k
  have h1 : k < (End - Start + Inc - 1) / Inc ↔ (k + 1) * Inc ≤ End - Start + Inc - 1 := by
    rw [← Nat.le_div_iff_mul_le hInc]
    exact Iff.rfl
  rw [h1, Nat.add_mul, Nat.one_mul]
  omega

/-- The recursion of the helper, run from `Start < End` with enough depth, is
the fold of `f` over `Start, Start + Inc, …` below `End`. -/
theorem constexprFor_exec {σ ε : Type} (out : σ → ε) (End Inc : Nat) (hInc : 0 < Inc)
    (f : Nat → σ → Except ε σ) :
    ∀ fuel Start s, Start < End → End - Start ≤ fuel →
      TMLConstexprFor_Helper.Exec out End Inc f fuel Start true s =
        (List.range' Start ((End - Start + Inc - 1) / Inc) Inc).foldlM (fun s i => f i s) s := by
  intro fuel
  induction fuel with
  | zero => intro Start s h1 h2; omega
  | succ n ih =>
    intro Start s h1 h2
    have hcount : (End - Start + Inc - 1) / Inc = (End - (Start + Inc) + Inc - 1) / Inc + 1 := by
      by_cases hlt : Start + Inc < End
      · have : End - Start + Inc - 1 = (End - (Start + Inc) + Inc - 1) + Inc := by omega
        rw [this, Nat.add_div_right _ hInc]
      · have h0 : (End - (Start + Inc) + Inc - 1) / Inc = 0 :=
          Nat.div_eq_of_lt (by omega)
        have : End - Start + Inc - 1 = (End - Start - 1) + Inc := by omega
        rw [h0, this, Nat.add_div_right _ hInc, Nat.div_eq_of_lt (by omega)]
    rw [hcount, List.range'_succ, List.foldlM_cons]
    unfold TMLConstexprFor_Helper.Exec
    cases hf : f Start s with
    | error e => rfl
    | ok s1 =>
      show TMLConstexprFor_Helper.Exec out End Inc f n (Start + Inc)
        (decide (Start + Inc < End)) s1 = _
      by_cases hlt : Start + Inc < End
      · rw [decide_eq_true hlt, ih (Start + Inc) s1 hlt (by omega)]
        rfl
      · rw [decide_eq_false hlt]
        have h0 : (End - (Start + Inc) + Inc - 1) / Inc = 0 :=
          Nat.div_eq_of_lt (by omega)
        rw [h0]
        cases n <;> rfl

/-! ## The kernels of the product on column-major and on empty operands -/

/-- C21: with `A = [[2]]`, `B = [[3,4]]` (row-major) and the column-major target
`C = [[5,6]]`, all of lane count 2, the product falls back to `DefaultKernel`,
whose `SetZero()` leaves `C(0,1) = 6`; the kernel completes with
`C = [[6, 14]]`, where `A·B = [[6, 8]]`.  On a row-major target of lane count 1
the same kernel gives `[[6, 8]]`. -/
theorem C21_default_kernel_on_column_major_target :
    exColRow.PaddingInv ∧ exColRow.elems = [[.ok 5, .ok 6]] ∧
      TMLDMDMMulExpression.ExecuteKernel junk77 exColRow exOne exPair
        = TMLDMDMMulExpression.DefaultKernel junk77 exColRow exOne exPair ∧
      (exColRow.SetZero junk77).map DenseMatrix.elems = .ok [[.ok 0, .ok 6]] ∧
      (TMLDMDMMulExpression.DefaultKernel junk77 exColRow exOne exPair).map DenseMatrix.elems
        = .ok [[.ok 6, .ok 14]] ∧
      (assignStmt junk77 exColRow (.mul (.other exOne) (.other exPair))).map DenseMatrix.elems
        = .ok [[.ok 6, .ok 14]] ∧
      (List.range 1).map (fun i => (List.range 2).map fun j =>
          TMLDMDMMulExpression.eval exOne exPair i j) = [[.ok 6, .ok 8]] ∧
      (TMLDMDMMulExpression.DefaultKernel junk77 exPairScalar exOne exPair).map
          DenseMatrix.elems = .ok [[.ok 6, .ok 8]] := by
  decide

/-- C27: on the column-major 2×2 matrix of lane count 2 (padding invariant
holding) the fill loop's second store is at `(1, 0)`, flat offset 1: no
multiple of the lane count, and a register there would span the cells 1 and 2,
the end of major line 0 and the start of line 1.  `SetZero`, `Set1` and the
vectorized copy all stop there.  In the product of the 2×1 matrix `[[1],[2]]`
and the 1×2 matrix `[[3,4]]` (row-major) the sub-kernel loads from `B` at
`(1, 0)`, a row `B` does not have. -/
theorem C27_register_access_off_the_major_line :
    exColMajor.PaddingInv ∧ exColMajor.Rows = 2 ∧ exColMajor.Cols = 2 ∧
      exColMajor.flatIndex 1 0 = 1 ∧
      exColMajor.Store (SIMD.SetZero 2) 1 0 = .error .misaligned ∧
      exColMajor.Load 1 0 = .error .misaligned ∧
      faultOf (exColMajor.SetZero junk77) = some .misaligned ∧
      faultOf (exColMajor.Set1 junk77 5) = some .misaligned ∧
      faultOf (assignStmt junk77 exColMajor (.assign (.other exColMajor))) = some .misaligned ∧
      exPair.Rows = 1 ∧ exPair.Load 1 0 = .error .index ∧
      faultOf (assignStmt junk77 exEmpty (.mul (.other exWide) (.other exPair)))
        = some .index := by
  decide

/-- C28: for `A` of shape 1×0 and `B` of shape 0×2 (row-major, lane count 2) the
sub-kernel's guard `a.Rows() > 0` holds, and its first step loads from `B` at
`(0, 0)`, a row `B` does not have: the statement `C = A * B` stops at the index
assertion with the resized target unwritten.  The node's own elements and the
scalar kernel give the zero matrix. -/
theorem C28_empty_contraction_loads_from_rhs :
    (exNoCols.Rows, exNoCols.Cols, exNoRows.Rows, exNoRows.Cols) = (1, 0, 0, 2) ∧
      exNoCols.PaddingInv ∧ exNoRows.PaddingInv ∧
      exNoRows.Load 0 0 = .error .index ∧
      TMLDMDMMulExpression.VectorizedSubKernelRRR 1 1 (exEmpty.Resize junk77 1 2)
          exNoCols exNoRows 0 0 = .error ⟨.index, exEmpty.Resize junk77 1 2⟩ ∧
      assignStmt junk77 exEmpty (.mul (.other exNoCols) (.other exNoRows))
        = .error ⟨.index, ⟨false, true, 2, 1, 2, 2, [77, 77]⟩⟩ ∧
      (List.range 1).map (fun i => (List.range 2).map fun j =>
          TMLDMDMMulExpression.eval exNoCols exNoRows i j) = [[.ok 0, .ok 0]] ∧
      (TMLDMDMMulExpression.DefaultKernel junk77 (exEmpty.Resize junk77 1 2)
          exNoCols exNoRows).map DenseMatrix.elems = .ok [[.ok 0, .ok 0]] := by
  decide

/-! ## Complex lanes -/

/-- C30: the `operator*` of `MLSIMD32cfSSE` compiled without `ML_MATH_SSE3`
flips the sign of the odd (imaginary) lanes of the cross terms before adding:
for `a = 1 + 2i`, `b = 3 + 4i` in complex lane 0 it gives `11 − 2i`, where
the product is `−5 + 10i`; in general its lanes are
`re·re + im·im` and `re·im − im·re`.  So does the `MLSIMD64cfSSE2` variant.
With `ML_MATH_SSE3` both give the product. -/
theorem C30_complex_multiply_without_sse3 :
    MLSIMD32cfSSE.mul false [1, 2, 0, 0] [3, 4, 0, 0] = [11, -2, 0, 0] ∧
      ((1 : Int) * 3 - 2 * 4, (1 : Int) * 4 + 2 * 3) = (-5, 10) ∧
      MLSIMD32cfSSE.mul true [1, 2, 0, 0] [3, 4, 0, 0] = [-5, 10, 0, 0] ∧
      MLSIMD64cfSSE2.mul false [1, 2] [3, 4] = [11, -2] ∧
      MLSIMD64cfSSE2.mul true [1, 2] [3, 4] = [-5, 10] ∧
      (∀ a0 a1 a2 a3 b0 b1 b2 b3 : Int,
        MLSIMD32cfSSE.mul false [a0, a1, a2, a3] [b0, b1, b2, b3] =
          [a0 * b0 + a1 * b1, a0 * b1 - a1 * b0, a2 * b2 + a3 * b3, a2 * b3 - a3 * b2]) ∧
      (∀ a0 a1 a2 a3 b0 b1 b2 b3 : Int,
        MLSIMD32cfSSE.mul true [a0, a1, a2, a3] [b0, b1, b2, b3] =
          [a0 * b0 - a1 * b1, a0 * b1 + a1 * b0, a2 * b2 - a3 * b3, a2 * b3 + a3 * b2]) := by
  refine ⟨by decide, by decide, by decide, by decide, by decide, ?_, ?_⟩
  · intro a0 a1 a2 a3 b0 b1 b2 b3
    simp [MLSIMD32cfSSE.mul, Intrin._mm_shuffle_ps, Intrin._MM_SHUFFLE, Intrin.mul, Intrin.add,
      Intrin.xorSign, Intrin.set4]
    refine ⟨?_, ?_⟩ <;> ring
  · intro a0 a1 a2 a3 b0 b1 b2 b3
    simp [MLSIMD32cfSSE.mul, Intrin._mm_shuffle_ps, Intrin._MM_SHUFFLE, Intrin.mul,
      Intrin.addsub, List.range, List.range.loop]

/-- The `MLSIMD64cfSSE2` product with `ML_MATH_SSE3` is the complex product. -/
theorem complex_mul_64cfSSE2 (a0 a1 b0 b1 : Int) :
    MLSIMD64cfSSE2.mul true [a0, a1] [b0, b1] = [a0 * b0 - a1 * b1, a0 * b1 + a1 * b0] := by
  simp [MLSIMD64cfSSE2.mul, Intrin._mm_shuffle_pd, Intrin._MM_SHUFFLE2, Intrin.mul,
    Intrin.addsub, List.range, List.range.loop]

/-- The `MLSIMD32cfAVX` product is the complex product in each of its four lanes. -/
theorem complex_mul_32cfAVX (a0 a1 a2 a3 a4 a5 a6 a7 b0 b1 b2 b3 b4 b5 b6 b7 : Int) :
    MLSIMD32cfAVX.mul [a0, a1, a2, a3, a4, a5, a6, a7] [b0, b1, b2, b3, b4, b5, b6, b7] =
      [a0 * b0 - a1 * b1, a0 * b1 + a1 * b0, a2 * b2 - a3 * b3, a2 * b3 + a3 * b2,
       a4 * b4 - a5 * b5, a4 * b5 + a5 * b4, a6 * b6 - a7 * b7, a6 * b7 + a7 * b6] := by
  simp [MLSIMD32cfAVX.mul, Intrin._mm256_shuffle_ps, Intrin._mm_shuffle_ps, Intrin._MM_SHUFFLE,
    Intrin.mul, Intrin.addsub, List.range, List.range.loop]

/-- The `MLSIMD64cfAVX` product is the complex product in both lanes. -/
theorem complex_mul_64cfAVX (a0 a1 a2 a3 b0 b1 b2 b3 : Int) :
    MLSIMD64cfAVX.mul [a0, a1, a2, a3] [b0, b1, b2, b3] =
      [a0 * b0 - a1 * b1, a0 * b1 + a1 * b0, a2 * b2 - a3 * b3, a2 * b3 + a3 * b2] := by
  simp [MLSIMD64cfAVX.mul, Intrin._mm256_shuffle_pd, Intrin._mm_shuffle_pd,
    Intrin.mul, Intrin.addsub, List.range, List.range.loop]

/-- The `TMLSIMD32cuiSSE2` product is the complex product in both lanes. -/
theorem complex_mul_32cuiSSE2 (a0 a1 a2 a3 b0 b1 b2 b3 : Int) :
    TMLSIMD32cuiSSE2.mul [a0, a1, a2, a3] [b0, b1, b2, b3] =
      [a0 * b0 - a1 * b1, a0 * b1 + a1 * b0, a2 * b2 - a3 * b3, a2 * b3 + a3 * b2] := by
  simp [TMLSIMD32cuiSSE2.mul, Intrin._mm_shuffle_epi32, Intrin._MM_SHUFFLE, Intrin.mul,
    Intrin.add, Intrin.sub, Intrin.andMask, Intrin.andnotMask, Intrin.set4]

/-- The `TMLSIMD16cuiSSE2` product is the complex product in its four lanes. -/
theorem complex_mul_16cuiSSE2 (a0 a1 a2 a3 a4 a5 a6 a7 b0 b1 b2 b3 b4 b5 b6 b7 : Int) :
    TMLSIMD16cuiSSE2.mul [a0, a1, a2, a3, a4, a5, a6, a7] [b0, b1, b2, b3, b4, b5, b6, b7] =
      [a0 * b0 - a1 * b1, a0 * b1 + a1 * b0, a2 * b2 - a3 * b3, a2 * b3 + a3 * b2,
       a4 * b4 - a5 * b5, a4 * b5 + a5 * b4, a6 * b6 - a7 * b7, a6 * b7 + a7 * b6] := by
  simp [TMLSIMD16cuiSSE2.mul, Intrin._mm_shufflelo_epi16, Intrin._mm_shufflehi_epi16,
    Intrin._mm_shuffle_epi32, Intrin._MM_SHUFFLE, Intrin.mul,
    Intrin.add, Intrin.sub, Intrin.andMask, Intrin.andnotMask, Intrin.set8]

/-- The `TMLSIMD32cuiAVX2` product is the complex product in its four lanes. -/
theorem complex_mul_32cuiAVX2 (a0 a1 a2 a3 a4 a5 a6 a7 b0 b1 b2 b3 b4 b5 b6 b7 : Int) :
    TMLSIMD32cuiAVX2.mul [a0, a1, a2, a3, a4, a5, a6, a7] [b0, b1, b2, b3, b4, b5, b6, b7] =
      [a0 * b0 - a1 * b1, a0 * b1 + a1 * b0, a2 * b2 - a3 * b3, a2 * b3 + a3 * b2,
       a4 * b4 - a5 * b5, a4 * b5 + a5 * b4, a6 * b6 - a7 * b7, a6 * b7 + a7 * b6] := by
  simp [TMLSIMD32cuiAVX2.mul, Intrin._mm256_shuffle_epi32,
    Intrin._mm_shuffle_epi32, Intrin._MM_SHUFFLE, Intrin.mul,
    Intrin.add, Intrin.sub, Intrin.andMask, Intrin.andnotMask, Intrin.set8]

/-- The `TMLSIMD16cuiAVX2` product is the complex product in its eight lanes. -/
theorem complex_mul_16cuiAVX2
    (a0 a1 a2 a3 a4 a5 a6 a7 a8 a9 a10 a11 a12 a13 a14 a15 : Int)
    (b0 b1 b2 b3 b4 b5 b6 b7 b8 b9 b10 b11 b12 b13 b14 b15 : Int) :
    TMLSIMD16cuiAVX2.mul [a0, a1, a2, a3, a4, a5, a6, a7, a8, a9, a10, a11, a12, a13, a14, a15]
        [b0, b1, b2, b3, b4, b5, b6, b7, b8, b9, b10, b11, b12, b13, b14, b15] =
      [a0 * b0 - a1 * b1, a0 * b1 + a1 * b0, a2 * b2 - a3 * b3, a2 * b3 + a3 * b2,
       a4 * b4 - a5 * b5, a4 * b5 + a5 * b4, a6 * b6 - a7 * b7, a6 * b7 + a7 * b6,
       a8 * b8 - a9 * b9, a8 * b9 + a9 * b8, a10 * b10 - a11 * b11, a10 * b11 + a11 * b10,
       a12 * b12 - a13 * b13, a12 * b13 + a13 * b12,
       a14 * b14 - a15 * b15, a14 * b15 + a15 * b14] := by
  simp [TMLSIMD16cuiAVX2.mul, Intrin._mm256_shufflelo_epi16, Intrin._mm256_shufflehi_epi16,
    Intrin._mm_shufflelo_epi16, Intrin._mm_shufflehi_epi16,
    Intrin._mm_shuffle_epi32, Intrin._MM_SHUFFLE, Intrin.mul,
    Intrin.add, Intrin.sub, Intrin.andMask, Intrin.andnotMask, Intrin.set16]

/-- C31: `Set1` of the complex value `1 + 2i` of 16-bit integers gives a register
whose four complex lanes are `1 + 0i`: the intrinsic is handed the real part
only, widened to 32 bits.  For `−1 + 2i` the lanes are `−1 − i` (sign
extension).  The same holds for 8-bit and 32-bit parts and for the AVX2
helper.  The overloads for complex float, double and 64-bit integers set the
lanes to `re, im, re, im, …`. -/
theorem C31_complex_integer_broadcast_drops_imaginary_part :
    Intrin.complexLanes 16 (TMLSIMDIntrinsicIntegerSSE2Helper.Set1_complex 16 (1, 2))
        = [(1, 0), (1, 0), (1, 0), (1, 0)] ∧
      Intrin.complexLanes 16 (TMLSIMDIntrinsicIntegerSSE2Helper.Set1_complex 16 (-1, 2))
        = [(-1, -1), (-1, -1), (-1, -1), (-1, -1)] ∧
      Intrin.complexLanes 8 (TMLSIMDIntrinsicIntegerSSE2Helper.Set1_complex 8 (1, 2))
        = List.replicate 8 (1, 0) ∧
      Intrin.complexLanes 32 (TMLSIMDIntrinsicIntegerSSE2Helper.Set1_complex 32 (1, 2))
        = [(1, 0), (1, 0)] ∧
      Intrin.complexLanes 16 (TMLSIMDIntrinsicIntegerAVX2Helper.Set1_complex 16 (1, 2))
        = List.replicate 8 (1, 0) ∧
      (∀ re im : Int, TMLSIMDIntrinsicFloatSSEHelper.Set1_complex (re, im) = [re, im, re, im]) ∧
      (∀ re im : Int, TMLSIMDIntrinsicDoubleSSE2Helper.Set1_complex (re, im) = [re, im]) ∧
      (∀ re im : Int, TMLSIMDIntrinsicFloatAVXHelper.Set1_complex (re, im)
        = [re, im, re, im, re, im, re, im]) ∧
      (∀ re im : Int, TMLSIMDIntrinsicDoubleAVXHelper.Set1_complex (re, im)
        = [re, im, re, im]) ∧
      (∀ re im : Int, TMLSIMDIntrinsicIntegerSSE2Helper.Set1_complex64 (re, im) = [re, im]) ∧
      (∀ re im : Int, TMLSIMDIntrinsicIntegerAVX2Helper.Set1_complex64 (re, im)
        = [re, im, re, im]) := by
  refine ⟨by decide, by decide, by decide, by decide, by decide,
    fun _ _ => rfl, fun _ _ => rfl, fun _ _ => rfl, fun _ _ => rfl, fun _ _ => rfl,
    fun _ _ => rfl⟩

/-! ## The default SIMD operators -/

/-- The compile-time loop is the fold of its functor over the values below `End`. -/
theorem constexprFor_eq_foldlM {σ ε : Type} (out : σ → ε) (Start End Inc : Nat)
    (hInc : 0 < Inc) (f : Nat → σ → Except ε σ) (s : σ) :
    MLConstexprFor out Start End Inc f s =
      (List.range' Start ((End - Start + Inc - 1) / Inc) Inc).foldlM (fun s i => f i s) s := by
  unfold MLConstexprFor
  by_cases hlt : Start < End
  · rw [decide_eq_true hlt]
    exact constexprFor_exec out End Inc hInc f _ Start s hlt (Nat.le_refl _)
  · rw [decide_eq_false hlt]
    have h0 : (End - Start + Inc - 1) / Inc = 0 := Nat.div_eq_of_lt (by omega)
    rw [h0]
    cases (End - Start) <;> rfl

/-- A fold in which no step stops is the plain fold. -/
theorem foldlM_ok {σ ε α : Type} (g : α → σ → σ) (l : List α) :
    ∀ s : σ, (l.foldlM (fun s i => (Except.ok (g i s) : Except ε σ)) s) =
      .ok (l.foldl (fun s i => g i s) s) := by
  induction l with
  | nil => intro s; rfl
  | cons x xs ih =>
    intro s
    rw [List.foldlM_cons, List.foldl_cons]
    exact ih (g x s)

/-- A loop from 0 in steps of 1 whose functor never stops. -/
theorem constexprFor_pure {σ ε : Type} (out : σ → ε) (n : Nat) (g : Nat → σ → σ) (s : σ) :
    MLConstexprFor out 0 n 1 (fun i s => .ok (g i s)) s =
      .ok ((List.range n).foldl (fun s i => g i s) s) := by
  rw [constexprFor_eq_foldlM out 0 n 1 (by decide), foldlM_ok]
  have h : (n - 0 + 1 - 1) / 1 = n := by simp
  rw [h, List.range_eq_range']

/-- Writing `f i` to lane `i` of a zero register, for every `i`, gives the lanes `f 0, f 1, …`. -/
theorem set_all_lanes (f : Nat → Int) (n : Nat) :
    (List.range n).foldl (fun res i => res.set i (f i)) (List.replicate n 0)
      = (List.range n).map f := by
  have key : ∀ k, k ≤ n →
      (List.range k).foldl (fun res i => res.set i (f i)) (List.replicate n 0)
        = (List.range k).map f ++ List.replicate (n - k) 0 := by
    intro k
    induction k with
    | zero => intro _; simp
    | succ k ih =>
      intro hk
      rw [List.range_succ, List.foldl_append, ih (by omega)]
      simp only [List.foldl_cons, List.foldl_nil, List.map_append, List.map_cons, List.map_nil]
      rw [List.set_append]
      have hlen : ((List.range k).map f).length = k := by simp
      rw [hlen, if_neg (Nat.lt_irrefl k), Nat.sub_self]
      obtain ⟨d, hd⟩ : ∃ d, n - k = d + 1 := ⟨n - k - 1, by omega⟩
      have hd2 : n - (k + 1) = d := by omega
      rw [hd, hd2, List.replicate_succ, List.set_cons_zero, List.append_assoc]
      rfl
  have h := key n (Nat.le_refl n)
  rw [Nat.sub_self, List.replicate_zero, List.append_nil] at h
  exact h

/-- The lanes `op a[i] b[i]` of two registers of lane count `n`. -/
theorem map_range_eq_zipWith (op : Int → Int → Int) (n : Nat) (a b : List Int)
    (ha : a.length = n) (hb : b.length = n) :
    (List.range n).map (fun i => op (a.getD i 0) (b.getD i 0)) = List.zipWith op a b := by
  apply List.ext_getElem
  · simp [ha, hb]
  · intro i h1 h2
    simp only [List.length_map, List.length_range] at h1
    have h3 : i < a.length := by omega
    have h4 : i < b.length := by omega
    simp [List.getElem?_eq_getElem h3, List.getElem?_eq_getElem h4]

/-- The default operator for `op` gives the register of the lanes `op a[i] b[i]`. -/
theorem defaultOperator_eq (op : Int → Int → Int) (n : Nat) (a b : List Int)
    (ha : a.length = n) (hb : b.length = n) :
    SIMD.defaultOperator op n a b = .ok (List.zipWith op a b) := by
  unfold SIMD.defaultOperator
  rw [constexprFor_pure]
  unfold SIMD.TMLSIMDDefaultHelper SIMD.SetZero
  rw [set_all_lanes (fun i => op (a.getD i 0) (b.getD i 0)) n, map_range_eq_zipWith op n a b ha hb]

/-- C32: for registers `a`, `b`, `c` of lane count `n`, the default operator for
an element operation `op` (`+`, `−`, `*`, `/`) completes with the register whose
lane `i` is `op a[i] b[i]` for every `i < n`; the default products and sums are
the lane-wise `mul` and `add` used by the kernels; `MLSIMDFmadd(a, b, c)`
through the default operators has the lanes `a[i]·b[i] + c[i]`; and on
one-lane registers the operator is the element operation itself. -/
theorem C32_default_operators_are_lanewise (op : Int → Int → Int) (n : Nat)
    (a b c : List Int) (ha : a.length = n) (hb : b.length = n) (hc : c.length = n) :
    (∃ r, SIMD.defaultOperator op n a b = .ok r ∧ r.length = n ∧
        ∀ i, i < n → r.getD i 0 = op (a.getD i 0) (b.getD i 0)) ∧
      SIMD.defaultOperator (· + ·) n a b = .ok (SIMD.add a b) ∧
      SIMD.defaultOperator (· - ·) n a b = .ok (List.zipWith (· - ·) a b) ∧
      SIMD.defaultOperator (· * ·) n a b = .ok (SIMD.mul a b) ∧
      SIMD.defaultOperator Int.tdiv n a b = .ok (List.zipWith Int.tdiv a b) ∧
      SIMD.defaultFmadd n a b c = .ok (SIMD.MLSIMDFmadd a b c) ∧
      (∀ i, i < n →
        (SIMD.MLSIMDFmadd a b c).getD i 0 = a.getD i 0 * b.getD i 0 + c.getD i 0) ∧
      (∀ x y : Int, SIMD.defaultOperator op 1 [x] [y] = .ok [op x y]) := by
  have hlane : ∀ (op : Int → Int → Int) (u v : List Int), u.length = n → v.length = n →
      ∀ i, i < n → (List.zipWith op u v).getD i 0 = op (u.getD i 0) (v.getD i 0) := by
    intro op u v hu hv i hi
    rw [← map_range_eq_zipWith op n u v hu hv]
    have h1 : i < ((List.range n).map (fun i => op (u.getD i 0) (v.getD i 0))).length := by
      simp [hi]
    rw [List.getD_eq_getElem _ _ h1]
    simp
  have hmul : (SIMD.mul a b).length = n := by simp [SIMD.mul, ha, hb]
  refine ⟨⟨_, defaultOperator_eq op n a b ha hb, by simp [ha, hb], hlane op a b ha hb⟩,
    defaultOperator_eq _ n a b ha hb, defaultOperator_eq _ n a b ha hb,
    defaultOperator_eq _ n a b ha hb, defaultOperator_eq _ n a b ha hb, ?_, ?_, ?_⟩
  · unfold SIMD.defaultFmadd
    rw [defaultOperator_eq _ n a b ha hb]
    show SIMD.defaultOperator (· + ·) n (SIMD.mul a b) c = _
    rw [defaultOperator_eq _ n _ c hmul hc]
    rfl
  · intro i hi
    unfold SIMD.MLSIMDFmadd SIMD.add
    rw [hlane (· + ·) (SIMD.mul a b) c hmul hc i hi]
    unfold SIMD.mul
    rw [hlane (· * ·) a b ha hb i hi]
  · intro x y
    exact defaultOperator_eq op 1 [x] [y] rfl rfl

/-- C32 for the default product of the two-lane registers `[2, 3]` and `[5, 7]`. -/
theorem C32_default_operators_witness :
    SIMD.defaultOperator (· * ·) 2 [2, 3] [5, 7] = .ok [10, 21] ∧
      SIMD.defaultFmadd 2 [2, 3] [5, 7] [1, 1] = .ok (SIMD.MLSIMDFmadd [2, 3] [5, 7] [1, 1]) :=
  ⟨by decide,
    (C32_default_operators_are_lanewise (· * ·) 2 [2, 3] [5, 7] [1, 1] rfl rfl rfl).2.2.2.2.2.1⟩

/-! ## Loops with a counter-dependent invariant -/

/-- A loop whose body keeps an invariant `I` of counter and state, and whose
condition fails from some bound `N` on, completes within `N - i` steps in a
state that satisfies `I` and fails the condition. -/
theorem forLoop_inv {σ ε : Type} (I : Nat → σ → Prop) (out : σ → ε)
    (cond : Nat → σ → Bool) (inc : Nat) (body : Nat → σ → Except ε σ) (N : Nat)
    (hinc : 0 < inc)
    (hbound : ∀ i s, I i s → cond i s = true → i < N)
    (hbody : ∀ i s, I i s → cond i s = true → ∃ s', body i s = .ok s' ∧ I (i + inc) s') :
    ∀ fuel i s, I i s → N ≤ i + fuel →
      ∃ i' s', forLoop out cond inc body fuel i s = .ok (i', s') ∧ I i' s' ∧
        cond i' s' = false := by
  intro fuel
  induction fuel with
  | zero =>
    intro i s hI hN
    unfold forLoop
    cases hc : cond i s
    · exact ⟨i, s, by simp, hI, hc⟩
    · have := hbound i s hI hc
      omega
  | succ n ih =>
    intro i s hI hN
    unfold forLoop
    cases hc : cond i s
    · exact ⟨i, s, by simp, hI, hc⟩
    · obtain ⟨s', hb, hI'⟩ := hbody i s hI hc
      simp only [if_true, hb]
      exact ih (i + inc) s' hI' (by omega)

/-- The state of a loop that completed. -/
theorem loopState_ok {σ ε : Type} {r : Except ε (Nat × σ)} {i : Nat} {s : σ}
    (h : r = .ok (i, s)) : loopState r = .ok s := by
  rw [h]; rfl

theorem SameLayout.lrefl (c : DenseMatrix) : SameLayout c c :=
  ⟨rfl, rfl, rfl, rfl, rfl, rfl, rfl⟩

theorem SameLayout.ltrans {a b c : DenseMatrix} (h1 : SameLayout a b) (h2 : SameLayout b c) :
    SameLayout a c := by
  obtain ⟨a1, a2, a3, a4, a5, a6, a7⟩ := h1
  obtain ⟨b1, b2, b3, b4, b5, b6, b7⟩ := h2
  exact ⟨b1.trans a1, b2.trans a2, b3.trans a3, b4.trans a4, b5.trans a5, b6.trans a6,
    b7.trans a7⟩

theorem SameLayout.sameRows {c c' : DenseMatrix} (h : SameLayout c c') : c'.Rows = c.Rows := by
  obtain ⟨_, h2, _, h4, h5, _, _⟩ := h
  simp [DenseMatrix.Rows, h2, h4, h5]

theorem SameLayout.sameCols {c c' : DenseMatrix} (h : SameLayout c c') : c'.Cols = c.Cols := by
  obtain ⟨_, h2, _, h4, h5, _, _⟩ := h
  simp [DenseMatrix.Cols, h2, h4, h5]

theorem SameLayout.paddedCols {c c' : DenseMatrix} (h : SameLayout c c') :
    c'.PaddedCols = c.PaddedCols := by
  obtain ⟨_, h2, _, h4, h5, h6, _⟩ := h
  simp [DenseMatrix.PaddedCols, DenseMatrix.Cols, h2, h4, h5, h6]

theorem SameLayout.flatIndex {c c' : DenseMatrix} (h : SameLayout c c') (i j : Nat) :
    c'.flatIndex i j = c.flatIndex i j := by
  obtain ⟨_, h2, _, _, _, h6, _⟩ := h
  simp [DenseMatrix.flatIndex, h2, h6]

theorem SameLayout.inv {c c' : DenseMatrix} (h : SameLayout c c') (hi : c.PaddingInv) :
    c'.PaddingInv := by
  obtain ⟨_, _, h3, h4, h5, h6, h7⟩ := h
  obtain ⟨p1, p2⟩ := hi
  exact ⟨by rw [h6, h5, h3]; exact p1, by rw [h7, h4, h6]; exact p2⟩

/-- An in-range read of a matrix under the padding invariant returns its cell. -/
theorem get_eq_cell (m : DenseMatrix) (h : m.PaddingInv) (i j : Nat)
    (hi : i < m.Rows) (hj : j < m.Cols) : m.get i j = .ok (m.cell i j) := by
  have hlt := flatIndex_lt m h i j hi hj
  unfold DenseMatrix.get DenseMatrix.cell
  rw [if_pos ⟨hi, hj⟩, List.getElem?_eq_getElem hlt, List.getD_eq_getElem _ _ hlt]

/-! ## The elements of a product node -/

/-- The accumulation loop of `operator()` of the product node, over readable operands. -/
theorem mul_eval_loop (A B : DenseMatrix) (i j : Nat) (x y : Nat → Int)
    (hx : ∀ p, p < A.Cols → A.get i p = .ok (x p))
    (hy : ∀ p, p < A.Cols → B.get p j = .ok (y p)) :
    loopState (forLoop (fun _ => Fault.fuel) (fun k (_ : Int) => decide (k < A.Cols)) 1
      (fun k res =>
        match A.get i k with
        | .error f => .error f
        | .ok x =>
          match B.get k j with
          | .error f => .error f
          | .ok y => .ok (res + x * y))
      A.Cols 0 0) = .ok (dotUpTo x y A.Cols) := by
  obtain ⟨k', s', hrun, ⟨hk, hs⟩, hc⟩ := forLoop_inv
    (fun k (acc : Int) => k ≤ A.Cols ∧ acc = dotUpTo x y k) (fun _ => Fault.fuel)
    (fun k (_ : Int) => decide (k < A.Cols)) 1
    (fun k res =>
        match A.get i k with
        | .error f => .error f
        | .ok x =>
          match B.get k j with
          | .error f => .error f
          | .ok y => .ok (res + x * y))
    A.Cols (by decide)
    (fun k s _ hc => by simpa using hc)
    (fun k s hI hc => by
      have hk : k < A.Cols := by simpa using hc
      refine ⟨s + x k * y k, ?_, by omega, ?_⟩
      · simp only [hx k hk, hy k hk]
      · rw [hI.2]; rfl)
    A.Cols 0 0 ⟨Nat.zero_le _, rfl⟩ (by omega)
  have hk2 : ¬ k' < A.Cols := by simpa using hc
  have : k' = A.Cols := by omega
  subst this
  rw [loopState_ok hrun, hs]

/-! ## Register stores and the fill loops on a row-major matrix -/

/-- The cells of a buffer after a register was written to it. -/
theorem writeLanes_getElem? (reg : List Int) : ∀ (buf : List Int) (o k : Nat),
    o + reg.length ≤ buf.length →
    (SIMD.writeLanes buf o reg)[k]? =
      if o ≤ k ∧ k < o + reg.length then reg[k - o]? else buf[k]? := by
  induction reg with
  | nil =>
    intro buf o k _
    have : ¬ (o ≤ k ∧ k < o + ([] : List Int).length) := by
      simp only [List.length_nil, Nat.add_zero]
      omega
    rw [if_neg this]
    rfl
  | cons x xs ih =>
    intro buf o k hlen
    simp only [List.length_cons] at hlen
    show (SIMD.writeLanes (buf.set o x) (o + 1) xs)[k]? = _
    rw [ih (buf.set o x) (o + 1) k (by rw [List.length_set]; omega)]
    simp only [List.length_cons]
    by_cases h1 : o + 1 ≤ k ∧ k < o + 1 + xs.length
    · rw [if_pos h1, if_pos ⟨by omega, by omega⟩]
      obtain ⟨d, hd⟩ : ∃ d, k - o = d + 1 := ⟨k - o - 1, by omega⟩
      have hd2 : k - (o + 1) = d := by omega
      rw [hd, hd2, List.getElem?_cons_succ]
    · rw [if_neg h1]
      by_cases h2 : k = o
      · subst h2
        rw [if_pos ⟨Nat.le_refl _, by omega⟩, Nat.sub_self, List.getElem?_set_self (by omega),
          List.getElem?_cons_zero]
      · rw [if_neg (by omega), List.getElem?_set_ne (by omega)]

/-- Multiples of `w` below a multiple of `w` leave room for one more register. -/
theorem step_le_of_dvd (w j P : Nat) (hj : w ∣ j) (hP : w ∣ P) (hlt : j < P) : j + w ≤ P := by
  obtain ⟨a, rfl⟩ := hj
  obtain ⟨b, rfl⟩ := hP
  have hw : 0 < w := by
    rcases Nat.eq_zero_or_pos w with h0 | h0
    · subst h0; simp at hlt
    · exact h0
  have hab : a < b := lt_of_mul_lt_mul_left hlt (Nat.zero_le w)
  calc w * a + w = w * (a + 1) := by ring
    _ ≤ w * b := Nat.mul_le_mul_left w hab

/-- The offset of a cell in an earlier row lies below the start of a later row. -/
theorem row_offset_lt (P i' i j' : Nat) (hi : i' < i) (hj : j' < P) : i' * P + j' < i * P := by
  have h1 : (i' + 1) * P ≤ i * P := Nat.mul_le_mul_right _ hi
  rw [Nat.add_mul, Nat.one_mul] at h1
  omega

/-- A register store into a row-major matrix at a column that is a multiple of
the lane count: it completes, keeps the layout, and changes the `w` cells from
the position on, nothing else. -/
theorem Store_rowMajor (c : DenseMatrix) (reg : List Int) (i j : Nat)
    (hrm : c.rowMajor = true) (hinv : c.PaddingInv) (hw : 0 < c.SIMDSize)
    (hreg : reg.length = c.SIMDSize) (hi : i < c.Rows) (hj : j < c.Cols)
    (hdiv : c.SIMDSize ∣ j) :
    ∃ c', c.Store reg i j = .ok c' ∧ SameLayout c c' ∧
      ∀ k, c'.m_storage[k]? =
        if i * c.m_paddedMinorCnt + j ≤ k ∧ k < i * c.m_paddedMinorCnt + j + c.SIMDSize
        then reg[k - (i * c.m_paddedMinorCnt + j)]? else c.m_storage[k]? := by
  obtain ⟨hp, hl⟩ := hinv
  have hR : c.Rows = c.m_majorCnt := by simp [DenseMatrix.Rows, hrm]
  have hC : c.Cols = c.m_minorCnt := by simp [DenseMatrix.Cols, hrm]
  have hidx : c.flatIndex i j = i * c.m_paddedMinorCnt + j := by
    simp [DenseMatrix.flatIndex, hrm]
  have hPdiv : c.SIMDSize ∣ c.m_paddedMinorCnt := by
    rw [hp]; exact (padded_spec c.SIMDSize c.m_minorCnt hw).1
  have hjP : j < c.m_paddedMinorCnt := by omega
  have hstep := step_le_of_dvd c.SIMDSize j c.m_paddedMinorCnt hdiv hPdiv hjP
  have hrow : (i + 1) * c.m_paddedMinorCnt ≤ c.m_majorCnt * c.m_paddedMinorCnt :=
    Nat.mul_le_mul_right _ (by omega)
  rw [Nat.add_mul, Nat.one_mul] at hrow
  have hal : (i * c.m_paddedMinorCnt + j) % c.SIMDSize = 0 :=
    Nat.mod_eq_zero_of_dvd (Nat.dvd_add (Dvd.dvd.mul_left hPdiv i) hdiv)
  have hb : i * c.m_paddedMinorCnt + j + c.SIMDSize ≤ c.m_storage.length := by
    rw [hl]; omega
  have htake : reg.take c.SIMDSize = reg := by
    rw [← hreg]; exact List.take_length reg
  refine ⟨{ c with m_storage := SIMD.writeLanes c.m_storage (i * c.m_paddedMinorCnt + j) reg },
    ?_, ⟨rfl, rfl, rfl, rfl, rfl, rfl, writeLanes_length _ _ _⟩, ?_⟩
  · unfold DenseMatrix.Store SIMD.StoreAligned
    rw [if_pos ⟨hi, hj⟩, hidx]
    simp only [hal, ne_eq, not_true_eq_false, if_false, hb, if_true, htake]
  · intro k
    show (SIMD.writeLanes c.m_storage (i * c.m_paddedMinorCnt + j) reg)[k]? = _
    rw [writeLanes_getElem? reg _ _ k (by rw [hreg]; exact hb), hreg]

/-- The fill loops shared by `SetZero` and `Set1`, on a row-major matrix under the
padding invariant: they complete, keep the layout, and leave `v` in every cell
of every row, padding included. -/
theorem storeLoops_fill (v : Int) (m : DenseMatrix) (hrm : m.rowMajor = true)
    (hw : 0 < m.SIMDSize) (hinv : m.PaddingInv) :
    ∃ c', storeLoops (List.replicate m.SIMDSize v) m = .ok c' ∧ SameLayout m c' ∧
      ∀ i j, i < m.Rows → j < m.PaddedCols →
        c'.m_storage[i * m.m_paddedMinorCnt + j]? = some v := by
  have hPC : m.PaddedCols = m.m_paddedMinorCnt := by simp [DenseMatrix.PaddedCols, hrm]
  have hCols : m.Cols = m.m_minorCnt := by simp [DenseMatrix.Cols, hrm]
  have hpad := padded_spec m.SIMDSize m.m_minorCnt hw
  rw [← hinv.1] at hpad
  obtain ⟨hPdiv, hCP, _, hmin⟩ := hpad
  obtain ⟨i', c', hrun, ⟨hlay, hile, hfill⟩, hc⟩ := forLoop_inv
    (fun i c => SameLayout m c ∧ i ≤ m.Rows ∧
      ∀ i' j', i' < i → j' < m.m_paddedMinorCnt →
        c.m_storage[i' * m.m_paddedMinorCnt + j']? = some v)
    (Abort.mk .fuel) (fun i c => decide (i < c.Rows)) 1
    (fun i c => loopState (forLoop (Abort.mk .fuel) (fun j c => decide (j < c.Cols)) c.SIMDSize
      (fun j c => orAbort c (c.Store (List.replicate m.SIMDSize v) i j)) c.Cols 0 c))
    m.Rows (by decide)
    (fun i s hI hc => by
      have := hI.1.sameRows
      have hc2 : i < s.Rows := by simpa using hc
      omega)
    (fun i s hI hc => by
      obtain ⟨hlay, _, hrows⟩ := hI
      have hi : i < m.Rows := by
        have := hlay.sameRows
        have hc2 : i < s.Rows := by simpa using hc
        omega
      obtain ⟨j', s', hrun, ⟨hlay', hdvd, hjle, hrows', hrow⟩, hc'⟩ := forLoop_inv
        (fun j c => SameLayout m c ∧ m.SIMDSize ∣ j ∧ j ≤ m.m_paddedMinorCnt ∧
          (∀ i' j', i' < i → j' < m.m_paddedMinorCnt →
            c.m_storage[i' * m.m_paddedMinorCnt + j']? = some v) ∧
          (∀ j', j' < j → c.m_storage[i * m.m_paddedMinorCnt + j']? = some v))
        (Abort.mk .fuel) (fun j c => decide (j < c.Cols)) s.SIMDSize
        (fun j c => orAbort c (c.Store (List.replicate m.SIMDSize v) i j))
        m.Cols (by rw [hlay.2.2.1]; exact hw)
        (fun j c hJ hc => by
          have := hJ.1.sameCols
          have hc2 : j < c.Cols := by simpa using hc
          omega)
        (fun j c hJ hc => by
          obtain ⟨hl, hd, hjl, hr1, hr2⟩ := hJ
          have hjc : j < c.Cols := by simpa using hc
          have hcw : c.SIMDSize = m.SIMDSize := hl.2.2.1
          have hcP : c.m_paddedMinorCnt = m.m_paddedMinorCnt := hl.2.2.2.2.2.1
          obtain ⟨c2, hst, hl2, hcells⟩ := Store_rowMajor c (List.replicate m.SIMDSize v) i j
            (by rw [hl.2.1]; exact hrm) (hl.inv hinv) (by rw [hcw]; exact hw)
            (by rw [hcw]; exact List.length_replicate _ _)
            (by rw [hl.sameRows]; exact hi) hjc (by rw [hcw]; exact hd)
          rw [hcP, hcw] at hcells
          have hjC : j < m.m_minorCnt := by rw [hl.sameCols, hCols] at hjc; exact hjc
          have hstep := step_le_of_dvd m.SIMDSize j m.m_paddedMinorCnt hd hPdiv (by omega)
          refine ⟨c2, (by
            show orAbort c (c.Store (List.replicate m.SIMDSize v) i j) = _
            rw [hst]; rfl), hl.ltrans hl2, ?_, ?_, ?_, ?_⟩
          · rw [hlay.2.2.1]; exact Nat.dvd_add hd (dvd_refl _)
          · rw [hlay.2.2.1]; exact hstep
          · intro i1 j1 hi1 hj1
            rw [hcells]
            have := row_offset_lt m.m_paddedMinorCnt i1 i j1 hi1 hj1
            rw [if_neg (by omega)]
            exact hr1 i1 j1 hi1 hj1
          · intro j1 hj1
            rw [hlay.2.2.1] at hj1
            rw [hcells]
            by_cases hlt : j1 < j
            · rw [if_neg (by omega)]
              exact hr2 j1 hlt
            · rw [if_pos ⟨by omega, by omega⟩]
              have hk : i * m.m_paddedMinorCnt + j1 - (i * m.m_paddedMinorCnt + j) < m.SIMDSize := by
                omega
              rw [List.getElem?_replicate, if_pos hk])
        s.Cols 0 s
        ⟨hlay, Nat.dvd_zero _, Nat.zero_le _, hrows, fun j' hj' => by omega⟩
        (by rw [hlay.sameCols]; omega)
      have hj2 : ¬ j' < s'.Cols := by simpa using hc'
      rw [hlay'.sameCols, hCols] at hj2
      have hjP : j' = m.m_paddedMinorCnt := by
        have := hmin j' hdvd (by omega)
        omega
      refine ⟨s', loopState_ok hrun, hlay', by omega, ?_⟩
      intro i1 j1 hi1 hj1
      by_cases hlt : i1 < i
      · exact hrows' i1 j1 hlt hj1
      · have : i1 = i := by omega
        subst this
        exact hrow j1 (by omega))
    m.Rows 0 m ⟨SameLayout.lrefl m, Nat.zero_le _, fun i' j' h _ => by omega⟩ (by omega)
  have hi2 : ¬ i' < c'.Rows := by simpa using hc
  rw [hlay.sameRows] at hi2
  refine ⟨c', ?_, hlay, ?_⟩
  · unfold storeLoops
    exact loopState_ok hrun
  · intro i j hi hj
    rw [hPC] at hj
    exact hfill i j (by omega) hj

/-- `Assign` of a node that reports the target's own shape runs the node's
`AssignTo` on the target as it is. -/
theorem assignWith_self (junk : Nat → Int) (m : DenseMatrix) (hinv : m.PaddingInv)
    (f : DenseMatrix → Except Abort DenseMatrix) :
    m.AssignWith junk m.Rows m.Cols f = f m := by
  unfold DenseMatrix.AssignWith
  cases hs : m.isStatic
  · simp only [Bool.false_eq_true, if_false]
    rw [Resize_same_eq junk m hinv]
  · simp only [if_true, and_self]

/-- C29: on a row-major matrix of lane count `w ≥ 1` that satisfies the padding
invariant, `SetZero()` and `Set1(v)` complete, keep the layout, and leave 0
(respectively `v`) in the buffer cell of every position `(i, j)` with
`i < Rows()` and `j < PaddedCols()`, padding cells included. -/
theorem C29_fill_covers_padded_rows (junk : Nat → Int) (m : DenseMatrix) (v : Int)
    (hrm : m.rowMajor = true) (hw : 0 < m.SIMDSize) (hinv : m.PaddingInv) :
    ∃ z o, m.SetZero junk = .ok z ∧ m.Set1 junk v = .ok o ∧
      SameLayout m z ∧ SameLayout m o ∧
      ∀ i j, i < m.Rows → j < m.PaddedCols →
        z.m_storage[z.flatIndex i j]? = some 0 ∧ o.m_storage[o.flatIndex i j]? = some v := by
  obtain ⟨z, hz, hlz, hfz⟩ := storeLoops_fill 0 m hrm hw hinv
  obtain ⟨o, ho, hlo, hfo⟩ := storeLoops_fill v m hrm hw hinv
  have hidx : ∀ i j, m.flatIndex i j = i * m.m_paddedMinorCnt + j := by
    intro i j; simp [DenseMatrix.flatIndex, hrm]
  refine ⟨z, o, ?_, ?_, hlz, hlo, ?_⟩
  · unfold DenseMatrix.SetZero
    rw [assignWith_self junk m hinv]
    unfold TMLDMSetZeroExpression.AssignTo
    rw [if_pos ⟨rfl, rfl⟩]
    exact hz
  · unfold DenseMatrix.Set1
    rw [assignWith_self junk m hinv]
    unfold TMLDMSet1Expression.AssignTo
    rw [if_pos ⟨rfl, rfl⟩]
    exact ho
  · intro i j hi hj
    rw [hlz.flatIndex, hlo.flatIndex, hidx]
    exact ⟨hfz i j hi hj, hfo i j hi hj⟩

/-- C29 at the 2×3 matrix `A` of lane count 2: `Set1(5)` fills all eight cells. -/
theorem C29_fill_covers_padded_rows_witness :
    (exA.Set1 junk77 5).map (fun m => m.m_storage) = .ok [5, 5, 5, 5, 5, 5, 5, 5] ∧
      ∃ z o, exA.SetZero junk77 = .ok z ∧ exA.Set1 junk77 5 = .ok o ∧
        SameLayout exA z ∧ SameLayout exA o ∧
        ∀ i j, i < exA.Rows → j < exA.PaddedCols →
          z.m_storage[z.flatIndex i j]? = some 0 ∧ o.m_storage[o.flatIndex i j]? = some 5 :=
  ⟨by decide, C29_fill_covers_padded_rows junk77 exA 5 (by decide) (by decide) (by decide)⟩

/-! ## The cascade of the vectorized product -/

/-- The vectorized kernel on row-major matrices is the loop nest `cascade` with
the sub-kernel as the call and the target as the state. -/
theorem VectorizedKernel_eq_cascade (junk : Nat → Int) (c a b : DenseMatrix)
    (h : (c.rowMajor && a.rowMajor && b.rowMajor) = true) :
    TMLDMDMMulExpression.VectorizedKernel junk c a b =
      TMLDMDMMulExpression.cascade (Abort.mk .fuel) DenseMatrix.Rows DenseMatrix.PaddedCols
        a.SIMDSize
        (fun regsA regsB ro co c => TMLDMDMMulExpression.VectorizedSubKernelRRR regsA regsB c a b ro co)
        c := by
  unfold TMLDMDMMulExpression.VectorizedKernel
  rw [if_pos h]
  rfl

theorem bind_ok_eq {ε α β : Type} {r : Except ε α} {a : α} (h : r = .ok a)
    (f : α → Except ε β) : (r >>= f) = f a := by
  rw [h]; rfl

theorem doneRegion_zero (R t rB : Nat) : doneRegion R t rB 0 = colsDone R t := by
  ext q
  simp only [doneRegion, colsDone, Set.mem_setOf_eq]
  omega

theorem doneRegion_full (R t rB : Nat) : doneRegion R t rB R = colsDone R (t + rB) := by
  ext q
  simp only [doneRegion, colsDone, Set.mem_setOf_eq]
  omega

theorem doneRegion_step (R t rB i rA : Nat) (h : i + rA ≤ R) :
    doneRegion R t rB i ∪ blockRegion i rA t rB = doneRegion R t rB (i + rA) := by
  ext q
  simp only [doneRegion, blockRegion, Set.mem_union, Set.mem_setOf_eq]
  omega

theorem block_not_done (R t rB i rA : Nat) :
    ∀ q ∈ blockRegion i rA t rB, q ∉ doneRegion R t rB i := by
  intro q hq
  simp only [doneRegion, blockRegion, Set.mem_setOf_eq] at hq ⊢
  omega

open TMLDMDMMulExpression in
/-- A row loop of the cascade goes through the rows from `i0` in blocks of `rA`
and stops with fewer than `rA` rows left. -/
theorem cascadeRows_tiles {σ ε : Type} (out : σ → ε) {rows paddedCols : σ → Nat} {w R S : Nat}
    {sub : Nat → Nat → Nat → Nat → σ → Except ε σ} {Φ : Set (Nat × Nat) → σ → Prop}
    (H : TilingSpec rows paddedCols w R S sub Φ) (rA rB t : Nat)
    (hsh : (rB, rA) ∈ cascadeShapes) (hrA : 0 < rA) (ht : t + rB ≤ S)
    (i0 : Nat) (s : σ) (hi0 : i0 ≤ R) (hΦ : Φ (doneRegion R t rB i0) s) :
    ∃ i1 s1, cascadeRows out rows sub rA rB (w * t) i0 s = .ok (i1, s1) ∧ i1 ≤ R ∧
      R < i1 + rA ∧ Φ (doneRegion R t rB i1) s1 := by
  obtain ⟨i1, s1, hrun, ⟨hle, hΦ1⟩, hc⟩ := forLoop_inv
    (fun i s => i ≤ R ∧ Φ (doneRegion R t rB i) s) out
    (fun i s => decide (i + rA ≤ rows s)) rA (fun i s => sub rA rB i (w * t) s) R hrA
    (fun i s hI hc => by
      have hR := (H.shape _ _ hI.2).1
      have hc2 : i + rA ≤ rows s := by simpa using hc
      omega)
    (fun i s hI hc => by
      have hR := (H.shape _ _ hI.2).1
      have hc2 : i + rA ≤ rows s := by simpa using hc
      obtain ⟨s', hs', hΦ'⟩ := H.step _ s rA rB i t hI.2 hsh (by omega) ht
        (block_not_done R t rB i rA)
      rw [doneRegion_step R t rB i rA (by omega)] at hΦ'
      exact ⟨s', hs', by omega, hΦ'⟩)
    (rows s) i0 s ⟨hi0, hΦ⟩ (by rw [(H.shape _ _ hΦ).1]; omega)
  refine ⟨i1, s1, hrun, hle, ?_, hΦ1⟩
  have h2 : ¬ (i1 + rA ≤ rows s1) := by simpa using hc
  rw [(H.shape _ _ hΦ1).1] at h2
  omega

open TMLDMDMMulExpression in
/-- The closing call of a panel finishes the last row, if one is left. -/
theorem cascadeLast_tiles {σ ε : Type} {rows paddedCols : σ → Nat} {w R S : Nat}
    {sub : Nat → Nat → Nat → Nat → σ → Except ε σ} {Φ : Set (Nat × Nat) → σ → Prop}
    (H : TilingSpec rows paddedCols w R S sub Φ) (rB t : Nat)
    (hsh : (rB, 1) ∈ cascadeShapes) (ht : t + rB ≤ S)
    (i : Nat) (s : σ) (hi : i ≤ R) (hi2 : R < i + 2) (hΦ : Φ (doneRegion R t rB i) s) :
    ∃ s1, cascadeLast rows sub rB (w * t) i s = .ok s1 ∧ Φ (colsDone R (t + rB)) s1 := by
  have hR := (H.shape _ _ hΦ).1
  unfold cascadeLast
  by_cases hlt : i < rows s
  · rw [if_pos hlt]
    rw [hR] at hlt
    obtain ⟨s', hs', hΦ'⟩ := H.step _ s 1 rB i t hΦ hsh (by omega) ht
      (block_not_done R t rB i 1)
    rw [doneRegion_step R t rB i 1 (by omega)] at hΦ'
    have hiR : i + 1 = R := by omega
    rw [hiR, doneRegion_full] at hΦ'
    exact ⟨s', hs', hΦ'⟩
  · rw [if_neg hlt]
    rw [hR] at hlt
    have hiR : i = R := by omega
    rw [hiR, doneRegion_full] at hΦ
    exact ⟨s, rfl, hΦ⟩

open TMLDMDMMulExpression in
/-- A column loop of the cascade goes through the strips from `t0` in panels of
`rB` strips and stops with fewer than `rB` strips left. -/
theorem cascadeCols_tiles {σ ε : Type} (out : σ → ε) {rows paddedCols : σ → Nat} {w R S : Nat}
    {sub : Nat → Nat → Nat → Nat → σ → Except ε σ} {Φ : Set (Nat × Nat) → σ → Prop}
    (H : TilingSpec rows paddedCols w R S sub Φ) (hw : 0 < w) (rB : Nat) (hrB : 0 < rB)
    (body : Nat → σ → Except ε σ)
    (hbody : ∀ t s, t + rB ≤ S → Φ (colsDone R t) s →
      ∃ s', body (w * t) s = .ok s' ∧ Φ (colsDone R (t + rB)) s')
    (t0 : Nat) (s : σ) (ht0 : t0 ≤ S) (hΦ : Φ (colsDone R t0) s) :
    ∃ t1 s1, cascadeCols out paddedCols rB w body (w * t0) s = .ok (w * t1, s1) ∧ t1 ≤ S ∧
      S < t1 + rB ∧ Φ (colsDone R t1) s1 := by
  have hiff : ∀ t, w * t + rB * w ≤ w * S ↔ t + rB ≤ S := by
    intro t
    have e : w * t + rB * w = w * (t + rB) := by ring
    rw [e]
    exact ⟨fun h => Nat.le_of_mul_le_mul_left h hw, fun h => Nat.mul_le_mul_left w h⟩
  obtain ⟨j1, s1, hrun, ⟨t1, hj1, ht1, hΦ1⟩, hc⟩ := forLoop_inv
    (fun j s => ∃ t, j = w * t ∧ t ≤ S ∧ Φ (colsDone R t) s) out
    (fun j s => decide (j + rB * w ≤ paddedCols s)) (rB * w) body (w * S)
    (Nat.mul_pos hrB hw)
    (fun j s hI hc => by
      obtain ⟨t, hj, _, hΦt⟩ := hI
      have hP := (H.shape _ _ hΦt).2
      have hc2 : j + rB * w ≤ paddedCols s := by simpa using hc
      have := Nat.mul_pos hrB hw
      omega)
    (fun j s hI hc => by
      obtain ⟨t, hj, _, hΦt⟩ := hI
      have hP := (H.shape _ _ hΦt).2
      have hc2 : j + rB * w ≤ paddedCols s := by simpa using hc
      rw [hP, hj, hiff] at hc2
      obtain ⟨s', hs', hΦ'⟩ := hbody t s hc2 hΦt
      refine ⟨s', by rw [hj]; exact hs', t + rB, ?_, hc2, hΦ'⟩
      rw [hj]; ring)
    (paddedCols s) (w * t0) s ⟨t0, rfl, ht0, hΦ⟩
    (by rw [(H.shape _ _ hΦ).2]; omega)
  subst hj1
  refine ⟨t1, s1, hrun, ht1, ?_, hΦ1⟩
  have h2 : ¬ (w * t1 + rB * w ≤ paddedCols s1) := by simpa using hc
  rw [(H.shape _ _ hΦ1).2, hiff] at h2
  omega

open TMLDMDMMulExpression in
/-- The cascade goes through every row of every strip: from a state in which
nothing has been gone through it completes in a state for the whole target. -/
theorem cascade_tiles {σ ε : Type} (out : σ → ε) {rows paddedCols : σ → Nat} {w R S : Nat}
    {sub : Nat → Nat → Nat → Nat → σ → Except ε σ} {Φ : Set (Nat × Nat) → σ → Prop}
    (H : TilingSpec rows paddedCols w R S sub Φ) (hw : 0 < w) (s : σ) (hΦ : Φ (colsDone R 0) s) :
    ∃ s', cascade out rows paddedCols w sub s = .ok s' ∧ Φ (colsDone R S) s' := by
  -- the four panel bodies
  have hb4 : ∀ t s, t + 4 ≤ S → Φ (colsDone R t) s →
      ∃ s', (cascadeRows out rows sub 3 4 (w * t) 0 s >>= fun r =>
        cascadeRows out rows sub 2 4 (w * t) r.1 r.2 >>= fun r =>
        cascadeLast rows sub 4 (w * t) r.1 r.2) = .ok s' ∧ Φ (colsDone R (t + 4)) s' := by
    intro t s ht h
    rw [← doneRegion_zero R t 4] at h
    obtain ⟨i1, s1, h1, hi1, _, hΦ1⟩ := cascadeRows_tiles out H 3 4 t (by decide)
      (by decide) ht 0 s (Nat.zero_le _) h
    obtain ⟨i2, s2, h2, hi2, hi2', hΦ2⟩ := cascadeRows_tiles out H 2 4 t (by decide)
      (by decide) ht i1 s1 hi1 hΦ1
    obtain ⟨s3, h3, hΦ3⟩ := cascadeLast_tiles H 4 t (by decide) ht i2 s2 hi2 hi2' hΦ2
    exact ⟨s3, by rw [bind_ok_eq h1, bind_ok_eq h2]; exact h3, hΦ3⟩
  have hb3 : ∀ t s, t + 3 ≤ S → Φ (colsDone R t) s →
      ∃ s', (cascadeRows out rows sub 4 3 (w * t) 0 s >>= fun r =>
        cascadeRows out rows sub 2 3 (w * t) r.1 r.2 >>= fun r =>
        cascadeLast rows sub 3 (w * t) r.1 r.2) = .ok s' ∧ Φ (colsDone R (t + 3)) s' := by
    intro t s ht h
    rw [← doneRegion_zero R t 3] at h
    obtain ⟨i1, s1, h1, hi1, _, hΦ1⟩ := cascadeRows_tiles out H 4 3 t (by decide)
      (by decide) ht 0 s (Nat.zero_le _) h
    obtain ⟨i2, s2, h2, hi2, hi2', hΦ2⟩ := cascadeRows_tiles out H 2 3 t (by decide)
      (by decide) ht i1 s1 hi1 hΦ1
    obtain ⟨s3, h3, hΦ3⟩ := cascadeLast_tiles H 3 t (by decide) ht i2 s2 hi2 hi2' hΦ2
    exact ⟨s3, by rw [bind_ok_eq h1, bind_ok_eq h2]; exact h3, hΦ3⟩
  have hb2 : ∀ t s, t + 2 ≤ S → Φ (colsDone R t) s →
      ∃ s', (cascadeRows out rows sub 2 2 (w * t) 0 s >>= fun r =>
        cascadeLast rows sub 2 (w * t) r.1 r.2) = .ok s' ∧ Φ (colsDone R (t + 2)) s' := by
    intro t s ht h
    rw [← doneRegion_zero R t 2] at h
    obtain ⟨i2, s2, h2, hi2, hi2', hΦ2⟩ := cascadeRows_tiles out H 2 2 t (by decide)
      (by decide) ht 0 s (Nat.zero_le _) h
    obtain ⟨s3, h3, hΦ3⟩ := cascadeLast_tiles H 2 t (by decide) ht i2 s2 hi2 hi2' hΦ2
    exact ⟨s3, by rw [bind_ok_eq h2]; exact h3, hΦ3⟩
  have hb1 : ∀ t s, t + 1 ≤ S → Φ (colsDone R t) s →
      ∃ s', (cascadeRows out rows sub 8 1 (w * t) 0 s >>= fun r =>
        cascadeRows out rows sub 4 1 (w * t) r.1 r.2 >>= fun r =>
        cascadeRows out rows sub 2 1 (w * t) r.1 r.2 >>= fun r =>
        loopState (cascadeRows out rows sub 1 1 (w * t) r.1 r.2)) = .ok s' ∧
        Φ (colsDone R (t + 1)) s' := by
    intro t s ht h
    rw [← doneRegion_zero R t 1] at h
    obtain ⟨i1, s1, h1, hi1, _, hΦ1⟩ := cascadeRows_tiles out H 8 1 t (by decide)
      (by decide) ht 0 s (Nat.zero_le _) h
    obtain ⟨i2, s2, h2, hi2, _, hΦ2⟩ := cascadeRows_tiles out H 4 1 t (by decide)
      (by decide) ht i1 s1 hi1 hΦ1
    obtain ⟨i3, s3, h3, hi3, _, hΦ3⟩ := cascadeRows_tiles out H 2 1 t (by decide)
      (by decide) ht i2 s2 hi2 hΦ2
    obtain ⟨i4, s4, h4, hi4, hi4', hΦ4⟩ := cascadeRows_tiles out H 1 1 t (by decide)
      (by decide) ht i3 s3 hi3 hΦ3
    have hiR : i4 = R := by omega
    rw [hiR, doneRegion_full] at hΦ4
    exact ⟨s4, by rw [bind_ok_eq h1, bind_ok_eq h2, bind_ok_eq h3]; exact loopState_ok h4, hΦ4⟩
  -- the four column loops
  obtain ⟨t1, s1, h1, ht1, _, hΦ1⟩ := cascadeCols_tiles out H hw 4 (by decide)
    (fun j s =>
      cascadeRows out rows sub 3 4 j 0 s >>= fun r =>
      cascadeRows out rows sub 2 4 j r.1 r.2 >>= fun r =>
      cascadeLast rows sub 4 j r.1 r.2) hb4 0 s (Nat.zero_le _) hΦ
  obtain ⟨t2, s2, h2, ht2, _, hΦ2⟩ := cascadeCols_tiles out H hw 3 (by decide)
    (fun j s =>
      cascadeRows out rows sub 4 3 j 0 s >>= fun r =>
      cascadeRows out rows sub 2 3 j r.1 r.2 >>= fun r =>
      cascadeLast rows sub 3 j r.1 r.2) hb3 t1 s1 ht1 hΦ1
  obtain ⟨t3, s3, h3, ht3, _, hΦ3⟩ := cascadeCols_tiles out H hw 2 (by decide)
    (fun j s =>
      cascadeRows out rows sub 2 2 j 0 s >>= fun r =>
      cascadeLast rows sub 2 j r.1 r.2) hb2 t2 s2 ht2 hΦ2
  obtain ⟨t4, s4, h4, ht4, ht4', hΦ4⟩ := cascadeCols_tiles out H hw 1 (by decide)
    (fun j s =>
      cascadeRows out rows sub 8 1 j 0 s >>= fun r =>
      cascadeRows out rows sub 4 1 j r.1 r.2 >>= fun r =>
      cascadeRows out rows sub 2 1 j r.1 r.2 >>= fun r =>
      loopState (cascadeRows out rows sub 1 1 j r.1 r.2)) hb1 t3 s3 ht3 hΦ3
  have htS : t4 = S := by omega
  rw [htS] at hΦ4
  refine ⟨s4, ?_, hΦ4⟩
  unfold cascade
  rw [Nat.mul_zero] at h1
  rw [bind_ok_eq h1, bind_ok_eq h2, bind_ok_eq h3]
  exact loopState_ok h4

open TMLDMDMMulExpression in
/-- A recorded call covers a (row, strip) pair exactly when the pair is in its block. -/
theorem covers_iff (w : Nat) (hw : 0 < w) (rA rB ro t i u : Nat) :
    (SubKernelCall.covers w ⟨rA, rB, ro, w * t⟩ i u = true) ↔ (i, u) ∈ blockRegion ro rA t rB := by
  have h1 : w * t ≤ u * w ↔ t ≤ u := by
    rw [Nat.mul_comm u w]
    exact ⟨fun h => Nat.le_of_mul_le_mul_left h hw, fun h => Nat.mul_le_mul_left w h⟩
  have h2 : u * w < w * t + rB * w ↔ u < t + rB := by
    have e : w * t + rB * w = w * (t + rB) := by ring
    rw [e, Nat.mul_comm u w]
    exact ⟨fun h => Nat.lt_of_mul_lt_mul_left h, fun h => Nat.mul_lt_mul_of_pos_left h hw⟩
  simp only [SubKernelCall.covers, decide_eq_true_eq, blockRegion, Set.mem_setOf_eq, h1, h2]

open TMLDMDMMulExpression in
/-- The recording sub-kernel meets the tiling conditions, for the predicate
"every recorded call has a shape of the cascade and lies inside the target, and
a (row, strip) pair is covered by one recorded call if it is in `D` and by none
otherwise". -/
theorem callLog_spec (R w S : Nat) (hw : 0 < w) :
    @TilingSpec (List SubKernelCall) Unit (fun _ => R) (fun _ => w * S) w R S
      (fun regsA regsB ro co log => .ok (log ++ [⟨regsA, regsB, ro, co⟩]))
      (fun D log =>
        (∀ c ∈ log, (c.regsB, c.regsA) ∈ cascadeShapes ∧ c.ro + c.regsA ≤ R ∧
          c.co + c.regsB * w ≤ w * S ∧ w ∣ c.co) ∧
        (∀ i u, (i, u) ∈ D → (log.filter (fun c => c.covers w i u)).length = 1) ∧
        (∀ i u, (i, u) ∉ D → (log.filter (fun c => c.covers w i u)).length = 0)) := by
  refine ⟨fun _ _ _ => ⟨rfl, rfl⟩, ?_⟩
  intro D log rA rB ro t hΦ hsh hro ht hdis
  obtain ⟨hval, hone, hnone⟩ := hΦ
  refine ⟨_, rfl, ?_, ?_, ?_⟩
  · intro c hc
    rcases List.mem_append.mp hc with h | h
    · exact hval c h
    · rw [List.mem_singleton] at h
      subst h
      refine ⟨hsh, hro, ?_, Dvd.intro _ rfl⟩
      have e : w * t + rB * w = w * (t + rB) := by ring
      show w * t + rB * w ≤ w * S
      rw [e]
      exact Nat.mul_le_mul_left w ht
  · intro i u hmem
    rw [List.filter_append, List.length_append]
    by_cases hb : (i, u) ∈ blockRegion ro rA t rB
    · have h0 := hnone i u (hdis _ hb)
      have hc : SubKernelCall.covers w ⟨rA, rB, ro, w * t⟩ i u = true :=
        (covers_iff w hw rA rB ro t i u).mpr hb
      rw [h0]
      simp [List.filter_cons, hc]
    · have hD : (i, u) ∈ D := by
        rcases hmem with h | h
        · exact h
        · exact absurd h hb
      have hc : ¬ SubKernelCall.covers w ⟨rA, rB, ro, w * t⟩ i u = true :=
        fun h => hb ((covers_iff w hw rA rB ro t i u).mp h)
      rw [hone i u hD]
      simp [List.filter_cons, hc]
  · intro i u hmem
    have hD : (i, u) ∉ D := fun h => hmem (Or.inl h)
    have hb : (i, u) ∉ blockRegion ro rA t rB := fun h => hmem (Or.inr h)
    have hc : ¬ SubKernelCall.covers w ⟨rA, rB, ro, w * t⟩ i u = true :=
      fun h => hb ((covers_iff w hw rA rB ro t i u).mp h)
    rw [List.filter_append, List.length_append, hnone i u hD]
    simp [List.filter_cons, hc]

open TMLDMDMMulExpression in
/-- C26: `VectorizedKernel` on row-major matrices is the loop nest `cascade` run
with the sub-kernel; run with a sub-kernel that records its arguments, for a
target of `R` rows and `P` padded columns, `P` a multiple of the lane count
`w ≥ 1`, the loop nest completes with a list of calls such that every call has
one of the shapes 4w × {3,2,1}, 3w × {4,2,1}, 2w × {2,1}, w × {8,4,2,1}, has
`ro + regsA ≤ R`, `co + regsB·w ≤ P` and `co` a multiple of `w`, and every pair
of a row `i < R` and a strip `s < P / w` is covered by exactly one call. -/
theorem C26_cascade_tiles_the_target (R w P : Nat) (hw : 0 < w) (hP : w ∣ P) :
    (∀ (junk : Nat → Int) (c a b : DenseMatrix),
      (c.rowMajor && a.rowMajor && b.rowMajor) = true →
      VectorizedKernel junk c a b =
        cascade (Abort.mk .fuel) DenseMatrix.Rows DenseMatrix.PaddedCols a.SIMDSize
          (fun regsA regsB ro co c => VectorizedSubKernelRRR regsA regsB c a b ro co) c) ∧
      ∃ L, callLog R w P = .ok L ∧
        (∀ c ∈ L, (c.regsB, c.regsA) ∈
            [(4, 3), (4, 2), (4, 1), (3, 4), (3, 2), (3, 1), (2, 2), (2, 1),
             (1, 8), (1, 4), (1, 2), (1, 1)] ∧
          c.ro + c.regsA ≤ R ∧ c.co + c.regsB * w ≤ P ∧ w ∣ c.co) ∧
        ∀ i s, i < R → s < P / w → (L.filter (fun c => c.covers w i s)).length = 1 := by
  refine ⟨VectorizedKernel_eq_cascade, ?_⟩
  obtain ⟨S, rfl⟩ := hP
  have hS : w * S / w = S := Nat.mul_div_cancel_left S hw
  obtain ⟨L, hL, hval, hone, _⟩ := cascade_tiles (fun _ => ()) (callLog_spec R w S hw) hw []
    ⟨fun c hc => (by cases hc),
      fun i u h => (by simp only [colsDone, Set.mem_setOf_eq] at h; omega),
      fun _ _ _ => rfl⟩
  refine ⟨L, hL, hval, ?_⟩
  intro i s hi hs
  rw [hS] at hs
  exact hone i s ⟨hi, hs⟩

/-- C26 for three rows and two strips of lane count 2: one 2w-panel with a block
of two rows and the closing one-row block. -/
theorem C26_cascade_tiles_witness :
    TMLDMDMMulExpression.callLog 3 2 4 = .ok [⟨2, 2, 0, 0⟩, ⟨1, 2, 2, 0⟩] ∧
      ∃ L, TMLDMDMMulExpression.callLog 3 2 4 = .ok L ∧
        (∀ c ∈ L, (c.regsB, c.regsA) ∈
            [(4, 3), (4, 2), (4, 1), (3, 4), (3, 2), (3, 1), (2, 2), (2, 1),
             (1, 8), (1, 4), (1, 2), (1, 1)] ∧
          c.ro + c.regsA ≤ 3 ∧ c.co + c.regsB * 2 ≤ 4 ∧ 2 ∣ c.co) ∧
        ∀ i s, i < 3 → s < 4 / 2 → (L.filter (fun c => c.covers 2 i s)).length = 1 :=
  ⟨by decide, (C26_cascade_tiles_the_target 3 2 4 (by decide) (by decide)).2⟩

/-! ## Reads, writes and registers in terms of cells -/

/-- A counting loop `for (i = 0; i < n; ++i)` whose body keeps an invariant of
counter and state completes in a state for `n`. -/
theorem forLoop_count {σ ε : Type} (I : Nat → σ → Prop) (out : σ → ε)
    (cond : Nat → σ → Bool) (body : Nat → σ → Except ε σ) (n fuel : Nat) (hf : n ≤ fuel)
    (hcond : ∀ i s, I i s → i ≤ n → cond i s = decide (i < n))
    (hbody : ∀ i s, I i s → i < n → ∃ s', body i s = .ok s' ∧ I (i + 1) s')
    (s : σ) (h0 : I 0 s) :
    ∃ s', loopState (forLoop out cond 1 body fuel 0 s) = .ok s' ∧ I n s' := by
  obtain ⟨i', s', hrun, ⟨hI, hle⟩, hc⟩ := forLoop_inv (fun i s => I i s ∧ i ≤ n) out cond 1 body n
    (by decide)
    (fun i s hI hc => by
      rw [hcond i s hI.1 hI.2] at hc
      simpa using hc)
    (fun i s hI hc => by
      rw [hcond i s hI.1 hI.2] at hc
      have hlt : i < n := by simpa using hc
      obtain ⟨s', hs', hI'⟩ := hbody i s hI.1 hlt
      exact ⟨s', hs', hI', by omega⟩)
    fuel 0 s ⟨h0, Nat.zero_le _⟩ (by omega)
  rw [hcond i' s' hI hle] at hc
  have hge : ¬ i' < n := by simpa using hc
  have : i' = n := by omega
  subst this
  exact ⟨s', loopState_ok hrun, hI⟩

/-- A fold over `start, start + 1, …` whose steps keep an invariant of counter and state. -/
theorem foldlM_range_inv {σ ε : Type} (I : Nat → σ → Prop) (f : Nat → σ → Except ε σ) :
    ∀ (n start : Nat) (s : σ), I start s →
      (∀ i s, start ≤ i → i < start + n → I i s → ∃ s', f i s = .ok s' ∧ I (i + 1) s') →
      ∃ s', (List.range' start n 1).foldlM (fun s i => f i s) s = .ok s' ∧ I (start + n) s' := by
  intro n
  induction n with
  | zero => intro start s h0 _; exact ⟨s, rfl, h0⟩
  | succ n ih =>
    intro start s h0 hstep
    obtain ⟨s1, hs1, hI1⟩ := hstep start s (Nat.le_refl _) (by omega) h0
    obtain ⟨s2, hs2, hI2⟩ := ih (start + 1) s1 hI1
      (fun i s hi1 hi2 hI => hstep i s (by omega) (by omega) hI)
    refine ⟨s2, ?_, by rw [show start + (n + 1) = start + 1 + n by omega]; exact hI2⟩
    rw [List.range'_succ, List.foldlM_cons, hs1]
    exact hs2

/-- The compile-time loop from 0 in steps of 1 with an invariant of counter and state. -/
theorem constexprFor_inv {σ ε : Type} (I : Nat → σ → Prop) (out : σ → ε) (n : Nat)
    (f : Nat → σ → Except ε σ) (s : σ) (h0 : I 0 s)
    (hstep : ∀ i s, i < n → I i s → ∃ s', f i s = .ok s' ∧ I (i + 1) s') :
    ∃ s', MLConstexprFor out 0 n 1 f s = .ok s' ∧ I n s' := by
  rw [constexprFor_eq_foldlM out 0 n 1 (by decide)]
  have h : (n - 0 + 1 - 1) / 1 = n := by simp
  rw [h]
  obtain ⟨s', hs', hI⟩ := foldlM_range_inv I f n 0 s h0
    (fun i s _ hi hI => hstep i s (by omega) hI)
  exact ⟨s', hs', by simpa using hI⟩

/-- Different in-range positions have different flat offsets. -/
theorem flatIndex_inj (m : DenseMatrix) (h : m.PaddingInv) (i j i' j' : Nat)
    (hi : i < m.Rows) (hj : j < m.Cols) (hi' : i' < m.Rows) (hj' : j' < m.Cols)
    (heq : m.flatIndex i j = m.flatIndex i' j') : i = i' ∧ j = j' := by
  have hle := minor_le_padded m h
  unfold DenseMatrix.flatIndex at heq
  unfold DenseMatrix.Rows at hi hi'
  unfold DenseMatrix.Cols at hj hj'
  cases hr : m.rowMajor
  · simp only [hr, Bool.false_eq_true, if_false] at hi hj hi' hj' heq
    obtain ⟨h1, h2⟩ := flat_inj _ j i j' i' (by omega) (by omega) heq
    exact ⟨h2, h1⟩
  · simp only [hr, if_true] at hi hj hi' hj' heq
    exact flat_inj _ i j i' j' (by omega) (by omega) heq

/-- An in-range write under the padding invariant: it completes, keeps the
layout, puts the value into the cell of the position and leaves the cell of
every other in-range position. -/
theorem set_cell (m : DenseMatrix) (h : m.PaddingInv) (i j : Nat) (v : Int)
    (hi : i < m.Rows) (hj : j < m.Cols) :
    ∃ m', m.set i j v = .ok m' ∧ SameLayout m m' ∧ m'.cell i j = v ∧
      ∀ i' j', i' < m.Rows → j' < m.Cols → (i', j') ≠ (i, j) → m'.cell i' j' = m.cell i' j' := by
  have hlt := flatIndex_lt m h i j hi hj
  refine ⟨_, set_ok m h i j v hi hj, ⟨rfl, rfl, rfl, rfl, rfl, rfl, List.length_set _ _ _⟩, ?_, ?_⟩
  · show (m.m_storage.set (m.flatIndex i j) v).getD (m.flatIndex i j) 0 = v
    rw [List.getD_eq_getElem?_getD, List.getElem?_set_self hlt]
    rfl
  · intro i' j' hi' hj' hne
    show (m.m_storage.set (m.flatIndex i j) v).getD (m.flatIndex i' j') 0
      = m.m_storage.getD (m.flatIndex i' j') 0
    have hidx : m.flatIndex i j ≠ m.flatIndex i' j' := by
      intro heq
      obtain ⟨h1, h2⟩ := flatIndex_inj m h i j i' j' hi hj hi' hj' heq
      exact hne (by rw [h1, h2])
    rw [List.getD_eq_getElem?_getD, List.getD_eq_getElem?_getD, List.getElem?_set_ne hidx]

/-- The register read from `w` consecutive cells. -/
theorem drop_take_eq_lanes (buf : List Int) (o w : Nat) (h : o + w ≤ buf.length) :
    (buf.drop o).take w = lanesOf w (fun l => buf.getD (o + l) 0) := by
  unfold lanesOf
  apply List.ext_getElem
  · simp; omega
  · intro k h1 h2
    simp only [List.length_map, List.length_range] at h2
    have h3 : o + k < buf.length := by omega
    simp [List.getElem_take, List.getElem_drop, List.getD_eq_getElem?_getD,
      List.getElem?_eq_getElem h3]

/-- A register load from a row-major matrix at a column that is a multiple of
the lane count gives the cells from the position on. -/
theorem Load_rowMajor (m : DenseMatrix) (i j : Nat)
    (hrm : m.rowMajor = true) (hinv : m.PaddingInv) (hw : 0 < m.SIMDSize)
    (hi : i < m.Rows) (hj : j < m.Cols) (hdiv : m.SIMDSize ∣ j) :
    m.Load i j = .ok (lanesOf m.SIMDSize (fun l => m.cell i (j + l))) := by
  obtain ⟨hp, hl⟩ := hinv
  have hR : m.Rows = m.m_majorCnt := by simp [DenseMatrix.Rows, hrm]
  have hC : m.Cols = m.m_minorCnt := by simp [DenseMatrix.Cols, hrm]
  have hidx : ∀ j, m.flatIndex i j = i * m.m_paddedMinorCnt + j := by
    intro j; simp [DenseMatrix.flatIndex, hrm]
  have hPdiv : m.SIMDSize ∣ m.m_paddedMinorCnt := by
    rw [hp]; exact (padded_spec m.SIMDSize m.m_minorCnt hw).1
  have hjP : j < m.m_paddedMinorCnt := by omega
  have hstep := step_le_of_dvd m.SIMDSize j m.m_paddedMinorCnt hdiv hPdiv hjP
  have hrow : (i + 1) * m.m_paddedMinorCnt ≤ m.m_majorCnt * m.m_paddedMinorCnt :=
    Nat.mul_le_mul_right _ (by omega)
  rw [Nat.add_mul, Nat.one_mul] at hrow
  have hal : (i * m.m_paddedMinorCnt + j) % m.SIMDSize = 0 :=
    Nat.mod_eq_zero_of_dvd (Nat.dvd_add (Dvd.dvd.mul_left hPdiv i) hdiv)
  have hb : i * m.m_paddedMinorCnt + j + m.SIMDSize ≤ m.m_storage.length := by
    rw [hl]; omega
  unfold DenseMatrix.Load SIMD.LoadAligned
  rw [if_pos ⟨hi, hj⟩, hidx]
  simp only [hal, ne_eq, not_true_eq_false, if_false, hb, if_true]
  rw [drop_take_eq_lanes _ _ _ hb]
  unfold DenseMatrix.cell
  simp only [hidx, Nat.add_assoc]

/-- The product of a broadcast value and a register, lane by lane. -/
theorem mul_set1_lanes (w : Nat) (x : Int) (f : Nat → Int) :
    SIMD.mul (SIMD.Set1 w x) (lanesOf w f) = lanesOf w (fun l => x * f l) := by
  unfold SIMD.mul SIMD.Set1 lanesOf
  apply List.ext_getElem
  · simp
  · intro k h1 h2
    simp

/-- The sum of two registers, lane by lane. -/
theorem add_lanes (w : Nat) (f g : Nat → Int) :
    SIMD.add (lanesOf w f) (lanesOf w g) = lanesOf w (fun l => f l + g l) := by
  unfold SIMD.add lanesOf
  apply List.ext_getElem
  · simp
  · intro k h1 h2
    simp

theorem lanesOf_congr (w : Nat) (f g : Nat → Int) (h : ∀ l, l < w → f l = g l) :
    lanesOf w f = lanesOf w g := by
  unfold lanesOf
  apply List.map_congr_left
  intro l hl
  exact h l (List.mem_range.mp hl)

theorem lanesOf_length (w : Nat) (f : Nat → Int) : (lanesOf w f).length = w := by
  simp [lanesOf]

theorem lanesOf_getElem? (w : Nat) (f : Nat → Int) (l : Nat) (h : l < w) :
    (lanesOf w f)[l]? = some (f l) := by
  simp [lanesOf, h]

/-- For a column below the padded count, the offsets of a register window inside
one row are those of that row and the window's columns. -/
theorem window_iff (P w r x i j : Nat) (hj : j < P) (hx : x + w ≤ P) :
    (r * P + x ≤ i * P + j ∧ i * P + j < r * P + x + w) ↔ (i = r ∧ x ≤ j ∧ j < x + w) := by
  constructor
  · rintro ⟨h1, h2⟩
    have hi : i = r := by
      rcases Nat.lt_trichotomy i r with hlt | heq | hgt
      · have := row_offset_lt P i r j hlt hj
        omega
      · exact heq
      · have h3 : (r + 1) * P ≤ i * P := Nat.mul_le_mul_right _ hgt
        rw [Nat.add_mul, Nat.one_mul] at h3
        omega
    subst hi
    omega
  · rintro ⟨rfl, h1, h2⟩
    omega

/-! ## The vectorized sub-kernel -/

/-- One pass over the accumulators: every accumulator of the block is combined
with the broadcast element of `a` and the register of `b`, the others stay. -/
theorem accumulate_spec (regsA regsB : Nat) (c a b : DenseMatrix) (ro co p : Nat)
    (op : List Int → List Int → List Int → List Int) (csum : Nat → Nat → List Int)
    (L : Nat → List Int) (A : Nat → Int)
    (hload : ∀ bi, bi < regsB → b.Load p (co + bi * a.SIMDSize) = .ok (L bi))
    (hget : ∀ ai, ai < regsA → a.get (ro + ai) p = .ok (A ai)) :
    ∃ csum', TMLDMDMMulExpression.accumulate regsA regsB c a b ro co p op csum = .ok csum' ∧
      ∀ x y, csum' x y =
        if x < regsA ∧ y < regsB then op (SIMD.Set1 a.SIMDSize (A x)) (L y) (csum x y)
        else csum x y := by
  unfold TMLDMDMMulExpression.accumulate
  refine constexprFor_inv
    (fun bi cs => ∀ x y, cs x y =
      if x < regsA ∧ y < bi then op (SIMD.Set1 a.SIMDSize (A x)) (L y) (csum x y)
      else csum x y)
    (fun _ => Abort.mk .fuel c) regsB _ csum ?_ ?_
  · intro x y
    rw [if_neg (by omega)]
  · intro bi cs hbi hI
    simp only [hload bi hbi]
    obtain ⟨cs', hrun, hJ⟩ := constexprFor_inv
      (fun ai cs' => ∀ x y, cs' x y =
        if y = bi ∧ x < ai then op (SIMD.Set1 a.SIMDSize (A x)) (L bi) (cs x y) else cs x y)
      (fun _ => Abort.mk .fuel c) regsA
      (fun ai csum =>
        match a.get (ro + ai) p with
        | .error f => .error ⟨f, c⟩
        | .ok a_val =>
          .ok (fun x y =>
            if x = ai ∧ y = bi then op (SIMD.Set1 a.SIMDSize a_val) (L bi) (csum ai bi)
            else csum x y))
      cs
      (fun x y => by rw [if_neg (by omega)])
      (fun ai cs' hai hJ => by
        simp only [hget ai hai]
        refine ⟨_, rfl, ?_⟩
        intro x y
        by_cases h1 : x = ai ∧ y = bi
        · obtain ⟨rfl, rfl⟩ := h1
          rw [if_pos ⟨rfl, rfl⟩, if_pos ⟨rfl, by omega⟩, hJ x y, if_neg (by omega)]
        · rw [if_neg h1, hJ x y]
          by_cases h2 : y = bi ∧ x < ai
          · rw [if_pos h2, if_pos ⟨h2.1, by omega⟩]
          · rw [if_neg h2, if_neg (by omega)])
    refine ⟨cs', hrun, ?_⟩
    intro x y
    rw [hJ x y]
    by_cases h1 : y = bi ∧ x < regsA
    · obtain ⟨rfl, hx⟩ := h1
      rw [if_pos ⟨rfl, hx⟩, if_pos ⟨hx, by omega⟩, hI x y, if_neg (by omega)]
    · rw [if_neg h1, hI x y]
      by_cases h2 : x < regsA ∧ y < bi
      · rw [if_pos h2, if_pos ⟨h2.1, by omega⟩]
      · rw [if_neg h2, if_neg (by omega)]

/-- The vectorized sub-kernel on row-major matrices of one lane count, called on
a block inside the target with operands whose rows and columns cover the
indices it reads (`a.Rows() ≤ a.Cols()`, `a.Rows() ≤ b.Rows()`): it completes,
keeps the layout, writes `subKernelSum` to every cell of the block, padding
columns included, and leaves every other cell. -/
theorem subKernel_spec (regsA regsB : Nat) (c a b : DenseMatrix) (ro co : Nat)
    (hc : c.rowMajor = true) (hb : b.rowMajor = true)
    (hw : 0 < a.SIMDSize) (hcw : c.SIMDSize = a.SIMDSize) (hbw : b.SIMDSize = a.SIMDSize)
    (hci : c.PaddingInv) (hai : a.PaddingInv) (hbi : b.PaddingInv)
    (hn : 0 < a.Rows) (hAK : a.Rows ≤ a.Cols) (hBK : a.Rows ≤ b.Rows)
    (hcols : b.m_minorCnt = c.m_minorCnt)
    (hroA : ro + regsA ≤ a.Rows) (hroC : ro + regsA ≤ c.Rows)
    (hco : a.SIMDSize ∣ co) (hcoP : co + regsB * a.SIMDSize ≤ c.m_paddedMinorCnt) :
    ∃ c', TMLDMDMMulExpression.VectorizedSubKernelRRR regsA regsB c a b ro co = .ok c' ∧
      SameLayout c c' ∧
      ∀ i j, j < c.m_paddedMinorCnt →
        c'.m_storage[i * c.m_paddedMinorCnt + j]? =
          if ro ≤ i ∧ i < ro + regsA ∧ co ≤ j ∧ j < co + regsB * a.SIMDSize
          then some (subKernelSum a b i j) else c.m_storage[i * c.m_paddedMinorCnt + j]? := by
  -- layout facts
  have hcC : c.Cols = c.m_minorCnt := by simp [DenseMatrix.Cols, hc]
  have hbC : b.Cols = b.m_minorCnt := by simp [DenseMatrix.Cols, hb]
  have hpadc := padded_spec a.SIMDSize c.m_minorCnt hw
  have hcP : c.m_paddedMinorCnt
      = c.m_minorCnt + (a.SIMDSize - c.m_minorCnt % a.SIMDSize) % a.SIMDSize := by
    rw [← hcw]; exact hci.1
  rw [← hcP] at hpadc
  obtain ⟨hPdiv, _, hPlt, _⟩ := hpadc
  have hcolw : ∀ bi, bi < regsB → co + bi * a.SIMDSize + a.SIMDSize ≤ c.m_paddedMinorCnt := by
    intro bi hbi
    have h1 : (bi + 1) * a.SIMDSize ≤ regsB * a.SIMDSize := Nat.mul_le_mul_right _ hbi
    rw [Nat.add_mul, Nat.one_mul] at h1
    omega
  have hcoldvd : ∀ bi, a.SIMDSize ∣ co + bi * a.SIMDSize :=
    fun bi => Nat.dvd_add hco (Nat.dvd_mul_left _ _)
  -- the reads
  have hload : ∀ p, p < a.Rows → ∀ bi, bi < regsB →
      b.Load p (co + bi * a.SIMDSize)
        = .ok (lanesOf a.SIMDSize (fun l => b.cell p (co + bi * a.SIMDSize + l))) := by
    intro p hp bi hbl
    have := hcolw bi hbl
    have h := Load_rowMajor b p (co + bi * a.SIMDSize) hb hbi (by rw [hbw]; exact hw)
      (by omega) (by rw [hbC, hcols]; omega) (by rw [hbw]; exact hcoldvd bi)
    rw [hbw] at h
    exact h
  have hget : ∀ p, p < a.Rows → ∀ ai, ai < regsA →
      a.get (ro + ai) p = .ok (a.cell (ro + ai) p) :=
    fun p hp ai hal => get_eq_cell a hai (ro + ai) p (by omega) (by omega)
  -- the first pass
  obtain ⟨csum0, hacc0, hcs0⟩ := accumulate_spec regsA regsB c a b ro co 0
    (fun aa bb _ => SIMD.mul aa bb) (fun _ _ => SIMD.SetZero a.SIMDSize) _ _
    (hload 0 hn) (hget 0 hn)
  -- the passes for p = 1, …
  obtain ⟨p', csum, hrun, ⟨hp1, hpn, hcs⟩, hexit⟩ := forLoop_inv
    (fun p cs => 1 ≤ p ∧ p ≤ a.Rows ∧ ∀ x y, x < regsA → y < regsB →
      cs x y = lanesOf a.SIMDSize (fun l =>
        dotUpTo (fun q => a.cell (ro + x) q) (fun q => b.cell q (co + y * a.SIMDSize + l)) p))
    (fun _ => Abort.mk .fuel c) (fun p _ => decide (p < a.Rows)) 1
    (fun p csum => TMLDMDMMulExpression.accumulate regsA regsB c a b ro co p
      SIMD.MLSIMDFmadd csum)
    a.Rows (by decide)
    (fun p cs _ hcond => by simpa using hcond)
    (fun p cs hI hcond => by
      have hp : p < a.Rows := by simpa using hcond
      obtain ⟨cs', hacc, hcs'⟩ := accumulate_spec regsA regsB c a b ro co p
        SIMD.MLSIMDFmadd cs _ _ (hload p hp) (hget p hp)
      refine ⟨cs', hacc, by omega, by omega, ?_⟩
      intro x y hx hy
      rw [hcs' x y, if_pos ⟨hx, hy⟩, hI.2.2 x y hx hy]
      unfold SIMD.MLSIMDFmadd
      rw [mul_set1_lanes, add_lanes]
      apply lanesOf_congr
      intro l _
      show _ = dotUpTo _ _ p + a.cell (ro + x) p * b.cell p (co + y * a.SIMDSize + l)
      exact Int.add_comm _ _)
    a.Rows 1 csum0
    ⟨Nat.le_refl _, hn, fun x y hx hy => by
      rw [hcs0 x y, if_pos ⟨hx, hy⟩, mul_set1_lanes]
      apply lanesOf_congr
      intro l _
      show _ = (0 : Int) + a.cell (ro + x) 0 * b.cell 0 (co + y * a.SIMDSize + l)
      exact (Int.zero_add _).symm⟩
    (by omega)
  have hpe : p' = a.Rows := by
    have : ¬ p' < a.Rows := by simpa using hexit
    omega
  subst hpe
  -- the stores
  obtain ⟨c', hst, hlay, hcells⟩ := forLoop_count
    (fun ai cur => SameLayout c cur ∧ ∀ i j, j < c.m_paddedMinorCnt →
      cur.m_storage[i * c.m_paddedMinorCnt + j]? =
        if ro ≤ i ∧ i < ro + ai ∧ co ≤ j ∧ j < co + regsB * a.SIMDSize
        then some (subKernelSum a b i j) else c.m_storage[i * c.m_paddedMinorCnt + j]?)
    (Abort.mk .fuel) (fun ai _ => decide (ai < regsA))
    (fun ai c => loopState (forLoop (Abort.mk .fuel) (fun bi _ => decide (bi < regsB)) 1
      (fun bi c => orAbort c (c.Store (csum ai bi) (ro + ai) (co + bi * a.SIMDSize)))
      regsB 0 c))
    regsA regsA (Nat.le_refl _)
    (fun _ _ _ _ => rfl)
    (fun ai cur hI hai => by
      obtain ⟨hl0, hc0⟩ := hI
      obtain ⟨cur', hrun', hl', hc'⟩ := forLoop_count
        (fun bi cur' => SameLayout c cur' ∧ ∀ i j, j < c.m_paddedMinorCnt →
          cur'.m_storage[i * c.m_paddedMinorCnt + j]? =
            if (ro ≤ i ∧ i < ro + ai ∧ co ≤ j ∧ j < co + regsB * a.SIMDSize) ∨
                (i = ro + ai ∧ co ≤ j ∧ j < co + bi * a.SIMDSize)
            then some (subKernelSum a b i j) else c.m_storage[i * c.m_paddedMinorCnt + j]?)
        (Abort.mk .fuel) (fun bi _ => decide (bi < regsB))
        (fun bi c => orAbort c (c.Store (csum ai bi) (ro + ai) (co + bi * a.SIMDSize)))
        regsB regsB (Nat.le_refl _)
        (fun _ _ _ _ => rfl)
        (fun bi cur' hJ hbi => by
          obtain ⟨hl1, hc1⟩ := hJ
          have hcolle := hcolw bi hbi
          have hcurP : cur'.m_paddedMinorCnt = c.m_paddedMinorCnt := hl1.2.2.2.2.2.1
          have hcurw : cur'.SIMDSize = a.SIMDSize := by rw [hl1.2.2.1, hcw]
          obtain ⟨c2, hst2, hl2, hcell2⟩ := Store_rowMajor cur' (csum ai bi) (ro + ai)
            (co + bi * a.SIMDSize) (by rw [hl1.2.1]; exact hc) (hl1.inv hci)
            (by rw [hcurw]; exact hw)
            (by rw [hcs ai bi hai hbi, lanesOf_length, hcurw])
            (by rw [hl1.sameRows]; omega) (by rw [hl1.sameCols, hcC]; omega)
            (by rw [hcurw]; exact hcoldvd bi)
          rw [hcurP, hcurw] at hcell2
          refine ⟨c2, (by
            show orAbort cur' (cur'.Store (csum ai bi) (ro + ai) (co + bi * a.SIMDSize)) = _
            rw [hst2]; rfl), hl1.ltrans hl2, ?_⟩
          intro i j hj
          rw [hcell2, hc1 i j hj]
          have hwin := window_iff c.m_paddedMinorCnt a.SIMDSize (ro + ai)
            (co + bi * a.SIMDSize) i j hj hcolle
          have e1 : (bi + 1) * a.SIMDSize = bi * a.SIMDSize + a.SIMDSize := by ring
          have e2 : (ro + ai) * c.m_paddedMinorCnt + (co + bi * a.SIMDSize)
              = (ro + ai) * c.m_paddedMinorCnt + co + bi * a.SIMDSize := by omega
          by_cases hin : (ro + ai) * c.m_paddedMinorCnt + (co + bi * a.SIMDSize)
              ≤ i * c.m_paddedMinorCnt + j ∧
              i * c.m_paddedMinorCnt + j
                < (ro + ai) * c.m_paddedMinorCnt + (co + bi * a.SIMDSize) + a.SIMDSize
          · obtain ⟨hi, hj1, hj2⟩ := hwin.mp hin
            rw [if_pos hin, if_pos (Or.inr ⟨hi, by omega, by rw [e1]; omega⟩),
              hcs ai bi hai hbi]
            have hk : i * c.m_paddedMinorCnt + j
                - ((ro + ai) * c.m_paddedMinorCnt + (co + bi * a.SIMDSize))
                = j - (co + bi * a.SIMDSize) := by
              rw [hi]; omega
            rw [hk, lanesOf_getElem? _ _ _ (by omega)]
            have hjj : co + bi * a.SIMDSize + (j - (co + bi * a.SIMDSize)) = j := by omega
            rw [hi]
            show some (dotUpTo _ (fun q => b.cell q
              (co + bi * a.SIMDSize + (j - (co + bi * a.SIMDSize)))) a.Rows) = _
            rw [hjj]
            rfl
          · rw [if_neg hin]
            have hnw : ¬ (i = ro + ai ∧ co + bi * a.SIMDSize ≤ j ∧
                j < co + bi * a.SIMDSize + a.SIMDSize) := fun h => hin (hwin.mpr h)
            by_cases hold : (ro ≤ i ∧ i < ro + ai ∧ co ≤ j ∧ j < co + regsB * a.SIMDSize) ∨
                (i = ro + ai ∧ co ≤ j ∧ j < co + bi * a.SIMDSize)
            · rw [if_pos hold, if_pos (by
                rcases hold with h | h
                · exact Or.inl h
                · exact Or.inr ⟨h.1, h.2.1, by rw [e1]; omega⟩)]
            · rw [if_neg hold, if_neg (by
                rintro (h | h)
                · exact hold (Or.inl h)
                · rw [e1] at h
                  by_cases hlt : j < co + bi * a.SIMDSize
                  · exact hold (Or.inr ⟨h.1, h.2.1, hlt⟩)
                  · exact hnw ⟨h.1, by omega, by omega⟩)])
        cur ⟨hl0, fun i j hj => by
          rw [hc0 i j hj]
          by_cases h : ro ≤ i ∧ i < ro + ai ∧ co ≤ j ∧ j < co + regsB * a.SIMDSize
          · rw [if_pos h, if_pos (Or.inl h)]
          · rw [if_neg h, if_neg (by
              rintro (h2 | h2)
              · exact h h2
              · omega)]⟩
      refine ⟨cur', hrun', hl', ?_⟩
      intro i j hj
      rw [hc' i j hj]
      by_cases h : ro ≤ i ∧ i < ro + (ai + 1) ∧ co ≤ j ∧ j < co + regsB * a.SIMDSize
      · rw [if_pos h, if_pos (by
          by_cases hlt : i < ro + ai
          · exact Or.inl ⟨h.1, hlt, h.2.2⟩
          · exact Or.inr ⟨by omega, h.2.2⟩)]
      · rw [if_neg h, if_neg (by
          rintro (h2 | h2)
          · exact h ⟨h2.1, by omega, h2.2.2⟩
          · exact h ⟨by omega, by omega, h2.2⟩)])
    c ⟨SameLayout.lrefl c, fun i j _ => by rw [if_neg (by omega)]⟩
  refine ⟨c', ?_, hlay, hcells⟩
  unfold TMLDMDMMulExpression.VectorizedSubKernelRRR
  rw [if_pos hn]
  simp only [hacc0, loopState_ok hrun]
  exact hst

/-- The vectorized kernel of the product on row-major matrices of one lane
count `w ≥ 1`, with a target no taller than `a` and as wide as `b`, and
operands whose rows and columns cover the indices read: it completes, keeps the
layout of the target, and leaves `subKernelSum a b i j` in the buffer cell of
every position `(i, j)` with `i < Rows()` and `j < PaddedCols()`. -/
theorem VectorizedKernel_spec (junk : Nat → Int) (c a b : DenseMatrix)
    (hc : c.rowMajor = true) (ha : a.rowMajor = true) (hb : b.rowMajor = true)
    (hw : 0 < a.SIMDSize) (hcw : c.SIMDSize = a.SIMDSize) (hbw : b.SIMDSize = a.SIMDSize)
    (hci : c.PaddingInv) (hai : a.PaddingInv) (hbi : b.PaddingInv)
    (hn : 0 < a.Rows) (hAK : a.Rows ≤ a.Cols) (hBK : a.Rows ≤ b.Rows)
    (hcols : b.m_minorCnt = c.m_minorCnt) (hR : c.Rows ≤ a.Rows) :
    ∃ c', TMLDMDMMulExpression.VectorizedKernel junk c a b = .ok c' ∧ SameLayout c c' ∧
      ∀ i j, i < c.Rows → j < c.m_paddedMinorCnt →
        c'.m_storage[i * c.m_paddedMinorCnt + j]? = some (subKernelSum a b i j) := by
  have hpadc := padded_spec a.SIMDSize c.m_minorCnt hw
  have hcP : c.m_paddedMinorCnt
      = c.m_minorCnt + (a.SIMDSize - c.m_minorCnt % a.SIMDSize) % a.SIMDSize := by
    rw [← hcw]; exact hci.1
  rw [← hcP] at hpadc
  obtain ⟨hPdiv, _, _, _⟩ := hpadc
  have hPS : c.m_paddedMinorCnt = a.SIMDSize * (c.m_paddedMinorCnt / a.SIMDSize) :=
    (Nat.mul_div_cancel' hPdiv).symm
  have H : TilingSpec DenseMatrix.Rows DenseMatrix.PaddedCols a.SIMDSize c.Rows
      (c.m_paddedMinorCnt / a.SIMDSize)
      (fun regsA regsB ro co c =>
        TMLDMDMMulExpression.VectorizedSubKernelRRR regsA regsB c a b ro co)
      (fun D cur => SameLayout c cur ∧ ∀ i u l, (i, u) ∈ D →
        u < c.m_paddedMinorCnt / a.SIMDSize → l < a.SIMDSize →
        cur.m_storage[i * c.m_paddedMinorCnt + (a.SIMDSize * u + l)]?
          = some (subKernelSum a b i (a.SIMDSize * u + l))) := by
    constructor
    · intro D s hΦ
      refine ⟨hΦ.1.sameRows, ?_⟩
      rw [hΦ.1.paddedCols]
      simp only [DenseMatrix.PaddedCols, hc, if_true]
      exact hPS
    · intro D s rA rB ro t hΦ _ hro ht _
      obtain ⟨hl, hcells⟩ := hΦ
      have hsP : s.m_paddedMinorCnt = c.m_paddedMinorCnt := hl.2.2.2.2.2.1
      have hle : a.SIMDSize * t + rB * a.SIMDSize ≤ c.m_paddedMinorCnt := by
        have h1 : a.SIMDSize * (t + rB) ≤ a.SIMDSize * (c.m_paddedMinorCnt / a.SIMDSize) :=
          Nat.mul_le_mul_left _ ht
        rw [← hPS, Nat.mul_add, Nat.mul_comm a.SIMDSize rB] at h1
        exact h1
      obtain ⟨s', hrun, hl', hc'⟩ := subKernel_spec rA rB s a b ro (a.SIMDSize * t)
        (by rw [hl.2.1]; exact hc) hb hw (by rw [hl.2.2.1, hcw]) hbw (hl.inv hci) hai hbi
        hn hAK hBK (by rw [hl.2.2.2.2.1]; exact hcols)
        (by omega) (by rw [hl.sameRows]; exact hro) (Nat.dvd_mul_right _ _)
        (by rw [hsP]; exact hle)
      rw [hsP] at hc'
      refine ⟨s', hrun, hl.ltrans hl', ?_⟩
      intro i u l hmem hu hlw
      have hj : a.SIMDSize * u + l < c.m_paddedMinorCnt := by
        have h1 : a.SIMDSize * (u + 1) ≤ a.SIMDSize * (c.m_paddedMinorCnt / a.SIMDSize) :=
          Nat.mul_le_mul_left _ hu
        rw [← hPS, Nat.mul_add, Nat.mul_one] at h1
        omega
      rw [hc' i _ hj]
      by_cases hcond : ro ≤ i ∧ i < ro + rA ∧ a.SIMDSize * t ≤ a.SIMDSize * u + l ∧
          a.SIMDSize * u + l < a.SIMDSize * t + rB * a.SIMDSize
      · rw [if_pos hcond]
      · rw [if_neg hcond]
        rcases hmem with hD | hB
        · exact hcells i u l hD hu hlw
        · exfalso
          apply hcond
          obtain ⟨h1, h2, h3, h4⟩ := hB
          have h3' : a.SIMDSize * t ≤ a.SIMDSize * u := Nat.mul_le_mul_left _ h3
          have h4' : a.SIMDSize * (u + 1) ≤ a.SIMDSize * (t + rB) :=
            Nat.mul_le_mul_left _ h4
          rw [Nat.mul_add, Nat.mul_one, Nat.mul_add, Nat.mul_comm a.SIMDSize rB] at h4'
          exact ⟨h1, h2, by omega, by omega⟩
  obtain ⟨c', hrun, hl, hcells⟩ := cascade_tiles (Abort.mk .fuel) H hw c
    ⟨SameLayout.lrefl c, fun i u l hmem => absurd hmem.2 (Nat.not_lt_zero _)⟩
  refine ⟨c', ?_, hl, ?_⟩
  · rw [VectorizedKernel_eq_cascade junk c a b (by simp [hc, ha, hb])]
    exact hrun
  · intro i j hi hj
    have hu : j / a.SIMDSize < c.m_paddedMinorCnt / a.SIMDSize := by
      apply Nat.div_lt_of_lt_mul
      rw [← hPS]; exact hj
    have := hcells i (j / a.SIMDSize) (j % a.SIMDSize) ⟨hi, hu⟩ hu (Nat.mod_lt _ hw)
    rw [Nat.div_add_mod] at this
    exact this

/-- `SetZero()` on a row-major matrix of lane count `w ≥ 1` completes, keeps the
layout and leaves 0 in every element. -/
theorem SetZero_cells (junk : Nat → Int) (m : DenseMatrix) (hrm : m.rowMajor = true)
    (hw : 0 < m.SIMDSize) (hinv : m.PaddingInv) :
    ∃ z, m.SetZero junk = .ok z ∧ SameLayout m z ∧
      ∀ i j, i < m.Rows → j < m.Cols → z.cell i j = 0 := by
  obtain ⟨z, hz, hlz, hfz⟩ := storeLoops_fill 0 m hrm hw hinv
  refine ⟨z, ?_, hlz, ?_⟩
  · unfold DenseMatrix.SetZero
    rw [assignWith_self junk m hinv]
    unfold TMLDMSetZeroExpression.AssignTo
    rw [if_pos ⟨rfl, rfl⟩]
    exact hz
  · intro i j hi hj
    have hle := minor_le_padded m hinv
    have hjP : j < m.PaddedCols := by
      simp only [DenseMatrix.PaddedCols, DenseMatrix.Cols, hrm, if_true] at hj ⊢
      omega
    have h := hfz i j hi hjP
    unfold DenseMatrix.cell
    rw [hlz.flatIndex]
    simp only [DenseMatrix.flatIndex, hrm, if_true]
    rw [List.getD_eq_getElem?_getD, h]
    rfl

/-- A loop `for (j = 0; j < nJ; ++j) c(i, j) += f(j)` adds `f j` to the
elements `(i, j)`, `j < nJ`, of row `i` and leaves the others. -/
theorem axpy_row (c0 : DenseMatrix) (hci : c0.PaddingInv) (i nJ fuel : Nat)
    (hi : i < c0.Rows) (hJ : nJ ≤ c0.Cols) (hf : nJ ≤ fuel) (f : Nat → Int)
    (cond : Nat → DenseMatrix → Bool) (body : Nat → DenseMatrix → Except Abort DenseMatrix)
    (hcond : ∀ j s, SameLayout c0 s → cond j s = decide (j < nJ))
    (hbody : ∀ j s, j < nJ → SameLayout c0 s →
      body j s = orAbort s (s.set i j (s.cell i j + f j))) :
    ∃ c', loopState (forLoop (Abort.mk .fuel) cond 1 body fuel 0 c0) = .ok c' ∧
      SameLayout c0 c' ∧
      ∀ i' j', i' < c0.Rows → j' < c0.Cols →
        c'.cell i' j' = if i' = i ∧ j' < nJ then c0.cell i' j' + f j' else c0.cell i' j' := by
  obtain ⟨c', hrun, hl, hcells⟩ := forLoop_count
    (fun j s => SameLayout c0 s ∧ ∀ i' j', i' < c0.Rows → j' < c0.Cols →
      s.cell i' j' = if i' = i ∧ j' < j then c0.cell i' j' + f j' else c0.cell i' j')
    (Abort.mk .fuel) cond body nJ fuel hf
    (fun j s hI _ => hcond j s hI.1)
    (fun j s hI hj => by
      obtain ⟨hl, hcells⟩ := hI
      obtain ⟨s', hset, hl', hv, hrest⟩ := set_cell s (hl.inv hci) i j (s.cell i j + f j)
        (by rw [hl.sameRows]; exact hi) (by rw [hl.sameCols]; omega)
      refine ⟨s', (by rw [hbody j s hj hl, hset]; rfl), hl.ltrans hl', ?_⟩
      intro i' j' hi' hj'
      by_cases he : (i', j') = (i, j)
      · obtain ⟨rfl, rfl⟩ := Prod.mk.inj he
        rw [hv, hcells i' j' hi' hj', if_neg (by omega), if_pos ⟨rfl, by omega⟩]
      · rw [hrest i' j' (by rw [hl.sameRows]; exact hi') (by rw [hl.sameCols]; exact hj') he,
          hcells i' j' hi' hj']
        have hne : ¬ (i' = i ∧ j' = j) := fun h => he (by rw [h.1, h.2])
        by_cases h1 : i' = i ∧ j' < j
        · rw [if_pos h1, if_pos ⟨h1.1, by omega⟩]
        · rw [if_neg h1, if_neg (by
            rintro ⟨h2, h3⟩
            by_cases h4 : j' = j
            · exact hne ⟨h2, h4⟩
            · exact h1 ⟨h2, by omega⟩)])
    c0 ⟨SameLayout.lrefl c0, fun i' j' _ _ => by rw [if_neg (by omega)]⟩
  exact ⟨c', hrun, hl, hcells⟩

/-- A loop over `k < nK` whose body adds `x k * y k j` to the elements `(i, j)`,
`j < nJ`, of row `i` adds the dot products up to `nK` to them. -/
theorem dot_row (c0 : DenseMatrix) (i nJ nK fuel : Nat) (hf : nK ≤ fuel)
    (x : Nat → Int) (y : Nat → Nat → Int)
    (cond : Nat → DenseMatrix → Bool) (body : Nat → DenseMatrix → Except Abort DenseMatrix)
    (hcond : ∀ k s, SameLayout c0 s → cond k s = decide (k < nK))
    (hbody : ∀ k s, k < nK → SameLayout c0 s →
      ∃ s', body k s = .ok s' ∧ SameLayout s s' ∧
        ∀ i' j', i' < c0.Rows → j' < c0.Cols →
          s'.cell i' j' = if i' = i ∧ j' < nJ then s.cell i' j' + x k * y k j'
            else s.cell i' j') :
    ∃ c', loopState (forLoop (Abort.mk .fuel) cond 1 body fuel 0 c0) = .ok c' ∧
      SameLayout c0 c' ∧
      ∀ i' j', i' < c0.Rows → j' < c0.Cols →
        c'.cell i' j' = if i' = i ∧ j' < nJ
          then c0.cell i' j' + dotUpTo x (fun k => y k j') nK else c0.cell i' j' := by
  obtain ⟨c', hrun, hl, hcells⟩ := forLoop_count
    (fun k s => SameLayout c0 s ∧ ∀ i' j', i' < c0.Rows → j' < c0.Cols →
      s.cell i' j' = if i' = i ∧ j' < nJ
        then c0.cell i' j' + dotUpTo x (fun k => y k j') k else c0.cell i' j')
    (Abort.mk .fuel) cond body nK fuel hf
    (fun k s hI _ => hcond k s hI.1)
    (fun k s hI hk => by
      obtain ⟨hl, hcells⟩ := hI
      obtain ⟨s', hrun, hl', hc'⟩ := hbody k s hk hl
      refine ⟨s', hrun, hl.ltrans hl', ?_⟩
      intro i' j' hi' hj'
      rw [hc' i' j' hi' hj', hcells i' j' hi' hj']
      by_cases h : i' = i ∧ j' < nJ
      · rw [if_pos h, if_pos h, if_pos h]
        show _ = c0.cell i' j' + (dotUpTo x (fun k => y k j') k + x k * y k j')
        exact Int.add_assoc _ _ _
      · rw [if_neg h, if_neg h, if_neg h])
    c0 ⟨SameLayout.lrefl c0, fun i' j' _ _ => by
      by_cases h : i' = i ∧ j' < nJ
      · rw [if_pos h]
        show _ = c0.cell i' j' + 0
        exact (Int.add_zero _).symm
      · rw [if_neg h]⟩
  exact ⟨c', hrun, hl, hcells⟩

/-- A loop over `i < nI` whose body adds `g i j` to the elements `(i, j)`,
`j < nJ`, of row `i` adds `g` to the first `nI` rows. -/
theorem rows_loop (c0 : DenseMatrix) (nI nJ fuel : Nat) (hf : nI ≤ fuel)
    (g : Nat → Nat → Int)
    (cond : Nat → DenseMatrix → Bool) (body : Nat → DenseMatrix → Except Abort DenseMatrix)
    (hcond : ∀ i s, SameLayout c0 s → cond i s = decide (i < nI))
    (hbody : ∀ i s, i < nI → SameLayout c0 s →
      ∃ s', body i s = .ok s' ∧ SameLayout s s' ∧
        ∀ i' j', i' < c0.Rows → j' < c0.Cols →
          s'.cell i' j' = if i' = i ∧ j' < nJ then s.cell i' j' + g i' j' else s.cell i' j') :
    ∃ c', loopState (forLoop (Abort.mk .fuel) cond 1 body fuel 0 c0) = .ok c' ∧
      SameLayout c0 c' ∧
      ∀ i' j', i' < c0.Rows → j' < c0.Cols →
        c'.cell i' j' = if i' < nI ∧ j' < nJ then c0.cell i' j' + g i' j'
          else c0.cell i' j' := by
  obtain ⟨c', hrun, hl, hcells⟩ := forLoop_count
    (fun i s => SameLayout c0 s ∧ ∀ i' j', i' < c0.Rows → j' < c0.Cols →
      s.cell i' j' = if i' < i ∧ j' < nJ then c0.cell i' j' + g i' j' else c0.cell i' j')
    (Abort.mk .fuel) cond body nI fuel hf
    (fun i s hI _ => hcond i s hI.1)
    (fun i s hI hi => by
      obtain ⟨hl, hcells⟩ := hI
      obtain ⟨s', hrun, hl', hc'⟩ := hbody i s hi hl
      refine ⟨s', hrun, hl.ltrans hl', ?_⟩
      intro i' j' hi' hj'
      rw [hc' i' j' hi' hj', hcells i' j' hi' hj']
      by_cases h : i' = i ∧ j' < nJ
      · rw [if_pos h, if_neg (by omega), if_pos ⟨by omega, h.2⟩]
      · rw [if_neg h]
        by_cases h1 : i' < i ∧ j' < nJ
        · rw [if_pos h1, if_pos ⟨by omega, h1.2⟩]
        · rw [if_neg h1, if_neg (by
            rintro ⟨h2, h3⟩
            by_cases h4 : i' = i
            · exact h ⟨h4, h3⟩
            · exact h1 ⟨by omega, h3⟩)])
    c0 ⟨SameLayout.lrefl c0, fun i' j' _ _ => by rw [if_neg (by omega)]⟩
  exact ⟨c', hrun, hl, hcells⟩

/-- Two nested loops over `i < nI` and `k < nK` whose inner body adds
`x i k * y k j` to the elements `(i, j)`, `j < nJ`, add the dot products up to
`nK` to the elements of the first `nI` rows and `nJ` columns. -/
theorem dot_rows (c0 : DenseMatrix) (nI nJ nK : Nat) (fuelI : Nat) (fuelK : DenseMatrix → Nat)
    (hfI : nI ≤ fuelI) (hfK : ∀ s, SameLayout c0 s → nK ≤ fuelK s)
    (x y : Nat → Nat → Int)
    (condI condK : Nat → DenseMatrix → Bool)
    (body : Nat → Nat → DenseMatrix → Except Abort DenseMatrix)
    (hcondI : ∀ i s, SameLayout c0 s → condI i s = decide (i < nI))
    (hcondK : ∀ k s, SameLayout c0 s → condK k s = decide (k < nK))
    (hbody : ∀ i k s, i < nI → k < nK → SameLayout c0 s →
      ∃ s', body i k s = .ok s' ∧ SameLayout s s' ∧
        ∀ i' j', i' < c0.Rows → j' < c0.Cols →
          s'.cell i' j' = if i' = i ∧ j' < nJ then s.cell i' j' + x i k * y k j'
            else s.cell i' j') :
    ∃ c', loopState (forLoop (Abort.mk .fuel) condI 1
        (fun i c => loopState (forLoop (Abort.mk .fuel) condK 1 (body i) (fuelK c) 0 c))
        fuelI 0 c0) = .ok c' ∧
      SameLayout c0 c' ∧
      ∀ i' j', i' < c0.Rows → j' < c0.Cols →
        c'.cell i' j' = if i' < nI ∧ j' < nJ
          then c0.cell i' j' + dotUpTo (x i') (fun k => y k j') nK else c0.cell i' j' := by
  refine rows_loop c0 nI nJ fuelI hfI (fun i' j' => dotUpTo (x i') (fun k => y k j') nK)
    condI _ hcondI ?_
  intro i s hi hl
  obtain ⟨s', hrun, hl', hc'⟩ := dot_row s i nJ nK (fuelK s) (hfK s hl) (x i) y condK (body i)
    (fun k s2 hl2 => hcondK k s2 (hl.ltrans hl2))
    (fun k s2 hk hl2 => by
      obtain ⟨s3, h1, h2, h3⟩ := hbody i k s2 hi hk (hl.ltrans hl2)
      refine ⟨s3, h1, h2, ?_⟩
      intro i' j' hi' hj'
      exact h3 i' j' (by rw [← hl.sameRows]; exact hi') (by rw [← hl.sameCols]; exact hj'))
  refine ⟨s', hrun, hl', ?_⟩
  intro i' j' hi' hj'
  rw [hc' i' j' (by rw [hl.sameRows]; exact hi') (by rw [hl.sameCols]; exact hj')]
  by_cases h : i' = i ∧ j' < nJ
  · rw [if_pos h, if_pos h, h.1]
  · rw [if_neg h, if_neg h]

/-- The default kernel of the product on a row-major target of lane count
`w ≥ 1` that holds the product's shape, with `a.Cols() ≤ b.Rows()`: it
completes, keeps the layout, and leaves in element `(i, j)` the sum of
`a(i, k) * b(k, j)` over `k < a.Cols()`. -/
theorem DefaultKernel_spec (junk : Nat → Int) (c a b : DenseMatrix)
    (hc : c.rowMajor = true) (hw : 0 < c.SIMDSize)
    (hci : c.PaddingInv) (hai : a.PaddingInv) (hbi : b.PaddingInv)
    (hR : a.Rows ≤ c.Rows) (hC : b.Cols ≤ c.Cols) (hK : a.Cols ≤ b.Rows) :
    ∃ c', TMLDMDMMulExpression.DefaultKernel junk c a b = .ok c' ∧ SameLayout c c' ∧
      ∀ i j, i < c.Rows → j < c.Cols →
        c'.cell i j = if i < a.Rows ∧ j < b.Cols
          then dotUpTo (fun k => a.cell i k) (fun k => b.cell k j) a.Cols else 0 := by
  obtain ⟨z, hz, hlz, hz0⟩ := SetZero_cells junk c hc hw hci
  have hzi := hlz.inv hci
  obtain ⟨c', hrun, hl, hcells⟩ := dot_rows z a.Rows b.Cols a.Cols a.Rows (fun _ => a.Cols)
    (Nat.le_refl _) (fun _ _ => Nat.le_refl _)
    (fun i k => a.cell i k) (fun k j => b.cell k j)
    (fun i _ => decide (i < a.Rows)) (fun k _ => decide (k < a.Cols))
    (fun i k c =>
      match a.get i k with
      | .error f => .error ⟨f, c⟩
      | .ok a_ik =>
        loopState (forLoop (Abort.mk .fuel) (fun j _ => decide (j < b.Cols)) 1
          (fun j c =>
            match b.get k j with
            | .error f => .error ⟨f, c⟩
            | .ok b_kj =>
              match c.get i j with
              | .error f => .error ⟨f, c⟩
              | .ok c_ij => orAbort c (c.set i j (c_ij + a_ik * b_kj)))
          b.Cols 0 c))
    (fun _ _ _ => rfl) (fun _ _ _ => rfl)
    (fun i k s hi hk hl => by
      have hsi := hl.inv hzi
      have hsR : s.Rows = c.Rows := by rw [hl.sameRows, hlz.sameRows]
      have hsC : s.Cols = c.Cols := by rw [hl.sameCols, hlz.sameCols]
      obtain ⟨s', hrun, hl', hc'⟩ := axpy_row s hsi i b.Cols b.Cols (by omega) (by omega)
        (Nat.le_refl _) (fun j => a.cell i k * b.cell k j)
        (fun j _ => decide (j < b.Cols))
        (fun j c =>
            match b.get k j with
            | .error f => .error ⟨f, c⟩
            | .ok b_kj =>
              match c.get i j with
              | .error f => .error ⟨f, c⟩
              | .ok c_ij => orAbort c (c.set i j (c_ij + a.cell i k * b_kj)))
        (fun _ _ _ => rfl)
        (fun j s2 hj hl2 => by
          have h1 := get_eq_cell b hbi k j (by omega) hj
          have h2 := get_eq_cell s2 (hl2.inv hsi) i j (by rw [hl2.sameRows]; omega)
            (by rw [hl2.sameCols]; omega)
          simp only [h1, h2])
      refine ⟨s', ?_, hl', ?_⟩
      · have h0 := get_eq_cell a hai i k hi hk
        simp only [h0]
        exact hrun
      · intro i' j' hi' hj'
        exact hc' i' j' (by rw [hl.sameRows]; exact hi') (by rw [hl.sameCols]; exact hj'))
  refine ⟨c', ?_, hlz.ltrans hl, ?_⟩
  · unfold TMLDMDMMulExpression.DefaultKernel
    simp only [hz]
    exact hrun
  · intro i j hi hj
    have hi' : i < z.Rows := by rw [hlz.sameRows]; exact hi
    have hj' : j < z.Cols := by rw [hlz.sameCols]; exact hj
    rw [hcells i j hi' hj', hz0 i j hi hj]
    by_cases h : i < a.Rows ∧ j < b.Cols
    · rw [if_pos h, if_pos h, Int.zero_add]
    · rw [if_neg h, if_neg h]

/-- The reference `mmul_naive(c, a, b)` on a row-major target of lane count
`w ≥ 1`, no taller than `a` and no wider than `b`, with
`a.Rows() ≤ a.Cols()` and `a.Rows() ≤ b.Rows()`: it completes, keeps the layout,
and leaves in element `(i, j)` the sum of `a(i, k) * b(k, j)` over
`k < a.Rows()`. -/
theorem mmul_naive_spec (junk : Nat → Int) (c a b : DenseMatrix)
    (hc : c.rowMajor = true) (hw : 0 < c.SIMDSize)
    (hci : c.PaddingInv) (hai : a.PaddingInv) (hbi : b.PaddingInv)
    (hR : c.Rows ≤ a.Rows) (hC : c.Cols ≤ b.Cols) (hAK : a.Rows ≤ a.Cols)
    (hBK : a.Rows ≤ b.Rows) :
    ∃ c', mmul_naive junk c a b = .ok c' ∧ SameLayout c c' ∧
      ∀ i j, i < c.Rows → j < c.Cols → c'.cell i j = subKernelSum a b i j := by
  obtain ⟨z, hz, hlz, hz0⟩ := SetZero_cells junk c hc hw hci
  have hzi := hlz.inv hci
  obtain ⟨c', hrun, hl, hcells⟩ := dot_rows z z.Rows z.Cols a.Rows z.Rows (fun _ => a.Rows)
    (Nat.le_refl _) (fun _ _ => Nat.le_refl _)
    (fun i k => a.cell i k) (fun k j => b.cell k j)
    (fun i c => decide (i < c.Rows)) (fun k _ => decide (k < a.Rows))
    (fun i k c =>
      loopState (forLoop (Abort.mk .fuel) (fun j c => decide (j < c.Cols)) 1
        (fun j c =>
          match a.get i k with
          | .error f => .error ⟨f, c⟩
          | .ok a_ik =>
            match b.get k j with
            | .error f => .error ⟨f, c⟩
            | .ok b_kj =>
              match c.get i j with
              | .error f => .error ⟨f, c⟩
              | .ok c_ij => orAbort c (c.set i j (c_ij + a_ik * b_kj)))
        c.Cols 0 c))
    (fun i s hl => by
      show decide (i < s.Rows) = _
      rw [hl.sameRows])
    (fun _ _ _ => rfl)
    (fun i k s hi hk hl => by
      have hsi := hl.inv hzi
      have hzR : z.Rows = c.Rows := hlz.sameRows
      have hzC : z.Cols = c.Cols := hlz.sameCols
      have hsR : s.Rows = z.Rows := hl.sameRows
      have hsC : s.Cols = z.Cols := hl.sameCols
      obtain ⟨s', hrun, hl', hc'⟩ := axpy_row s hsi i z.Cols s.Cols (by omega) (by omega)
        (by omega) (fun j => a.cell i k * b.cell k j)
        (fun j c => decide (j < c.Cols))
        (fun j c =>
          match a.get i k with
          | .error f => .error ⟨f, c⟩
          | .ok a_ik =>
            match b.get k j with
            | .error f => .error ⟨f, c⟩
            | .ok b_kj =>
              match c.get i j with
              | .error f => .error ⟨f, c⟩
              | .ok c_ij => orAbort c (c.set i j (c_ij + a_ik * b_kj)))
        (fun j s2 hl2 => by
          show decide (j < s2.Cols) = _
          rw [hl2.sameCols, hsC])
        (fun j s2 hj hl2 => by
          have h0 := get_eq_cell a hai i k (by omega) (by omega)
          have h1 := get_eq_cell b hbi k j (by omega) (by omega)
          have h2 := get_eq_cell s2 (hl2.inv hsi) i j (by rw [hl2.sameRows]; omega)
            (by rw [hl2.sameCols]; omega)
          simp only [h0, h1, h2])
      refine ⟨s', hrun, hl', ?_⟩
      intro i' j' hi' hj'
      exact hc' i' j' (by rw [hsR]; exact hi') (by rw [hsC]; exact hj'))
  refine ⟨c', ?_, hlz.ltrans hl, ?_⟩
  · unfold mmul_naive
    simp only [hz]
    exact hrun
  · intro i j hi hj
    have hi' : i < z.Rows := by rw [hlz.sameRows]; exact hi
    have hj' : j < z.Cols := by rw [hlz.sameCols]; exact hj
    rw [hcells i j hi' hj', hz0 i j hi hj, if_pos ⟨hi', hj'⟩, Int.zero_add]
    rfl

/-! ## The product against the naive reference -/

/-- The kernel dispatch of the product on row-major `n × n` matrices of one lane
count `w ≥ 1`, `n ≥ 1`: it completes, keeps the layout of the target, and leaves
in element `(i, j)` the sum of `a(i, k) * b(k, j)` over `k < n`. -/
theorem ExecuteKernel_square (junk : Nat → Int) (n w : Nat) (c a b : DenseMatrix)
    (hn : 0 < n) (hw : 0 < w)
    (hc : c.rowMajor = true) (ha : a.rowMajor = true) (hb : b.rowMajor = true)
    (hcw : c.SIMDSize = w) (haw : a.SIMDSize = w) (hbw : b.SIMDSize = w)
    (hcR : c.m_majorCnt = n) (hcC : c.m_minorCnt = n)
    (haR : a.m_majorCnt = n) (haC : a.m_minorCnt = n)
    (hbR : b.m_majorCnt = n) (hbC : b.m_minorCnt = n)
    (hci : c.PaddingInv) (hai : a.PaddingInv) (hbi : b.PaddingInv) :
    ∃ c', TMLDMDMMulExpression.ExecuteKernel junk c a b = .ok c' ∧ SameLayout c c' ∧
      ∀ i j, i < n → j < n → c'.cell i j = subKernelSum a b i j := by
  have hcRows : c.Rows = n := by simp only [DenseMatrix.Rows, hc, if_true, hcR]
  have hcCols : c.Cols = n := by simp only [DenseMatrix.Cols, hc, if_true, hcC]
  have haRows : a.Rows = n := by simp only [DenseMatrix.Rows, ha, if_true, haR]
  have haCols : a.Cols = n := by simp only [DenseMatrix.Cols, ha, if_true, haC]
  have hbRows : b.Rows = n := by simp only [DenseMatrix.Rows, hb, if_true, hbR]
  have hbCols : b.Cols = n := by simp only [DenseMatrix.Cols, hb, if_true, hbC]
  unfold TMLDMDMMulExpression.ExecuteKernel
  by_cases h1 : w = 1
  · have hv : TMLDMDMMulExpression.IsVectorizable c a b = false := by
      simp [TMLDMDMMulExpression.IsVectorizable, DenseMatrix.IsVectorized, hcw, h1]
    rw [hv, if_neg (by decide)]
    obtain ⟨c', hrun, hl, hcells⟩ := DefaultKernel_spec junk c a b hc
      (by rw [hcw]; exact hw) hci hai hbi
      (le_of_eq (haRows.trans hcRows.symm)) (le_of_eq (hbCols.trans hcCols.symm))
      (le_of_eq (haCols.trans hbRows.symm))
    refine ⟨c', hrun, hl, ?_⟩
    intro i j hi hj
    have hiR : i < c.Rows := by rw [hcRows]; exact hi
    have hjC : j < c.Cols := by rw [hcCols]; exact hj
    have hiA : i < a.Rows := by rw [haRows]; exact hi
    have hjB : j < b.Cols := by rw [hbCols]; exact hj
    rw [hcells i j hiR hjC, if_pos ⟨hiA, hjB⟩]
    unfold subKernelSum
    rw [haCols, haRows]
  · have hv : TMLDMDMMulExpression.IsVectorizable c a b = true := by
      simp [TMLDMDMMulExpression.IsVectorizable, DenseMatrix.IsVectorized, hcw, haw, hbw, h1]
    rw [hv, if_pos rfl]
    obtain ⟨c', hrun, hl, hcells⟩ := VectorizedKernel_spec junk c a b hc ha hb
      (by rw [haw]; exact hw) (hcw.trans haw.symm) (hbw.trans haw.symm) hci hai hbi
      (by rw [haRows]; exact hn) (le_of_eq (haRows.trans haCols.symm))
      (le_of_eq (haRows.trans hbRows.symm)) (hbC.trans hcC.symm)
      (le_of_eq (hcRows.trans haRows.symm))
    refine ⟨c', hrun, hl, ?_⟩
    intro i j hi hj
    have hle := minor_le_padded c hci
    have hjP : j < c.m_paddedMinorCnt :=
      Nat.lt_of_lt_of_le (by rw [hcC]; exact hj) hle
    have hiR : i < c.Rows := by rw [hcRows]; exact hi
    have h := hcells i j hiR hjP
    unfold DenseMatrix.cell
    rw [hl.flatIndex]
    simp only [DenseMatrix.flatIndex, hc, if_true]
    rw [List.getD_eq_getElem?_getD, h]
    rfl

/-- C23: for every `n ≥ 1` and lane count `w ≥ 1` (1, 2, 4 or 8 under a maximum
SIMD width of 8), and row-major `n × n` matrix objects `a`, `b`, `c` of lane
count `w` that satisfy the padding invariant (static ones among them; `c`
another object than `a` and `b`), the statement `c = a * b` and the test
program's `mmul_naive(c, a, b)` both complete, keep the layout of `c`, and give
element for element the same matrix over exact arithmetic: element `(i, j)` of
each is the sum of `a(i, k) * b(k, j)` over `k < n`. -/
theorem C23_product_agrees_with_naive_reference (junk : Nat → Int) (n w : Nat)
    (c a b : DenseMatrix) (hn : 0 < n) (hw : 0 < w)
    (hc : c.rowMajor = true) (ha : a.rowMajor = true) (hb : b.rowMajor = true)
    (hcw : c.SIMDSize = w) (haw : a.SIMDSize = w) (hbw : b.SIMDSize = w)
    (hcR : c.m_majorCnt = n) (hcC : c.m_minorCnt = n)
    (haR : a.m_majorCnt = n) (haC : a.m_minorCnt = n)
    (hbR : b.m_majorCnt = n) (hbC : b.m_minorCnt = n)
    (hci : c.PaddingInv) (hai : a.PaddingInv) (hbi : b.PaddingInv) :
    ∃ c1 c2, assignStmt junk c (.mul (.other a) (.other b)) = .ok c1 ∧
      mmul_naive junk c a b = .ok c2 ∧ SameLayout c c1 ∧ SameLayout c c2 ∧
      ∀ i j, i < n → j < n →
        c1.get i j = c2.get i j ∧
        c1.get i j = .ok (dotUpTo (fun k => a.cell i k) (fun k => b.cell k j) n) := by
  have hcRows : c.Rows = n := by simp only [DenseMatrix.Rows, hc, if_true, hcR]
  have hcCols : c.Cols = n := by simp only [DenseMatrix.Cols, hc, if_true, hcC]
  have haRows : a.Rows = n := by simp only [DenseMatrix.Rows, ha, if_true, haR]
  have haCols : a.Cols = n := by simp only [DenseMatrix.Cols, ha, if_true, haC]
  have hbRows : b.Rows = n := by simp only [DenseMatrix.Rows, hb, if_true, hbR]
  have hbCols : b.Cols = n := by simp only [DenseMatrix.Cols, hb, if_true, hbC]
  obtain ⟨c1, hrun1, hl1, hcells1⟩ := ExecuteKernel_square junk n w c a b hn hw hc ha hb
    hcw haw hbw hcR hcC haR haC hbR hbC hci hai hbi
  obtain ⟨c2, hrun2, hl2, hcells2⟩ := mmul_naive_spec junk c a b hc
    (by rw [hcw]; exact hw) hci hai hbi
    (le_of_eq (hcRows.trans haRows.symm)) (le_of_eq (hcCols.trans hbCols.symm))
    (le_of_eq (haRows.trans haCols.symm)) (le_of_eq (haRows.trans hbRows.symm))
  refine ⟨c1, c2, ?_, hrun2, hl1, hl2, ?_⟩
  · unfold assignStmt
    have hctor : Expr.ctor c (.mul (.other a) (.other b)) = .ok () := by
      show TMLDMDMMulExpression.ctor a b = _
      unfold TMLDMDMMulExpression.ctor
      rw [if_pos (haCols.trans hbRows.symm)]
    simp only [hctor]
    unfold DenseMatrix.Assign
    have hr : Expr.Rows c (.mul (.other a) (.other b)) = c.Rows :=
      haRows.trans hcRows.symm
    have hcc : Expr.Cols c (.mul (.other a) (.other b)) = c.Cols :=
      hbCols.trans hcCols.symm
    rw [hr, hcc, assignWith_self junk c hci]
    show TMLDMDMMulExpression.AssignTo junk (.other a) (.other b) c = _
    unfold TMLDMDMMulExpression.AssignTo
    have hshape : c.Rows = ((Operand.other a).deref c).Rows ∧
        c.Cols = ((Operand.other b).deref c).Cols :=
      ⟨hcRows.trans haRows.symm, hcCols.trans hbCols.symm⟩
    rw [if_pos hshape]
    show (if (false || false) = true then _
      else TMLDMDMMulExpression.ExecuteKernel junk c a b) = _
    rw [if_neg (by decide)]
    exact hrun1
  · intro i j hi hj
    have hiR : i < c.Rows := by rw [hcRows]; exact hi
    have hjC : j < c.Cols := by rw [hcCols]; exact hj
    have h1 := get_eq_cell c1 (hl1.inv hci) i j (by rw [hl1.sameRows]; exact hiR)
      (by rw [hl1.sameCols]; exact hjC)
    have h2 := get_eq_cell c2 (hl2.inv hci) i j (by rw [hl2.sameRows]; exact hiR)
      (by rw [hl2.sameCols]; exact hjC)
    have e1 := hcells1 i j hi hj
    have e2 := hcells2 i j hiR hjC
    rw [h1, h2, e1, e2]
    refine ⟨rfl, ?_⟩
    unfold subKernelSum
    rw [haRows]

set_option maxRecDepth 100000 in
/-- C23 at 2×2 static matrices of lane count 2: `[[1,2],[3,4]] * [[5,6],[7,8]]`
is `[[19,22],[43,50]]` by the library and by the reference. -/
theorem C23_product_agrees_with_naive_reference_witness :
    (assignStmt junk77 exStatic (.mul (.other exStatic) (.other exStaticB))).map
        (fun m => m.m_storage) = .ok [19, 22, 43, 50] ∧
      (mmul_naive junk77 exStatic exStatic exStaticB).map
        (fun m => m.m_storage) = .ok [19, 22, 43, 50] ∧
      ∃ c1 c2, assignStmt junk77 exStatic (.mul (.other exStatic) (.other exStaticB)) = .ok c1 ∧
        mmul_naive junk77 exStatic exStatic exStaticB = .ok c2 ∧
        SameLayout exStatic c1 ∧ SameLayout exStatic c2 ∧
        ∀ i j, i < 2 → j < 2 →
          c1.get i j = c2.get i j ∧
          c1.get i j = .ok (dotUpTo (fun k => exStatic.cell i k)
            (fun k => exStaticB.cell k j) 2) :=
  ⟨by decide, by decide,
    C23_product_agrees_with_naive_reference junk77 2 2 exStatic exStatic exStaticB
      (by decide) (by decide) rfl rfl rfl rfl rfl rfl rfl rfl rfl rfl rfl rfl
      (by decide) (by decide) (by decide)⟩

/-! ## Padding and the padding invariant in `std::size_t` -/

/-- A `std::size_t` value that did not wrap is the mathematical value. -/
theorem size_t_of_lt {x : Nat} (h : x < 2 ^ 64) : size_t x = x :=
  Nat.mod_eq_of_lt h

/-- While the sizes fit, the constructor computes in `std::size_t` what it
computes over the natural numbers. -/
theorem typed_ctorNone_eq (junk : Nat → Int) (rm : Bool) (w rows cols : Nat)
    (h : SizesFit rm w rows cols) :
    Typed.TMLDynamicMatrix.ctorNone junk rm w rows cols
      = TMLDynamicMatrix.ctorNone junk rm w rows cols := by
  obtain ⟨h1, h2⟩ := h
  unfold Typed.TMLDynamicMatrix.ctorNone TMLDynamicMatrix.ctorNone
  simp only [size_t_of_lt h1, size_t_of_lt h2]

/-- While the sizes fit, `Resize` computes in `std::size_t` what it computes
over the natural numbers. -/
theorem typed_Resize_eq (junk : Nat → Int) (m : DenseMatrix) (rows cols : Nat)
    (h : SizesFit m.rowMajor m.SIMDSize rows cols) :
    Typed.DenseMatrix.Resize junk m rows cols = m.Resize junk rows cols := by
  obtain ⟨h1, h2⟩ := h
  unfold Typed.DenseMatrix.Resize DenseMatrix.Resize
  simp only [size_t_of_lt h1, size_t_of_lt h2]

/-- C7 as the claim states it fails: with lane count 4 and minor count
`2^64 − 2` the formula gives `2^64`, which `std::size_t` holds as 0; the static
layout constant, the constructor and `Resize` (there with lane count 2 and
minor count `2^64 − 1`) all report a padded count of 0, below the minor count. -/
theorem C7_padded_count_wraps :
    (2 ^ 64 - 2) + (4 - (2 ^ 64 - 2) % 4) % 4 = 2 ^ 64 ∧
      Typed.TMLStaticMatrixMemoryLayout.PaddedMinorCnt_v 4 (2 ^ 64 - 2) = 0 ∧
      (Typed.TMLDynamicMatrix.ctorNone junk77 true 4 1 (2 ^ 64 - 2)).m_paddedMinorCnt = 0 ∧
      (Typed.TMLDynamicMatrix.ctorNone junk77 true 4 1 (2 ^ 64 - 2)).m_minorCnt = 2 ^ 64 - 2 ∧
      (Typed.DenseMatrix.Resize junk77 exA 1 (2 ^ 64 - 1)).m_paddedMinorCnt = 0 ∧
      ¬ (2 ^ 64 - 2 ≤ Typed.TMLStaticMatrixMemoryLayout.PaddedMinorCnt_v 4 (2 ^ 64 - 2)) := by
  decide

/-- C7, amended: for lane count `w ≥ 1` and minor count `c` such that
`c + (w − c mod w) mod w < 2^64` (as for `c + w ≤ 2^64`), the padded minor
count of the static layout, of the static and the dynamic constructor and of
`Resize`, each computed in `std::size_t`, equals `c + (w − c mod w) mod w`,
which is a multiple of `w`, lies in `[c, c + w)`, and is the least multiple of
`w` that is at least `c`. -/
theorem C7_padding_formula (w c : Nat) (hw : 0 < w) (hfit : c + (w - c % w) % w < 2 ^ 64)
    (junk : Nat → Int) (major : Nat) (RowMajor : Bool) (m : DenseMatrix)
    (hm : m.SIMDSize = w) :
    let padded := c + (w - c % w) % w
    Typed.TMLStaticMatrixMemoryLayout.PaddedMinorCnt_v w c = padded ∧
      (Typed.TMLDynamicMatrix.ctorNone junk RowMajor w
        (if RowMajor then major else c) (if RowMajor then c else major)).m_paddedMinorCnt
          = padded ∧
      (Typed.TMLStaticMatrix.ctorNone junk RowMajor w
        (if RowMajor then major else c) (if RowMajor then c else major)).m_paddedMinorCnt
          = padded ∧
      (Typed.DenseMatrix.Resize junk m (if m.rowMajor then major else c)
        (if m.rowMajor then c else major)).m_paddedMinorCnt = padded ∧
      w ∣ padded ∧ c ≤ padded ∧ padded < c + w ∧ ∀ k, w ∣ k → c ≤ k → padded ≤ k := by
  intro padded
  have hp : size_t (c + (w - c % w) % w) = padded := size_t_of_lt hfit
  obtain ⟨h1, h2, h3, h4⟩ := padded_spec w c hw
  refine ⟨hp, ?_, ?_, ?_, h1, h2, h3, h4⟩
  · cases RowMajor <;> simpa [Typed.TMLDynamicMatrix.ctorNone] using hp
  · cases RowMajor <;>
      simpa [Typed.TMLStaticMatrix.ctorNone,
        Typed.TMLStaticMatrixMemoryLayout.PaddedMinorCnt_v] using hp
  · cases hr : m.rowMajor <;> simpa [Typed.DenseMatrix.Resize, hr, hm] using hp

/-- C7, amended, at lane count 4 and five columns (padded count 8), and at
`Resize(3, 5)` of a matrix of lane count 2 (padded count 6). -/
theorem C7_padding_formula_witness :
    Typed.TMLStaticMatrixMemoryLayout.PaddedMinorCnt_v 4 5 = 8 ∧
      (Typed.DenseMatrix.Resize junk77 exA 3 5).m_paddedMinorCnt = 6 ∧
      (Typed.DenseMatrix.Resize junk77 exA 3 5).m_paddedMinorCnt = 5 + (2 - 5 % 2) % 2 :=
  ⟨by decide, by decide,
    (C7_padding_formula 2 5 (by decide) (by decide) junk77 3 true exA rfl).2.2.2.1⟩

/-- C37 as the claim states it fails: for `2^62` elements of 4 bytes, 32-byte
alignment and 8-byte pointers the byte count `2^64 + 40` is 40 in
`std::size_t`; with the block at address 1003 the aligned address is 1024, and
the payload `[1024, 1024 + 2^64)` does not lie inside the block
`[1003, 1043)`. -/
theorem C37_byte_count_wraps :
    2 ^ 62 * 4 + 32 + 8 = 2 ^ 64 + 40 ∧
      MLAlignedAlloc.layout (fun _ => 1003) 4 8 (2 ^ 62) 32 = some ⟨1003, 40, 1024⟩ ∧
      ¬ (1024 + 2 ^ 62 * 4 ≤ 1003 + 40) := by
  decide

/-- C37, amended: for an element size `sizeof(T) ≥ 1`, an alignment `a ≥ 1`, a
pointer size `s` and `n > 0` elements such that the byte count
`n·sizeof(T) + a + s` is below `2^64` and the block `malloc` returns at `m`
ends inside the address space (`m + n·sizeof(T) + a + s ≤ 2^64`),
`MLAlignedAlloc` asks `malloc` for `n·sizeof(T) + a + s` bytes and computes
`u = ((m + a + s) / a)·a`; `u` is a multiple of `a`, `m + s ≤ u ≤ m + a + s`,
so the slot `[u − s, u)` for the block's address and the payload
`[u, u + n·sizeof(T))` lie inside the block.  For `n = 0` there is no block and
the result is null. -/
theorem C37_aligned_alloc_arithmetic (malloc : Nat → Nat) (junk : Nat → Int)
    (sizeofT s n a : Nat) (hT : 1 ≤ sizeofT) (ha : 1 ≤ a) (hn : 0 < n)
    (hfit : n * sizeofT + a + s < 2 ^ 64)
    (hblock : malloc (n * sizeofT + a + s) + (n * sizeofT + a + s) ≤ 2 ^ 64) :
    (∃ L, MLAlignedAlloc.layout malloc sizeofT s n a = some L ∧
        L.rawBytes = n * sizeofT + a + s ∧ L.mem = malloc L.rawBytes ∧
        L.uptr = ((L.mem + a + s) / a) * a ∧
        L.uptr % a = 0 ∧ L.mem + s ≤ L.uptr ∧ L.uptr ≤ L.mem + a + s ∧
        L.mem ≤ L.uptr - s ∧ L.uptr - s + s = L.uptr ∧
        L.uptr + n * sizeofT ≤ L.mem + L.rawBytes) ∧
      MLAlignedAlloc.layout malloc sizeofT s 0 a = none ∧
      MLAlignedAlloc junk 0 = [] := by
  refine ⟨?_, by simp [MLAlignedAlloc.layout], by simp [MLAlignedAlloc]⟩
  have hne : n ≠ 0 := by omega
  have hpos : 0 < n * sizeofT := Nat.mul_pos hn hT
  have e1 : size_t (a + s) = a + s := size_t_of_lt (by omega)
  have e2 : size_t (n * sizeofT) = n * sizeofT := size_t_of_lt (by omega)
  have e3 : size_t (n * sizeofT + (a + s)) = n * sizeofT + a + s := by
    rw [size_t_of_lt (show n * sizeofT + (a + s) < 2 ^ 64 by omega)]; omega
  generalize hm : malloc (n * sizeofT + a + s) = m at hblock
  have h1 : (m + (a + s)) / a * a ≤ m + (a + s) := Nat.div_mul_le_self _ _
  have h2 : m + (a + s) < (m + (a + s)) / a * a + a := Nat.lt_div_mul_add (by omega)
  have e4 : size_t (m + (a + s)) = m + (a + s) := size_t_of_lt (by omega)
  have e5 : size_t ((m + (a + s)) / a * a) = (m + (a + s)) / a * a := size_t_of_lt (by omega)
  refine ⟨⟨m, n * sizeofT + a + s, (m + (a + s)) / a * a⟩, ?_, rfl, hm.symm, ?_, ?_⟩
  · simp only [MLAlignedAlloc.layout, hne, if_false, e1, e2, e3, hm, e4, e5]
  · show (m + (a + s)) / a * a = (m + a + s) / a * a
    rw [Nat.add_assoc]
  · show (m + (a + s)) / a * a % a = 0 ∧ m + s ≤ (m + (a + s)) / a * a ∧
      (m + (a + s)) / a * a ≤ m + a + s ∧ m ≤ (m + (a + s)) / a * a - s ∧
      (m + (a + s)) / a * a - s + s = (m + (a + s)) / a * a ∧
      (m + (a + s)) / a * a + n * sizeofT ≤ m + (n * sizeofT + a + s)
    refine ⟨Nat.mul_mod_left _ _, ?_⟩
    clear e1 e2 e3 e4 e5 hm
    generalize (m + (a + s)) / a * a = u at h1 h2 ⊢
    generalize n * sizeofT = bytes at *
    exact ⟨by omega, by omega, by omega, by omega, by omega⟩

/-- C37, amended, for a block at address 1003, 32-byte alignment, 8-byte
pointers and ten 4-byte elements: the aligned address is 1024. -/
theorem C37_aligned_alloc_arithmetic_witness :
    MLAlignedAlloc.layout (fun _ => 1003) 4 8 10 32 = some ⟨1003, 80, 1024⟩ ∧
      ∃ L, MLAlignedAlloc.layout (fun _ => 1003) 4 8 10 32 = some L ∧
        L.rawBytes = 10 * 4 + 32 + 8 ∧ L.mem = (fun _ => 1003) L.rawBytes ∧
        L.uptr = ((L.mem + 32 + 8) / 32) * 32 ∧
        L.uptr % 32 = 0 ∧ L.mem + 8 ≤ L.uptr ∧ L.uptr ≤ L.mem + 32 + 8 ∧
        L.mem ≤ L.uptr - 8 ∧ L.uptr - 8 + 8 = L.uptr ∧
        L.uptr + 10 * 4 ≤ L.mem + L.rawBytes :=
  ⟨by decide,
    (C37_aligned_alloc_arithmetic (fun _ => 1003) junk77 4 8 10 32 (by decide) (by decide)
      (by decide) (by decide) (by decide)).1⟩

/-! ## The compile-time loop with its counter in `ItType` -/

theorem stepCount_spec (Start End Inc : Int) (hInc : 0 < Inc) (k : Nat) :
    k < stepCount Start End Inc ↔ Start + k * Inc < End := by
  unfold stepCount
  have h := constexprFor_count 0 (End - Start).toNat Inc.toNat (by omega) k
  rw [Nat.sub_zero, Nat.zero_add] at h
  rw [h]
  have hI : ((Inc.toNat : Nat) : Int) = Inc := Int.toNat_of_nonneg (by omega)
  have hk : ((k * Inc.toNat : Nat) : Int) = k * Inc := by rw [Int.natCast_mul, hI]
  constructor
  · intro hlt
    have : ((k * Inc.toNat : Nat) : Int) < ((End - Start).toNat : Int) := by exact_mod_cast hlt
    rw [hk] at this
    omega
  · intro hlt
    have : ((k * Inc.toNat : Nat) : Int) < ((End - Start).toNat : Int) := by
      rw [hk]; omega
    exact_mod_cast this

theorem stepCount_zero (Start End Inc : Int) (hInc : 0 < Inc) (h : End ≤ Start) :
    stepCount Start End Inc = 0 := by
  by_contra hne
  have := (stepCount_spec Start End Inc hInc 0).mp (by omega)
  simp at this
  omega

theorem stepCount_succ (Start End Inc : Int) (hInc : 0 < Inc) (h : Start < End) :
    stepCount Start End Inc = stepCount (Start + Inc) End Inc + 1 := by
  apply Nat.le_antisymm
  · by_contra hcon
    have hlt : stepCount (Start + Inc) End Inc + 1 < stepCount Start End Inc := by omega
    have h1 := (stepCount_spec Start End Inc hInc _).mp hlt
    have h2 : ¬ (stepCount (Start + Inc) End Inc < stepCount (Start + Inc) End Inc) :=
      Nat.lt_irrefl _
    rw [stepCount_spec (Start + Inc) End Inc hInc] at h2
    apply h2
    push_cast at h1
    linarith
  · rcases Nat.eq_zero_or_pos (stepCount (Start + Inc) End Inc) with h0 | hpos
    · rw [h0]
      exact (stepCount_spec Start End Inc hInc 0).mpr (by simpa using h)
    · have h1 := (stepCount_spec (Start + Inc) End Inc hInc
        (stepCount (Start + Inc) End Inc - 1)).mp (by omega)
      have h2 : (stepCount (Start + Inc) End Inc) < stepCount Start End Inc := by
        rw [stepCount_spec Start End Inc hInc]
        have : ((stepCount (Start + Inc) End Inc - 1 : Nat) : Int)
            = (stepCount (Start + Inc) End Inc : Int) - 1 := by omega
        rw [this] at h1
        linarith
      omega

theorem stepValues_succ (Start Inc : Int) (n : Nat) :
    stepValues Start Inc (n + 1) = Start :: stepValues (Start + Inc) Inc n := by
  unfold stepValues
  rw [List.range_succ_eq_map, List.map_cons, List.map_map]
  congr 1
  · simp
  · apply List.map_congr_left
    intro k _
    simp only [Function.comp, Nat.succ_eq_add_one]
    push_cast
    ring

/-- The recursion of the helper, run from `Start < End` with enough depth and
no overflow of the counter, is the fold of `f` over the values below `End`. -/
theorem typed_constexprFor_exec {σ ε : Type} (ItType : Int → Int) (out : σ → ε)
    (End Inc : Int) (hInc : 0 < Inc) (f : Int → σ → Except ε σ) :
    ∀ fuel Start s, Start < End → (End - Start).toNat ≤ fuel →
      (∀ x, Start < x → x < End + Inc → ItType x = x) →
      Typed.TMLConstexprFor_Helper.Exec ItType out End Inc f fuel Start true s =
        (stepValues Start Inc (stepCount Start End Inc)).foldlM (fun s i => f i s) s := by
  intro fuel
  induction fuel with
  | zero => intro Start s h1 h2; omega
  | succ n ih =>
    intro Start s h1 h2 hconv
    rw [stepCount_succ Start End Inc hInc h1, stepValues_succ, List.foldlM_cons]
    unfold Typed.TMLConstexprFor_Helper.Exec
    cases hf : f Start s with
    | error e => rfl
    | ok s1 =>
      have hc : ItType (Start + Inc) = Start + Inc := hconv _ (by omega) (by omega)
      show Typed.TMLConstexprFor_Helper.Exec ItType out End Inc f n (ItType (Start + Inc))
        (decide (ItType (Start + Inc) < End)) s1 = _
      rw [hc]
      by_cases hlt : Start + Inc < End
      · rw [decide_eq_true hlt, ih (Start + Inc) s1 hlt (by omega)
          (fun x hx1 hx2 => hconv x (by omega) hx2)]
        rfl
      · rw [decide_eq_false hlt, stepCount_zero _ _ _ hInc (by omega)]
        cases n <;> rfl

/-- With the counter in `std::size_t`, `Start = 0`, `End = 2^64 − 1` and
`Inc = 2^63`, the recursion is at 0 or at `2^63` with the flag set, at every
depth: it never returns. -/
theorem wrapping_exec_stuck (fuel : Nat) : ∀ log : List Int,
    (∃ l, Typed.TMLConstexprFor_Helper.Exec (fun x => x % 2 ^ 64) id (2 ^ 64 - 1) (2 ^ 63)
        (fun i (log : List Int) => .ok (log ++ [i])) fuel 0 true log = .error l) ∧
    (∃ l, Typed.TMLConstexprFor_Helper.Exec (fun x => x % 2 ^ 64) id (2 ^ 64 - 1) (2 ^ 63)
        (fun i (log : List Int) => .ok (log ++ [i])) fuel (2 ^ 63) true log = .error l) := by
  induction fuel with
  | zero => intro log; exact ⟨⟨log, rfl⟩, ⟨log, rfl⟩⟩
  | succ n ih =>
    intro log
    have e1 : ((0 : Int) + 2 ^ 63) % 2 ^ 64 = 2 ^ 63 := by decide
    have e2 : ((2 : Int) ^ 63 + 2 ^ 63) % 2 ^ 64 = 0 := by decide
    have d1 : decide ((2 : Int) ^ 63 < 2 ^ 64 - 1) = true := by decide
    have d2 : decide ((0 : Int) < 2 ^ 64 - 1) = true := by decide
    constructor
    · show ∃ l, Typed.TMLConstexprFor_Helper.Exec (fun x => x % 2 ^ 64) id (2 ^ 64 - 1) (2 ^ 63)
        (fun i (log : List Int) => .ok (log ++ [i])) n (((0 : Int) + 2 ^ 63) % 2 ^ 64)
        (decide (((0 : Int) + 2 ^ 63) % 2 ^ 64 < 2 ^ 64 - 1)) (log ++ [0]) = .error l
      rw [e1, d1]
      exact (ih _).2
    · show ∃ l, Typed.TMLConstexprFor_Helper.Exec (fun x => x % 2 ^ 64) id (2 ^ 64 - 1) (2 ^ 63)
        (fun i (log : List Int) => .ok (log ++ [i])) n (((2 : Int) ^ 63 + 2 ^ 63) % 2 ^ 64)
        (decide (((2 : Int) ^ 63 + 2 ^ 63) % 2 ^ 64 < 2 ^ 64 - 1)) (log ++ [2 ^ 63]) = .error l
      rw [e2, d2]
      exact (ih _).1

/-- C38 as the claim states it fails: `MLConstexprFor<std::size_t, 0, 2^64 − 1, 2^63>`
calls `f` on 0, on `2^63`, and, since `2^63 + 2^63` is 0 in `std::size_t`, on 0
again and on `2^63` again (the record after four calls); whatever depth is
allowed to the recursion, it is used up: the recursion does not end. -/
theorem C38_wrapping_counter_never_ends :
    Typed.MLConstexprFor (fun x => x % 2 ^ 64) id 4 0 (2 ^ 64 - 1) (2 ^ 63)
        (fun i (log : List Int) => .ok (log ++ [i])) [] = .error [0, 2 ^ 63, 0, 2 ^ 63] ∧
      ∀ fuel, ∃ log, Typed.MLConstexprFor (fun x => x % 2 ^ 64) id fuel 0 (2 ^ 64 - 1) (2 ^ 63)
        (fun i (log : List Int) => .ok (log ++ [i])) [] = .error log :=
  ⟨by decide, fun fuel => (wrapping_exec_stuck fuel []).1⟩

/-- C38, amended: for `Inc > 0` and an `ItType` in which no counter value
overflows (`ItType x = x` for every `x` with `Start < x < End + Inc`; negative
values included), `MLConstexprFor<ItType, Start, End, Inc>(f)`, given at least
the depth `End − Start`, is the fold of `f` over the list
`Start, Start + Inc, Start + 2·Inc, …` of the values below `End` (value number
`k` is in the list exactly when `Start + k·Inc < End`), stopping at the first
call that stops; a functor that records its argument records exactly that
list, in that order; for `Start ≥ End` nothing is called.  The recursion ends:
the depth is never used up. -/
theorem C38_constexpr_for {σ ε : Type} (ItType : Int → Int) (out : σ → ε)
    (Start End Inc : Int) (hInc : 0 < Inc)
    (hrange : ∀ x, Start < x → x < End + Inc → ItType x = x)
    (f : Int → σ → Except ε σ) (s : σ) (fuel : Nat) (hfuel : (End - Start).toNat ≤ fuel) :
    Typed.MLConstexprFor ItType out fuel Start End Inc f s =
        (stepValues Start Inc (stepCount Start End Inc)).foldlM (fun s i => f i s) s ∧
      (∀ k : Nat, k < stepCount Start End Inc ↔ Start + k * Inc < End) ∧
      (∀ k : Nat, k < stepCount Start End Inc →
        (stepValues Start Inc (stepCount Start End Inc))[k]? = some (Start + k * Inc)) ∧
      (stepValues Start Inc (stepCount Start End Inc)).length = stepCount Start End Inc ∧
      (∀ log : List Int,
        Typed.MLConstexprFor ItType (fun _ => ()) fuel Start End Inc
            (fun i log => .ok (log ++ [i])) log =
          .ok (log ++ stepValues Start Inc (stepCount Start End Inc))) ∧
      (End ≤ Start → Typed.MLConstexprFor ItType out fuel Start End Inc f s = .ok s) := by
  have hmain : ∀ {σ ε : Type} (out : σ → ε) (f : Int → σ → Except ε σ) (s : σ),
      Typed.MLConstexprFor ItType out fuel Start End Inc f s =
        (stepValues Start Inc (stepCount Start End Inc)).foldlM (fun s i => f i s) s := by
    intro σ ε out f s
    unfold Typed.MLConstexprFor
    by_cases hlt : Start < End
    · rw [decide_eq_true hlt]
      exact typed_constexprFor_exec ItType out End Inc hInc f fuel Start s hlt hfuel hrange
    · rw [decide_eq_false hlt, stepCount_zero _ _ _ hInc (by omega)]
      cases fuel <;> rfl
  refine ⟨hmain out f s, stepCount_spec Start End Inc hInc, ?_, ?_, ?_, ?_⟩
  · intro k hk
    unfold stepValues
    rw [List.getElem?_map, List.getElem?_range hk]
    rfl
  · unfold stepValues
    rw [List.length_map, List.length_range]
  · intro log
    rw [hmain]
    generalize stepValues Start Inc (stepCount Start End Inc) = l
    induction l generalizing log with
    | nil => simp [pure, Except.pure]
    | cons x xs ih =>
      rw [List.foldlM_cons]
      show List.foldlM (fun s i => Except.ok (s ++ [i])) (log ++ [x]) xs = _
      rw [ih]
      simp
  · intro hle
    rw [hmain, stepCount_zero _ _ _ hInc hle]
    rfl

/-- C38, amended, for `MLConstexprFor<std::size_t, 1, 8, 3>` (the recorded
values are 1, 4, 7) and for `MLConstexprFor<int, -2, 5, 3>` (−2, 1, 4). -/
theorem C38_constexpr_for_witness :
    Typed.MLConstexprFor (fun x => x % 2 ^ 64) (fun _ => ()) 7 1 8 3
        (fun i log => .ok (log ++ [i])) ([] : List Int) = .ok [1, 4, 7] ∧
      Typed.MLConstexprFor id (fun _ => ()) 7 (-2) 5 3
        (fun i log => .ok (log ++ [i])) ([] : List Int) = .ok [-2, 1, 4] ∧
      stepValues 1 3 (stepCount 1 8 3) = [1, 4, 7] ∧
      ∀ log : List Int,
        Typed.MLConstexprFor (fun x => x % 2 ^ 64) (fun _ => ()) 7 1 8 3
            (fun i log => .ok (log ++ [i])) log =
          .ok (log ++ stepValues 1 3 (stepCount 1 8 3)) :=
  ⟨by decide, by decide, by decide,
    (C38_constexpr_for (fun x => x % 2 ^ 64) (fun _ : List Int => ()) 1 8 3 (by decide)
      (fun x h1 h2 => Int.emod_eq_of_lt (by omega) (by omega))
      (fun i log => .ok (log ++ [i])) [] 7 (by decide)).2.2.2.2.1⟩

/-! ## The elements of a product node in its element type -/

/-- C22 as the claim states it fails: for `std::uint8_t` matrices `A = [[200]]`
and `B = [[2]]` the node's `operator()(0, 0)` gives 144, where
`Σ_p A(0,p)·B(p,0) = 400`; the conversion of the factors changes neither. -/
theorem C22_uint8_product_wraps :
    Typed.TMLDMDMMulExpression.eval ElemOps.uint8 ex200 ex2 0 0 = .ok 144 ∧
      dotUpTo (fun p => ex200.cell 0 p) (fun p => ex2.cell p 0) ex200.Cols = 400 ∧
      ElemOps.uint8.static_cast (ex200.cell 0 0) = 200 ∧
      ElemOps.uint8.static_cast (ex2.cell 0 0) = 2 := by
  decide

/-- C22, amended: for `A` of shape `n × k` and `B` of shape `k × m` that satisfy
the padding invariant, the product node reports `Rows() = n` and `Cols() = m`,
and for `i < n`, `j < m` its `operator()(i, j)`, run in an element type whose
conversion, product and `+=` are exact on the values that occur (the elements
`A(i,p)`, `B(p,j)`, their products and the partial sums, `p < k`), completes
with `Σ_{p < k} A(i,p)·B(p,j)`, accumulated from 0 in ascending `p`.  In the
exact element type this is the `operator()` of the exact-arithmetic model. -/
theorem C22_product_node_element (E : ElemOps) (A B : DenseMatrix)
    (hA : A.PaddingInv) (hB : B.PaddingInv)
    (hdim : A.Cols = B.Rows) (i j : Nat) (hi : i < A.Rows) (hj : j < B.Cols)
    (h0 : E.static_cast 0 = 0)
    (hcA : ∀ p, p < A.Cols → E.static_cast (A.cell i p) = A.cell i p)
    (hcB : ∀ p, p < A.Cols → E.static_cast (B.cell p j) = B.cell p j)
    (hmul : ∀ p, p < A.Cols → E.mul (A.cell i p) (B.cell p j) = A.cell i p * B.cell p j)
    (hadd : ∀ p, p < A.Cols →
      E.addAssign (dotUpTo (fun p => A.cell i p) (fun p => B.cell p j) p)
          (A.cell i p * B.cell p j)
        = dotUpTo (fun p => A.cell i p) (fun p => B.cell p j) p + A.cell i p * B.cell p j) :
    TMLDMDMMulExpression.Rows A B = A.Rows ∧ TMLDMDMMulExpression.Cols A B = B.Cols ∧
      (∀ p, p < A.Cols → A.get i p = .ok (A.cell i p) ∧ B.get p j = .ok (B.cell p j)) ∧
      Typed.TMLDMDMMulExpression.eval E A B i j
        = .ok (dotUpTo (fun p => A.cell i p) (fun p => B.cell p j) A.Cols) ∧
      dotUpTo (fun p => A.cell i p) (fun p => B.cell p j) A.Cols
        = Finset.sum (Finset.range A.Cols) (fun p => A.cell i p * B.cell p j) ∧
      Typed.TMLDMDMMulExpression.eval ElemOps.exact A B i j
        = TMLDMDMMulExpression.eval A B i j := by
  have hx : ∀ p, p < A.Cols → A.get i p = .ok (A.cell i p) :=
    fun p hp => get_eq_cell A hA i p hi hp
  have hy : ∀ p, p < A.Cols → B.get p j = .ok (B.cell p j) :=
    fun p hp => get_eq_cell B hB p j (by omega) hj
  refine ⟨rfl, rfl, fun p hp => ⟨hx p hp, hy p hp⟩, ?_, ?_, rfl⟩
  · unfold Typed.TMLDMDMMulExpression.eval
    rw [if_pos ⟨hi, hj⟩, h0]
    obtain ⟨k', s', hrun, ⟨hk, hs⟩, hc⟩ := forLoop_inv
      (fun k (acc : Int) => k ≤ A.Cols ∧
        acc = dotUpTo (fun p => A.cell i p) (fun p => B.cell p j) k) (fun _ => Fault.fuel)
      (fun k (_ : Int) => decide (k < A.Cols)) 1
      (fun k res =>
        match A.get i k with
        | .error f => .error f
        | .ok x =>
          match B.get k j with
          | .error f => .error f
          | .ok y => .ok (E.addAssign res (E.mul (E.static_cast x) (E.static_cast y))))
      A.Cols (by decide)
      (fun k s _ hc => by simpa using hc)
      (fun k s hI hc => by
        have hk : k < A.Cols := by simpa using hc
        refine ⟨s + A.cell i k * B.cell k j, ?_, by omega, ?_⟩
        · simp only [hx k hk, hy k hk, hcA k hk, hcB k hk, hmul k hk]
          rw [hI.2, hadd k hk]
        · rw [hI.2]; rfl)
      A.Cols 0 0 ⟨Nat.zero_le _, rfl⟩ (by omega)
    have hk2 : ¬ k' < A.Cols := by simpa using hc
    have : k' = A.Cols := by omega
    subst this
    rw [loopState_ok hrun, hs]
  · generalize A.Cols = K
    induction K with
    | zero => rfl
    | succ n ih => rw [Finset.sum_range_succ, ← ih]; rfl

/-- C22, amended, at `A = [[1,2,3],[4,5,6]]`, `B = [[7,8],[9,10],[11,12]]` and
position `(1, 0)` in `std::uint8_t`, where no value that occurs reaches 256:
`4·7 + 5·9 + 6·11 = 139`. -/
theorem C22_product_node_element_witness :
    dotUpTo (fun p => exA.cell 1 p) (fun p => exB.cell p 0) exA.Cols = 139 ∧
      Typed.TMLDMDMMulExpression.eval ElemOps.uint8 exA exB 1 0
        = .ok (dotUpTo (fun p => exA.cell 1 p) (fun p => exB.cell p 0) exA.Cols) :=
  ⟨by decide,
    (C22_product_node_element ElemOps.uint8 exA exB (by decide) (by decide) (by decide) 1 0
      (by decide) (by decide) (by decide) (by decide) (by decide) (by decide)
      (by decide)).2.2.2.1⟩

/-! ## Operands are not written -/

theorem holds_imp {ε α : Type} {P P' : α → Prop} {Q Q' : ε → Prop} {r : Except ε α}
    (h : Holds P Q r) (hP : ∀ a, P a → P' a) (hQ : ∀ e, Q e → Q' e) : Holds P' Q' r := by
  cases r with
  | ok a => exact hP a h
  | error e => exact hQ e h

theorem Frame.frefl (T : Nat → Prop) (h : Objects) : Frame T h h :=
  ⟨rfl, fun _ _ => rfl⟩

theorem Frame.ftrans {T : Nat → Prop} {a b c : Objects} (h1 : Frame T a b) (h2 : Frame T b c) :
    Frame T a c :=
  ⟨h2.1.trans h1.1, fun p hp => (h2.2 p hp).trans (h1.2 p hp)⟩

theorem Frame.fmono {T T' : Nat → Prop} {a b : Objects} (hT : ∀ p, T p → T' p)
    (h : Frame T a b) : Frame T' a b :=
  ⟨h.1, fun p hp => h.2 p fun ht => hp (hT p ht)⟩

/-- Replacing the object at an address in `T` changes no object outside `T`. -/
theorem frame_set (T : Nat → Prop) (h : Objects) (p : Nat) (m : DenseMatrix) (hp : T p) :
    Frame T h (h.set p m) := by
  refine ⟨List.length_set _ _ _, fun q hq => ?_⟩
  have hne : p ≠ q := fun e => hq (e ▸ hp)
  exact List.getElem?_set_ne hne

theorem write_frame (T : Nat → Prop) (h : Objects) (p : Nat) (r : Except Fault DenseMatrix)
    (hp : T p) : Holds (Frame T h) (fun ab => Frame T h ab.objects) (ByRef.write h p r) := by
  cases r with
  | ok m => exact frame_set T h p m hp
  | error f => exact Frame.frefl T h

/-- A step that writes only inside `T`, run on a store that differs from `h0`
only inside `T`, leaves a store that differs from `h0` only inside `T`. -/
theorem WritesOnly.after {T : Nat → Prop} {f : Objects → Except ByRef.Abort Objects}
    (hf : WritesOnly T f) {h0 h : Objects} (h1 : Frame T h0 h) :
    Holds (Frame T h0) (fun ab => Frame T h0 ab.objects) (f h) :=
  holds_imp (hf h) (fun _ h2 => h1.ftrans h2) (fun _ h2 => h1.ftrans h2)

/-- A loop over the store whose body writes only inside `T` writes only inside `T`. -/
theorem forLoop_frame {T : Nat → Prop} {cond : Nat → Objects → Bool} {inc : Nat}
    {body : Nat → Objects → Except ByRef.Abort Objects} (hbody : ∀ i, WritesOnly T (body i))
    (h0 : Objects) : ∀ fuel i h, Frame T h0 h →
      Holds (fun r => Frame T h0 r.2) (fun ab => Frame T h0 ab.objects)
        (forLoop (ByRef.Abort.mk .fuel) cond inc body fuel i h) := by
  intro fuel
  induction fuel with
  | zero =>
    intro i h hf
    unfold forLoop
    split
    · exact hf
    · exact hf
  | succ n ih =>
    intro i h hf
    unfold forLoop
    split
    · have hb := (hbody i).after hf
      cases hbd : body i h with
      | error e => rw [hbd] at hb; exact hb
      | ok s1 => rw [hbd] at hb; exact ih (i + inc) s1 hb
    · exact hf

theorem loop_frame {T : Nat → Prop} {cond : Nat → Objects → Bool} {inc : Nat}
    {body : Nat → Objects → Except ByRef.Abort Objects} (hbody : ∀ i, WritesOnly T (body i))
    (fuel i : Nat) (h : Objects) :
    Holds (Frame T h) (fun ab => Frame T h ab.objects)
      (loopState (forLoop (ByRef.Abort.mk .fuel) cond inc body fuel i h)) :=
  loopState_holds (forLoop_frame hbody h fuel i h (Frame.frefl T h))

theorem storeLoops_writes (reg : List Int) (res : Nat) :
    WritesOnly (· = res) (ByRef.storeLoops reg res) := by
  intro h
  unfold ByRef.storeLoops
  exact loop_frame (fun i h1 => loop_frame (fun j h2 => write_frame (· = res) h2 res _ rfl) _ _ _) _ _ _

theorem setZero_assignTo_writes (rows cols res : Nat) :
    WritesOnly (· = res) (ByRef.TMLDMSetZeroExpression.AssignTo rows cols res) := by
  intro h
  unfold ByRef.TMLDMSetZeroExpression.AssignTo
  split
  · exact storeLoops_writes _ res h
  · exact Frame.frefl _ h

theorem assignWith_writes (junk : Nat → Int) (this rows cols : Nat)
    (assignTo : Objects → Except ByRef.Abort Objects) (hf : WritesOnly (· = this) assignTo)
    (h : Objects) :
    Holds (Frame (· = this) h) (fun ab => Frame (· = this) h ab.objects)
      (ByRef.AssignWith junk this rows cols assignTo h) := by
  unfold ByRef.AssignWith
  split
  · split
    · exact hf h
    · exact Frame.frefl _ h
  · exact hf.after (frame_set _ h this _ rfl)

theorem byref_SetZero_writes (junk : Nat → Int) (this : Nat) :
    WritesOnly (· = this) (ByRef.SetZero junk this) := by
  intro h
  unfold ByRef.SetZero
  exact assignWith_writes junk this _ _ _ (setZero_assignTo_writes _ _ this) h

theorem assign_kernels_write (res lhs : Nat) :
    WritesOnly (· = res) (ByRef.TMLDMAssignExpression.ExecuteKernel res lhs) := by
  intro h
  unfold ByRef.TMLDMAssignExpression.ExecuteKernel
  split
  · unfold ByRef.TMLDMAssignExpression.VectorizedKernel
    refine loop_frame (fun i h1 => loop_frame (fun j h2 => ?_) _ _ _) _ _ _
    show Holds _ _ (match (ByRef.obj h2 lhs).Load i j with
      | .error f => .error ⟨f, h2⟩
      | .ok reg => ByRef.write h2 res ((ByRef.obj h2 res).Store reg i j))
    split
    · exact Frame.frefl _ h2
    · exact write_frame (· = res) h2 res _ rfl
  · unfold ByRef.TMLDMAssignExpression.DefaultKernel
    refine loop_frame (fun i h1 => loop_frame (fun j h2 => ?_) _ _ _) _ _ _
    show Holds _ _ (match (ByRef.obj h2 lhs).get i j with
      | .error f => .error ⟨f, h2⟩
      | .ok v => ByRef.write h2 res ((ByRef.obj h2 res).set i j v))
    split
    · exact Frame.frefl _ h2
    · exact write_frame (· = res) h2 res _ rfl

theorem assign_assignTo_writes (lhs res : Nat) :
    WritesOnly (· = res) (ByRef.TMLDMAssignExpression.AssignTo lhs res) := by
  intro h
  unfold ByRef.TMLDMAssignExpression.AssignTo
  split
  · split
    · exact Frame.frefl _ h
    · exact assign_kernels_write res lhs h
  · exact Frame.frefl _ h

theorem assignMatrix_writes (junk : Nat → Int) (this rhs : Nat) :
    WritesOnly (· = this) (ByRef.AssignMatrix junk this rhs) := by
  intro h
  unfold ByRef.AssignMatrix
  exact assignWith_writes junk this _ _ _ (assign_assignTo_writes rhs this) h

/-- The copy constructor adds the new object at the next free address and writes
nothing else. -/
theorem copyCtor_frame (junk : Nat → Int) (rhs : Nat) (h : Objects) :
    ∃ x, Holds (Frame (· = h.length) (h ++ [x]))
      (fun ab => Frame (· = h.length) (h ++ [x]) ab.objects) (ByRef.copyCtor junk rhs h) := by
  unfold ByRef.copyCtor
  split
  · exact ⟨_, assignWith_writes junk h.length _ _ _ (assign_assignTo_writes rhs h.length) _⟩
  · exact ⟨_, assign_assignTo_writes rhs h.length _⟩

theorem add_assignTo_writes (l r res : Nat) :
    WritesOnly (· = res) (ByRef.TMLDMDMAddExpression.AssignTo l r res) := by
  intro h
  unfold ByRef.TMLDMDMAddExpression.AssignTo
  split
  · unfold ByRef.TMLDMDMAddExpression.DefaultKernel
    refine loop_frame (fun i h1 => loop_frame (fun j h2 => ?_) _ _ _) _ _ _
    show Holds _ _ (match (ByRef.obj h2 l).get i j with
      | .error f => .error ⟨f, h2⟩
      | .ok x =>
        match (ByRef.obj h2 r).get i j with
        | .error f => .error ⟨f, h2⟩
        | .ok y => ByRef.write h2 res ((ByRef.obj h2 res).set i j (x + y)))
    split
    · exact Frame.frefl _ h2
    · split
      · exact Frame.frefl _ h2
      · exact write_frame (· = res) h2 res _ rfl
  · exact Frame.frefl _ h

theorem mul_defaultKernel_writes (junk : Nat → Int) (c a b : Nat) :
    WritesOnly (· = c) (ByRef.TMLDMDMMulExpression.DefaultKernel junk c a b) := by
  intro h
  unfold ByRef.TMLDMDMMulExpression.DefaultKernel
  have h0 := byref_SetZero_writes junk c h
  cases hz : ByRef.SetZero junk c h with
  | error ab => rw [hz] at h0; exact h0
  | ok z =>
    rw [hz] at h0
    dsimp only
    refine holds_imp (loop_frame (T := (· = c)) (fun i h1 => loop_frame (fun k h2 => ?_) _ _ _)
      _ _ _) (fun _ h2 => h0.ftrans h2) (fun _ h2 => h0.ftrans h2)
    show Holds _ _ (match (ByRef.obj h2 a).get i k with
      | .error f => .error ⟨f, h2⟩
      | .ok a_ik => loopState _)
    split
    · exact Frame.frefl _ h2
    · refine loop_frame (fun j h4 => ?_) _ _ _
      show Holds _ _ (match (ByRef.obj h4 b).get k j with
          | .error f => .error ⟨f, h4⟩
          | .ok b_kj =>
            match (ByRef.obj h4 c).get i j with
            | .error f => .error ⟨f, h4⟩
            | .ok c_ij => ByRef.write h4 c ((ByRef.obj h4 c).set i j (c_ij + _ * b_kj)))
      split
      · exact Frame.frefl _ h4
      · split
        · exact Frame.frefl _ h4
        · exact write_frame (· = c) h4 c _ rfl

/-- A pass over the accumulators writes no object: if it stops, the objects are
the ones it was given. -/
theorem byref_accumulate_holds (regsA regsB a b ro co p : Nat)
    (op : List Int → List Int → List Int → List Int) (h : Objects)
    (csum : Nat → Nat → List Int) :
    Holds (fun _ => True) (fun ab => ab.objects = h)
      (ByRef.TMLDMDMMulExpression.accumulate regsA regsB a b ro co p op h csum) := by
  unfold ByRef.TMLDMDMMulExpression.accumulate MLConstexprFor
  refine constexprFor_holds (P := fun _ => True) (Q := fun (ab : ByRef.Abort) => ab.objects = h) (fun _ => rfl) ?_ _ _ _ _ trivial
  intro bi cs _
  show Holds _ _ (match (ByRef.obj h b).Load p (co + bi * (ByRef.obj h a).SIMDSize) with
    | .error f => .error ⟨f, h⟩
    | .ok bb => TMLConstexprFor_Helper.Exec _ _ _ _ _ _ _ _)
  split
  · exact rfl
  · refine constexprFor_holds (P := fun _ => True) (Q := fun (ab : ByRef.Abort) => ab.objects = h) (fun _ => rfl) ?_ _ _ _ _ trivial
    intro ai cs2 _
    show Holds _ _ (match (ByRef.obj h a).get (ro + ai) p with
      | .error f => .error ⟨f, h⟩
      | .ok a_val => .ok _)
    split
    · exact rfl
    · trivial

theorem subKernel_writes (regsA regsB c a b ro co : Nat) :
    WritesOnly (· = c)
      (ByRef.TMLDMDMMulExpression.VectorizedSubKernelRRR regsA regsB c a b ro co) := by
  intro h
  unfold ByRef.TMLDMDMMulExpression.VectorizedSubKernelRRR
  split
  · have h0 := byref_accumulate_holds regsA regsB a b ro co 0 (fun aa bb _ => SIMD.mul aa bb) h
      (fun _ _ => SIMD.SetZero (ByRef.obj h a).SIMDSize)
    cases hacc : ByRef.TMLDMDMMulExpression.accumulate regsA regsB a b ro co 0
        (fun aa bb _ => SIMD.mul aa bb) h
        (fun _ _ => SIMD.SetZero (ByRef.obj h a).SIMDSize) with
    | error ab =>
      rw [hacc] at h0
      show Frame _ h ab.objects
      rw [show ab.objects = h from h0]
      exact Frame.frefl _ h
    | ok csum0 =>
      dsimp only
      have h1 : Holds (fun _ => True) (fun ab => ab.objects = h)
          (loopState (forLoop (fun _ => ByRef.Abort.mk .fuel h)
            (fun p _ => decide (p < (ByRef.obj h a).Rows)) 1
            (fun p csum => ByRef.TMLDMDMMulExpression.accumulate regsA regsB a b ro co p
              SIMD.MLSIMDFmadd h csum) (ByRef.obj h a).Rows 1 csum0)) :=
        loopState_holds (forLoop_holds (P := fun _ => True) (Q := fun (ab : ByRef.Abort) => ab.objects = h) (fun _ => rfl)
          (fun p cs _ => byref_accumulate_holds _ _ _ _ _ _ _ _ _ _) _ _ _ trivial)
      cases hl : loopState (forLoop (fun _ => ByRef.Abort.mk .fuel h)
            (fun p _ => decide (p < (ByRef.obj h a).Rows)) 1
            (fun p csum => ByRef.TMLDMDMMulExpression.accumulate regsA regsB a b ro co p
              SIMD.MLSIMDFmadd h csum) (ByRef.obj h a).Rows 1 csum0) with
      | error ab =>
        rw [hl] at h1
        show Frame _ h ab.objects
        rw [show ab.objects = h from h1]
        exact Frame.frefl _ h
      | ok csum =>
        dsimp only
        exact loop_frame (fun ai h1 => loop_frame (fun bi h2 => write_frame (· = c) h2 c _ rfl) _ _ _)
          _ _ _
  · exact Frame.frefl _ h

theorem rowBlocks_frame (regsA regsB c a b j i : Nat) (h0 h : Objects)
    (hf : Frame (· = c) h0 h) :
    Holds (fun r => Frame (· = c) h0 r.2) (fun ab => Frame (· = c) h0 ab.objects)
      (ByRef.TMLDMDMMulExpression.rowBlocks regsA regsB c a b j i h) := by
  unfold ByRef.TMLDMDMMulExpression.rowBlocks
  exact forLoop_frame (fun i => subKernel_writes regsA regsB c a b i j) h0 _ _ h hf

theorem lastRow_frame (regsB c a b j i : Nat) (h0 h : Objects) (hf : Frame (· = c) h0 h) :
    Holds (Frame (· = c) h0) (fun ab => Frame (· = c) h0 ab.objects)
      (ByRef.TMLDMDMMulExpression.lastRow regsB c a b j i h) := by
  unfold ByRef.TMLDMDMMulExpression.lastRow
  split
  · exact (subKernel_writes 1 regsB c a b i j).after hf
  · exact hf

theorem colPanels_frame (regsB w c : Nat) (body : Nat → Objects → Except ByRef.Abort Objects)
    (hbody : ∀ j, WritesOnly (· = c) (body j)) (j : Nat) (h0 h : Objects)
    (hf : Frame (· = c) h0 h) :
    Holds (fun r => Frame (· = c) h0 r.2) (fun ab => Frame (· = c) h0 ab.objects)
      (ByRef.TMLDMDMMulExpression.colPanels regsB w c body j h) := by
  unfold ByRef.TMLDMDMMulExpression.colPanels
  exact forLoop_frame hbody h0 _ _ h hf

theorem mul_vectorizedKernel_writes (junk : Nat → Int) (c a b : Nat) :
    WritesOnly (· = c) (ByRef.TMLDMDMMulExpression.VectorizedKernel junk c a b) := by
  intro h
  unfold ByRef.TMLDMDMMulExpression.VectorizedKernel
  split
  · refine holds_bind (colPanels_frame _ _ c _ (fun j s => ?_) _ h h (Frame.frefl _ h))
      fun r1 h1 => ?_
    · refine holds_bind (rowBlocks_frame _ _ c a b _ _ s s (Frame.frefl _ s)) fun q1 g1 => ?_
      refine holds_bind (rowBlocks_frame _ _ c a b _ _ s _ g1) fun q2 g2 => ?_
      exact lastRow_frame _ c a b _ _ s _ g2
    refine holds_bind (colPanels_frame _ _ c _ (fun j s => ?_) _ h _ h1) fun r2 h2 => ?_
    · refine holds_bind (rowBlocks_frame _ _ c a b _ _ s s (Frame.frefl _ s)) fun q1 g1 => ?_
      refine holds_bind (rowBlocks_frame _ _ c a b _ _ s _ g1) fun q2 g2 => ?_
      exact lastRow_frame _ c a b _ _ s _ g2
    refine holds_bind (colPanels_frame _ _ c _ (fun j s => ?_) _ h _ h2) fun r3 h3 => ?_
    · refine holds_bind (rowBlocks_frame _ _ c a b _ _ s s (Frame.frefl _ s)) fun q1 g1 => ?_
      exact lastRow_frame _ c a b _ _ s _ g1
    refine loopState_holds (colPanels_frame _ _ c _ (fun j s => ?_) _ h _ h3)
    refine holds_bind (rowBlocks_frame _ _ c a b _ _ s s (Frame.frefl _ s)) fun q1 g1 => ?_
    refine holds_bind (rowBlocks_frame _ _ c a b _ _ s _ g1) fun q2 g2 => ?_
    refine holds_bind (rowBlocks_frame _ _ c a b _ _ s _ g2) fun q3 g3 => ?_
    exact loopState_holds (rowBlocks_frame _ _ c a b _ _ s _ g3)
  · exact mul_defaultKernel_writes junk c a b h

theorem mul_executeKernel_writes (junk : Nat → Int) (c a b : Nat) :
    WritesOnly (· = c) (ByRef.TMLDMDMMulExpression.ExecuteKernel junk c a b) := by
  intro h
  unfold ByRef.TMLDMDMMulExpression.ExecuteKernel
  split
  · exact mul_vectorizedKernel_writes junk c a b h
  · exact mul_defaultKernel_writes junk c a b h

/-- When the block of a temporary ends, what was written besides the temporary
is what was written. -/
theorem endScope_frame (T : Nat → Prop) (h : Objects) (x : DenseMatrix)
    (r : Except ByRef.Abort Objects)
    (hr : Holds (Frame (fun p => T p ∨ p = h.length) (h ++ [x]))
      (fun ab => Frame (fun p => T p ∨ p = h.length) (h ++ [x]) ab.objects) r) :
    Holds (Frame T h) (fun ab => Frame T h ab.objects) (ByRef.endScope r) := by
  have key : ∀ h3 : Objects, Frame (fun p => T p ∨ p = h.length) (h ++ [x]) h3 →
      Frame T h h3.dropLast := by
    intro h3 ⟨hlen, hsame⟩
    have hl3 : h3.length = h.length + 1 := by
      rw [hlen, List.length_append]; rfl
    refine ⟨by rw [List.length_dropLast, hl3]; rfl, fun p hp => ?_⟩
    rw [List.dropLast_eq_take]
    rcases Nat.lt_or_ge p h.length with hlt | hge
    · rw [List.getElem?_take_of_lt (by omega), hsame p (fun hh => hh.elim hp (by omega)),
        List.getElem?_append_left hlt]
    · rw [List.getElem?_eq_none_iff.mpr (by rw [List.length_take]; omega),
        List.getElem?_eq_none_iff.mpr hge]
  cases r with
  | ok h3 => exact key h3 hr
  | error ab => exact key ab.objects hr

theorem mul_assignTo_writes (junk : Nat → Int) (l r res : Nat) :
    WritesOnly (· = res) (ByRef.TMLDMDMMulExpression.AssignTo junk l r res) := by
  intro h
  unfold ByRef.TMLDMDMMulExpression.AssignTo
  split
  · split
    · obtain ⟨x, hc⟩ := copyCtor_frame junk res h
      refine endScope_frame (· = res) h x _ ?_
      have up : ∀ {g : Objects}, Frame (· = h.length) (h ++ [x]) g →
          Frame (fun p => p = res ∨ p = h.length) (h ++ [x]) g :=
        fun hg => hg.fmono fun p hp => Or.inr hp
      cases hcc : ByRef.copyCtor junk res h with
      | error ab => rw [hcc] at hc; exact up hc
      | ok h1 =>
        rw [hcc] at hc
        dsimp only
        have hk := (mul_executeKernel_writes junk h.length l r).after hc
        cases hkk : ByRef.TMLDMDMMulExpression.ExecuteKernel junk h.length l r h1 with
        | error ab => rw [hkk] at hk; exact up hk
        | ok h2 =>
          rw [hkk] at hk
          dsimp only
          exact holds_imp (assignMatrix_writes junk res h.length h2)
            (fun _ hg => (up hk).ftrans (hg.fmono fun p hp => Or.inl hp))
            (fun _ hg => (up hk).ftrans (hg.fmono fun p hp => Or.inl hp))
    · exact mul_executeKernel_writes junk res l r h
  · exact Frame.frefl _ h

theorem expr_assignTo_writes (junk : Nat → Int) (e : ByRef.Expr) (res : Nat) :
    WritesOnly (· = res) (e.AssignTo junk res) := by
  intro h
  cases e with
  | add l r => exact add_assignTo_writes l r res h
  | mul l r => exact mul_assignTo_writes junk l r res h

/-- A statement `target = lhs + rhs` or `target = lhs * rhs`, whatever the
addresses of its operands, writes no object but its target. -/
theorem assignStmt_writes (junk : Nat → Int) (target : Nat) (e : ByRef.Expr) :
    WritesOnly (· = target) (ByRef.assignStmt junk target e) := by
  intro h
  unfold ByRef.assignStmt
  split
  · exact Frame.frefl _ h
  · exact assignWith_writes junk target _ _ _ (expr_assignTo_writes junk e target) h

/-- C25: in a store of matrix objects, let `e` be the node `A + B` or `A * B`
over the operands at the addresses `tA` and `tB`, and let the target `C` at
`tC` be another object than both.  Whether the statement `C = e` completes or
stops, afterwards no object has been added or removed, every object other
than `C` is the one it was, and so `A` and `B` are: same shape, same elements. -/
theorem C25_operands_are_not_written (junk : Nat → Int) (h : Objects) (tC tA tB : Nat)
    (A B : DenseMatrix) (hA : h[tA]? = some A) (hB : h[tB]? = some B)
    (hCA : tA ≠ tC) (hCB : tB ≠ tC) :
    ∀ e ∈ [ByRef.Expr.add tA tB, ByRef.Expr.mul tA tB],
      (ByRef.objectsAfter (ByRef.assignStmt junk tC e h)).length = h.length ∧
      (∀ p, p ≠ tC → (ByRef.objectsAfter (ByRef.assignStmt junk tC e h))[p]? = h[p]?) ∧
      (ByRef.objectsAfter (ByRef.assignStmt junk tC e h))[tA]? = some A ∧
      (ByRef.objectsAfter (ByRef.assignStmt junk tC e h))[tB]? = some B ∧
      ByRef.obj (ByRef.objectsAfter (ByRef.assignStmt junk tC e h)) tA = A ∧
      ByRef.obj (ByRef.objectsAfter (ByRef.assignStmt junk tC e h)) tB = B ∧
      (∀ i j,
        (ByRef.obj (ByRef.objectsAfter (ByRef.assignStmt junk tC e h)) tA).get i j = A.get i j ∧
        (ByRef.obj (ByRef.objectsAfter (ByRef.assignStmt junk tC e h)) tB).get i j
          = B.get i j) := by
  intro e _
  have hw := assignStmt_writes junk tC e h
  have hf : Frame (· = tC) h (ByRef.objectsAfter (ByRef.assignStmt junk tC e h)) := by
    cases hr : ByRef.assignStmt junk tC e h with
    | ok h' => rw [hr] at hw; exact hw
    | error ab => rw [hr] at hw; exact hw
  have hA' := (hf.2 tA hCA).trans hA
  have hB' := (hf.2 tB hCB).trans hB
  have oA : ByRef.obj (ByRef.objectsAfter (ByRef.assignStmt junk tC e h)) tA = A := by
    unfold ByRef.obj
    rw [List.getD_eq_getElem?_getD, hA']
    rfl
  have oB : ByRef.obj (ByRef.objectsAfter (ByRef.assignStmt junk tC e h)) tB = B := by
    unfold ByRef.obj
    rw [List.getD_eq_getElem?_getD, hB']
    rfl
  exact ⟨hf.1, hf.2, hA', hB', oA, oB, fun i j => ⟨by rw [oA], by rw [oB]⟩⟩

set_option maxRecDepth 100000 in
/-- C25 for `C = A * B` and `C = A + B` with `C` empty, `A` the 2×3 and `B` the
3×2 matrix, at the addresses 0, 1, 2: the statements complete with `C` the
matrix the statement on separate objects gives, and `A`, `B` as they were; and
for `C = A + A`, which stops at the assertion of the node. -/
theorem C25_operands_are_not_written_witness :
    ByRef.assignStmt junk77 0 (.mul 1 2) [exEmpty, exA, exB]
        = .ok [⟨false, true, 2, 2, 2, 2, [25, 28, 73, 82]⟩, exA, exB] ∧
      assignStmt junk77 exEmpty (.mul (.other exA) (.other exB))
        = .ok ⟨false, true, 2, 2, 2, 2, [25, 28, 73, 82]⟩ ∧
      ByRef.assignStmt junk77 0 (.add 1 2) [exEmpty, exA, exB]
        = .ok [⟨false, true, 2, 2, 2, 2, [8, 10, 13, 15]⟩, exA, exB] ∧
      ByRef.assignStmt junk77 0 (.add 1 1) [exEmpty, exA, exB]
        = .error ⟨.exprDim, [exEmpty, exA, exB]⟩ ∧
      ∀ e ∈ [ByRef.Expr.add 1 2, ByRef.Expr.mul 1 2],
        (ByRef.objectsAfter (ByRef.assignStmt junk77 0 e [exEmpty, exA, exB])).length
          = [exEmpty, exA, exB].length ∧
        (∀ p, p ≠ 0 →
          (ByRef.objectsAfter (ByRef.assignStmt junk77 0 e [exEmpty, exA, exB]))[p]?
            = [exEmpty, exA, exB][p]?) ∧
        (ByRef.objectsAfter (ByRef.assignStmt junk77 0 e [exEmpty, exA, exB]))[1]?
          = some exA ∧
        (ByRef.objectsAfter (ByRef.assignStmt junk77 0 e [exEmpty, exA, exB]))[2]?
          = some exB ∧
        ByRef.obj (ByRef.objectsAfter
          (ByRef.assignStmt junk77 0 e [exEmpty, exA, exB])) 1 = exA ∧
        ByRef.obj (ByRef.objectsAfter
          (ByRef.assignStmt junk77 0 e [exEmpty, exA, exB])) 2 = exB ∧
        (∀ i j,
          (ByRef.obj (ByRef.objectsAfter
            (ByRef.assignStmt junk77 0 e [exEmpty, exA, exB])) 1).get i j
              = exA.get i j ∧
          (ByRef.obj (ByRef.objectsAfter
            (ByRef.assignStmt junk77 0 e [exEmpty, exA, exB])) 2).get i j
              = exB.get i j) :=
  ⟨by decide, by decide, by decide, by decide,
    C25_operands_are_not_written junk77 [exEmpty, exA, exB] 0 1 2 exA exB rfl rfl
      (by decide) (by decide)⟩

/-- On natural numbers, where no counter value overflows, the recursion with the
counter in `ItType` is the recursion over the natural numbers. -/
theorem typed_exec_eq_exec {σ ε : Type} (out : σ → ε) (End Inc : Nat)
    (f : Nat → σ → Except ε σ) :
    ∀ fuel (Start : Nat) (b : Bool) (s : σ),
      Typed.TMLConstexprFor_Helper.Exec id out End Inc (fun i => f i.toNat) fuel Start b s =
        TMLConstexprFor_Helper.Exec out End Inc f fuel Start b s := by
  intro fuel
  induction fuel with
  | zero =>
    intro Start b s
    cases b <;> rfl
  | succ n ih =>
    intro Start b s
    cases b
    · rfl
    · unfold Typed.TMLConstexprFor_Helper.Exec TMLConstexprFor_Helper.Exec
      simp only [Int.toNat_ofNat]
      cases hf : f Start s with
      | error e => rfl
      | ok s1 =>
        have e1 : id ((Start : Int) + (Inc : Int)) = ((Start + Inc : Nat) : Int) := by
          simp
        have e2 : decide (((Start + Inc : Nat) : Int) < (End : Int))
            = decide (Start + Inc < End) :=
          decide_eq_decide.mpr Int.ofNat_lt
        show Typed.TMLConstexprFor_Helper.Exec id out End Inc (fun i => f i.toNat) n
            (id ((Start : Int) + Inc)) (decide (id ((Start : Int) + Inc) < End)) s1 = _
        rw [e1, e2]
        exact ih (Start + Inc) _ s1

/-- The compile-time loop over the natural numbers, as the kernels use it
(`std::size_t` counters from 0 in steps of 1 to a register count), is the loop
with its counter in `ItType` when no counter value overflows. -/
theorem typed_constexprFor_eq {σ ε : Type} (out : σ → ε) (Start End Inc : Nat)
    (f : Nat → σ → Except ε σ) (s : σ) :
    Typed.MLConstexprFor id out (End - Start) Start End Inc (fun i => f i.toNat) s =
      MLConstexprFor out Start End Inc f s := by
  unfold Typed.MLConstexprFor MLConstexprFor
  have e : decide ((Start : Int) < (End : Int)) = decide (Start < End) :=
    decide_eq_decide.mpr Int.ofNat_lt
  rw [e]
  exact typed_exec_eq_exec out End Inc f _ Start _ s

end ML
